import Mathlib

/-!
# Vrui: SharedJelloServer

A shallow embedding of `ExamplePrograms/SharedJelloServer.cpp`: the per-client
communication thread, the simulation tick, the broadcast and the disconnect
cleanup, as functions on an explicit server state, and the interleaving of the
threads as a step relation whose steps are the sections the source runs atomically
(under `clientStateListMutex`, under `parameterMutex`, or on thread-private data).

`S` is the scalar type and `T` the type of rigid transformations (`ONTransform`);
the server only copies scalars and only multiplies and inverts transformations.
-/

namespace SharedJelloServer

/-! ## Value types and the Crystal collaborator -/

/-- Modelled from the spec: atom identity (declared in JelloCrystal.h, which is not among the
sources) is a key the server obtains from picking and hands back to the crystal. -/
abbrev AtomID := Nat

/-- Modelled from the spec: a Point is three scalars (Geometry library, not among the sources). -/
abbrev Point (S : Type) := S × S × S

/-- Modelled from the spec: a Vector is three scalars (Geometry library, not among the sources). -/
abbrev Vector (S : Type) := S × S × S

/-- Modelled from the spec: a Ray is an origin point and a direction vector, built by
`Ray(rayStart,rayDirection)`. -/
structure Ray (S : Type) where
  start : Point S
  direction : Vector S

/-- Message identifiers of SharedJelloPipe; `other` is any value that is none of the seven. -/
inductive MessageId where
  | CONNECT_REPLY
  | DISCONNECT_REQUEST
  | DISCONNECT_REPLY
  | CLIENT_PARAMUPDATE
  | CLIENT_UPDATE
  | SERVER_PARAMUPDATE
  | SERVER_UPDATE
  | other (raw : Nat)
  deriving DecidableEq, Repr

/-- Calls on the crystal that the server makes and that the claims speak about, kept as a
trace inside the crystal model. -/
inductive CrystalCall (S T : Type) where
  | setAtomMass (v : S)
  | setAttenuation (v : S)
  | setGravity (v : S)
  | pickAtomRay (r : Ray S)
  | pickAtomPoint (p : Point S)
  | lockAtom (a : AtomID)
  | unlockAtom (a : AtomID)
  | setAtomState (a : AtomID) (t : T)
  | simulate (dt : ℚ)

/-- Calls that set a simulation parameter. -/
def CrystalCall.isParameterCall {S T : Type} : CrystalCall S T → Bool
  | .setAtomMass _ => true
  | .setAttenuation _ => true
  | .setGravity _ => true
  | _ => false

/-- Calls made while ingesting one client's dragger update. -/
def CrystalCall.isAtomCall {S T : Type} : CrystalCall S T → Bool
  | .pickAtomRay _ => true
  | .pickAtomPoint _ => true
  | .lockAtom _ => true
  | .unlockAtom _ => true
  | .setAtomState _ _ => true
  | _ => false

/-- Modelled from the spec: the Crystal collaborator (JelloCrystal, not among the sources):
domain bounds, atom grid dimensions, per-atom rigid state, atom-lock bitmap and the three
global scalars, together with the trace of calls received. -/
structure Crystal (S T : Type) where
  domainMin : Point S
  domainMax : Point S
  numAtoms : Int × Int × Int
  atomMass : S
  attenuation : S
  gravity : S
  locked : AtomID → Bool
  atomState : AtomID → T
  calls : List (CrystalCall S T)

/-- Modelled from the spec: the results of the collaborators that the server only passes
along: picking by ray and by point, the origin of a transformation, and the poses the
integrator produces in one time step. -/
structure Collaborators (S T : Type) where
  pickAtomRay : Crystal S T → Ray S → AtomID
  pickAtomPoint : Crystal S T → Point S → AtomID
  getOrigin : T → Point S
  integrate : Crystal S T → ℚ → AtomID → T

section CrystalOps

variable {S T : Type}

/-- Modelled from the spec: `setAtomMass(Scalar)`. -/
def Crystal.setAtomMass (c : Crystal S T) (v : S) : Crystal S T :=
  { c with atomMass := v, calls := c.calls ++ [CrystalCall.setAtomMass v] }

/-- Modelled from the spec: `setAttenuation(Scalar)`. -/
def Crystal.setAttenuation (c : Crystal S T) (v : S) : Crystal S T :=
  { c with attenuation := v, calls := c.calls ++ [CrystalCall.setAttenuation v] }

/-- Modelled from the spec: `setGravity(Scalar)`. -/
def Crystal.setGravity (c : Crystal S T) (v : S) : Crystal S T :=
  { c with gravity := v, calls := c.calls ++ [CrystalCall.setGravity v] }

/-- Modelled from the spec: `pickAtom(Ray) → AtomId`; the crystal is not changed. -/
def Crystal.pickAtomRay (K : Collaborators S T) (c : Crystal S T) (r : Ray S) :
    Crystal S T × AtomID :=
  ({ c with calls := c.calls ++ [CrystalCall.pickAtomRay r] }, K.pickAtomRay c r)

/-- Modelled from the spec: `pickAtom(Point) → AtomId` (closest); the crystal is not changed. -/
def Crystal.pickAtomPoint (K : Collaborators S T) (c : Crystal S T) (p : Point S) :
    Crystal S T × AtomID :=
  ({ c with calls := c.calls ++ [CrystalCall.pickAtomPoint p] }, K.pickAtomPoint c p)

/-- Modelled from the spec: `lockAtom(AtomId) → bool` (false if already locked). -/
def Crystal.lockAtom (c : Crystal S T) (a : AtomID) : Crystal S T × Bool :=
  if c.locked a then
    ({ c with calls := c.calls ++ [CrystalCall.lockAtom a] }, false)
  else
    ({ c with locked := fun b => if b = a then true else c.locked b,
              calls := c.calls ++ [CrystalCall.lockAtom a] }, true)

/-- Modelled from the spec: `unlockAtom(AtomId)`. -/
def Crystal.unlockAtom (c : Crystal S T) (a : AtomID) : Crystal S T :=
  { c with locked := fun b => if b = a then false else c.locked b,
           calls := c.calls ++ [CrystalCall.unlockAtom a] }

/-- Modelled from the spec: `getAtomState(AtomId) → ONTransform`. -/
def Crystal.getAtomState (c : Crystal S T) (a : AtomID) : T :=
  c.atomState a

/-- Modelled from the spec: `setAtomState(AtomId, ONTransform)`. -/
def Crystal.setAtomState (c : Crystal S T) (a : AtomID) (t : T) : Crystal S T :=
  { c with atomState := fun b => if b = a then t else c.atomState b,
           calls := c.calls ++ [CrystalCall.setAtomState a t] }

/-- Modelled from the spec: `simulate(Scalar dt)` advances the atom poses. -/
def Crystal.simulate (K : Collaborators S T) (c : Crystal S T) (dt : ℚ) : Crystal S T :=
  { c with atomState := K.integrate c dt, calls := c.calls ++ [CrystalCall.simulate dt] }

/-- Modelled from the spec: `writeAtomStates(writer)` dumps all atom poses in grid order;
atoms are numbered in that order. -/
def Crystal.atomStates (c : Crystal S T) : List T :=
  (List.range (c.numAtoms.1 * c.numAtoms.2.1 * c.numAtoms.2.2).toNat).map c.atomState

/-- The parameter-setting calls in the crystal's trace. -/
def Crystal.parameterCalls (c : Crystal S T) : List (CrystalCall S T) :=
  c.calls.filter CrystalCall.isParameterCall

/-- The picking, locking and pose-setting calls in the crystal's trace. -/
def Crystal.atomCalls (c : Crystal S T) : List (CrystalCall S T) :=
  c.calls.filter CrystalCall.isAtomCall

/-- A crystal as its constructor leaves it: no atom is locked and no call was made. -/
def Crystal.Fresh (c : Crystal S T) : Prop :=
  (∀ a, c.locked a = false) ∧ c.calls = []

end CrystalOps

/-! ## The pipe -/

/-- Messages the server writes to a client, with their payloads. -/
inductive ServerMessage (S T : Type) where
  | CONNECT_REPLY (domainMin domainMax : Point S) (numAtoms : Int × Int × Int)
  | DISCONNECT_REPLY
  | SERVER_PARAMUPDATE (atomMass attenuation gravity : S)
  | SERVER_UPDATE (atomStates : List T)

/-- Modelled from the spec: the write side of a SharedJelloPipe (SharedJelloPipe.h is not
among the sources). A write that fails fails the whole message with a pipe error;
`capacity` is the number of further messages the connection takes before it breaks. -/
structure SharedJelloPipe (S T : Type) where
  written : List (ServerMessage S T)
  capacity : Nat

/-- Writing one message group and flushing: `none` is the pipe error. -/
def SharedJelloPipe.writeMessage {S T : Type} (p : SharedJelloPipe S T) (m : ServerMessage S T) :
    Option (SharedJelloPipe S T) :=
  if p.capacity = 0 then none
  else some { written := p.written ++ [m], capacity := p.capacity - 1 }

/-- The call `pipe.shutdown(false,true)`: the write side is closed. -/
def SharedJelloPipe.shutdownWrite {S T : Type} (p : SharedJelloPipe S T) : SharedJelloPipe S T :=
  { p with capacity := 0 }

/-! ## Client state -/

/-- One decoded dragger entry of a state update. -/
structure Dragger (S T : Type) where
  draggerID : Nat
  rayBased : Bool
  ray : Ray S
  transformation : T
  active : Bool

/-- The struct `ClientState::StateUpdate`: a dragger count and five arrays. An array element
is `none` while it has not been assigned since `new[]`. -/
structure StateUpdate (S T : Type) where
  numDraggers : Int
  draggerIDs : List (Option Nat)
  draggerRayBaseds : List (Option Bool)
  draggerRays : List (Option (Ray S))
  draggerTransformations : List (Option T)
  draggerActives : List (Option Bool)

/-- The struct `ClientState::AtomLock`. -/
structure AtomLock (T : Type) where
  draggerID : Nat
  draggedAtom : AtomID
  dragTransformation : T

/-- Where a client's communication thread stands in `clientCommunicationThreadMethod`. -/
inductive ThreadState where
  | connecting
  | replied
  | waiting
  | chose (nextIndex : Nat)
  | decoding (nextIndex draggerIndex : Nat)
  | leaving
  deriving DecidableEq, Repr

/-- The struct `ClientState`; `ptr` is the address of the object, by which the cleanup finds
it in the list, and `thread` the position of its communication thread. -/
structure ClientState (S T : Type) where
  ptr : Nat
  pipe : SharedJelloPipe S T
  connected : Bool
  parameterVersion : Nat
  stateUpdates : Nat → StateUpdate S T
  lockedIndex : Nat
  mostRecentIndex : Nat
  atomLocks : List (AtomLock T)
  thread : ThreadState

/-- The class `SharedJelloServer`: pending parameters and their version, the crystal, the
applied version and the client list. -/
structure Server (S T : Type) where
  newParameterVersion : Nat
  newAtomMass : S
  newAttenuation : S
  newGravity : S
  crystal : Crystal S T
  parameterVersion : Nat
  clientStates : List (ClientState S T)

section Program

variable {S T : Type}

/-- A state update with no draggers and null arrays. -/
def StateUpdate.empty : StateUpdate S T :=
  { numDraggers := 0, draggerIDs := [], draggerRayBaseds := [], draggerRays := [],
    draggerTransformations := [], draggerActives := [] }

/-- Entry `i` of a state update, when all five arrays hold an assigned element there. -/
def StateUpdate.entry (su : StateUpdate S T) (i : Nat) : Option (Dragger S T) := do
  let id ← (su.draggerIDs[i]?).join
  let rb ← (su.draggerRayBaseds[i]?).join
  let ray ← (su.draggerRays[i]?).join
  let tr ← (su.draggerTransformations[i]?).join
  let act ← (su.draggerActives[i]?).join
  pure { draggerID := id, rayBased := rb, ray := ray, transformation := tr, active := act }

/-- A fully decoded state update: the count is not negative, every array has exactly that
many elements and every element has been assigned. -/
def StateUpdate.Complete (su : StateUpdate S T) : Prop :=
  0 ≤ su.numDraggers ∧
  su.draggerIDs.length = su.numDraggers.toNat ∧
  su.draggerRayBaseds.length = su.numDraggers.toNat ∧
  su.draggerRays.length = su.numDraggers.toNat ∧
  su.draggerTransformations.length = su.numDraggers.toNat ∧
  su.draggerActives.length = su.numDraggers.toNat ∧
  (∀ i, i < su.numDraggers.toNat → (su.entry i).isSome = true)

/-- The state update that holds exactly the draggers of one message. -/
def StateUpdate.ofDraggers (ds : List (Dragger S T)) : StateUpdate S T :=
  { numDraggers := (ds.length : Int),
    draggerIDs := ds.map (fun d => some d.draggerID),
    draggerRayBaseds := ds.map (fun d => some d.rayBased),
    draggerRays := ds.map (fun d => some d.ray),
    draggerTransformations := ds.map (fun d => some d.transformation),
    draggerActives := ds.map (fun d => some d.active) }

/-- Modelled from the spec: the constructor `ClientState(socket)` (SharedJelloServer.h is not
among the sources): not connected, no parameter version seen, three empty slots, both
indices in range and equal, no atom locks. -/
def ClientState.new (ptr capacity : Nat) : ClientState S T :=
  { ptr := ptr, pipe := { written := [], capacity := capacity }, connected := false,
    parameterVersion := 0, stateUpdates := fun _ => StateUpdate.empty,
    lockedIndex := 0, mostRecentIndex := 0, atomLocks := [], thread := ThreadState.connecting }

/-- The constructor `SharedJelloServer(numAtoms,listenPortID)`: both versions are 1; the
pending scalars are not set by it. -/
def construct (crystal : Crystal S T) (m a g : S) : Server S T :=
  { newParameterVersion := 1, newAtomMass := m, newAttenuation := a, newGravity := g,
    crystal := crystal, parameterVersion := 1, clientStates := [] }

/-- Stores a client state back into the list at its own address. -/
def Server.updateClient (s : Server S T) (c : ClientState S T) : Server S T :=
  { s with clientStates := s.clientStates.map (fun x => if x.ptr = c.ptr then c else x) }

/-- The thread leaves its message loop (a break or a caught exception). -/
def ClientState.leave (c : ClientState S T) : ClientState S T :=
  { c with thread := ThreadState.leaving }

/-- Assignment to one slot of the triple buffer. -/
def ClientState.writeSlot (c : ClientState S T) (n : Nat) (f : StateUpdate S T → StateUpdate S T) :
    ClientState S T :=
  { c with stateUpdates := fun i => if i = n then f (c.stateUpdates n) else c.stateUpdates i }

/-! ### clientCommunicationThreadMethod -/

/-- Lines 97-105: CONNECT_REPLY with the crystal's domain and atom counts is written and
flushed; a pipe error ends the thread's protocol. -/
def sendConnectReply (crystal : Crystal S T) (c : ClientState S T) : ClientState S T :=
  match c.pipe.writeMessage
      (ServerMessage.CONNECT_REPLY crystal.domainMin crystal.domainMax crystal.numAtoms) with
  | some p => { c with pipe := p, thread := ThreadState.replied }
  | none => c.leave

/-- Lines 107-111: the client is marked as connected. -/
def markConnected (c : ClientState S T) : ClientState S T :=
  { c with connected := true, thread := ThreadState.waiting }

/-- Lines 124-138: DISCONNECT_REPLY is written, the write side shut down, and the loop left;
a pipe error leaves the loop as well. -/
def disconnectRequest (c : ClientState S T) : ClientState S T :=
  match c.pipe.writeMessage ServerMessage.DISCONNECT_REPLY with
  | some p => { c with pipe := p.shutdownWrite, thread := ThreadState.leaving }
  | none => c.leave

/-- Lines 141-148, the block under `parameterMutex`: the pending version is incremented, then
the three scalars are read in turn; `none` is a read that fails, and ends the block. -/
def paramUpdate (r1 r2 r3 : Option S) (s : Server S T) : Server S T :=
  let s0 := { s with newParameterVersion := s.newParameterVersion + 1 }
  match r1 with
  | none => s0
  | some m =>
    let s1 := { s0 with newAtomMass := m }
    match r2 with
    | none => s1
    | some a =>
      let s2 := { s1 with newAttenuation := a }
      match r3 with
      | none => s2
      | some g => { s2 with newGravity := g }

/-- Lines 155-157: the next free client update slot. -/
def nextIndex (lockedIndex mostRecentIndex : Nat) : Nat :=
  let n := (lockedIndex + 1) % 3
  if n = mostRecentIndex then (n + 1) % 3 else n

/-- Lines 118-209, one pass of the message loop up to the point where the payload of a
CLIENT_UPDATE starts: `msg` is what `readMessage` returns (`none`: it throws), `r1 r2 r3`
what the three scalar reads of a CLIENT_PARAMUPDATE return. -/
def handleMessage (msg : Option MessageId) (r1 r2 r3 : Option S) (c : ClientState S T)
    (s : Server S T) : Server S T :=
  match msg with
  | none => s.updateClient c.leave
  | some MessageId.DISCONNECT_REQUEST => s.updateClient (disconnectRequest c)
  | some MessageId.CLIENT_PARAMUPDATE =>
    (paramUpdate r1 r2 r3 s).updateClient
      (if r1.isSome && r2.isSome && r3.isSome then c else c.leave)
  | some MessageId.CLIENT_UPDATE =>
    s.updateClient { c with thread := ThreadState.chose (nextIndex c.lockedIndex c.mostRecentIndex) }
  | some _ => s.updateClient c.leave

/-- Arrays of `n` elements fresh from `new[]`. -/
def StateUpdate.allocate (n : Int) : StateUpdate S T :=
  { numDraggers := n,
    draggerIDs := List.replicate n.toNat none,
    draggerRayBaseds := List.replicate n.toNat none,
    draggerRays := List.replicate n.toNat none,
    draggerTransformations := List.replicate n.toNat none,
    draggerActives := List.replicate n.toNat none }

/-- Lines 161-186: the dragger count is read and the slot's arrays are reallocated when the
count changed. A negative count makes the first `new[]` throw after the old arrays were
deleted and the count stored. -/
def readNumDraggers (r : Option Int) (c : ClientState S T) : ClientState S T :=
  match c.thread with
  | ThreadState.chose n =>
    match r with
    | none => c.leave
    | some newNumDraggers =>
      if newNumDraggers ≠ (c.stateUpdates n).numDraggers then
        if newNumDraggers < 0 then
          (c.writeSlot n (fun _ => { StateUpdate.empty with numDraggers := newNumDraggers })).leave
        else
          { c.writeSlot n (fun _ => StateUpdate.allocate newNumDraggers) with
            thread := ThreadState.decoding n 0 }
      else
        { c with thread := ThreadState.decoding n 0 }
  | _ => c

/-- What the six reads of one dragger return (lines 190-196); `none` is a read that throws,
after which the later reads do not happen. -/
structure DraggerRead (S T : Type) where
  draggerID : Option Nat
  rayBased : Option Int
  rayStart : Option (Point S)
  rayDirection : Option (Vector S)
  transformation : Option T
  active : Option Nat

/-- Lines 190-196: one pass of the dragger loop writing element `k` of slot `n`. -/
def readDragger (n k : Nat) (r : DraggerRead S T) (c : ClientState S T) : ClientState S T :=
  match r.draggerID with
  | none => c.leave
  | some id =>
    let c1 := c.writeSlot n (fun su => { su with draggerIDs := su.draggerIDs.set k (some id) })
    match r.rayBased with
    | none => c1.leave
    | some rb =>
      let c2 := c1.writeSlot n (fun su =>
        { su with draggerRayBaseds := su.draggerRayBaseds.set k (some (rb != 0)) })
      match r.rayStart with
      | none => c2.leave
      | some st =>
        match r.rayDirection with
        | none => c2.leave
        | some dir =>
          let c3 := c2.writeSlot n (fun su =>
            { su with draggerRays := su.draggerRays.set k (some { start := st, direction := dir }) })
          match r.transformation with
          | none => c3.leave
          | some tr =>
            let c4 := c3.writeSlot n (fun su =>
              { su with draggerTransformations := su.draggerTransformations.set k (some tr) })
            match r.active with
            | none => c4.leave
            | some ch =>
              { c4.writeSlot n (fun su =>
                  { su with draggerActives := su.draggerActives.set k (some (ch != 0)) }) with
                thread := ThreadState.decoding n (k + 1) }

/-- Lines 188-202: one step of the dragger loop: while `draggerIndex<su.numDraggers` the next
dragger is read, afterwards the slot is published as most recent. -/
def decodeStep (r : DraggerRead S T) (c : ClientState S T) : ClientState S T :=
  match c.thread with
  | ThreadState.decoding n k =>
    if (k : Int) < (c.stateUpdates n).numDraggers then readDragger n k r c
    else { c with mostRecentIndex := n, thread := ThreadState.waiting }
  | _ => c

/-- Lines 230-248: the cleanup block: every atom held by the client is unlocked and the
client state is erased from the list. -/
def disconnectClient (c : ClientState S T) (s : Server S T) : Server S T :=
  { s with
    crystal := c.atomLocks.foldl (fun cr al => cr.unlockAtom al.draggedAtom) s.crystal,
    clientStates := s.clientStates.eraseP (fun x => x.ptr == c.ptr) }

/-! ### simulate -/

/-- Lines 288-298, Step 1: pending parameters are pushed into the crystal when the versions
differ. -/
def applyParameters (s : Server S T) : Server S T :=
  if s.newParameterVersion ≠ s.parameterVersion then
    { s with
      crystal := ((s.crystal.setAtomMass s.newAtomMass).setAttenuation s.newAttenuation).setGravity
        s.newGravity,
      parameterVersion := s.newParameterVersion }
  else s

/-- Lines 322-370: the body of the dragger loop for one dragger, on the crystal and the
client's atom locks. -/
def processDragger [Mul T] [Inv T] (K : Collaborators S T) (d : Dragger S T)
    (st : Crystal S T × List (AtomLock T)) : Crystal S T × List (AtomLock T) :=
  if d.active then
    match st.2.find? (fun al => al.draggerID == d.draggerID) with
    | some al =>
      (st.1.setAtomState al.draggedAtom (d.transformation * al.dragTransformation), st.2)
    | none =>
      let pk := if d.rayBased then st.1.pickAtomRay K d.ray
                else st.1.pickAtomPoint K (K.getOrigin d.transformation)
      let lk := pk.1.lockAtom pk.2
      if lk.2 then
        let al : AtomLock T :=
          { draggerID := d.draggerID, draggedAtom := pk.2,
            dragTransformation := d.transformation⁻¹ * lk.1.getAtomState pk.2 }
        (lk.1.setAtomState al.draggedAtom (d.transformation * al.dragTransformation),
          st.2 ++ [al])
      else (lk.1, st.2)
  else
    match st.2.find? (fun al => al.draggerID == d.draggerID) with
    | some al =>
      (st.1.unlockAtom al.draggedAtom, st.2.eraseP (fun x => x.draggerID == d.draggerID))
    | none => st

/-- Lines 320-371: the dragger loop over a state update. An index whose elements were never
assigned is passed over (reading it is undefined in the source). -/
def ingestUpdate [Mul T] [Inv T] (K : Collaborators S T) (su : StateUpdate S T)
    (st : Crystal S T × List (AtomLock T)) : Crystal S T × List (AtomLock T) :=
  (List.range su.numDraggers.toNat).foldl
    (fun acc i =>
      match su.entry i with
      | some d => processDragger K d acc
      | none => acc)
    st

/-- Lines 312-372: one client in the loop of Step 2. -/
def ingestClient [Mul T] [Inv T] (K : Collaborators S T) (cr : Crystal S T)
    (c : ClientState S T) : Crystal S T × ClientState S T :=
  if c.lockedIndex ≠ c.mostRecentIndex then
    let r := ingestUpdate K (c.stateUpdates c.mostRecentIndex) (cr, c.atomLocks)
    (r.1, { c with lockedIndex := c.mostRecentIndex, atomLocks := r.2 })
  else (cr, c)

/-- Lines 309-373: the loop of Step 2 over the client list. -/
def ingestClients [Mul T] [Inv T] (K : Collaborators S T) :
    Crystal S T → List (ClientState S T) → Crystal S T × List (ClientState S T)
  | cr, [] => (cr, [])
  | cr, c :: cs =>
    let r := ingestClient K cr c
    let rest := ingestClients K r.1 cs
    (rest.1, r.2 :: rest.2)

/-- Lines 304-374, Step 2, under `clientStateListMutex`. -/
def ingestUpdates [Mul T] [Inv T] (K : Collaborators S T) (s : Server S T) : Server S T :=
  let r := ingestClients K s.crystal s.clientStates
  { s with crystal := r.1, clientStates := r.2 }

/-- Line 377, Step 3: `crystal.simulate(timeStep)`. -/
def crystalSimulate (K : Collaborators S T) (timeStep : ℚ) (s : Server S T) : Server S T :=
  { s with crystal := s.crystal.simulate K timeStep }

/-- The method `SharedJelloServer::simulate`. -/
def simulate [Mul T] [Inv T] (K : Collaborators S T) (timeStep : ℚ) (s : Server S T) :
    Server S T :=
  crystalSimulate K timeStep (ingestUpdates K (applyParameters s))

/-! ### sendServerUpdate -/

/-- Lines 389-424: the loop body of the broadcast for one client; a pipe error is caught
and ignored. -/
def sendServerUpdateTo (s : Server S T) (cs : ClientState S T) : ClientState S T :=
  if cs.connected then
    if cs.parameterVersion ≠ s.parameterVersion then
      match cs.pipe.writeMessage
          (ServerMessage.SERVER_PARAMUPDATE s.crystal.atomMass s.crystal.attenuation
            s.crystal.gravity) with
      | none => cs
      | some p1 =>
        match p1.writeMessage (ServerMessage.SERVER_UPDATE s.crystal.atomStates) with
        | none => { cs with pipe := p1, parameterVersion := s.parameterVersion }
        | some p2 => { cs with pipe := p2, parameterVersion := s.parameterVersion }
    else
      match cs.pipe.writeMessage (ServerMessage.SERVER_UPDATE s.crystal.atomStates) with
      | none => cs
      | some p => { cs with pipe := p }
  else cs

/-- The method `SharedJelloServer::sendServerUpdate`. -/
def sendServerUpdate (s : Server S T) : Server S T :=
  { s with clientStates := s.clientStates.map (sendServerUpdateTo s) }

/-! ### Interleaving -/

/-- One atomic step of some thread: the listener accepting a client, a communication thread
advancing, or the main thread running a step of `simulate` or the broadcast. Step 2 of
`simulate` is one step: its test, the assignment `lockedIndex = mostRecentIndex` and the
reading of the slot are not interleaved with steps of the communication threads. The source
has no lock that makes it so; `ingestLoaded` is Step 2 for one client with the read of
`mostRecentIndex` and the store to `lockedIndex` apart. -/
inductive Step [Mul T] [Inv T] (K : Collaborators S T) : Server S T → Server S T → Prop where
  | accept (s : Server S T) (p capacity : Nat) :
      (∀ c ∈ s.clientStates, c.ptr ≠ p) →
      Step K s { s with clientStates := s.clientStates ++ [ClientState.new p capacity] }
  | connectReply (s : Server S T) (c : ClientState S T) :
      c ∈ s.clientStates → c.thread = ThreadState.connecting →
      Step K s (s.updateClient (sendConnectReply s.crystal c))
  | markConnected (s : Server S T) (c : ClientState S T) :
      c ∈ s.clientStates → c.thread = ThreadState.replied →
      Step K s (s.updateClient (markConnected c))
  | message (s : Server S T) (c : ClientState S T) (msg : Option MessageId)
      (r1 r2 r3 : Option S) :
      c ∈ s.clientStates → c.thread = ThreadState.waiting →
      Step K s (handleMessage msg r1 r2 r3 c s)
  | count (s : Server S T) (c : ClientState S T) (r : Option Int) :
      c ∈ s.clientStates → Step K s (s.updateClient (readNumDraggers r c))
  | decode (s : Server S T) (c : ClientState S T) (r : DraggerRead S T) :
      c ∈ s.clientStates → Step K s (s.updateClient (decodeStep r c))
  | cleanup (s : Server S T) (c : ClientState S T) :
      c ∈ s.clientStates → c.thread = ThreadState.leaving →
      Step K s (disconnectClient c s)
  | applyParameters (s : Server S T) : Step K s (applyParameters s)
  | ingest (s : Server S T) : Step K s (ingestUpdates K s)
  | physics (s : Server S T) (timeStep : ℚ) : Step K s (crystalSimulate K timeStep s)
  | broadcast (s : Server S T) : Step K s (sendServerUpdate s)

/-- Any finite sequence of steps. -/
def Reaches [Mul T] [Inv T] (K : Collaborators S T) : Server S T → Server S T → Prop :=
  Relation.ReflTransGen (Step K)

/-- States of a server that was constructed on a fresh crystal. -/
def Reachable [Mul T] [Inv T] (K : Collaborators S T) (s : Server S T) : Prop :=
  ∃ (cr : Crystal S T) (m a g : S), cr.Fresh ∧ Reaches K (construct cr m a g) s

/-- The atoms named by a list of atom locks. -/
def lockedAtoms (ls : List (AtomLock T)) : List AtomID :=
  ls.map (fun al => al.draggedAtom)

/-- The atoms named by the atom locks of all clients, client by client. -/
def heldAtoms (cs : List (ClientState S T)) : List AtomID :=
  cs.flatMap (fun c => lockedAtoms c.atomLocks)

/-- A server in which no atom is locked, no client holds an atom lock, and the client
states are distinct objects. -/
def Quiescent (s : Server S T) : Prop :=
  (∀ a, s.crystal.locked a = false) ∧ (∀ c ∈ s.clientStates, c.atomLocks = []) ∧
  (s.clientStates.map (fun c => c.ptr)).Nodup

/-- The lock bitmap `locked` and the list `atoms` of atoms named by atom locks agree: no
atom is named twice, and an atom is locked exactly when it is named. -/
def LockInv (locked : AtomID → Bool) (atoms : List AtomID) : Prop :=
  atoms.Nodup ∧ ∀ a, locked a = true ↔ a ∈ atoms

/-- The client states are distinct objects and the crystal's lock bitmap agrees with the
atom locks the clients hold. -/
def OwnershipInv (s : Server S T) : Prop :=
  (s.clientStates.map (fun c => c.ptr)).Nodup ∧
  LockInv s.crystal.locked (heldAtoms s.clientStates)

/-- A step of a communication thread leaves the fields the main thread owns alone. -/
def ReaderFrame (c c' : ClientState S T) : Prop :=
  c'.ptr = c.ptr ∧ c'.atomLocks = c.atomLocks ∧ c'.lockedIndex = c.lockedIndex ∧
  c'.parameterVersion = c.parameterVersion

/-- A concrete crystal of 2 x 2 x 2 atoms over rational scalars and poses. -/
def demoCrystal : Crystal ℚ ℚ :=
  { domainMin := (-1, -1, -1), domainMax := (1, 1, 1), numAtoms := (2, 2, 2),
    atomMass := 1, attenuation := 1, gravity := 0,
    locked := fun _ => false, atomState := fun _ => 1, calls := [] }

/-- Concrete collaborators: every pick returns atom 0 and the integrator keeps the poses. -/
def demoCollaborators : Collaborators ℚ ℚ :=
  { pickAtomRay := fun _ _ => 0, pickAtomPoint := fun _ _ => 0, getOrigin := fun _ => (0, 0, 0),
    integrate := fun c _ => c.atomState }

/-- A concrete freshly constructed server. -/
def demoServer : Server ℚ ℚ :=
  construct demoCrystal 0 0 0

/-- What one step of the server can do to a single client state: a step of its own
communication thread, its turn in Step 2 of `simulate`, its turn in the broadcast, or
nothing. -/
inductive ClientStep [Mul T] [Inv T] (K : Collaborators S T) (s : Server S T) :
    ClientState S T → ClientState S T → Prop where
  | same (c : ClientState S T) : ClientStep K s c c
  | connectReply (c : ClientState S T) :
      c.thread = ThreadState.connecting → ClientStep K s c (sendConnectReply s.crystal c)
  | markConnected (c : ClientState S T) :
      c.thread = ThreadState.replied → ClientStep K s c (markConnected c)
  | leave (c : ClientState S T) :
      c.thread = ThreadState.waiting → ClientStep K s c c.leave
  | disconnectRequest (c : ClientState S T) :
      c.thread = ThreadState.waiting → ClientStep K s c (disconnectRequest c)
  | clientUpdate (c : ClientState S T) :
      c.thread = ThreadState.waiting →
      ClientStep K s c
        { c with thread := ThreadState.chose (nextIndex c.lockedIndex c.mostRecentIndex) }
  | count (c : ClientState S T) (r : Option Int) : ClientStep K s c (readNumDraggers r c)
  | decode (c : ClientState S T) (r : DraggerRead S T) : ClientStep K s c (decodeStep r c)
  | ingest (c : ClientState S T) (cr : Crystal S T) : ClientStep K s c (ingestClient K cr c).2
  | broadcast (c : ClientState S T) : ClientStep K s c (sendServerUpdateTo s c)

/-- The concrete server after the listener accepted one client, at address 7, whose
connection takes 5 messages. -/
def demoAccepted : Server ℚ ℚ :=
  { demoServer with clientStates := demoServer.clientStates ++ [ClientState.new 7 5] }

/-- The count of a state update is not negative and each of its arrays has that many
elements. -/
def StateUpdate.Sized (su : StateUpdate S T) : Prop :=
  0 ≤ su.numDraggers ∧
  su.draggerIDs.length = su.numDraggers.toNat ∧
  su.draggerRayBaseds.length = su.numDraggers.toNat ∧
  su.draggerRays.length = su.numDraggers.toNat ∧
  su.draggerTransformations.length = su.numDraggers.toNat ∧
  su.draggerActives.length = su.numDraggers.toNat

/-- A state update whose first `k` entries have been decoded. -/
def StateUpdate.DecodedUpTo (su : StateUpdate S T) (k : Nat) : Prop :=
  su.Sized ∧ ∀ i, i < k → (su.entry i).isSome = true

/-- The five assignments of one pass of the dragger loop, with the values already decoded. -/
def StateUpdate.store (su : StateUpdate S T) (k : Nat) (d : Dragger S T) : StateUpdate S T :=
  { su with
    draggerIDs := su.draggerIDs.set k (some d.draggerID),
    draggerRayBaseds := su.draggerRayBaseds.set k (some d.rayBased),
    draggerRays := su.draggerRays.set k (some d.ray),
    draggerTransformations := su.draggerTransformations.set k (some d.transformation),
    draggerActives := su.draggerActives.set k (some d.active) }

/-- The triple buffer of one client is consistent: both indices are in range, the slots at
both indices are fully decoded, and the slot the communication thread has chosen or is
decoding into is a third one; every slot the thread is not decoding into is fully decoded
as long as the thread has not left its loop. -/
def ClientState.BufferInv (c : ClientState S T) : Prop :=
  c.lockedIndex < 3 ∧ c.mostRecentIndex < 3 ∧
  (c.stateUpdates c.lockedIndex).Complete ∧ (c.stateUpdates c.mostRecentIndex).Complete ∧
  (match c.thread with
   | ThreadState.chose n =>
     n < 3 ∧ n ≠ c.lockedIndex ∧ n ≠ c.mostRecentIndex ∧ ∀ i, (c.stateUpdates i).Complete
   | ThreadState.decoding n k =>
     n < 3 ∧ n ≠ c.lockedIndex ∧ n ≠ c.mostRecentIndex ∧
       (∀ i, i ≠ n → (c.stateUpdates i).Complete) ∧ (c.stateUpdates n).DecodedUpTo k
   | ThreadState.leaving => True
   | _ => ∀ i, (c.stateUpdates i).Complete)

/-- One dragger of a CLIENT_UPDATE as it arrives: id, ray flag as an int, ray start and
direction, transformation, active flag as a char. -/
structure WireDragger (S T : Type) where
  draggerID : Nat
  rayBased : Int
  rayStart : Point S
  rayDirection : Vector S
  transformation : T
  active : Nat

/-- The six reads of one dragger when all of them succeed. -/
def WireDragger.reads (w : WireDragger S T) : DraggerRead S T :=
  { draggerID := some w.draggerID, rayBased := some w.rayBased, rayStart := some w.rayStart,
    rayDirection := some w.rayDirection, transformation := some w.transformation,
    active := some w.active }

/-- The values lines 190-196 store for one dragger. -/
def WireDragger.decode (w : WireDragger S T) : Dragger S T :=
  { draggerID := w.draggerID, rayBased := w.rayBased != 0,
    ray := { start := w.rayStart, direction := w.rayDirection },
    transformation := w.transformation, active := w.active != 0 }

/-- Six reads that all fail. -/
def DraggerRead.nothing : DraggerRead S T :=
  { draggerID := none, rayBased := none, rayStart := none, rayDirection := none,
    transformation := none, active := none }

/-- A CLIENT_UPDATE that is received completely (lines 152-203): the slot is chosen, the
count read, every dragger read in turn, and the slot published. -/
def receiveClientUpdate (u : List (WireDragger S T)) (c : ClientState S T) : ClientState S T :=
  let c1 : ClientState S T :=
    { c with thread := ThreadState.chose (nextIndex c.lockedIndex c.mostRecentIndex) }
  let c2 := readNumDraggers (some (u.length : Int)) c1
  let c3 := u.foldl (fun x w => decodeStep w.reads x) c2
  decodeStep DraggerRead.nothing c3

/-- Elements `k`, `k+1`, ... of an array assigned in turn. -/
def fillList {β : Type} (l : List (Option β)) : Nat → List β → List (Option β)
  | _, [] => l
  | k, x :: xs => fillList (l.set k (some x)) (k + 1) xs

/-- Entries `k`, `k+1`, ... of a state update stored in turn. -/
def fillFrom (su : StateUpdate S T) : Nat → List (Dragger S T) → StateUpdate S T
  | _, [] => su
  | k, d :: ds => fillFrom (su.store k d) (k + 1) ds

/-- The crystal `cr'` has the domain, atom counts and simulation parameters of `cr`, and no
parameter-setting call was made in between. -/
def ParametersKept (cr cr' : Crystal S T) : Prop :=
  cr'.domainMin = cr.domainMin ∧ cr'.domainMax = cr.domainMax ∧ cr'.numAtoms = cr.numAtoms ∧
  cr'.atomMass = cr.atomMass ∧ cr'.attenuation = cr.attenuation ∧ cr'.gravity = cr.gravity ∧
  cr'.parameterCalls = cr.parameterCalls

/-- The pending version is not behind the applied one, and no client has seen a version
ahead of the applied one. -/
def VersionInv (s : Server S T) : Prop :=
  s.parameterVersion ≤ s.newParameterVersion ∧
  ∀ c ∈ s.clientStates, c.parameterVersion ≤ s.parameterVersion

/-- The outgoing stream of a client relative to its thread: nothing is written before
CONNECT_REPLY, the connected flag is set only once that reply is the first message. -/
def ClientState.PipeInv (reply : ServerMessage S T) (c : ClientState S T) : Prop :=
  match c.thread with
  | ThreadState.connecting => c.connected = false ∧ c.pipe.written = []
  | ThreadState.replied => c.connected = false ∧ c.pipe.written = [reply]
  | ThreadState.leaving =>
    (c.connected = false ∧ c.pipe.written = []) ∨ ∃ rest, c.pipe.written = reply :: rest
  | _ => c.connected = true ∧ ∃ rest, c.pipe.written = reply :: rest

/-- The CONNECT_REPLY message of a server: the crystal's domain and atom counts. -/
def connectReply (s : Server S T) : ServerMessage S T :=
  ServerMessage.CONNECT_REPLY s.crystal.domainMin s.crystal.domainMax s.crystal.numAtoms

/-- The dragger ids named by a list of atom locks. -/
def lockIds (ls : List (AtomLock T)) : List Nat :=
  ls.map (fun al => al.draggerID)

/-- The atom a dragger picks in a crystal: by its ray when it is ray based, by the origin of
its transformation otherwise (lines 333-336). -/
def pickedAtom (K : Collaborators S T) (cr : Crystal S T) (d : Dragger S T) : AtomID :=
  if d.rayBased then K.pickAtomRay cr d.ray else K.pickAtomPoint cr (K.getOrigin d.transformation)

/-- The pick call a dragger makes (lines 333-336). -/
def pickCall (K : Collaborators S T) (d : Dragger S T) : CrystalCall S T :=
  if d.rayBased then CrystalCall.pickAtomRay d.ray
  else CrystalCall.pickAtomPoint (K.getOrigin d.transformation)

/-- Calls that set the pose of atom `a`. -/
def CrystalCall.setsAtom (a : AtomID) : CrystalCall S T → Bool
  | CrystalCall.setAtomState b _ => b == a
  | _ => false

/-- Between `cr` and `cr'` atom `a` stayed locked or unlocked as it was, kept its pose, and
no setAtomState call was made for it. -/
def Untouched (a : AtomID) (cr cr' : Crystal S T) : Prop :=
  cr'.locked a = cr.locked a ∧ cr'.atomState a = cr.atomState a ∧
  cr'.calls.filter (CrystalCall.setsAtom a) = cr.calls.filter (CrystalCall.setsAtom a)

/-- A concrete crystal whose poses are translations along a line: atom `a` sits at `a`. -/
def lineCrystal : Crystal ℚ (Multiplicative ℤ) :=
  { domainMin := (-1, -1, -1), domainMax := (1, 1, 1), numAtoms := (2, 2, 2),
    atomMass := 1, attenuation := 1, gravity := 0,
    locked := fun _ => false, atomState := fun a => Multiplicative.ofAdd (a : ℤ), calls := [] }

/-- Concrete collaborators for the line crystal: a ray picks atom 0, a point picks atom 1,
and the integrator keeps the poses. -/
def lineCollaborators : Collaborators ℚ (Multiplicative ℤ) :=
  { pickAtomRay := fun _ _ => 0, pickAtomPoint := fun _ _ => 1, getOrigin := fun _ => (0, 0, 0),
    integrate := fun c _ => c.atomState }

/-- A concrete active dragger with id `i`, picking by ray when `rayBased`, at translation
`t`. -/
def lineDragger (i : Nat) (rayBased : Bool) (t : ℤ) (active : Bool) :
    Dragger ℚ (Multiplicative ℤ) :=
  { draggerID := i, rayBased := rayBased, ray := { start := (0, 0, 0), direction := (0, 0, 1) },
    transformation := Multiplicative.ofAdd t, active := active }

/-- The CLIENT_UPDATE message of the line scenario: dragger 1, ray based, at translation `t`,
with active flag `act`. -/
def lineMessage (t : ℤ) (act : Nat) : List (WireDragger ℚ (Multiplicative ℤ)) :=
  [{ draggerID := 1, rayBased := 1, rayStart := (0, 0, 0), rayDirection := (0, 0, 1),
     transformation := Multiplicative.ofAdd t, active := act }]

/-- Line scenario: the server on the line crystal after it accepted a client at address 7. -/
def lineAccepted : Server ℚ (Multiplicative ℤ) :=
  { construct lineCrystal 0 0 0 with clientStates := [ClientState.new 7 5] }

/-- Line scenario: the client after CONNECT_REPLY was sent and it was marked connected. -/
def lineClient1 : ClientState ℚ (Multiplicative ℤ) :=
  markConnected (sendConnectReply lineCrystal (ClientState.new 7 5))

/-- Line scenario: the client after its first CLIENT_UPDATE (dragger 1 active at 3). -/
def lineClient2 : ClientState ℚ (Multiplicative ℤ) :=
  receiveClientUpdate (lineMessage 3 1) lineClient1

/-- Line scenario: the server with the first update published. -/
def linePublished : Server ℚ (Multiplicative ℤ) :=
  { construct lineCrystal 0 0 0 with clientStates := [lineClient2] }

/-- Line scenario: the server after the tick that ingests the first update. -/
def lineGrabbed : Server ℚ (Multiplicative ℤ) :=
  simulate lineCollaborators 1 linePublished

/-- Line scenario: the atom lock the client holds after the grab: dragger 1, atom 0, offset
-3. -/
def lineLock : AtomLock (Multiplicative ℤ) :=
  { draggerID := 1, draggedAtom := 0, dragTransformation := Multiplicative.ofAdd (-3) }

/-- Line scenario: the client after the tick that ingested the first update. -/
def lineClient3 : ClientState ℚ (Multiplicative ℤ) :=
  { lineClient2 with lockedIndex := lineClient2.mostRecentIndex, atomLocks := [lineLock] }

/-- Line scenario: the client after its second CLIENT_UPDATE (dragger 1 active at 5). -/
def lineClient4 : ClientState ℚ (Multiplicative ℤ) :=
  receiveClientUpdate (lineMessage 5 1) lineClient3

/-- Line scenario: the server with the second update published. -/
def lineDragging : Server ℚ (Multiplicative ℤ) :=
  lineGrabbed.updateClient lineClient4

/-- Line scenario: a CLIENT_UPDATE message that lists only dragger 2, point based, active at
translation 4. -/
def lineOtherMessage : List (WireDragger ℚ (Multiplicative ℤ)) :=
  [{ draggerID := 2, rayBased := 0, rayStart := (0, 0, 0), rayDirection := (0, 0, 1),
     transformation := Multiplicative.ofAdd 4, active := 1 }]

/-- Line scenario: the client, holding atom 0 for dragger 1, after an update that lists only
dragger 2. -/
def lineClient5 : ClientState ℚ (Multiplicative ℤ) :=
  receiveClientUpdate lineOtherMessage lineClient3

/-- Line scenario: the server with the update that no longer lists dragger 1 published. -/
def lineVanished : Server ℚ (Multiplicative ℤ) :=
  lineGrabbed.updateClient lineClient5

/-- The crystal and the client's atom locks at the moment Step 2 reaches the entry that
follows the entries `xs` in the update of client `c`, the clients `pre` having had their
turn (Step 1 has run). -/
def entryState [Mul T] [Inv T] (K : Collaborators S T) (s : Server S T)
    (pre : List (ClientState S T)) (c : ClientState S T) (xs : List (Dragger S T)) :
    Crystal S T × List (AtomLock T) :=
  ingestUpdate K (StateUpdate.ofDraggers xs)
    ((ingestClients K (applyParameters s).crystal pre).1, c.atomLocks)

/-- Pair scenario: the server on the line crystal after it accepted clients at addresses 7
and 8. -/
def pairAccepted : Server ℚ (Multiplicative ℤ) :=
  { construct lineCrystal 0 0 0 with clientStates := [ClientState.new 7 5, ClientState.new 8 5] }

/-- Pair scenario: the second client after CONNECT_REPLY was sent and it was marked
connected. -/
def pairClient1 : ClientState ℚ (Multiplicative ℤ) :=
  markConnected (sendConnectReply lineCrystal (ClientState.new 8 5))

/-- Pair scenario: the CLIENT_UPDATE message of the second client: dragger 2, ray based,
active at translation 4. -/
def pairMessage : List (WireDragger ℚ (Multiplicative ℤ)) :=
  [{ draggerID := 2, rayBased := 1, rayStart := (0, 0, 0), rayDirection := (0, 0, 1),
     transformation := Multiplicative.ofAdd 4, active := 1 }]

/-- Pair scenario: the second client after its CLIENT_UPDATE. -/
def pairClient2 : ClientState ℚ (Multiplicative ℤ) :=
  receiveClientUpdate pairMessage pairClient1

/-- Pair scenario: both clients have published an update with one active ray dragger. -/
def pairPublished : Server ℚ (Multiplicative ℤ) :=
  { construct lineCrystal 0 0 0 with clientStates := [lineClient2, pairClient2] }

/-- The steps a client communication thread executes (`clientCommunicationThreadMethod`):
sending CONNECT_REPLY, marking the client connected, handling one message, reading the
dragger count and the draggers of a CLIENT_UPDATE, and the cleanup block at its end. -/
inductive ReaderStep : Server S T → Server S T → Prop where
  | connectReply (s : Server S T) (c : ClientState S T) :
      c ∈ s.clientStates → c.thread = ThreadState.connecting →
      ReaderStep s (s.updateClient (sendConnectReply s.crystal c))
  | markConnected (s : Server S T) (c : ClientState S T) :
      c ∈ s.clientStates → c.thread = ThreadState.replied →
      ReaderStep s (s.updateClient (markConnected c))
  | message (s : Server S T) (c : ClientState S T) (msg : Option MessageId)
      (r1 r2 r3 : Option S) :
      c ∈ s.clientStates → c.thread = ThreadState.waiting →
      ReaderStep s (handleMessage msg r1 r2 r3 c s)
  | count (s : Server S T) (c : ClientState S T) (r : Option Int) :
      c ∈ s.clientStates → ReaderStep s (s.updateClient (readNumDraggers r c))
  | decode (s : Server S T) (c : ClientState S T) (r : DraggerRead S T) :
      c ∈ s.clientStates → ReaderStep s (s.updateClient (decodeStep r c))
  | cleanup (s : Server S T) (c : ClientState S T) :
      c ∈ s.clientStates → c.thread = ThreadState.leaving →
      ReaderStep s (disconnectClient c s)

/-- Line scenario: the client, holding atom 0, after its DISCONNECT_REQUEST was handled. -/
def lineClient7 : ClientState ℚ (Multiplicative ℤ) :=
  disconnectRequest lineClient3

/-- Line scenario: the server whose client, holding atom 0, is about to run its cleanup. -/
def lineLeaving : Server ℚ (Multiplicative ℤ) :=
  lineGrabbed.updateClient lineClient7

/-- A C string: the characters before the terminating NUL. -/
abbrev CString := List Char

/-- The libc function `strcasecmp`, as far as `main` uses it: whether the two strings are
equal when letter case is ignored (the function then returns 0). -/
def strcasecmpZero (a b : CString) : Bool :=
  a.map Char.toLower == b.map Char.toLower

/-- The digits at the start of a string, read as a decimal number on top of `acc`. -/
def atoiDigits : CString → Int → Int
  | [], acc => acc
  | c :: cs, acc => if c.isDigit then atoiDigits cs (acc * 10 + ((c.toNat - 48 : Nat) : Int)) else acc

/-- The libc function `atoi` on inputs whose value fits an `int`: leading white space, an
optional sign, then decimal digits up to the first other character. -/
def atoi : CString → Int
  | [] => 0
  | c :: cs =>
    if c.isWhitespace then atoi cs
    else if c = '-' then - atoiDigits cs 0
    else if c = '+' then atoiDigits cs 0
    else atoiDigits (c :: cs) 0

/-- The `Index` type of the server: three integers. -/
abbrev Index := Int × Int × Int

/-- Assignment `index[j]=v` for `j` in 0..2. -/
def Index.set (x : Index) (j : Nat) (v : Int) : Index :=
  match j with
  | 0 => (v, x.2.1, x.2.2)
  | 1 => (x.1, v, x.2.2)
  | _ => (x.1, x.2.1, v)

/-- What `main` hands on after parsing the command line. -/
structure MainConfig where
  numAtoms : Index
  listenPortID : Int
  updateTime : ℚ
deriving DecidableEq

/-- Line 447: `for(int j=0;j<3&&i<argc;++j,++i) numAtoms[j]=atoi(argv[i]);`, with `n` the
number of values of `j` still to come; returns the index vector and `i`. -/
def numAtomsLoop (argv : List CString) : Nat → Nat → Nat → Index → Index × Nat
  | 0, _, i, v => (v, i)
  | n + 1, j, i, v =>
    if i < argv.length then
      numAtomsLoop argv n (j + 1) (i + 1) (v.set j (atoi (argv.getD i [])))
    else (v, i)

/-- Lines 438-465: the loop `for(int i=1;i<argc;++i)` over the command line, on explicit
fuel: `none` when the fuel runs out before the loop ends. -/
def parseLoop (atof : CString → ℚ) (argv : List CString) :
    Nat → Nat → MainConfig → Option MainConfig
  | fuel, i, cfg =>
    if i < argv.length then
      match fuel with
      | 0 => none
      | fuel + 1 =>
        let arg := argv.getD i []
        if arg.head? = some '-' then
          if strcasecmpZero arg.tail "numAtoms".toList then
            let r := numAtomsLoop argv 3 0 (i + 1) cfg.numAtoms
            parseLoop atof argv fuel (r.2 + 1) { cfg with numAtoms := r.1 }
          else if strcasecmpZero arg.tail "port".toList then
            if i + 1 < argv.length then
              parseLoop atof argv fuel (i + 1 + 1)
                { cfg with listenPortID := atoi (argv.getD (i + 1) []) }
            else parseLoop atof argv fuel (i + 1 + 1) cfg
          else if strcasecmpZero arg.tail "tick".toList then
            if i + 1 < argv.length then
              parseLoop atof argv fuel (i + 1 + 1)
                { cfg with updateTime := atof (argv.getD (i + 1) []) }
            else parseLoop atof argv fuel (i + 1 + 1) cfg
          else parseLoop atof argv fuel (i + 1) cfg
        else parseLoop atof argv fuel (i + 1) cfg
    else some cfg

/-- Lines 435-465 of `main`: the defaults and the command line loop. -/
def mainConfig (atof : CString → ℚ) (argv : List CString) : Option MainConfig :=
  parseLoop atof argv argv.length 1
    { numAtoms := (4, 4, 8), listenPortID := -1, updateTime := 2 / 100 }

/-- The command line `SharedJelloServer -numAtoms 2 2 2 -port 5000`. -/
def portAfterNumAtoms : List CString :=
  ["SharedJelloServer".toList, "-numAtoms".toList, "2".toList, "2".toList, "2".toList,
    "-port".toList, "5000".toList]

/-- The command line `SharedJelloServer -port 5000 -numAtoms 2 2 2`. -/
def portBeforeNumAtoms : List CString :=
  ["SharedJelloServer".toList, "-port".toList, "5000".toList, "-numAtoms".toList, "2".toList,
    "2".toList, "2".toList]

/-- A dragger read in which one of the six reads fails. -/
def DraggerRead.Fails (r : DraggerRead S T) : Prop :=
  r.draggerID = none ∨ r.rayBased = none ∨ r.rayStart = none ∨ r.rayDirection = none ∨
    r.transformation = none ∨ r.active = none

/-- The client state `c'` is what some sequence of server steps makes of the client state
`c`, for as long as the object exists. -/
def ClientEvolves [Mul T] [Inv T] (K : Collaborators S T) (c c' : ClientState S T) : Prop :=
  Relation.ReflTransGen (fun a b => ∃ s : Server S T, ClientStep K s a b) c c'

/-- Line scenario: the connected client whose thread has just read the id of a
CLIENT_UPDATE and chosen the slot to decode into. -/
def lineChose : ClientState ℚ (Multiplicative ℤ) :=
  { lineClient1 with
    thread := ThreadState.chose (nextIndex lineClient1.lockedIndex lineClient1.mostRecentIndex) }

/-- Line scenario: the server with that client. -/
def lineChoosing : Server ℚ (Multiplicative ℤ) :=
  (lineAccepted.updateClient lineClient1).updateClient lineChose

/-- Line scenario: the server with its one client connected and waiting for a message. -/
def lineWaiting : Server ℚ (Multiplicative ℤ) :=
  lineAccepted.updateClient lineClient1

/-- The calls the main loop makes on the server. -/
inductive MainCall where
  | simulate (timeStep : ℚ)
  | sendServerUpdate
deriving DecidableEq

/-- The variables of the main loop (lines 479-482), with the server object and the trace of
the calls made on it. Times are exact rationals; `numFrames` is only counted, never read. -/
structure MainLoop (S T : Type) where
  sjs : Server S T
  lastFrameTime : ℚ
  nextUpdateTime : ℚ
  numFrames : Int
  calls : List MainCall

/-- Lines 479-482: the state before the first iteration; `peek0` and `peek1` are what the
two calls of `timer.peekTime()` return. -/
def mainLoopStart (sjs : Server S T) (updateTime peek0 peek1 : ℚ) : MainLoop S T :=
  { sjs := sjs, lastFrameTime := peek0, nextUpdateTime := peek1 + updateTime, numFrames := 0,
    calls := [] }

/-- Lines 484-503: one pass of the body of `while(true)`; `newFrameTime` is what
`timer.peekTime()` returns. -/
def mainLoopIteration [Mul T] [Inv T] (K : Collaborators S T) (updateTime : ℚ)
    (m : MainLoop S T) (newFrameTime : ℚ) : MainLoop S T :=
  let timeStep := newFrameTime - m.lastFrameTime
  let m1 : MainLoop S T :=
    { m with
      lastFrameTime := newFrameTime,
      sjs := simulate K timeStep m.sjs,
      numFrames := m.numFrames + 1,
      calls := m.calls ++ [MainCall.simulate timeStep] }
  if m1.lastFrameTime ≥ m1.nextUpdateTime then
    { m1 with
      sjs := sendServerUpdate m1.sjs,
      nextUpdateTime := m1.nextUpdateTime + updateTime,
      numFrames := 0,
      calls := m1.calls ++ [MainCall.sendServerUpdate] }
  else m1

/-- The main loop run for as many passes as there are clock readings in `peeks`. -/
def mainLoop [Mul T] [Inv T] (K : Collaborators S T) (updateTime : ℚ) (m : MainLoop S T)
    (peeks : List ℚ) : MainLoop S T :=
  peeks.foldl (mainLoopIteration K updateTime) m

/-- The time steps of the simulate calls in a trace, in order. -/
def timeSteps : List MainCall → List ℚ
  | [] => []
  | MainCall.simulate dt :: cs => dt :: timeSteps cs
  | MainCall.sendServerUpdate :: cs => timeSteps cs

/-- The number of sendServerUpdate calls in a trace. -/
def numBroadcasts : List MainCall → Nat
  | [] => 0
  | MainCall.simulate _ :: cs => numBroadcasts cs
  | MainCall.sendServerUpdate :: cs => numBroadcasts cs + 1

/-- The differences between consecutive clock readings, starting from `prev`. -/
def differences : ℚ → List ℚ → List ℚ
  | _, [] => []
  | prev, t :: ts => (t - prev) :: differences t ts

/-! ### Scenarios for the ownership, buffer, version and broadcast properties -/

/-- Lines 313-315 from the store on: the value `loaded` that the main thread read from
`mostRecentIndex` is stored to `lockedIndex`, and the slot at that index is processed.
`ingestClient` is the case in which no step of the client's communication thread falls
between the read and the store; the communication thread (lines 155-202) takes no mutex and
the two indices are plain ints, so the source does not exclude one. -/
def ingestLoaded [Mul T] [Inv T] (K : Collaborators S T) (cr : Crystal S T)
    (c : ClientState S T) (loaded : Nat) : Crystal S T × ClientState S T :=
  let r := ingestUpdate K (c.stateUpdates loaded) (cr, c.atomLocks)
  (r.1, { c with lockedIndex := loaded, atomLocks := r.2 })

/-- Pair scenario: the server after the tick in which both clients ask for atom 0. -/
def pairGrabbed : Server ℚ (Multiplicative ℤ) :=
  simulate lineCollaborators 1 pairPublished

/-- Line scenario: the client whose first update is published in slot 1 and not yet
ingested, and whose thread has read the id and the count 1 of a second CLIENT_UPDATE and is
about to decode its first dragger into slot 2. -/
def lineClient8 : ClientState ℚ (Multiplicative ℤ) :=
  readNumDraggers (some 1)
    { lineClient2 with
      thread := ThreadState.chose (nextIndex lineClient2.lockedIndex lineClient2.mostRecentIndex) }

/-- Line scenario: the server with that client. -/
def lineFilling : Server ℚ (Multiplicative ℤ) :=
  (linePublished.updateClient
    { lineClient2 with
      thread := ThreadState.chose
        (nextIndex lineClient2.lockedIndex lineClient2.mostRecentIndex) }).updateClient lineClient8

/-- Line scenario: the server whose client has been sent CONNECT_REPLY and is not yet
marked as connected. -/
def lineReplied : Server ℚ (Multiplicative ℤ) :=
  lineAccepted.updateClient (sendConnectReply lineCrystal (ClientState.new 7 5))

/-- Line scenario: the server after its connected client sent CLIENT_PARAMUPDATE{2,3,4}. -/
def lineParameters : Server ℚ (Multiplicative ℤ) :=
  handleMessage (some MessageId.CLIENT_PARAMUPDATE) (some 2) (some 3) (some 4) lineClient1
    lineWaiting

/-- Race scenario: the client whose first update (dragger 1, ray based, at 3) is in slot 1
and not yet ingested, after a second complete CLIENT_UPDATE (dragger 1 at 5), which went to
slot 2. -/
def raceClient1 : ClientState ℚ (Multiplicative ℤ) :=
  receiveClientUpdate (lineMessage 5 1) lineClient2

/-- Race scenario: the thread has read the id of a third CLIENT_UPDATE and chosen its
slot. -/
def raceClient2 : ClientState ℚ (Multiplicative ℤ) :=
  { raceClient1 with
    thread := ThreadState.chose (nextIndex raceClient1.lockedIndex raceClient1.mostRecentIndex) }

/-- Race scenario: the reads of the first dragger of the third message: id 2 and the ray
flag 0 arrive, the read of the ray start fails. -/
def raceRead : DraggerRead ℚ (Multiplicative ℤ) :=
  { draggerID := some 2, rayBased := some 0, rayStart := none, rayDirection := none,
    transformation := none, active := none }

/-- Race scenario: the client after the count 1 of the third message was read and the
reading of its dragger failed. -/
def raceClient3 : ClientState ℚ (Multiplicative ℤ) :=
  decodeStep raceRead (readNumDraggers (some 1) raceClient2)

/-- Race scenario: the server with the first update published. The main thread reads
`mostRecentIndex` here. -/
def raceServer1 : Server ℚ (Multiplicative ℤ) :=
  linePublished

/-- Race scenario: the server after the communication thread went on to the failing third
message. The main thread stores `lockedIndex` here. -/
def raceServer3 : Server ℚ (Multiplicative ℤ) :=
  (((linePublished.updateClient raceClient1).updateClient raceClient2).updateClient
    (readNumDraggers (some 1) raceClient2)).updateClient raceClient3

/-- The call a trace entry stands for, made on the server. -/
def runCall [Mul T] [Inv T] (K : Collaborators S T) (s : Server S T) :
    MainCall → Server S T
  | MainCall.simulate timeStep => simulate K timeStep s
  | MainCall.sendServerUpdate => sendServerUpdate s

/-- The calls of a trace made on the server, in order. -/
def replay [Mul T] [Inv T] (K : Collaborators S T) (calls : List MainCall) (s : Server S T) :
    Server S T :=
  calls.foldl (runCall K) s

end Program

end SharedJelloServer

/-!
# Misc: LargeFile

A shallow embedding of the typed binary I/O of `Misc/LargeFile.h`: the endianness
setting and the `read` and `write` templates, instantiated at an integer type of
`size` bytes whose values are the numbers below `256 ^ size`. Bytes are numbers,
the stdio stream is its unread input, its output so far and the room it has left,
and the byte order of the host is a parameter.
-/

namespace Misc

section LargeFileProgram

/-- The byte order of the machine the code is compiled for (`__BYTE_ORDER`). -/
inductive ByteOrder where
  | littleEndian
  | bigEndian
deriving DecidableEq

/-- The enumerated type `LargeFile::Endianness` (line 47). -/
inductive LargeFile.Endianness where
  | DontCare
  | LittleEndian
  | BigEndian
deriving DecidableEq

/-- The exceptions of the typed I/O methods, with the two byte counts they report. -/
inductive LargeFile.Error where
  | ReadError (numBytes numBytesRead : Nat)
  | WriteError (numBytes numBytesWritten : Nat)
deriving DecidableEq

/-- A `LargeFile` object: the endianness setting and the swap flag of the class, and the
state of the stdio stream behind `filePtr`: `input` are the bytes from the file position to
the end of the file, `output` the bytes written so far, and `room` the number of bytes the
stream accepts before writes come up short. -/
structure LargeFile where
  endianness : LargeFile.Endianness
  mustSwapEndianness : Bool
  input : List Nat
  output : List Nat
  room : Nat
deriving DecidableEq

/-- The `size` low bytes of `v`, least significant first. -/
def toLE : Nat → Nat → List Nat
  | 0, _ => []
  | size + 1, v => v % 256 :: toLE size (v / 256)

/-- The number whose bytes, least significant first, are `bytes`. -/
def fromLE : List Nat → Nat
  | [] => 0
  | b :: bs => b + 256 * fromLE bs

/-- The object representation of the `size`-byte integer `v` in the memory of the host. -/
def toMemory (host : ByteOrder) (size v : Nat) : List Nat :=
  match host with
  | ByteOrder.littleEndian => toLE size v
  | ByteOrder.bigEndian => (toLE size v).reverse

/-- The integer whose object representation in the memory of the host is `mem`. -/
def fromMemory (host : ByteOrder) (mem : List Nat) : Nat :=
  match host with
  | ByteOrder.littleEndian => fromLE mem
  | ByteOrder.bigEndian => fromLE mem.reverse

/-- Modelled from the spec: `swapEndianness` (Misc/Endianness.h is not among the sources)
reverses the bytes of the object it is given. -/
def swapEndianness (mem : List Nat) : List Nat :=
  mem.reverse

/-- The stdio function `fread(ptr,size,nitems,filePtr)`: the bytes stored at `ptr`, the
number of complete items read, and the stream afterwards. -/
def fread (f : LargeFile) (size nitems : Nat) : List Nat × Nat × LargeFile :=
  ((f.input.take (size * nitems)), (f.input.take (size * nitems)).length / size,
    { f with input := f.input.drop (size * nitems) })

/-- The stdio function `fwrite(ptr,size,nitems,filePtr)` on the `size * nitems` bytes `mem`:
the number of complete items written and the stream afterwards. -/
def fwrite (f : LargeFile) (mem : List Nat) (size nitems : Nat) : Nat × LargeFile :=
  ((mem.take (min (size * nitems) f.room)).length / size,
    { f with output := f.output ++ mem.take (min (size * nitems) f.room),
             room := f.room - (mem.take (min (size * nitems) f.room)).length })

/-- Line 133: `getEndianness`. -/
def LargeFile.getEndianness (f : LargeFile) : LargeFile.Endianness :=
  f.endianness

/-- Lines 137-146: `setEndianness`, compiled for a host of the given byte order. -/
def LargeFile.setEndianness (host : ByteOrder) (f : LargeFile)
    (newEndianness : LargeFile.Endianness) : LargeFile :=
  { f with
    endianness := newEndianness,
    mustSwapEndianness :=
      match host with
      | ByteOrder.littleEndian => newEndianness == LargeFile.Endianness.BigEndian
      | ByteOrder.bigEndian => newEndianness == LargeFile.Endianness.LittleEndian }

/-- Lines 213-223: `read<DataParam>()` for an integer type of `size` bytes. -/
def LargeFile.read (host : ByteOrder) (size : Nat) (f : LargeFile) :
    Except LargeFile.Error (Nat × LargeFile) :=
  let r := fread f 1 size
  if r.2.1 ≠ size then Except.error (LargeFile.Error.ReadError size r.2.1)
  else
    Except.ok
      (fromMemory host (if f.mustSwapEndianness then swapEndianness r.1 else r.1), r.2.2)

/-- Lines 224-233: `read(DataParam& data)`: the value stored in `data`, which is also the
result. -/
def LargeFile.readRef (host : ByteOrder) (size : Nat) (f : LargeFile) :
    Except LargeFile.Error (Nat × LargeFile) :=
  let r := fread f 1 size
  if r.2.1 ≠ size then Except.error (LargeFile.Error.ReadError size r.2.1)
  else
    Except.ok
      (fromMemory host (if f.mustSwapEndianness then swapEndianness r.1 else r.1), r.2.2)

/-- The first `count` items of `size` bytes in `mem`. -/
def memoryItems (size : Nat) : Nat → List Nat → List (List Nat)
  | 0, _ => []
  | count + 1, mem => mem.take size :: memoryItems size count (mem.drop size)

/-- Lines 234-241: `read(DataParam* data,size_t numItems)`: the result `numItemsRead` and
the items stored in `data`. No exception is thrown. -/
def LargeFile.readArray (host : ByteOrder) (size numItems : Nat) (f : LargeFile) :
    Except LargeFile.Error (Nat × List Nat × LargeFile) :=
  let r := fread f size numItems
  Except.ok
    (r.2.1,
      (memoryItems size r.2.1 r.1).map
        (fun mem => fromMemory host (if f.mustSwapEndianness then swapEndianness mem else mem)),
      r.2.2)

/-- Lines 242-256: `write(const DataParam& data)`. -/
def LargeFile.write (host : ByteOrder) (size : Nat) (data : Nat) (f : LargeFile) :
    Except LargeFile.Error LargeFile :=
  let r :=
    if f.mustSwapEndianness then fwrite f (swapEndianness (toMemory host size data)) 1 size
    else fwrite f (toMemory host size data) 1 size
  if r.1 ≠ size then Except.error (LargeFile.Error.WriteError size r.1)
  else Except.ok r.2

/-- Lines 263-270: the loop that writes the items one by one, swapped; the state is the
running `numBytesWritten` and the stream. -/
def writeSwappedLoop (host : ByteOrder) (size : Nat) (data : List Nat)
    (st : Nat × LargeFile) : Nat × LargeFile :=
  data.foldl
    (fun acc item =>
      let r := fwrite acc.2 (swapEndianness (toMemory host size item)) 1 size
      (acc.1 + r.1, r.2))
    st

/-- Lines 257-275: `write(const DataParam* data,size_t numItems)`, the array given as the
list of its `numItems` items. -/
def LargeFile.writeArray (host : ByteOrder) (size : Nat) (data : List Nat) (f : LargeFile) :
    Except LargeFile.Error LargeFile :=
  let r :=
    if f.mustSwapEndianness then writeSwappedLoop host size data (0, f)
    else
      let w := fwrite f (data.flatMap (toMemory host size)) size data.length
      (w.1 * size, w.2)
  if r.1 ≠ size * data.length then
    Except.error (LargeFile.Error.WriteError (size * data.length) r.1)
  else Except.ok r.2

/-- A stream on which nothing was read or written yet, with the given content and room,
after the constructor of `LargeFile` set the endianness (lines 91-106). -/
def LargeFile.opened (host : ByteOrder) (sEndianness : LargeFile.Endianness)
    (input : List Nat) (room : Nat) : LargeFile :=
  LargeFile.setEndianness host
    { endianness := LargeFile.Endianness.DontCare, mustSwapEndianness := false,
      input := input, output := [], room := room } sEndianness

end LargeFileProgram

/-!
## Misc: PrintfTemplateTests

A shallow embedding of `Misc/PrintfTemplateTests.cpp`: the class `TemplateChecker` and the
four functions that run it over a template. A template is the list of its characters;
values of type `unsigned int` are numbers below 2^32 and the arithmetic on them is taken
modulo 2^32.
-/

section PrintfTemplateProgram

/-- The states of the template checking machine (lines 38-41). -/
inductive CheckerState where
  | Start
  | Percent
  | Width
  | Precision
  | Error
deriving DecidableEq

/-- The class `TemplateChecker` (lines 34-52). The fields of type `unsigned int` hold
numbers below 2^32 = 4294967296. -/
structure TemplateChecker where
  conversionType : Char
  maxLength : Nat
  haveConversion : Bool
  conversionWidth : Nat
  conversionPrecision : Nat
  length : Nat
  state : CheckerState
deriving DecidableEq

/-- Lines 54-59: the constructor. -/
def TemplateChecker.create (sConversionType : Char) (sMaxLength : Nat) : TemplateChecker :=
  { conversionType := sConversionType, maxLength := sMaxLength, haveConversion := false,
    conversionWidth := 0, conversionPrecision := 0, length := 0, state := CheckerState.Start }

/-- The value `(unsigned int)(c-'0')` of a digit. -/
def digitValue (c : Char) : Nat :=
  c.toNat - 48

/-- The block at lines 88-94, repeated at lines 111-117 and 132-138: the conversion
character was read. -/
def TemplateChecker.conversionFound (tc : TemplateChecker) : TemplateChecker :=
  if tc.haveConversion then { tc with state := CheckerState.Error }
  else { tc with haveConversion := true, state := CheckerState.Start }

/-- Lines 62-147: `operator()`, one character processed; the arithmetic is that of
`unsigned int`. -/
def TemplateChecker.step (tc : TemplateChecker) (c : Char) : TemplateChecker :=
  match tc.state with
  | CheckerState.Start =>
    if c = '%' then { tc with state := CheckerState.Percent }
    else { tc with length := (tc.length + 1) % 4294967296 }
  | CheckerState.Percent =>
    if c = '%' then
      { tc with length := (tc.length + 1) % 4294967296, state := CheckerState.Start }
    else if c.isDigit then
      { tc with conversionWidth := digitValue c, state := CheckerState.Width }
    else if c = '.' then { tc with state := CheckerState.Precision }
    else if c = tc.conversionType then tc.conversionFound
    else { tc with state := CheckerState.Error }
  | CheckerState.Width =>
    if c.isDigit then
      if (tc.conversionWidth * 10 + digitValue c) % 4294967296 ≥ tc.maxLength then
        { tc with
          conversionWidth := (tc.conversionWidth * 10 + digitValue c) % 4294967296,
          state := CheckerState.Error }
      else
        { tc with conversionWidth := (tc.conversionWidth * 10 + digitValue c) % 4294967296 }
    else if c = '.' then { tc with state := CheckerState.Precision }
    else if c = tc.conversionType then tc.conversionFound
    else { tc with state := CheckerState.Error }
  | CheckerState.Precision =>
    if c.isDigit then
      if (tc.conversionPrecision * 10 + digitValue c) % 4294967296 ≥ tc.maxLength then
        { tc with
          conversionPrecision := (tc.conversionPrecision * 10 + digitValue c) % 4294967296,
          state := CheckerState.Error }
      else
        { tc with
          conversionPrecision := (tc.conversionPrecision * 10 + digitValue c) % 4294967296 }
    else if c = tc.conversionType then tc.conversionFound
    else { tc with state := CheckerState.Error }
  | CheckerState.Error => tc

/-- Lines 155-168: the length the conversion is taken to need by itself. -/
def conversionLength (conversionType : Char) : Nat :=
  if conversionType = 'u' then 10 else if conversionType = 'd' then 11 else 0

/-- Lines 148-180: `isValid`. -/
def TemplateChecker.isValid (tc : TemplateChecker) : Bool :=
  if tc.state ≠ CheckerState.Start ∨ tc.haveConversion = false then false
  else
    let stringLength := conversionLength tc.conversionType
    let stringLength := if stringLength < tc.conversionWidth then tc.conversionWidth
      else stringLength
    let stringLength := if stringLength < tc.conversionPrecision then tc.conversionPrecision
      else stringLength
    let stringLength := (stringLength + tc.length) % 4294967296
    stringLength < tc.maxLength

/-- The loop of the four functions: the checker run over the characters of a template. -/
def TemplateChecker.run (tc : TemplateChecker) (templateString : List Char) : TemplateChecker :=
  templateString.foldl TemplateChecker.step tc

/-- Lines 185-196: `isValidUintTemplate(const char*,unsigned int)`; `templateString` is the
characters before the terminating NUL. -/
def isValidUintTemplate (templateString : List Char) (maxLength : Nat) : Bool :=
  ((TemplateChecker.create 'u' maxLength).run templateString).isValid

/-- Lines 198-209: `isValidUintTemplate(const std::string&,unsigned int)`. -/
def isValidUintTemplateString (templateString : List Char) (maxLength : Nat) : Bool :=
  ((TemplateChecker.create 'u' maxLength).run templateString).isValid

/-- Lines 211-222: `isValidIntTemplate(const char*,unsigned int)`; `templateString` is the
characters before the terminating NUL. -/
def isValidIntTemplate (templateString : List Char) (maxLength : Nat) : Bool :=
  ((TemplateChecker.create 'd' maxLength).run templateString).isValid

/-- Lines 224-235: `isValidIntTemplate(const std::string&,unsigned int)`. -/
def isValidIntTemplateString (templateString : List Char) (maxLength : Nat) : Bool :=
  ((TemplateChecker.create 'd' maxLength).run templateString).isValid

/-! ### The strings printf produces

`printf` belongs to the C library and is not among the sources. The definitions of this
part follow the C standard's description of `fprintf` for the directives the checker can
accept: verbatim characters, `%%`, and one conversion `u` or `d` with the flag 0, a field
width and a precision. -/

/-- The decimal digits of `n`, most significant first, on fuel. -/
def decimalDigits : Nat → Nat → List Char
  | 0, _ => []
  | fuel + 1, n =>
    if n < 10 then [Char.ofNat (48 + n)]
    else decimalDigits fuel (n / 10) ++ [Char.ofNat (48 + n % 10)]

/-- The decimal digits of `n`. -/
def decimal (n : Nat) : List Char :=
  decimalDigits (n + 1) n

/-- Modelled from the C standard: what printf writes for one conversion `d` or `u` of a number given by
its sign and magnitude: at least `precision` digits (1 when no precision is given, and no
digit at all for 0 with precision 0), a minus sign for a negative number, and padding on
the left to the field width, with zeros after the sign when the flag 0 is given without a
precision and with blanks otherwise. -/
def formatInteger (negative : Bool) (magnitude : Nat) (zeroFlag : Bool) (width : Nat)
    (precision : Option Nat) : List Char :=
  let digits := if magnitude = 0 ∧ precision = some 0 then [] else decimal magnitude
  let digits := List.replicate (precision.getD 1 - digits.length) '0' ++ digits
  let sign := if negative then ['-'] else []
  if zeroFlag ∧ precision = none then
    sign ++ (List.replicate (width - (sign ++ digits).length) '0' ++ digits)
  else List.replicate (width - (sign ++ digits).length) ' ' ++ (sign ++ digits)

/-- Where printf is in a template: in verbatim text, after a `%` (with only the flag 0 seen
so far), in a field width, in a precision, or in a template this model does not cover. -/
inductive PrintfMode where
  | text
  | flags
  | width
  | precision
  | failed
deriving DecidableEq

/-- The state of printf while it goes through a template with one argument. -/
structure PrintfState where
  out : List Char
  mode : PrintfMode
  fresh : Bool
  zeroFlag : Bool
  width : Nat
  precision : Option Nat
  used : Bool
deriving DecidableEq

/-- The conversion character was read: the argument is formatted; a second conversion has
no argument. -/
def PrintfState.convert (negative : Bool) (magnitude : Nat) (ps : PrintfState) : PrintfState :=
  if ps.used then { ps with mode := PrintfMode.failed }
  else
    { ps with
      out := ps.out ++ formatInteger negative magnitude ps.zeroFlag ps.width ps.precision,
      mode := PrintfMode.text, used := true }

/-- Modelled from the C standard: printf on one character of the template, for templates made of verbatim
text, `%%`, and directives consisting of the flag 0, a field width, a precision and the
conversion character `conv`; anything else is outside this model. -/
def PrintfState.step (conv : Char) (negative : Bool) (magnitude : Nat) (ps : PrintfState)
    (c : Char) : PrintfState :=
  match ps.mode with
  | PrintfMode.text =>
    if c = '%' then
      { ps with mode := PrintfMode.flags, fresh := true, zeroFlag := false, width := 0,
                precision := none }
    else { ps with out := ps.out ++ [c] }
  | PrintfMode.flags =>
    if c = '%' then
      if ps.fresh then { ps with out := ps.out ++ ['%'], mode := PrintfMode.text }
      else { ps with mode := PrintfMode.failed }
    else if c = '0' then { ps with zeroFlag := true, fresh := false }
    else if c.isDigit then
      { ps with width := digitValue c, mode := PrintfMode.width, fresh := false }
    else if c = '.' then { ps with precision := some 0, mode := PrintfMode.precision }
    else if c = conv then ps.convert negative magnitude
    else { ps with mode := PrintfMode.failed }
  | PrintfMode.width =>
    if c.isDigit then { ps with width := ps.width * 10 + digitValue c }
    else if c = '.' then { ps with precision := some 0, mode := PrintfMode.precision }
    else if c = conv then ps.convert negative magnitude
    else { ps with mode := PrintfMode.failed }
  | PrintfMode.precision =>
    if c.isDigit then { ps with precision := some (ps.precision.getD 0 * 10 + digitValue c) }
    else if c = conv then ps.convert negative magnitude
    else { ps with mode := PrintfMode.failed }
  | PrintfMode.failed => ps

/-- The state printf starts in. -/
def PrintfState.start : PrintfState :=
  { out := [], mode := PrintfMode.text, fresh := false, zeroFlag := false, width := 0,
    precision := none, used := false }

/-- The string printf produces from a template and one number; `none` when the template is
outside this model or ends inside a directive. -/
def printfOutput (conv : Char) (negative : Bool) (magnitude : Nat) (template : List Char) :
    Option (List Char) :=
  let ps := template.foldl (PrintfState.step conv negative magnitude) PrintfState.start
  if ps.mode = PrintfMode.text then some ps.out else none

/-- The string `printf(template,v)` produces for an `unsigned int` v and a template with
the conversion `u`. -/
def printfUint (template : List Char) (v : Nat) : Option (List Char) :=
  printfOutput 'u' false v template

/-- The string `printf(template,v)` produces for an `int` v and a template with the
conversion `d`. -/
def printfInt (template : List Char) (v : Int) : Option (List Char) :=
  printfOutput 'd' (decide (v < 0)) v.natAbs template

/-! ### The form of a valid template

The definitions of this part follow the words of claim C23, to be compared with
`isValidUintTemplate` and `isValidIntTemplate`. -/

/-- The string consists of non-`%` characters and `%%` pairs, `n` of them in all. -/
inductive Verbatim : List Char → Nat → Prop where
  | nil : Verbatim [] 0
  | char (c : Char) (rest : List Char) (n : Nat) :
      c ≠ '%' → Verbatim rest n → Verbatim (c :: rest) (n + 1)
  | percent (rest : List Char) (n : Nat) :
      Verbatim rest n → Verbatim ('%' :: '%' :: rest) (n + 1)

/-- The value of a string of decimal digits; 0 for the empty string. -/
def decimalValue (digits : List Char) : Nat :=
  digits.foldl (fun acc c => acc * 10 + digitValue c) 0

/-- The template is `L0 ++ "%" ++ W ++ P ++ conv ++ L1` with `L0` and `L1` verbatim, `W`
decimal digits, `P` empty or a `.` followed by decimal digits `D`, and the larger of
`base`, the value of `W` and the value of `D`, plus the number of verbatim characters and
`%%` pairs, is below `maxLength`. -/
def MatchesTemplate (conv : Char) (base maxLength : Nat) (t : List Char) : Prop :=
  ∃ (L0 L1 W P D : List Char) (n0 n1 : Nat),
    t = L0 ++ '%' :: (W ++ (P ++ conv :: L1)) ∧ Verbatim L0 n0 ∧ Verbatim L1 n1 ∧
    (∀ c ∈ W, c.isDigit = true) ∧ (∀ c ∈ D, c.isDigit = true) ∧
    ((P = [] ∧ D = []) ∨ P = '.' :: D) ∧
    max base (max (decimalValue W) (decimalValue D)) + (n0 + n1) < maxLength

/-- What the checker has read so far, by the state it is in: `Parsed conv maxLength p tc`
says how the characters `p` read so far are made up when the checker, started for the
conversion `conv`, is in state `tc` after them. -/
inductive Parsed (conv : Char) (maxLength : Nat) : List Char → TemplateChecker → Prop where
  | error (p : List Char) (tc : TemplateChecker) :
      tc.state = CheckerState.Error → Parsed conv maxLength p tc
  | doomed (p : List Char) (tc : TemplateChecker) :
      tc.haveConversion = true →
      tc.state = CheckerState.Width ∨ tc.state = CheckerState.Precision →
      Parsed conv maxLength p tc
  | text (p : List Char) (tc : TemplateChecker) (n : Nat) :
      Verbatim p n →
      tc = { conversionType := conv, maxLength := maxLength, haveConversion := false,
             conversionWidth := 0, conversionPrecision := 0, length := n,
             state := CheckerState.Start } →
      Parsed conv maxLength p tc
  | percent (p : List Char) (tc : TemplateChecker) (L : List Char) (n : Nat) :
      p = L ++ ['%'] → Verbatim L n →
      tc = { conversionType := conv, maxLength := maxLength, haveConversion := false,
             conversionWidth := 0, conversionPrecision := 0, length := n,
             state := CheckerState.Percent } →
      Parsed conv maxLength p tc
  | width (p : List Char) (tc : TemplateChecker) (L W : List Char) (n : Nat) :
      p = L ++ '%' :: W → Verbatim L n → (∀ c ∈ W, c.isDigit = true) →
      decimalValue W < 268435456 →
      tc = { conversionType := conv, maxLength := maxLength, haveConversion := false,
             conversionWidth := decimalValue W, conversionPrecision := 0, length := n,
             state := CheckerState.Width } →
      Parsed conv maxLength p tc
  | precision (p : List Char) (tc : TemplateChecker) (L W D : List Char) (n : Nat) :
      p = L ++ '%' :: (W ++ '.' :: D) → Verbatim L n → (∀ c ∈ W, c.isDigit = true) →
      (∀ c ∈ D, c.isDigit = true) →
      decimalValue W < 268435456 → decimalValue D < 268435456 →
      tc = { conversionType := conv, maxLength := maxLength, haveConversion := false,
             conversionWidth := decimalValue W, conversionPrecision := decimalValue D,
             length := n, state := CheckerState.Precision } →
      Parsed conv maxLength p tc
  | done (p : List Char) (tc : TemplateChecker) (L0 L1 W P D : List Char) (n0 n1 : Nat) :
      p = L0 ++ '%' :: (W ++ (P ++ conv :: L1)) → Verbatim L0 n0 → Verbatim L1 n1 →
      (∀ c ∈ W, c.isDigit = true) → (∀ c ∈ D, c.isDigit = true) →
      ((P = [] ∧ D = []) ∨ P = '.' :: D) →
      decimalValue W < 268435456 → decimalValue D < 268435456 →
      tc = { conversionType := conv, maxLength := maxLength, haveConversion := true,
             conversionWidth := decimalValue W, conversionPrecision := decimalValue D,
             length := n0 + n1, state := CheckerState.Start } →
      Parsed conv maxLength p tc
  | again (p : List Char) (tc : TemplateChecker) (L0 L1 W P D : List Char) (n0 n1 : Nat) :
      p = L0 ++ '%' :: (W ++ (P ++ conv :: (L1 ++ ['%']))) → Verbatim L0 n0 →
      Verbatim L1 n1 →
      (∀ c ∈ W, c.isDigit = true) → (∀ c ∈ D, c.isDigit = true) →
      ((P = [] ∧ D = []) ∨ P = '.' :: D) →
      decimalValue W < 268435456 → decimalValue D < 268435456 →
      tc = { conversionType := conv, maxLength := maxLength, haveConversion := true,
             conversionWidth := decimalValue W, conversionPrecision := decimalValue D,
             length := n0 + n1, state := CheckerState.Percent } →
      Parsed conv maxLength p tc

/-- The checker is past accepting: it is in the error state, or it reads the width or the
precision of a further conversion after it has found one. -/
def TemplateChecker.Doomed (tc : TemplateChecker) : Prop :=
  tc.state = CheckerState.Error ∨
    (tc.haveConversion = true ∧
      (tc.state = CheckerState.Width ∨ tc.state = CheckerState.Precision))

/-- The checker is inside a directive or in the error state. -/
def TemplateChecker.InDirective (tc : TemplateChecker) : Prop :=
  tc.state = CheckerState.Percent ∨ tc.state = CheckerState.Width ∨
    tc.state = CheckerState.Precision ∨ tc.state = CheckerState.Error

end PrintfTemplateProgram

end Misc

/-!
# Vrui utilities: DeviceTest

A shallow embedding of the class `LatencyHistogram` of `Vrui/Utilities/DeviceTest.cpp`.
Values of type `unsigned int` are numbers below 2^32 and the arithmetic on them is
taken modulo 2^32 where the source can wrap.
-/

namespace DeviceTest

section HistogramProgram

/-- The class `LatencyHistogram` (lines 53-64). The fields of type `unsigned int` hold
numbers below 2^32 = 4294967296; `bins` is the array behind the pointer; `latencySum`, a
double in the source, is kept exact. -/
structure LatencyHistogram where
  binSize : Nat
  maxBinLatency : Nat
  numBins : Nat
  bins : List Nat
  numSamples : Nat
  latencySum : ℚ
  minLatency : Nat
  maxLatency : Nat
  maxBinSize : Nat
deriving DecidableEq

/-- Lines 81-93: `reset`; the array has `numBins` elements. -/
def LatencyHistogram.reset (h : LatencyHistogram) : LatencyHistogram :=
  { h with
    bins := List.replicate h.numBins 0,
    numSamples := 0,
    latencySum := 0,
    minLatency := 4294967295,
    maxLatency := 0,
    maxBinSize := 0 }

/-- Lines 68-74: the constructor, for `sBinSize` other than 0 (the division is undefined
otherwise): `numBins` is computed in `unsigned int`, the array of `numBins` elements is
allocated, and `reset` sets everything else. -/
def LatencyHistogram.construct (sBinSize sMaxBinLatency : Nat) : LatencyHistogram :=
  LatencyHistogram.reset
    { binSize := sBinSize, maxBinLatency := sMaxBinLatency,
      numBins := (sMaxBinLatency / sBinSize + 2) % 4294967296,
      bins := [], numSamples := 0, latencySum := 0, minLatency := 0, maxLatency := 0,
      maxBinSize := 0 }

/-- The value of `numBins-1` in `unsigned int`. -/
def LatencyHistogram.lastBin (h : LatencyHistogram) : Nat :=
  (h.numBins + 4294967295) % 4294967296

/-- Lines 97-99: the bin a latency is counted in. -/
def LatencyHistogram.binIndex (h : LatencyHistogram) (latency : Nat) : Nat :=
  if latency / h.binSize > h.lastBin then h.lastBin else latency / h.binSize

/-- Lines 94-111: `addSample`; `none` when `bins[binIndex]` lies outside the array, which
the source does not check. -/
def LatencyHistogram.addSample (h : LatencyHistogram) (latency : Nat) :
    Option LatencyHistogram :=
  match h.bins[h.binIndex latency]? with
  | none => none
  | some count =>
    some { h with
      bins := h.bins.set (h.binIndex latency) ((count + 1) % 4294967296),
      maxBinSize :=
        if h.maxBinSize < (count + 1) % 4294967296 then (count + 1) % 4294967296
        else h.maxBinSize,
      numSamples := (h.numSamples + 1) % 4294967296,
      latencySum := h.latencySum + latency,
      minLatency := if h.minLatency > latency then latency else h.minLatency,
      maxLatency := if h.maxLatency < latency then latency else h.maxLatency }

/-- Lines 119-121: `firstBinIndex` of `printHistogram`. -/
def LatencyHistogram.firstBinIndex (h : LatencyHistogram) : Nat :=
  if h.minLatency / h.binSize > h.lastBin then h.lastBin else h.minLatency / h.binSize

/-- Lines 122-124: `lastBinIndex` of `printHistogram`. -/
def LatencyHistogram.lastBinIndex (h : LatencyHistogram) : Nat :=
  if h.maxLatency / h.binSize > h.lastBin then h.lastBin else h.maxLatency / h.binSize

/-- Line 133: the number of stars printed for bin `i`, computed in `unsigned int`; `none`
when `bins[i]` lies outside the array or `maxBinSize` is 0 (division by zero). -/
def LatencyHistogram.barWidth (h : LatencyHistogram) (i : Nat) : Option Nat :=
  match h.bins[i]? with
  | none => none
  | some count =>
    if h.maxBinSize = 0 then none
    else some ((count * 71 + h.maxBinSize + 4294967295) % 4294967296 / h.maxBinSize)

/-- One line of the histogram: the latency the bin starts at, or `none` for the line
labelled Outliers, and the number of stars. -/
structure HistogramRow where
  label : Option Nat
  width : Nat
deriving DecidableEq

/-- The rows for the bins of a list of indices, in order. -/
def LatencyHistogram.rows (h : LatencyHistogram) : List Nat → Option (List HistogramRow)
  | [] => some []
  | i :: is =>
    match h.barWidth i, LatencyHistogram.rows h is with
    | some w, some rest =>
      some ({ label := if i < h.lastBin then some (i * h.binSize % 4294967296) else none,
              width := w } :: rest)
    | _, _ => none

/-- Lines 116-140: the bar lines `printHistogram` prints, for `i` from `firstBinIndex` to
`lastBinIndex`; `none` when a bar cannot be computed, or when `lastBinIndex` is 2^32 - 1
and `i<=lastBinIndex` never becomes false. -/
def LatencyHistogram.printHistogram (h : LatencyHistogram) : Option (List HistogramRow) :=
  if h.lastBinIndex = 4294967295 then none
  else h.rows (List.range' h.firstBinIndex (h.lastBinIndex + 1 - h.firstBinIndex))

/-- The calls that change a histogram. -/
inductive HistogramCall where
  | reset
  | addSample (latency : Nat)
deriving DecidableEq

/-- One call on a histogram. -/
def LatencyHistogram.call (h : LatencyHistogram) : HistogramCall → Option LatencyHistogram
  | HistogramCall.reset => some h.reset
  | HistogramCall.addSample latency => h.addSample latency

/-- A sequence of calls on a histogram. -/
def LatencyHistogram.run : List HistogramCall → LatencyHistogram → Option LatencyHistogram
  | [], h => some h
  | c :: cs, h =>
    match h.call c with
    | none => none
    | some h1 => LatencyHistogram.run cs h1

/-- A sequence of `addSample` calls. -/
def LatencyHistogram.addSamples (latencies : List Nat) (h : LatencyHistogram) :
    Option LatencyHistogram :=
  LatencyHistogram.run (latencies.map HistogramCall.addSample) h

/-- The samples since the last reset, after one more call. -/
def trackCall (samples : List Nat) : HistogramCall → List Nat
  | HistogramCall.reset => []
  | HistogramCall.addSample latency => samples ++ [latency]

/-- The latencies of the `addSample` calls after the last `reset` in a sequence of calls. -/
def samplesSinceReset (calls : List HistogramCall) : List Nat :=
  calls.foldl trackCall []

/-- The latencies passed in a sequence of calls. -/
def latenciesOf : List HistogramCall → List Nat
  | [] => []
  | HistogramCall.reset :: cs => latenciesOf cs
  | HistogramCall.addSample latency :: cs => latency :: latenciesOf cs

/-- What holds of a histogram built with bin size `b` and maximum latency `m`, when the
constructor's `numBins`, which is `m / b + 2` modulo 2^32, is not 0, after calls whose
samples since the last reset are `ls`. -/
structure HistogramInv (b m : Nat) (h : LatencyHistogram) (ls : List Nat) : Prop where
  binSize_eq : h.binSize = b
  maxBinLatency_eq : h.maxBinLatency = m
  numBins_eq : h.numBins = (m / b + 2) % 4294967296
  numBins_pos : 0 < h.numBins
  length_eq : h.bins.length = h.numBins
  empty : ls = [] → h.minLatency = 4294967295 ∧ h.maxLatency = 0 ∧ h.maxBinSize = 0 ∧
    ∀ c ∈ h.bins, c = 0
  range : ∀ l ∈ ls, h.minLatency ≤ l ∧ l ≤ h.maxLatency
  attained : ls ≠ [] → h.minLatency ∈ ls ∧ h.maxLatency ∈ ls ∧ 1 ≤ h.maxBinSize
  counted : ∀ i c, h.bins[i]? = some c → 1 ≤ c → ∃ l ∈ ls, h.binIndex l = i
  bounded : ∀ c ∈ h.bins, c ≤ h.maxBinSize
  small : ∀ c ∈ h.bins, c < 4294967296
  exact : ls.length < 4294967296 →
    h.bins.sum = ls.length ∧ h.numSamples = ls.length ∧ h.maxBinSize ∈ h.bins

end HistogramProgram

end DeviceTest

namespace SharedJelloServer

/-! ## Theorems -/

section Proofs

variable {S T : Type}

/-- C3: for lockedIndex and mostRecentIndex in {0,1,2}, the slot the CLIENT_UPDATE handler
writes into lies in {0,1,2} and differs from both. -/
theorem nextIndex_free (L M : Nat) (hL : L < 3) (hM : M < 3) :
    nextIndex L M < 3 ∧ nextIndex L M ≠ L ∧ nextIndex L M ≠ M := by
  unfold nextIndex
  interval_cases L <;> interval_cases M <;> decide

/-- Witness for C3 at lockedIndex = 2 and mostRecentIndex = 0. -/
theorem nextIndex_free_witness :
    (2 < 3 ∧ 0 < 3) ∧ nextIndex 2 0 < 3 ∧ nextIndex 2 0 ≠ 2 ∧ nextIndex 2 0 ≠ 0 :=
  ⟨by decide, nextIndex_free 2 0 (by decide) (by decide)⟩

/-! ### Crystal operations: what they change -/

@[simp] theorem lockAtom_locked (c : Crystal S T) (a b : AtomID) :
    (c.lockAtom a).1.locked b = (if b = a then true else c.locked b) := by
  unfold Crystal.lockAtom
  by_cases h : c.locked a = true
  · by_cases hb : b = a
    · subst hb; simp [h]
    · simp [h, hb]
  · simp [h]

theorem lockAtom_snd (c : Crystal S T) (a : AtomID) :
    (c.lockAtom a).2 = !c.locked a := by
  unfold Crystal.lockAtom
  by_cases h : c.locked a = true <;> simp [h]

@[simp] theorem unlockAtom_locked (c : Crystal S T) (a b : AtomID) :
    (c.unlockAtom a).locked b = (if b = a then false else c.locked b) := rfl

@[simp] theorem setAtomState_locked (c : Crystal S T) (a : AtomID) (t : T) :
    (c.setAtomState a t).locked = c.locked := rfl

@[simp] theorem pickAtomRay_locked (K : Collaborators S T) (c : Crystal S T) (r : Ray S) :
    (c.pickAtomRay K r).1.locked = c.locked := rfl

@[simp] theorem pickAtomPoint_locked (K : Collaborators S T) (c : Crystal S T) (p : Point S) :
    (c.pickAtomPoint K p).1.locked = c.locked := rfl

/-! ### Ownership: the lock bitmap agrees with the atom locks -/

theorem lockInv_perm {f : AtomID → Bool} {l l' : List AtomID} (h : LockInv f l)
    (hp : l.Perm l') : LockInv f l' :=
  ⟨hp.nodup_iff.mp h.1, fun a => (h.2 a).trans hp.mem_iff⟩

theorem lockInv_lock {c : Crystal S T} {l : List AtomID} (h : LockInv c.locked l)
    (a : AtomID) (ha : c.locked a = false) : LockInv (c.lockAtom a).1.locked (a :: l) := by
  refine ⟨List.nodup_cons.mpr ⟨?_, h.1⟩, fun b => ?_⟩
  · intro hm
    have := (h.2 a).mpr hm
    simp [ha] at this
  · rw [lockAtom_locked]
    by_cases hb : b = a
    · simp [hb]
    · simp [hb, h.2 b]

theorem lockInv_unlock {c : Crystal S T} {l : List AtomID} {a : AtomID}
    (h : LockInv c.locked (a :: l)) : LockInv (c.unlockAtom a).locked l := by
  have hn := List.nodup_cons.mp h.1
  refine ⟨hn.2, fun b => ?_⟩
  rw [unlockAtom_locked]
  by_cases hb : b = a
  · subst hb
    simp [hn.1]
  · simp [hb, h.2 b]

theorem find_eraseP_perm {α : Type} (p : α → Bool) (l : List α) (x : α)
    (h : l.find? p = some x) : l.Perm (x :: l.eraseP p) := by
  induction l with
  | nil => simp at h
  | cons y ys ih =>
    by_cases hy : p y = true
    · simp [List.find?, hy] at h
      subst h
      simp [List.eraseP, hy]
    · simp only [Bool.not_eq_true] at hy
      simp [List.find?, hy] at h
      simp only [List.eraseP, hy, cond_false]
      exact ((ih h).cons y).trans (List.Perm.swap x y _)

theorem processDragger_lockInv [Mul T] [Inv T] (K : Collaborators S T) (d : Dragger S T)
    (st : Crystal S T × List (AtomLock T)) (pre post : List AtomID)
    (h : LockInv st.1.locked (pre ++ lockedAtoms st.2 ++ post)) :
    LockInv (processDragger K d st).1.locked
      (pre ++ lockedAtoms (processDragger K d st).2 ++ post) := by
  unfold processDragger
  by_cases hact : d.active = true
  · simp only [hact, if_true]
    cases hf : st.2.find? (fun al => al.draggerID == d.draggerID) with
    | some al => simpa using h
    | none =>
      simp only
      generalize hpk : (if d.rayBased = true then st.1.pickAtomRay K d.ray
        else st.1.pickAtomPoint K (K.getOrigin d.transformation)) = pk
      have hpkl : pk.1.locked = st.1.locked := by
        rw [← hpk]; split <;> rfl
      by_cases hl : pk.1.locked pk.2 = true
      · have : (pk.1.lockAtom pk.2).2 = false := by simp [lockAtom_snd, hl]
        simp only [this, Bool.false_eq_true, if_false]
        refine ⟨h.1, fun b => ?_⟩
        rw [lockAtom_locked]
        by_cases hb : b = pk.2
        · subst hb
          simp only [if_true, true_iff]
          exact (h.2 _).mp (by rw [← hpkl]; exact hl)
        · simp only [hb, if_false, hpkl]
          exact h.2 b
      · simp only [Bool.not_eq_true] at hl
        have : (pk.1.lockAtom pk.2).2 = true := by simp [lockAtom_snd, hl]
        simp only [this, if_true, setAtomState_locked]
        have h' : LockInv pk.1.locked (pre ++ lockedAtoms st.2 ++ post) := by
          rw [hpkl]; exact h
        refine lockInv_perm (lockInv_lock h' pk.2 hl) ?_
        simp only [lockedAtoms, List.map_append, List.map_cons, List.map_nil]
        have : (pk.2 :: (pre ++ List.map (fun al => al.draggedAtom) st.2 ++ post)).Perm
            (pre ++ (List.map (fun al => al.draggedAtom) st.2 ++ [pk.2]) ++ post) := by
          rw [List.perm_iff_count]
          intro a
          simp [List.count_cons, List.count_append]
          omega
        exact this
  · simp only [hact, Bool.false_eq_true, if_false]
    cases hf : st.2.find? (fun al => al.draggerID == d.draggerID) with
    | none => simpa using h
    | some al =>
      simp only
      have hp := find_eraseP_perm _ _ _ hf
      apply lockInv_unlock
      refine lockInv_perm h ?_
      have hp2 : (lockedAtoms st.2).Perm
          (al.draggedAtom :: lockedAtoms (st.2.eraseP (fun x => x.draggerID == d.draggerID))) := by
        simpa [lockedAtoms] using hp.map (fun al => al.draggedAtom)
      refine ((hp2.append_left pre).append_right post).trans ?_
      rw [List.perm_iff_count]
      intro a
      simp [List.count_cons, List.count_append]
      omega

theorem ingestUpdate_lockInv [Mul T] [Inv T] (K : Collaborators S T) (su : StateUpdate S T)
    (st : Crystal S T × List (AtomLock T)) (pre post : List AtomID)
    (h : LockInv st.1.locked (pre ++ lockedAtoms st.2 ++ post)) :
    LockInv (ingestUpdate K su st).1.locked
      (pre ++ lockedAtoms (ingestUpdate K su st).2 ++ post) := by
  unfold ingestUpdate
  generalize List.range su.numDraggers.toNat = idx
  induction idx generalizing st with
  | nil => simpa using h
  | cons i is ih =>
    simp only [List.foldl_cons]
    apply ih
    cases su.entry i with
    | none => exact h
    | some d => exact processDragger_lockInv K d st pre post h

theorem ingestClient_lockInv [Mul T] [Inv T] (K : Collaborators S T) (cr : Crystal S T)
    (c : ClientState S T) (pre post : List AtomID)
    (h : LockInv cr.locked (pre ++ lockedAtoms c.atomLocks ++ post)) :
    LockInv (ingestClient K cr c).1.locked
      (pre ++ lockedAtoms (ingestClient K cr c).2.atomLocks ++ post) := by
  unfold ingestClient
  by_cases hne : c.lockedIndex ≠ c.mostRecentIndex
  · simp only [hne, ne_eq, not_false_eq_true, if_true]
    exact ingestUpdate_lockInv K _ (cr, c.atomLocks) pre post h
  · simp only [hne, if_false]
    exact h

theorem ingestClients_lockInv [Mul T] [Inv T] (K : Collaborators S T)
    (cs : List (ClientState S T)) (cr : Crystal S T) (pre : List AtomID)
    (h : LockInv cr.locked (pre ++ heldAtoms cs)) :
    LockInv (ingestClients K cr cs).1.locked (pre ++ heldAtoms (ingestClients K cr cs).2) := by
  induction cs generalizing cr pre with
  | nil => simpa [ingestClients] using h
  | cons c cs ih =>
    simp only [ingestClients]
    have h1 : LockInv cr.locked (pre ++ lockedAtoms c.atomLocks ++ heldAtoms cs) := by
      simpa [heldAtoms, List.append_assoc] using h
    have h2 := ingestClient_lockInv K cr c pre (heldAtoms cs) h1
    have h3 := ih _ _ h2
    simpa [heldAtoms, List.append_assoc] using h3

theorem ingestClient_ptr [Mul T] [Inv T] (K : Collaborators S T) (cr : Crystal S T)
    (c : ClientState S T) : (ingestClient K cr c).2.ptr = c.ptr := by
  unfold ingestClient
  split <;> rfl

theorem ingestClients_ptrs [Mul T] [Inv T] (K : Collaborators S T)
    (cs : List (ClientState S T)) (cr : Crystal S T) :
    (ingestClients K cr cs).2.map (fun c => c.ptr) = cs.map (fun c => c.ptr) := by
  induction cs generalizing cr with
  | nil => rfl
  | cons c cs ih => simp [ingestClients, ih, ingestClient_ptr]

/-! ### What the communication thread leaves alone -/

theorem readerFrame_refl (c : ClientState S T) : ReaderFrame c c :=
  ⟨rfl, rfl, rfl, rfl⟩

theorem readerFrame_leave (c : ClientState S T) : ReaderFrame c c.leave :=
  ⟨rfl, rfl, rfl, rfl⟩

theorem readerFrame_sendConnectReply (cr : Crystal S T) (c : ClientState S T) :
    ReaderFrame c (sendConnectReply cr c) := by
  unfold sendConnectReply
  split <;> exact ⟨rfl, rfl, rfl, rfl⟩

theorem readerFrame_markConnected (c : ClientState S T) : ReaderFrame c (markConnected c) :=
  ⟨rfl, rfl, rfl, rfl⟩

theorem readerFrame_disconnectRequest (c : ClientState S T) :
    ReaderFrame c (disconnectRequest c) := by
  unfold disconnectRequest
  split <;> exact ⟨rfl, rfl, rfl, rfl⟩

theorem readerFrame_readNumDraggers (r : Option Int) (c : ClientState S T) :
    ReaderFrame c (readNumDraggers r c) := by
  unfold readNumDraggers
  repeat' split
  all_goals exact ⟨rfl, rfl, rfl, rfl⟩

theorem readerFrame_readDragger (n k : Nat) (r : DraggerRead S T) (c : ClientState S T) :
    ReaderFrame c (readDragger n k r c) := by
  unfold readDragger
  repeat' split
  all_goals exact ⟨rfl, rfl, rfl, rfl⟩

theorem readerFrame_decodeStep (r : DraggerRead S T) (c : ClientState S T) :
    ReaderFrame c (decodeStep r c) := by
  unfold decodeStep
  split
  · split
    · exact readerFrame_readDragger _ _ _ _
    · exact ⟨rfl, rfl, rfl, rfl⟩
  · exact readerFrame_refl c

/-! ### Steps, client by client -/

theorem mem_updateClient {s : Server S T} {c x : ClientState S T}
    (h : x ∈ (s.updateClient c).clientStates) : x = c ∨ x ∈ s.clientStates := by
  simp only [Server.updateClient, List.mem_map] at h
  obtain ⟨y, hy, rfl⟩ := h
  by_cases hp : y.ptr = c.ptr
  · simp [hp]
  · simp [hp, hy]

theorem handleMessage_cases [Mul T] [Inv T] (K : Collaborators S T) (msg : Option MessageId)
    (r1 r2 r3 : Option S) (c : ClientState S T) (s : Server S T)
    (hw : c.thread = ThreadState.waiting) :
    ∃ c' s0, (s0 = s ∨ s0 = paramUpdate r1 r2 r3 s) ∧ ClientStep K s c c' ∧
      ReaderFrame c c' ∧ handleMessage msg r1 r2 r3 c s = s0.updateClient c' := by
  have fl := readerFrame_leave c
  unfold handleMessage
  cases msg with
  | none => exact ⟨_, s, Or.inl rfl, ClientStep.leave c hw, fl, rfl⟩
  | some m =>
    cases m with
    | DISCONNECT_REQUEST =>
      exact ⟨_, s, Or.inl rfl, ClientStep.disconnectRequest c hw,
        readerFrame_disconnectRequest c, rfl⟩
    | CLIENT_PARAMUPDATE =>
      refine ⟨_, _, Or.inr rfl, ?_, ?_, rfl⟩
      · split
        · exact ClientStep.same c
        · exact ClientStep.leave c hw
      · split
        · exact readerFrame_refl c
        · exact fl
    | CLIENT_UPDATE =>
      exact ⟨_, s, Or.inl rfl, ClientStep.clientUpdate c hw, ⟨rfl, rfl, rfl, rfl⟩, rfl⟩
    | CONNECT_REPLY => exact ⟨_, s, Or.inl rfl, ClientStep.leave c hw, fl, rfl⟩
    | DISCONNECT_REPLY => exact ⟨_, s, Or.inl rfl, ClientStep.leave c hw, fl, rfl⟩
    | SERVER_PARAMUPDATE => exact ⟨_, s, Or.inl rfl, ClientStep.leave c hw, fl, rfl⟩
    | SERVER_UPDATE => exact ⟨_, s, Or.inl rfl, ClientStep.leave c hw, fl, rfl⟩
    | other n => exact ⟨_, s, Or.inl rfl, ClientStep.leave c hw, fl, rfl⟩

theorem paramUpdate_clientStates (r1 r2 r3 : Option S) (s : Server S T) :
    (paramUpdate r1 r2 r3 s).clientStates = s.clientStates := by
  unfold paramUpdate
  cases r1 <;> cases r2 <;> cases r3 <;> rfl

theorem paramUpdate_crystal (r1 r2 r3 : Option S) (s : Server S T) :
    (paramUpdate r1 r2 r3 s).crystal = s.crystal := by
  unfold paramUpdate
  cases r1 <;> cases r2 <;> cases r3 <;> rfl

theorem paramUpdate_parameterVersion (r1 r2 r3 : Option S) (s : Server S T) :
    (paramUpdate r1 r2 r3 s).parameterVersion = s.parameterVersion := by
  unfold paramUpdate
  cases r1 <;> cases r2 <;> cases r3 <;> rfl

theorem paramUpdate_newParameterVersion (r1 r2 r3 : Option S) (s : Server S T) :
    (paramUpdate r1 r2 r3 s).newParameterVersion = s.newParameterVersion + 1 := by
  unfold paramUpdate
  cases r1 <;> cases r2 <;> cases r3 <;> rfl

theorem mem_ingestClients [Mul T] [Inv T] (K : Collaborators S T)
    (cs : List (ClientState S T)) (cr : Crystal S T) (x : ClientState S T)
    (h : x ∈ (ingestClients K cr cs).2) :
    ∃ c ∈ cs, ∃ cr', x = (ingestClient K cr' c).2 := by
  induction cs generalizing cr with
  | nil => simp [ingestClients] at h
  | cons c cs ih =>
    simp only [ingestClients, List.mem_cons] at h
    rcases h with h | h
    · exact ⟨c, List.mem_cons_self _ _, cr, h⟩
    · obtain ⟨y, hy, cr', hx⟩ := ih _ h
      exact ⟨y, List.mem_cons_of_mem _ hy, cr', hx⟩

/-- Every client state after a step is a new one or comes from one before the step by a
client step. -/
theorem step_clients [Mul T] [Inv T] {K : Collaborators S T} {s s' : Server S T}
    (h : Step K s s') (x' : ClientState S T) (hx : x' ∈ s'.clientStates) :
    (∃ p capacity, x' = ClientState.new p capacity) ∨
      ∃ x ∈ s.clientStates, ClientStep K s x x' := by
  have upd : ∀ (s0 : Server S T) (c c' : ClientState S T), s0.clientStates = s.clientStates →
      c ∈ s.clientStates → ClientStep K s c c' → x' ∈ (s0.updateClient c').clientStates →
      ∃ x ∈ s.clientStates, ClientStep K s x x' := by
    intro s0 c c' hs0 hc hstep hmem
    rcases mem_updateClient hmem with rfl | hm
    · exact ⟨c, hc, hstep⟩
    · exact ⟨x', hs0 ▸ hm, ClientStep.same x'⟩
  cases h with
  | accept p capacity hfresh =>
    simp only [List.mem_append, List.mem_singleton] at hx
    rcases hx with hx | hx
    · exact Or.inr ⟨x', hx, ClientStep.same x'⟩
    · exact Or.inl ⟨p, capacity, hx⟩
  | connectReply c hc ht => exact Or.inr (upd s c _ rfl hc (ClientStep.connectReply c ht) hx)
  | markConnected c hc ht => exact Or.inr (upd s c _ rfl hc (ClientStep.markConnected c ht) hx)
  | message c msg r1 r2 r3 hc ht =>
    obtain ⟨c', s0, hs0, hstep, _, heq⟩ := handleMessage_cases K msg r1 r2 r3 c s ht
    rw [heq] at hx
    refine Or.inr (upd s0 c c' ?_ hc hstep hx)
    rcases hs0 with rfl | rfl
    · rfl
    · exact paramUpdate_clientStates _ _ _ _
  | count c r hc => exact Or.inr (upd s c _ rfl hc (ClientStep.count c r) hx)
  | decode c r hc => exact Or.inr (upd s c _ rfl hc (ClientStep.decode c r) hx)
  | cleanup c hc ht =>
    exact Or.inr ⟨x', List.mem_of_mem_eraseP hx, ClientStep.same x'⟩
  | applyParameters =>
    refine Or.inr ⟨x', ?_, ClientStep.same x'⟩
    unfold SharedJelloServer.applyParameters at hx
    split at hx <;> exact hx
  | ingest =>
    obtain ⟨c, hc, cr', rfl⟩ := mem_ingestClients K _ _ _ hx
    exact Or.inr ⟨c, hc, ClientStep.ingest c cr'⟩
  | physics dt => exact Or.inr ⟨x', hx, ClientStep.same x'⟩
  | broadcast =>
    simp only [sendServerUpdate, List.mem_map] at hx
    obtain ⟨c, hc, rfl⟩ := hx
    exact Or.inr ⟨c, hc, ClientStep.broadcast c⟩

theorem sendServerUpdateTo_ptr (s : Server S T) (c : ClientState S T) :
    (sendServerUpdateTo s c).ptr = c.ptr := by
  unfold sendServerUpdateTo
  repeat' split
  all_goals rfl

theorem sendServerUpdateTo_atomLocks (s : Server S T) (c : ClientState S T) :
    (sendServerUpdateTo s c).atomLocks = c.atomLocks := by
  unfold sendServerUpdateTo
  repeat' split
  all_goals rfl

theorem heldAtoms_map (f : ClientState S T → ClientState S T) (l : List (ClientState S T))
    (h : ∀ x ∈ l, (f x).atomLocks = x.atomLocks) : heldAtoms (l.map f) = heldAtoms l := by
  induction l with
  | nil => rfl
  | cons y ys ih =>
    have hy := h y (List.mem_cons_self _ _)
    have hys := ih (fun x hx => h x (List.mem_cons_of_mem _ hx))
    simp only [heldAtoms, List.map_cons, List.flatMap_cons] at hys ⊢
    rw [hy, hys]

theorem ptrs_map (f : ClientState S T → ClientState S T) (l : List (ClientState S T))
    (h : ∀ x ∈ l, (f x).ptr = x.ptr) :
    (l.map f).map (fun c => c.ptr) = l.map (fun c => c.ptr) := by
  rw [List.map_map]
  exact List.map_congr_left (fun x hx => h x hx)

theorem eq_of_ptr_eq {l : List (ClientState S T)} (hn : (l.map (fun c => c.ptr)).Nodup)
    {x c : ClientState S T} (hx : x ∈ l) (hc : c ∈ l) (hp : x.ptr = c.ptr) : x = c :=
  List.inj_on_of_nodup_map hn hx hc hp

theorem updateClient_ownership {s s0 : Server S T} {c c' : ClientState S T}
    (h : OwnershipInv s) (hc : c ∈ s.clientStates) (hf : ReaderFrame c c')
    (hcl : s0.clientStates = s.clientStates) (hcr : s0.crystal.locked = s.crystal.locked) :
    OwnershipInv (s0.updateClient c') := by
  have key : ∀ x ∈ s.clientStates,
      (if x.ptr = c'.ptr then c' else x).ptr = x.ptr ∧
      (if x.ptr = c'.ptr then c' else x).atomLocks = x.atomLocks := by
    intro x hx
    by_cases hp : x.ptr = c'.ptr
    · have hxc : x = c := eq_of_ptr_eq h.1 hx hc (hp.trans hf.1)
      subst hxc
      simp [hp, hf.2.1]
    · simp [hp]
  unfold OwnershipInv Server.updateClient
  simp only [hcl, hcr]
  rw [ptrs_map _ _ (fun x hx => (key x hx).1), heldAtoms_map _ _ (fun x hx => (key x hx).2)]
  exact h

theorem eraseP_ptr_split {l : List (ClientState S T)} (hn : (l.map (fun c => c.ptr)).Nodup)
    {c : ClientState S T} (hc : c ∈ l) :
    ∃ l1 l2, l = l1 ++ c :: l2 ∧ l.eraseP (fun x => x.ptr == c.ptr) = l1 ++ l2 ∧
      ∀ x ∈ l1 ++ l2, x.ptr ≠ c.ptr := by
  induction l with
  | nil => simp at hc
  | cons y ys ih =>
    have hn' : y.ptr ∉ ys.map (fun c => c.ptr) ∧ (ys.map (fun c => c.ptr)).Nodup :=
      List.nodup_cons.mp hn
    by_cases hp : y.ptr = c.ptr
    · have hyc : y = c := eq_of_ptr_eq hn (List.mem_cons_self _ _) hc hp
      subst hyc
      refine ⟨[], ys, rfl, by simp [List.eraseP], ?_⟩
      intro x hx hxp
      apply hn'.1
      simp only [List.nil_append] at hx
      exact List.mem_map.mpr ⟨x, hx, hxp⟩
    · have hc' : c ∈ ys := by
        rcases List.mem_cons.mp hc with h | h
        · exact absurd (by rw [h]) hp
        · exact h
      obtain ⟨l1, l2, h1, h2, h3⟩ := ih hn'.2 hc'
      refine ⟨y :: l1, l2, by simp [h1], ?_, ?_⟩
      · have : (y.ptr == c.ptr) = false := by simpa using hp
        simp [List.eraseP, this, h2]
      · intro x hx
        rw [List.cons_append] at hx
        rcases List.mem_cons.mp hx with h | h
        · rw [h]; exact hp
        · exact h3 x h

theorem unlockAll_lockInv (ls : List (AtomLock T)) (cr : Crystal S T) (rest : List AtomID)
    (h : LockInv cr.locked (lockedAtoms ls ++ rest)) :
    LockInv (ls.foldl (fun cr al => cr.unlockAtom al.draggedAtom) cr).locked rest := by
  induction ls generalizing cr with
  | nil => simpa [lockedAtoms] using h
  | cons al ls ih =>
    simp only [List.foldl_cons]
    apply ih
    apply lockInv_unlock
    simpa [lockedAtoms] using h

theorem heldAtoms_append (l1 l2 : List (ClientState S T)) :
    heldAtoms (l1 ++ l2) = heldAtoms l1 ++ heldAtoms l2 := by
  simp [heldAtoms, List.flatMap_append]

theorem disconnectClient_ownership {s : Server S T} {c : ClientState S T}
    (h : OwnershipInv s) (hc : c ∈ s.clientStates) : OwnershipInv (disconnectClient c s) := by
  obtain ⟨l1, l2, h1, h2, _⟩ := eraseP_ptr_split h.1 hc
  unfold OwnershipInv disconnectClient
  simp only [h2]
  constructor
  · have hs : (l1 ++ l2).Sublist s.clientStates := by
      rw [h1]
      exact List.Sublist.append (List.Sublist.refl l1) (List.sublist_cons_self c l2)
    exact List.Nodup.sublist (hs.map _) h.1
  · apply unlockAll_lockInv
    refine lockInv_perm h.2 ?_
    rw [h1]
    simp only [heldAtoms_append]
    have : heldAtoms (c :: l2) = lockedAtoms c.atomLocks ++ heldAtoms l2 := by
      simp [heldAtoms]
    rw [this, List.perm_iff_count]
    intro a
    simp [List.count_append]
    omega

theorem applyParameters_locked (s : Server S T) :
    (applyParameters s).crystal.locked = s.crystal.locked := by
  unfold applyParameters
  split <;> rfl

theorem applyParameters_clientStates (s : Server S T) :
    (applyParameters s).clientStates = s.clientStates := by
  unfold applyParameters
  split <;> rfl

/-- Every step keeps the lock bitmap in agreement with the atom locks. -/
theorem step_ownership [Mul T] [Inv T] {K : Collaborators S T} {s s' : Server S T}
    (h : Step K s s') (hi : OwnershipInv s) : OwnershipInv s' := by
  cases h with
  | accept p capacity hfresh =>
    constructor
    · simp only [List.map_append, List.map_cons, List.map_nil]
      rw [List.nodup_append]
      refine ⟨hi.1, List.nodup_singleton _, ?_⟩
      intro a ha hb
      simp only [List.mem_singleton] at hb
      obtain ⟨x, hx, hxa⟩ := List.mem_map.mp ha
      exact hfresh x hx (by rw [hxa, hb]; rfl)
    · have : heldAtoms (s.clientStates ++ [ClientState.new p capacity]) =
          heldAtoms s.clientStates := by
        simp [heldAtoms_append, heldAtoms, ClientState.new, lockedAtoms]
      simp only [this]
      exact hi.2
  | connectReply c hc ht =>
    exact updateClient_ownership hi hc (readerFrame_sendConnectReply _ _) rfl rfl
  | markConnected c hc ht =>
    exact updateClient_ownership hi hc (readerFrame_markConnected _) rfl rfl
  | message c msg r1 r2 r3 hc ht =>
    obtain ⟨c', s0, hs0, _, hf, heq⟩ := handleMessage_cases K msg r1 r2 r3 c s ht
    rw [heq]
    rcases hs0 with rfl | rfl
    · exact updateClient_ownership hi hc hf rfl rfl
    · exact updateClient_ownership hi hc hf (paramUpdate_clientStates _ _ _ _)
        (by rw [paramUpdate_crystal])
  | count c r hc =>
    exact updateClient_ownership hi hc (readerFrame_readNumDraggers _ _) rfl rfl
  | decode c r hc =>
    exact updateClient_ownership hi hc (readerFrame_decodeStep _ _) rfl rfl
  | cleanup c hc ht => exact disconnectClient_ownership hi hc
  | applyParameters =>
    unfold OwnershipInv
    rw [applyParameters_locked, applyParameters_clientStates]
    exact hi
  | ingest =>
    constructor
    · simp only [ingestUpdates, ingestClients_ptrs]
      exact hi.1
    · have := ingestClients_lockInv K s.clientStates s.crystal [] (by simpa using hi.2)
      simpa [ingestUpdates] using this
  | physics dt => exact hi
  | broadcast =>
    unfold OwnershipInv sendServerUpdate
    simp only
    rw [ptrs_map _ _ (fun x _ => sendServerUpdateTo_ptr s x),
      heldAtoms_map _ _ (fun x _ => sendServerUpdateTo_atomLocks s x)]
    exact hi

theorem quiescent_ownership {s : Server S T} (h : Quiescent s) : OwnershipInv s := by
  refine ⟨h.2.2, ?_⟩
  have he : heldAtoms s.clientStates = [] := by
    have : ∀ l : List (ClientState S T), (∀ c ∈ l, c.atomLocks = []) → heldAtoms l = [] := by
      intro l hl
      induction l with
      | nil => rfl
      | cons y ys ih =>
        have hy := hl y (List.mem_cons_self _ _)
        have hys := ih (fun x hx => hl x (List.mem_cons_of_mem _ hx))
        simp only [heldAtoms, List.flatMap_cons] at hys ⊢
        rw [hy, hys]
        rfl
    exact this _ h.2.1
  rw [he]
  exact ⟨List.nodup_nil, fun a => by simp [h.1 a]⟩

theorem reaches_ownership [Mul T] [Inv T] {K : Collaborators S T} {s0 s : Server S T}
    (h : Reaches K s0 s) (h0 : OwnershipInv s0) : OwnershipInv s := by
  induction h with
  | refl => exact h0
  | tail _ hstep ih => exact step_ownership hstep ih

theorem mem_heldAtoms (l : List (ClientState S T)) (a : AtomID) :
    a ∈ heldAtoms l ↔ ∃ c ∈ l, ∃ al ∈ c.atomLocks, al.draggedAtom = a := by
  simp [heldAtoms, lockedAtoms]

theorem reaches_simulate [Mul T] [Inv T] (K : Collaborators S T) (timeStep : ℚ)
    (s : Server S T) : Reaches K s (simulate K timeStep s) :=
  ((Relation.ReflTransGen.single (Step.applyParameters s)).tail
    (Step.ingest (applyParameters s))).tail
    (Step.physics (ingestUpdates K (applyParameters s)) timeStep)

theorem construct_quiescent (cr : Crystal S T) (m a g : S) (h : cr.Fresh) :
    Quiescent (construct cr m a g) :=
  ⟨h.1, by simp [construct], by simp [construct]⟩

theorem demoCrystal_fresh : demoCrystal.Fresh :=
  ⟨fun _ => rfl, rfl⟩

theorem demoServer_quiescent : Quiescent demoServer :=
  construct_quiescent _ _ _ _ demoCrystal_fresh

theorem demoAccepted_reaches : Reaches demoCollaborators demoServer demoAccepted :=
  Relation.ReflTransGen.single (Step.accept demoServer 7 5 (by simp [demoServer, construct]))

/-- C1: from a server in which no atom is locked and no client holds an atom lock, after any
finite sequence of steps (simulation ticks, communication thread steps, disconnect cleanups,
broadcasts, accepted clients) every atom is named by at most one atom lock over all
clients, and the crystal reports an atom as locked exactly when some client's atom locks
name it. -/
theorem atom_ownership_exclusive [Mul T] [Inv T] (K : Collaborators S T) (s0 s : Server S T)
    (h0 : Quiescent s0) (h : Reaches K s0 s) (a : AtomID) :
    (heldAtoms s.clientStates).count a ≤ 1 ∧
      (s.crystal.locked a = true ↔
        ∃ c ∈ s.clientStates, ∃ al ∈ c.atomLocks, al.draggedAtom = a) := by
  have hi := reaches_ownership h (quiescent_ownership h0)
  exact ⟨List.nodup_iff_count_le_one.mp hi.2.1 a, (hi.2.2 a).trans (mem_heldAtoms _ a)⟩

/-! ### Disconnect cleanup -/

theorem unlockAll_locked (ls : List (AtomLock T)) (cr : Crystal S T) (b : AtomID) :
    (ls.foldl (fun cr al => cr.unlockAtom al.draggedAtom) cr).locked b =
      (if b ∈ lockedAtoms ls then false else cr.locked b) := by
  induction ls generalizing cr with
  | nil => simp [lockedAtoms]
  | cons al ls ih =>
    rw [List.foldl_cons, ih, unlockAtom_locked]
    have hm : b ∈ lockedAtoms (al :: ls) ↔ b = al.draggedAtom ∨ b ∈ lockedAtoms ls := by
      simp [lockedAtoms]
    by_cases h1 : b ∈ lockedAtoms ls
    · rw [if_pos h1, if_pos (hm.mpr (Or.inr h1))]
    · by_cases h2 : b = al.draggedAtom
      · rw [if_neg h1, if_pos h2, if_pos (hm.mpr (Or.inl h2))]
      · rw [if_neg h1, if_neg h2, if_neg (fun h => (hm.mp h).elim h2 h1)]

theorem unlockAll_calls (ls : List (AtomLock T)) (cr : Crystal S T) :
    (ls.foldl (fun cr al => cr.unlockAtom al.draggedAtom) cr).calls =
      cr.calls ++ ls.map (fun al => CrystalCall.unlockAtom al.draggedAtom) := by
  induction ls generalizing cr with
  | nil => simp
  | cons al ls ih =>
    rw [List.foldl_cons, ih]
    simp [Crystal.unlockAtom]

theorem unlockAll_atomState (ls : List (AtomLock T)) (cr : Crystal S T) :
    (ls.foldl (fun cr al => cr.unlockAtom al.draggedAtom) cr).atomState = cr.atomState := by
  induction ls generalizing cr with
  | nil => rfl
  | cons al ls ih =>
    rw [List.foldl_cons, ih]
    rfl

theorem thread_of_mem_updateClient {s : Server S T} {c' x : ClientState S T}
    (h : x ∈ (s.updateClient c').clientStates) (hp : x.ptr = c'.ptr) : x = c' := by
  simp only [Server.updateClient, List.mem_map] at h
  obtain ⟨y, _, rfl⟩ := h
  by_cases hy : y.ptr = c'.ptr
  · simp [hy]
  · simp only [hy, if_false] at hp

/-- C2: every way out of the message loop (DISCONNECT_REQUEST, an unexpected message id, a
failed read or write) leaves the thread where only the cleanup block remains; the cleanup
block calls unlockAtom for exactly the client's atom locks and erases exactly that client,
after which none of its atoms is locked and the other clients, their atom locks and the
lock status of their atoms are as before. -/
theorem disconnect_releases_locks [Mul T] [Inv T] (K : Collaborators S T) (s0 s : Server S T)
    (h0 : Quiescent s0) (h : Reaches K s0 s) (c : ClientState S T) (hc : c ∈ s.clientStates) :
    (∀ (msg : Option MessageId) (r1 r2 r3 : Option S), c.thread = ThreadState.waiting →
      msg ≠ some MessageId.CLIENT_UPDATE →
      (msg = some MessageId.CLIENT_PARAMUPDATE → r1 = none ∨ r2 = none ∨ r3 = none) →
      ∀ x ∈ (handleMessage msg r1 r2 r3 c s).clientStates, x.ptr = c.ptr →
        x.thread = ThreadState.leaving ∧ x.atomLocks = c.atomLocks) ∧
    (∀ n, c.thread = ThreadState.chose n →
      (readNumDraggers none c).thread = ThreadState.leaving) ∧
    (∀ n k (r : DraggerRead S T),
      (r.draggerID = none ∨ r.rayBased = none ∨ r.rayStart = none ∨ r.rayDirection = none ∨
        r.transformation = none ∨ r.active = none) →
      (readDragger n k r c).thread = ThreadState.leaving) ∧
    (c.pipe.capacity = 0 → (sendConnectReply s.crystal c).thread = ThreadState.leaving) ∧
    (c.thread = ThreadState.leaving → Step K s (disconnectClient c s)) ∧
    (disconnectClient c s).crystal.calls =
      s.crystal.calls ++ c.atomLocks.map (fun al => CrystalCall.unlockAtom al.draggedAtom) ∧
    (∀ al ∈ c.atomLocks, (disconnectClient c s).crystal.locked al.draggedAtom = false) ∧
    (∃ l1 l2, s.clientStates = l1 ++ c :: l2 ∧ (disconnectClient c s).clientStates = l1 ++ l2 ∧
      ∀ x ∈ l1 ++ l2, x.ptr ≠ c.ptr) ∧
    (∀ x ∈ (disconnectClient c s).clientStates, x ∈ s.clientStates ∧
      ∀ al ∈ x.atomLocks, (disconnectClient c s).crystal.locked al.draggedAtom =
        s.crystal.locked al.draggedAtom) := by
  have hi := reaches_ownership h (quiescent_ownership h0)
  have hi' := disconnectClient_ownership hi hc
  refine ⟨?_, ?_, ?_, ?_, ?_, ?_, ?_, ?_, ?_⟩
  · intro msg r1 r2 r3 hw hnu hpu x hx hxp
    have key : ∀ c' : ClientState S T, c'.thread = ThreadState.leaving →
        c'.atomLocks = c.atomLocks → c'.ptr = c.ptr → ∀ s1 : Server S T,
        x ∈ (s1.updateClient c').clientStates →
        x.thread = ThreadState.leaving ∧ x.atomLocks = c.atomLocks := by
      intro c' h1 h2 h3 s1 hm
      have := thread_of_mem_updateClient hm (hxp.trans h3.symm)
      subst this
      exact ⟨h1, h2⟩
    have hdr : (disconnectRequest c).thread = ThreadState.leaving := by
      unfold disconnectRequest
      split <;> rfl
    unfold handleMessage at hx
    cases msg with
    | none => exact key c.leave rfl rfl rfl s hx
    | some m =>
      cases m with
      | DISCONNECT_REQUEST =>
        exact key (disconnectRequest c) hdr (readerFrame_disconnectRequest c).2.1
          (readerFrame_disconnectRequest c).1 s hx
      | CLIENT_PARAMUPDATE =>
        have hnot : (r1.isSome && r2.isSome && r3.isSome) = false := by
          rcases hpu rfl with h | h | h <;> simp [h]
        simp only [hnot, Bool.false_eq_true, if_false] at hx
        exact key c.leave rfl rfl rfl _ hx
      | CLIENT_UPDATE => exact absurd rfl hnu
      | CONNECT_REPLY => exact key c.leave rfl rfl rfl s hx
      | DISCONNECT_REPLY => exact key c.leave rfl rfl rfl s hx
      | SERVER_PARAMUPDATE => exact key c.leave rfl rfl rfl s hx
      | SERVER_UPDATE => exact key c.leave rfl rfl rfl s hx
      | other n => exact key c.leave rfl rfl rfl s hx
  · intro n hn
    simp [readNumDraggers, hn, ClientState.leave]
  · intro n k r hr
    unfold readDragger
    repeat' split
    all_goals first
      | rfl
      | (rcases hr with h | h | h | h | h | h <;> simp_all)
  · intro hcap
    simp [sendConnectReply, SharedJelloPipe.writeMessage, hcap, ClientState.leave]
  · intro ht
    exact Step.cleanup s c hc ht
  · exact unlockAll_calls _ _
  · intro al hal
    show (c.atomLocks.foldl (fun cr al => cr.unlockAtom al.draggedAtom) s.crystal).locked
      al.draggedAtom = false
    rw [unlockAll_locked]
    have : al.draggedAtom ∈ lockedAtoms c.atomLocks := List.mem_map.mpr ⟨al, hal, rfl⟩
    simp [this]
  · exact eraseP_ptr_split hi.1 hc
  · intro x hx
    have hxs : x ∈ s.clientStates := List.mem_of_mem_eraseP hx
    refine ⟨hxs, fun al hal => ?_⟩
    have h1 : s.crystal.locked al.draggedAtom = true :=
      (hi.2.2 _).mpr ((mem_heldAtoms _ _).mpr ⟨x, hxs, al, hal, rfl⟩)
    have h2 : (disconnectClient c s).crystal.locked al.draggedAtom = true :=
      (hi'.2.2 _).mpr ((mem_heldAtoms _ _).mpr ⟨x, hx, al, hal, rfl⟩)
    rw [h1, h2]

/-! ### The triple buffer -/

theorem entry_isSome (su : StateUpdate S T) (i : Nat) :
    (su.entry i).isSome = true ↔
      (su.draggerIDs[i]?).join.isSome = true ∧ (su.draggerRayBaseds[i]?).join.isSome = true ∧
      (su.draggerRays[i]?).join.isSome = true ∧
      (su.draggerTransformations[i]?).join.isSome = true ∧
      (su.draggerActives[i]?).join.isSome = true := by
  unfold StateUpdate.entry
  cases (su.draggerIDs[i]?).join <;> cases (su.draggerRayBaseds[i]?).join <;>
    cases (su.draggerRays[i]?).join <;> cases (su.draggerTransformations[i]?).join <;>
    cases (su.draggerActives[i]?).join <;> simp

theorem join_getElem?_set {α : Type} (l : List (Option α)) (k i : Nat) (x : α) :
    ((l.set k (some x))[i]?).join = if i = k ∧ k < l.length then some x else (l[i]?).join := by
  rw [List.getElem?_set]
  by_cases hik : k = i
  · subst hik
    by_cases hl : k < l.length
    · simp [hl]
    · simp [hl, List.getElem?_eq_none (Nat.le_of_not_lt hl)]
  · have : ¬ i = k := fun h => hik h.symm
    simp [hik, this]

theorem complete_iff (su : StateUpdate S T) :
    su.Complete ↔ su.DecodedUpTo su.numDraggers.toNat := by
  unfold StateUpdate.Complete StateUpdate.DecodedUpTo StateUpdate.Sized
  tauto

theorem sized_store {su : StateUpdate S T} (h : su.Sized) (k : Nat) (d : Dragger S T) :
    (su.store k d).Sized := by
  unfold StateUpdate.Sized StateUpdate.store at *
  simpa using h

theorem entry_store {su : StateUpdate S T} (h : su.Sized) (k : Nat) (d : Dragger S T)
    (hk : (k : Int) < su.numDraggers) (i : Nat) :
    (su.store k d).entry i = if i = k then some d else su.entry i := by
  have hk' : k < su.numDraggers.toNat := by omega
  obtain ⟨_, h1, h2, h3, h4, h5⟩ := h
  unfold StateUpdate.entry StateUpdate.store
  simp only [join_getElem?_set, h1, h2, h3, h4, h5, hk', and_true]
  by_cases hik : i = k
  · simp [hik]
  · simp [hik]

theorem decodedUpTo_store {su : StateUpdate S T} {k : Nat} (h : su.DecodedUpTo k)
    (d : Dragger S T) (hk : (k : Int) < su.numDraggers) : (su.store k d).DecodedUpTo (k + 1) := by
  refine ⟨sized_store h.1 k d, fun i hi => ?_⟩
  rw [entry_store h.1 k d hk]
  by_cases hik : i = k
  · simp [hik]
  · simp only [hik, if_false]
    exact h.2 i (by omega)

theorem sized_allocate (n : Int) (hn : 0 ≤ n) : (StateUpdate.allocate n : StateUpdate S T).Sized := by
  unfold StateUpdate.Sized StateUpdate.allocate
  simp [hn]

theorem complete_empty : (StateUpdate.empty : StateUpdate S T).Complete := by
  unfold StateUpdate.Complete StateUpdate.empty
  simp

/-- What one pass of the dragger loop can do: a read fails after some assignments to the
slot, or all five arrays get their element. -/
theorem readDragger_cases (n k : Nat) (r : DraggerRead S T) (c : ClientState S T) :
    (∃ f, readDragger n k r c = (c.writeSlot n f).leave) ∨
    (∃ d : Dragger S T, readDragger n k r c =
      { c.writeSlot n (fun su => su.store k d) with thread := ThreadState.decoding n (k + 1) }) := by
  have ws : ∀ (x : ClientState S T) (f g : StateUpdate S T → StateUpdate S T),
      (x.writeSlot n f).writeSlot n g = x.writeSlot n (fun su => g (f su)) := by
    intro x f g
    unfold ClientState.writeSlot
    congr 1
    funext i
    by_cases hi : i = n <;> simp [hi]
  have id0 : c = c.writeSlot n (fun su => su) := by
    cases c
    simp only [ClientState.writeSlot, ClientState.mk.injEq, true_and, and_true]
    funext i
    by_cases hi : i = n <;> simp [hi]
  unfold readDragger
  cases r.draggerID with
  | none => exact Or.inl ⟨fun su => su, by rw [← id0]⟩
  | some id =>
    cases r.rayBased with
    | none => exact Or.inl ⟨_, rfl⟩
    | some rb =>
      cases r.rayStart with
      | none => exact Or.inl ⟨_, congrArg ClientState.leave (ws _ _ _)⟩
      | some st =>
        cases r.rayDirection with
        | none => exact Or.inl ⟨_, congrArg ClientState.leave (ws _ _ _)⟩
        | some dir =>
          cases r.transformation with
          | none => exact Or.inl ⟨_, by simp only [ws]; rfl⟩
          | some tr =>
            cases r.active with
            | none => exact Or.inl ⟨_, by simp only [ws]; rfl⟩
            | some ch =>
              refine Or.inr ⟨Dragger.mk id (rb != 0) (Ray.mk st dir) tr (ch != 0), ?_⟩
              simp only [ws]
              rfl

theorem bufferInv_congr {c c' : ClientState S T} (ht : c'.thread = c.thread)
    (hs : c'.stateUpdates = c.stateUpdates) (hL : c'.lockedIndex = c.lockedIndex)
    (hM : c'.mostRecentIndex = c.mostRecentIndex) (h : c.BufferInv) : c'.BufferInv := by
  unfold ClientState.BufferInv at *
  rw [ht, hs, hL, hM]
  exact h

theorem bufferInv_new (p capacity : Nat) : (ClientState.new p capacity : ClientState S T).BufferInv := by
  unfold ClientState.BufferInv ClientState.new
  exact ⟨Nat.succ_pos 2, Nat.succ_pos 2, complete_empty, complete_empty, fun _ => complete_empty⟩

theorem bufferInv_leave_writeSlot {c : ClientState S T} (n : Nat)
    (f : StateUpdate S T → StateUpdate S T) (h : c.BufferInv)
    (hL : n ≠ c.lockedIndex) (hM : n ≠ c.mostRecentIndex) :
    ((c.writeSlot n f).leave).BufferInv := by
  obtain ⟨h1, h2, h3, h4, _⟩ := h
  refine ⟨h1, h2, ?_, ?_, trivial⟩
  · simpa [ClientState.leave, ClientState.writeSlot, Ne.symm hL] using h3
  · simpa [ClientState.leave, ClientState.writeSlot, Ne.symm hM] using h4

theorem bufferInv_leave {c : ClientState S T} (h : c.BufferInv) : c.leave.BufferInv :=
  ⟨h.1, h.2.1, h.2.2.1, h.2.2.2.1, trivial⟩

theorem bufferInv_readNumDraggers (r : Option Int) {c : ClientState S T} (h : c.BufferInv) :
    (readNumDraggers r c).BufferInv := by
  unfold readNumDraggers
  cases hth : c.thread with
  | chose n =>
    simp only
    obtain ⟨h1, h2, h3, h4, h5⟩ := h
    rw [hth] at h5
    obtain ⟨hn, hnL, hnM, hall⟩ := h5
    cases r with
    | none => exact ⟨h1, h2, h3, h4, trivial⟩
    | some m =>
      simp only
      by_cases hm : m ≠ (c.stateUpdates n).numDraggers
      · simp only [hm, ne_eq, not_false_eq_true, if_true]
        by_cases hneg : m < 0
        · simp only [hneg, if_true]
          exact bufferInv_leave_writeSlot n _ ⟨h1, h2, h3, h4, by rw [hth]; exact ⟨hn, hnL, hnM, hall⟩⟩
            hnL hnM
        · simp only [hneg, if_false]
          refine ⟨h1, h2, ?_, ?_, hn, hnL, hnM, ?_, ?_⟩
          · simpa [ClientState.writeSlot, Ne.symm hnL] using h3
          · simpa [ClientState.writeSlot, Ne.symm hnM] using h4
          · intro i hi
            simpa [ClientState.writeSlot, hi] using hall i
          · simp only [ClientState.writeSlot, if_true]
            exact ⟨sized_allocate m (by omega), fun i hi => absurd hi (Nat.not_lt_zero i)⟩
      · simp only [hm, if_false]
        refine ⟨h1, h2, h3, h4, hn, hnL, hnM, fun i _ => hall i, ?_⟩
        have := (complete_iff _).mp (hall n)
        exact ⟨this.1, fun i hi => absurd hi (Nat.not_lt_zero i)⟩
  | connecting => simpa [hth] using h
  | replied => simpa [hth] using h
  | waiting => simpa [hth] using h
  | decoding n k => simpa [hth] using h
  | leaving => simpa [hth] using h

theorem bufferInv_decodeStep (r : DraggerRead S T) {c : ClientState S T} (h : c.BufferInv) :
    (decodeStep r c).BufferInv := by
  unfold decodeStep
  cases hth : c.thread with
  | decoding n k =>
    simp only
    obtain ⟨h1, h2, h3, h4, h5⟩ := h
    rw [hth] at h5
    obtain ⟨hn, hnL, hnM, hall, hdec⟩ := h5
    have hc : c.BufferInv := ⟨h1, h2, h3, h4, by rw [hth]; exact ⟨hn, hnL, hnM, hall, hdec⟩⟩
    by_cases hk : (k : Int) < (c.stateUpdates n).numDraggers
    · simp only [hk, if_true]
      rcases readDragger_cases n k r c with ⟨f, hf⟩ | ⟨d, hd⟩
      · rw [hf]
        exact bufferInv_leave_writeSlot n f hc hnL hnM
      · rw [hd]
        refine ⟨h1, h2, ?_, ?_, hn, hnL, hnM, ?_, ?_⟩
        · simpa [ClientState.writeSlot, Ne.symm hnL] using h3
        · simpa [ClientState.writeSlot, Ne.symm hnM] using h4
        · intro i hi
          simpa [ClientState.writeSlot, hi] using hall i hi
        · simp only [ClientState.writeSlot, if_true]
          exact decodedUpTo_store hdec d hk
    · simp only [hk, if_false]
      have hcn : (c.stateUpdates n).Complete := by
        rw [complete_iff]
        refine ⟨hdec.1, fun i hi => hdec.2 i ?_⟩
        have := hdec.1.1
        omega
      have hall' : ∀ i, (c.stateUpdates i).Complete := by
        intro i
        by_cases hi : i = n
        · rw [hi]; exact hcn
        · exact hall i hi
      exact ⟨h1, hn, h3, hcn, hall'⟩
  | connecting => simpa [hth] using h
  | replied => simpa [hth] using h
  | waiting => simpa [hth] using h
  | chose n => simpa [hth] using h
  | leaving => simpa [hth] using h

theorem ingestClient_fields [Mul T] [Inv T] (K : Collaborators S T) (cr : Crystal S T)
    (c : ClientState S T) :
    (ingestClient K cr c).2.lockedIndex = c.mostRecentIndex ∧
    (ingestClient K cr c).2.mostRecentIndex = c.mostRecentIndex ∧
    (ingestClient K cr c).2.thread = c.thread ∧
    (ingestClient K cr c).2.stateUpdates = c.stateUpdates ∧
    (ingestClient K cr c).2.pipe = c.pipe ∧
    (ingestClient K cr c).2.connected = c.connected ∧
    (ingestClient K cr c).2.parameterVersion = c.parameterVersion := by
  unfold ingestClient
  by_cases h : c.lockedIndex ≠ c.mostRecentIndex
  · simp only [h, ne_eq, not_false_eq_true, if_true, and_self]
  · simp only [h, if_false, and_self, and_true]
    exact not_not.mp h

theorem bufferInv_ingestClient [Mul T] [Inv T] (K : Collaborators S T) (cr : Crystal S T)
    {c : ClientState S T} (h : c.BufferInv) : (ingestClient K cr c).2.BufferInv := by
  obtain ⟨e1, e2, e3, e4, _⟩ := ingestClient_fields K cr c
  obtain ⟨h1, h2, h3, h4, h5⟩ := h
  unfold ClientState.BufferInv
  rw [e1, e2, e3, e4]
  refine ⟨h2, h2, h4, h4, ?_⟩
  cases hth : c.thread with
  | chose n =>
    rw [hth] at h5
    exact ⟨h5.1, h5.2.2.1, h5.2.2.1, h5.2.2.2⟩
  | decoding n k =>
    rw [hth] at h5
    exact ⟨h5.1, h5.2.2.1, h5.2.2.1, h5.2.2.2⟩
  | connecting => rw [hth] at h5; exact h5
  | replied => rw [hth] at h5; exact h5
  | waiting => rw [hth] at h5; exact h5
  | leaving => trivial

theorem sendServerUpdateTo_fields (s : Server S T) (c : ClientState S T) :
    (sendServerUpdateTo s c).thread = c.thread ∧
    (sendServerUpdateTo s c).stateUpdates = c.stateUpdates ∧
    (sendServerUpdateTo s c).lockedIndex = c.lockedIndex ∧
    (sendServerUpdateTo s c).mostRecentIndex = c.mostRecentIndex ∧
    (sendServerUpdateTo s c).connected = c.connected := by
  unfold sendServerUpdateTo
  repeat' split
  all_goals exact ⟨rfl, rfl, rfl, rfl, rfl⟩

/-- Every client step keeps the client's triple buffer consistent. -/
theorem clientStep_bufferInv [Mul T] [Inv T] {K : Collaborators S T} {s : Server S T}
    {c c' : ClientState S T} (hs : ClientStep K s c c') (h : c.BufferInv) : c'.BufferInv := by
  cases hs with
  | same => exact h
  | connectReply ht =>
    unfold sendConnectReply
    split
    · obtain ⟨h1, h2, h3, h4, h5⟩ := h
      rw [ht] at h5
      exact ⟨h1, h2, h3, h4, h5⟩
    · exact bufferInv_leave h
  | markConnected ht =>
    obtain ⟨h1, h2, h3, h4, h5⟩ := h
    rw [ht] at h5
    exact ⟨h1, h2, h3, h4, h5⟩
  | leave ht => exact bufferInv_leave h
  | disconnectRequest ht =>
    unfold disconnectRequest
    split
    · exact ⟨h.1, h.2.1, h.2.2.1, h.2.2.2.1, trivial⟩
    · exact bufferInv_leave h
  | clientUpdate ht =>
    obtain ⟨h1, h2, h3, h4, h5⟩ := h
    rw [ht] at h5
    have hf := nextIndex_free c.lockedIndex c.mostRecentIndex h1 h2
    exact ⟨h1, h2, h3, h4, hf.1, hf.2.1, hf.2.2, h5⟩
  | count r => exact bufferInv_readNumDraggers r h
  | decode r => exact bufferInv_decodeStep r h
  | ingest cr => exact bufferInv_ingestClient K cr h
  | broadcast =>
    obtain ⟨e1, e2, e3, e4, _⟩ := sendServerUpdateTo_fields s c
    exact bufferInv_congr e1 e2 e3 e4 h

theorem reachable_bufferInv [Mul T] [Inv T] {K : Collaborators S T} {s : Server S T}
    (h : Reachable K s) : ∀ c ∈ s.clientStates, c.BufferInv := by
  obtain ⟨cr, m, a, g, _, hr⟩ := h
  induction hr with
  | refl => intro c hc; simp [construct] at hc
  | tail _ hstep ih =>
    intro c' hc'
    rcases step_clients hstep c' hc' with ⟨p, capacity, rfl⟩ | ⟨c, hc, hcs⟩
    · exact bufferInv_new p capacity
    · exact clientStep_bufferInv hcs (ih c hc)

theorem demoAccepted_reachable : Reachable demoCollaborators demoAccepted :=
  ⟨demoCrystal, 0, 0, 0, demoCrystal_fresh, demoAccepted_reaches⟩

/-- C4: in every reachable state of the step relation (communication thread steps and the
main thread's steps in any interleaving) the slot a communication thread has chosen or is
decoding into differs from lockedIndex and from mostRecentIndex; the slots at lockedIndex
and at mostRecentIndex, and so the slot an ingest step reads, are fully decoded: the count is
not negative, all five arrays have that many elements and every element has been assigned. -/
theorem no_torn_frames [Mul T] [Inv T] (K : Collaborators S T) (s : Server S T)
    (h : Reachable K s) (c : ClientState S T) (hc : c ∈ s.clientStates) :
    (∀ n, c.thread = ThreadState.chose n → n ≠ c.lockedIndex ∧ n ≠ c.mostRecentIndex) ∧
    (∀ n k, c.thread = ThreadState.decoding n k →
      n ≠ c.lockedIndex ∧ n ≠ c.mostRecentIndex) ∧
    (c.stateUpdates c.lockedIndex).Complete ∧
    (c.stateUpdates c.mostRecentIndex).Complete ∧
    (∀ cr : Crystal S T,
      ((ingestClient K cr c).2.stateUpdates (ingestClient K cr c).2.lockedIndex).Complete ∧
      (∀ n k, (ingestClient K cr c).2.thread = ThreadState.decoding n k →
        n ≠ (ingestClient K cr c).2.lockedIndex)) := by
  have hb := reachable_bufferInv h c hc
  have pick : ∀ x : ClientState S T, x.BufferInv →
      (∀ n, x.thread = ThreadState.chose n → n ≠ x.lockedIndex ∧ n ≠ x.mostRecentIndex) ∧
      (∀ n k, x.thread = ThreadState.decoding n k →
        n ≠ x.lockedIndex ∧ n ≠ x.mostRecentIndex) := by
    intro x hx
    obtain ⟨_, _, _, _, h5⟩ := hx
    constructor
    · intro n hn
      rw [hn] at h5
      exact ⟨h5.2.1, h5.2.2.1⟩
    · intro n k hn
      rw [hn] at h5
      exact ⟨h5.2.1, h5.2.2.1⟩
  refine ⟨(pick c hb).1, (pick c hb).2, hb.2.2.1, hb.2.2.2.1, fun cr => ?_⟩
  have hb' := bufferInv_ingestClient K cr hb
  exact ⟨hb'.2.2.1, fun n k hn => ((pick _ hb').2 n k hn).1⟩

/-! ### Receiving a whole CLIENT_UPDATE -/

theorem set_length_append {β : Type} (pre : List β) (r x : β) (rest : List β) :
    (pre ++ r :: rest).set pre.length x = pre ++ x :: rest := by
  induction pre with
  | nil => rfl
  | cons p ps ih => simp [List.set, ih]

theorem fillList_eq {β : Type} (xs : List β) (pre rest : List (Option β))
    (h : rest.length = xs.length) :
    fillList (pre ++ rest) pre.length xs = pre ++ xs.map some := by
  induction xs generalizing pre rest with
  | nil =>
    have : rest = [] := List.length_eq_zero.mp h
    simp [fillList, this]
  | cons x xs ih =>
    cases rest with
    | nil => simp at h
    | cons r rest =>
      simp only [fillList, set_length_append]
      have h' : rest.length = xs.length := by simpa using h
      have := ih (pre ++ [some x]) rest h'
      simpa using this

theorem fillFrom_fields (ds : List (Dragger S T)) (su : StateUpdate S T) (k : Nat) :
    (fillFrom su k ds).numDraggers = su.numDraggers ∧
    (fillFrom su k ds).draggerIDs = fillList su.draggerIDs k (ds.map (fun d => d.draggerID)) ∧
    (fillFrom su k ds).draggerRayBaseds =
      fillList su.draggerRayBaseds k (ds.map (fun d => d.rayBased)) ∧
    (fillFrom su k ds).draggerRays = fillList su.draggerRays k (ds.map (fun d => d.ray)) ∧
    (fillFrom su k ds).draggerTransformations =
      fillList su.draggerTransformations k (ds.map (fun d => d.transformation)) ∧
    (fillFrom su k ds).draggerActives =
      fillList su.draggerActives k (ds.map (fun d => d.active)) := by
  induction ds generalizing su k with
  | nil => exact ⟨rfl, rfl, rfl, rfl, rfl, rfl⟩
  | cons d ds ih =>
    simp only [fillFrom, List.map_cons, fillList]
    exact ih (su.store k d) (k + 1)

theorem fillFrom_eq_ofDraggers (ds : List (Dragger S T)) (su : StateUpdate S T)
    (hs : su.Sized) (hn : su.numDraggers = (ds.length : Int)) :
    fillFrom su 0 ds = StateUpdate.ofDraggers ds := by
  obtain ⟨f0, f1, f2, f3, f4, f5⟩ := fillFrom_fields ds su 0
  obtain ⟨_, s1, s2, s3, s4, s5⟩ := hs
  have hlen : su.numDraggers.toNat = ds.length := by omega
  have key : ∀ {β : Type} (l : List (Option β)) (g : Dragger S T → β),
      l.length = su.numDraggers.toNat →
      fillList l 0 (ds.map g) = ds.map (fun d => some (g d)) := by
    intro β l g hl
    have := fillList_eq (ds.map g) [] l (by simp [hl, hlen])
    simpa [List.map_map, Function.comp_def] using this
  have e : ∀ (a b : StateUpdate S T), a.numDraggers = b.numDraggers →
      a.draggerIDs = b.draggerIDs → a.draggerRayBaseds = b.draggerRayBaseds →
      a.draggerRays = b.draggerRays → a.draggerTransformations = b.draggerTransformations →
      a.draggerActives = b.draggerActives → a = b := by
    intro a b h0 h1 h2 h3 h4 h5
    cases a; cases b
    simp only [StateUpdate.mk.injEq]
    exact ⟨h0, h1, h2, h3, h4, h5⟩
  apply e
  · rw [f0, hn]; rfl
  · rw [f1, key _ _ s1]; rfl
  · rw [f2, key _ _ s2]; rfl
  · rw [f3, key _ _ s3]; rfl
  · rw [f4, key _ _ s4]; rfl
  · rw [f5, key _ _ s5]; rfl

theorem readDragger_reads (n k : Nat) (w : WireDragger S T) (c : ClientState S T) :
    readDragger n k w.reads c =
      { c with thread := ThreadState.decoding n (k + 1),
               stateUpdates := fun i =>
                 if i = n then (c.stateUpdates n).store k w.decode else c.stateUpdates i } := by
  unfold readDragger WireDragger.reads
  simp only [ClientState.writeSlot, if_true]
  congr 1
  funext i
  by_cases hi : i = n
  · simp only [hi, if_true]
    rfl
  · simp only [hi, if_false]

theorem decodeLoop (n : Nat) (ws : List (WireDragger S T)) (k : Nat) (c : ClientState S T)
    (ht : c.thread = ThreadState.decoding n k)
    (hn : (c.stateUpdates n).numDraggers = ((k + ws.length : Nat) : Int)) :
    ws.foldl (fun x w => decodeStep w.reads x) c =
      { c with thread := ThreadState.decoding n (k + ws.length),
               stateUpdates := fun i =>
                 if i = n then fillFrom (c.stateUpdates n) k (ws.map WireDragger.decode)
                 else c.stateUpdates i } := by
  induction ws generalizing k c with
  | nil =>
    cases c
    simp only at ht
    simp only [List.foldl_nil, List.length_nil, Nat.add_zero, List.map_nil, fillFrom, ht,
      ClientState.mk.injEq, true_and, and_true]
    funext i
    by_cases hi : i = n <;> simp [hi]
  | cons w ws ih =>
    have hk : (k : Int) < (c.stateUpdates n).numDraggers := by
      rw [hn]; simp only [List.length_cons]; omega
    have hstep : decodeStep w.reads c =
        { c with thread := ThreadState.decoding n (k + 1),
                 stateUpdates := fun i =>
                   if i = n then (c.stateUpdates n).store k w.decode else c.stateUpdates i } := by
      unfold decodeStep
      rw [ht]
      simp only [hk, if_true]
      exact readDragger_reads n k w c
    rw [List.foldl_cons, hstep]
    rw [ih (k + 1) _ rfl (by
      simp only [if_true, StateUpdate.store, hn, List.length_cons]
      congr 1
      omega)]
    simp only [if_true, List.length_cons, List.map_cons, fillFrom, ClientState.mk.injEq,
      true_and, and_true]
    constructor
    · funext i
      by_cases hi : i = n <;> simp [hi]
    · congr 1
      omega

/-- A completely received CLIENT_UPDATE fills the chosen slot with exactly its draggers and
publishes it; nothing else in the client state changes. -/
theorem receiveClientUpdate_eq (u : List (WireDragger S T)) (c : ClientState S T)
    (hs : (c.stateUpdates (nextIndex c.lockedIndex c.mostRecentIndex)).Sized) :
    receiveClientUpdate u c =
      { c with thread := ThreadState.waiting,
               mostRecentIndex := nextIndex c.lockedIndex c.mostRecentIndex,
               stateUpdates := fun i =>
                 if i = nextIndex c.lockedIndex c.mostRecentIndex then
                   StateUpdate.ofDraggers (u.map WireDragger.decode)
                 else c.stateUpdates i } := by
  generalize hn : nextIndex c.lockedIndex c.mostRecentIndex = n at hs
  have h2 : ∃ su0 : StateUpdate S T, su0.Sized ∧ su0.numDraggers = (u.length : Int) ∧
      readNumDraggers (some (u.length : Int))
        { c with thread := ThreadState.chose n } =
      { c with thread := ThreadState.decoding n 0,
               stateUpdates := fun i => if i = n then su0 else c.stateUpdates i } := by
    unfold readNumDraggers
    simp only
    by_cases hm : (u.length : Int) ≠ (c.stateUpdates n).numDraggers
    · have hneg : ¬ ((u.length : Int) < 0) := by omega
      simp only [hm, ne_eq, not_false_eq_true, if_true, hneg, if_false]
      exact ⟨StateUpdate.allocate (u.length : Int), sized_allocate _ (by omega), rfl, rfl⟩
    · simp only [hm, if_false]
      refine ⟨c.stateUpdates n, hs, (not_not.mp hm).symm, ?_⟩
      simp only [ClientState.mk.injEq, true_and, and_true]
      funext i
      by_cases hi : i = n <;> simp [hi]
  obtain ⟨su0, hsz, hcount, hc2⟩ := h2
  unfold receiveClientUpdate
  simp only [hn, hc2]
  rw [decodeLoop n u 0 _ rfl (by simp [hcount])]
  unfold decodeStep
  simp only [if_true, Nat.zero_add]
  have hnk : ¬ ((u.length : Int) < (fillFrom su0 0 (u.map WireDragger.decode)).numDraggers) := by
    rw [(fillFrom_fields _ _ _).1, hcount]
    omega
  simp only [hnk, if_false, ClientState.mk.injEq, true_and, and_true]
  funext i
  by_cases hi : i = n
  · simp only [hi, if_true]
    exact fillFrom_eq_ofDraggers _ su0 hsz (by simp [hcount])
  · simp only [hi, if_false]

theorem sized_ofDraggers (ds : List (Dragger S T)) : (StateUpdate.ofDraggers ds).Sized := by
  unfold StateUpdate.Sized StateUpdate.ofDraggers
  simp

theorem receive_sequence (us : List (List (WireDragger S T))) (hus : us ≠ [])
    (c : ClientState S T) (hL : c.lockedIndex < 3) (hM : c.mostRecentIndex < 3)
    (hs : ∀ i, (c.stateUpdates i).Sized) :
    (us.foldl (fun x u => receiveClientUpdate u x) c).lockedIndex = c.lockedIndex ∧
    (us.foldl (fun x u => receiveClientUpdate u x) c).atomLocks = c.atomLocks ∧
    (us.foldl (fun x u => receiveClientUpdate u x) c).mostRecentIndex < 3 ∧
    (us.foldl (fun x u => receiveClientUpdate u x) c).lockedIndex ≠
      (us.foldl (fun x u => receiveClientUpdate u x) c).mostRecentIndex ∧
    (us.foldl (fun x u => receiveClientUpdate u x) c).stateUpdates
        (us.foldl (fun x u => receiveClientUpdate u x) c).mostRecentIndex =
      StateUpdate.ofDraggers ((us.getLast hus).map WireDragger.decode) := by
  induction us generalizing c with
  | nil => exact absurd rfl hus
  | cons u rest ih =>
    have hf := nextIndex_free c.lockedIndex c.mostRecentIndex hL hM
    have h1 := receiveClientUpdate_eq u c (hs _)
    rw [List.foldl_cons]
    cases rest with
    | nil =>
      simp only [List.foldl_nil, List.getLast_singleton]
      rw [h1]
      exact ⟨rfl, rfl, hf.1, Ne.symm hf.2.1, by simp⟩
    | cons u2 rest2 =>
      have hs1 : ∀ i, ((receiveClientUpdate u c).stateUpdates i).Sized := by
        intro i
        rw [h1]
        by_cases hi : i = nextIndex c.lockedIndex c.mostRecentIndex
        · simp only [hi, if_true]
          exact sized_ofDraggers _
        · simp only [hi, if_false]
          exact hs i
      have hL1 : (receiveClientUpdate u c).lockedIndex = c.lockedIndex := by rw [h1]
      have hA1 : (receiveClientUpdate u c).atomLocks = c.atomLocks := by rw [h1]
      have hM1 : (receiveClientUpdate u c).mostRecentIndex < 3 := by rw [h1]; exact hf.1
      have := ih (List.cons_ne_nil u2 rest2) (receiveClientUpdate u c) (by rw [hL1]; exact hL)
        hM1 hs1
      rw [hL1, hA1] at this
      rw [List.getLast_cons (List.cons_ne_nil u2 rest2)]
      exact this

/-- C5: for a client state with both indices in {0,1,2} (and arrays as long as their
counts) and a non-empty sequence of completely received CLIENT_UPDATE messages with no tick
in between, lockedIndex and mostRecentIndex differ afterwards, the slot at mostRecentIndex
holds exactly the last message, and the client's turn in the next tick sets lockedIndex to
mostRecentIndex and changes the crystal and the atom locks as the dragger loop over the last
message alone does. -/
theorem coalescing_latest_wins [Mul T] [Inv T] (K : Collaborators S T) (c : ClientState S T)
    (us : List (List (WireDragger S T))) (hus : us ≠ [])
    (hL : c.lockedIndex < 3) (hM : c.mostRecentIndex < 3)
    (hs : ∀ i, (c.stateUpdates i).Sized) (cr : Crystal S T) :
    (us.foldl (fun x u => receiveClientUpdate u x) c).lockedIndex = c.lockedIndex ∧
    (us.foldl (fun x u => receiveClientUpdate u x) c).lockedIndex ≠
      (us.foldl (fun x u => receiveClientUpdate u x) c).mostRecentIndex ∧
    (us.foldl (fun x u => receiveClientUpdate u x) c).stateUpdates
        (us.foldl (fun x u => receiveClientUpdate u x) c).mostRecentIndex =
      StateUpdate.ofDraggers ((us.getLast hus).map WireDragger.decode) ∧
    (ingestClient K cr (us.foldl (fun x u => receiveClientUpdate u x) c)).2.lockedIndex =
      (us.foldl (fun x u => receiveClientUpdate u x) c).mostRecentIndex ∧
    (ingestClient K cr (us.foldl (fun x u => receiveClientUpdate u x) c)).1 =
      (ingestUpdate K (StateUpdate.ofDraggers ((us.getLast hus).map WireDragger.decode))
        (cr, c.atomLocks)).1 ∧
    (ingestClient K cr (us.foldl (fun x u => receiveClientUpdate u x) c)).2.atomLocks =
      (ingestUpdate K (StateUpdate.ofDraggers ((us.getLast hus).map WireDragger.decode))
        (cr, c.atomLocks)).2 := by
  obtain ⟨h1, h2, _, h4, h5⟩ := receive_sequence us hus c hL hM hs
  refine ⟨h1, h4, h5, ?_, ?_, ?_⟩
  · exact (ingestClient_fields K cr _).1
  · unfold ingestClient
    simp only [h4, ne_eq, not_false_eq_true, if_true, h5, h2]
  · unfold ingestClient
    simp only [h4, ne_eq, not_false_eq_true, if_true, h5, h2]

/-- Witness for C5: a new client state and two messages of one dragger each. -/
theorem coalescing_latest_wins_witness :
    ([[WireDragger.mk 1 0 (0, 0, 0) (0, 0, 1) (1 : ℚ) 1],
      [WireDragger.mk 1 0 ((1 : ℚ), 0, 0) (0, 0, 1) (2 : ℚ) 1]] :
        List (List (WireDragger ℚ ℚ))) ≠ [] ∧
    (([[WireDragger.mk 1 0 (0, 0, 0) (0, 0, 1) (1 : ℚ) 1],
      [WireDragger.mk 1 0 ((1 : ℚ), 0, 0) (0, 0, 1) (2 : ℚ) 1]] :
        List (List (WireDragger ℚ ℚ))).foldl (fun x u => receiveClientUpdate u x)
        (ClientState.new 7 5)).lockedIndex ≠
    (([[WireDragger.mk 1 0 (0, 0, 0) (0, 0, 1) (1 : ℚ) 1],
      [WireDragger.mk 1 0 ((1 : ℚ), 0, 0) (0, 0, 1) (2 : ℚ) 1]] :
        List (List (WireDragger ℚ ℚ))).foldl (fun x u => receiveClientUpdate u x)
        (ClientState.new 7 5)).mostRecentIndex :=
  ⟨List.cons_ne_nil _ _,
    (coalescing_latest_wins demoCollaborators (ClientState.new 7 5) _ (List.cons_ne_nil _ _)
      (Nat.succ_pos 2) (Nat.succ_pos 2) (fun _ => (complete_iff _).mp complete_empty |>.1)
      demoCrystal).2.1⟩

/-! ### No update is read twice -/

theorem parametersKept_refl (cr : Crystal S T) : ParametersKept cr cr :=
  ⟨rfl, rfl, rfl, rfl, rfl, rfl, rfl⟩

theorem parametersKept_trans {a b c : Crystal S T} (h1 : ParametersKept a b)
    (h2 : ParametersKept b c) : ParametersKept a c :=
  ⟨h2.1.trans h1.1, h2.2.1.trans h1.2.1, h2.2.2.1.trans h1.2.2.1,
    h2.2.2.2.1.trans h1.2.2.2.1, h2.2.2.2.2.1.trans h1.2.2.2.2.1,
    h2.2.2.2.2.2.1.trans h1.2.2.2.2.2.1, h2.2.2.2.2.2.2.trans h1.2.2.2.2.2.2⟩

theorem parametersKept_setAtomState (cr : Crystal S T) (a : AtomID) (t : T) :
    ParametersKept cr (cr.setAtomState a t) := by
  refine ⟨rfl, rfl, rfl, rfl, rfl, rfl, ?_⟩
  simp [Crystal.parameterCalls, Crystal.setAtomState, List.filter_append, List.filter,
    CrystalCall.isParameterCall]

theorem parametersKept_unlockAtom (cr : Crystal S T) (a : AtomID) :
    ParametersKept cr (cr.unlockAtom a) := by
  refine ⟨rfl, rfl, rfl, rfl, rfl, rfl, ?_⟩
  simp [Crystal.parameterCalls, Crystal.unlockAtom, List.filter_append, List.filter,
    CrystalCall.isParameterCall]

theorem parametersKept_lockAtom (cr : Crystal S T) (a : AtomID) :
    ParametersKept cr (cr.lockAtom a).1 := by
  unfold Crystal.lockAtom
  split
  all_goals
    refine ⟨rfl, rfl, rfl, rfl, rfl, rfl, ?_⟩
    simp [Crystal.parameterCalls, List.filter_append, List.filter, CrystalCall.isParameterCall]

theorem parametersKept_pickAtomRay (K : Collaborators S T) (cr : Crystal S T) (r : Ray S) :
    ParametersKept cr (cr.pickAtomRay K r).1 := by
  refine ⟨rfl, rfl, rfl, rfl, rfl, rfl, ?_⟩
  simp [Crystal.parameterCalls, Crystal.pickAtomRay, List.filter_append, List.filter,
    CrystalCall.isParameterCall]

theorem parametersKept_pickAtomPoint (K : Collaborators S T) (cr : Crystal S T) (p : Point S) :
    ParametersKept cr (cr.pickAtomPoint K p).1 := by
  refine ⟨rfl, rfl, rfl, rfl, rfl, rfl, ?_⟩
  simp [Crystal.parameterCalls, Crystal.pickAtomPoint, List.filter_append, List.filter,
    CrystalCall.isParameterCall]

theorem parametersKept_simulate (K : Collaborators S T) (cr : Crystal S T) (dt : ℚ) :
    ParametersKept cr (cr.simulate K dt) := by
  refine ⟨rfl, rfl, rfl, rfl, rfl, rfl, ?_⟩
  simp [Crystal.parameterCalls, Crystal.simulate, List.filter_append, List.filter,
    CrystalCall.isParameterCall]

theorem parametersKept_processDragger [Mul T] [Inv T] (K : Collaborators S T)
    (d : Dragger S T) (st : Crystal S T × List (AtomLock T)) :
    ParametersKept st.1 (processDragger K d st).1 := by
  unfold processDragger
  by_cases hact : d.active = true
  · simp only [hact, if_true]
    cases st.2.find? (fun al => al.draggerID == d.draggerID) with
    | some al => exact parametersKept_setAtomState _ _ _
    | none =>
      simp only
      generalize hpk : (if d.rayBased = true then st.1.pickAtomRay K d.ray
        else st.1.pickAtomPoint K (K.getOrigin d.transformation)) = pk
      have h1 : ParametersKept st.1 pk.1 := by
        rw [← hpk]
        split
        · exact parametersKept_pickAtomRay K _ _
        · exact parametersKept_pickAtomPoint K _ _
      have hlk := parametersKept_trans h1 (parametersKept_lockAtom pk.1 pk.2)
      by_cases hl : (pk.1.lockAtom pk.2).2 = true
      · rw [if_pos hl]
        exact parametersKept_trans hlk (parametersKept_setAtomState _ _ _)
      · rw [if_neg hl]
        exact hlk
  · simp only [hact, Bool.false_eq_true, if_false]
    cases st.2.find? (fun al => al.draggerID == d.draggerID) with
    | some al => exact parametersKept_unlockAtom _ _
    | none => exact parametersKept_refl _

theorem parametersKept_ingestUpdate [Mul T] [Inv T] (K : Collaborators S T)
    (su : StateUpdate S T) (st : Crystal S T × List (AtomLock T)) :
    ParametersKept st.1 (ingestUpdate K su st).1 := by
  unfold ingestUpdate
  generalize List.range su.numDraggers.toNat = idx
  induction idx generalizing st with
  | nil => exact parametersKept_refl _
  | cons i is ih =>
    simp only [List.foldl_cons]
    refine parametersKept_trans ?_ (ih _)
    cases su.entry i with
    | none => exact parametersKept_refl _
    | some d => exact parametersKept_processDragger K d st

theorem parametersKept_ingestClient [Mul T] [Inv T] (K : Collaborators S T)
    (cr : Crystal S T) (c : ClientState S T) : ParametersKept cr (ingestClient K cr c).1 := by
  unfold ingestClient
  split
  · exact parametersKept_ingestUpdate K _ (cr, c.atomLocks)
  · exact parametersKept_refl _

theorem parametersKept_ingestClients [Mul T] [Inv T] (K : Collaborators S T)
    (cs : List (ClientState S T)) (cr : Crystal S T) :
    ParametersKept cr (ingestClients K cr cs).1 := by
  induction cs generalizing cr with
  | nil => exact parametersKept_refl _
  | cons c cs ih =>
    simp only [ingestClients]
    exact parametersKept_trans (parametersKept_ingestClient K cr c) (ih _)

theorem parametersKept_unlockAll (ls : List (AtomLock T)) (cr : Crystal S T) :
    ParametersKept cr (ls.foldl (fun cr al => cr.unlockAtom al.draggedAtom) cr) := by
  induction ls generalizing cr with
  | nil => exact parametersKept_refl _
  | cons al ls ih =>
    rw [List.foldl_cons]
    exact parametersKept_trans (parametersKept_unlockAtom cr _) (ih _)

/-! ### Parameter versions -/

theorem applyParameters_versions (s : Server S T) :
    (applyParameters s).parameterVersion = s.newParameterVersion ∧
    (applyParameters s).newParameterVersion = s.newParameterVersion := by
  unfold applyParameters
  by_cases h : s.newParameterVersion ≠ s.parameterVersion
  · simp only [h, ne_eq, not_false_eq_true, if_true, and_self]
  · simp only [h, if_false, and_true]
    exact (not_not.mp h).symm

/-- What a step does to the two version numbers: the applied one stays or becomes the
pending one, the pending one stays or grows by one. -/
theorem step_versions [Mul T] [Inv T] {K : Collaborators S T} {s s' : Server S T}
    (h : Step K s s') :
    (s'.parameterVersion = s.parameterVersion ∧
      (s'.newParameterVersion = s.newParameterVersion ∨
        s'.newParameterVersion = s.newParameterVersion + 1)) ∨
    (s'.parameterVersion = s.newParameterVersion ∧
      s'.newParameterVersion = s.newParameterVersion) := by
  cases h with
  | accept p capacity hfresh => exact Or.inl ⟨rfl, Or.inl rfl⟩
  | connectReply c hc ht => exact Or.inl ⟨rfl, Or.inl rfl⟩
  | markConnected c hc ht => exact Or.inl ⟨rfl, Or.inl rfl⟩
  | message c msg r1 r2 r3 hc ht =>
    obtain ⟨c', s0, hs0, _, _, heq⟩ := handleMessage_cases K msg r1 r2 r3 c s ht
    rw [heq]
    rcases hs0 with rfl | rfl
    · exact Or.inl ⟨rfl, Or.inl rfl⟩
    · exact Or.inl ⟨paramUpdate_parameterVersion _ _ _ _,
        Or.inr (paramUpdate_newParameterVersion _ _ _ _)⟩
  | count c r hc => exact Or.inl ⟨rfl, Or.inl rfl⟩
  | decode c r hc => exact Or.inl ⟨rfl, Or.inl rfl⟩
  | cleanup c hc ht => exact Or.inl ⟨rfl, Or.inl rfl⟩
  | applyParameters => exact Or.inr (applyParameters_versions s)
  | ingest => exact Or.inl ⟨rfl, Or.inl rfl⟩
  | physics dt => exact Or.inl ⟨rfl, Or.inl rfl⟩
  | broadcast => exact Or.inl ⟨rfl, Or.inl rfl⟩

theorem sendServerUpdateTo_version (s : Server S T) (c : ClientState S T) :
    (sendServerUpdateTo s c).parameterVersion = c.parameterVersion ∨
    (sendServerUpdateTo s c).parameterVersion = s.parameterVersion := by
  unfold sendServerUpdateTo
  repeat' split
  all_goals first
    | exact Or.inl rfl
    | exact Or.inr rfl

theorem clientStep_version [Mul T] [Inv T] {K : Collaborators S T} {s : Server S T}
    {c c' : ClientState S T} (hs : ClientStep K s c c') :
    c'.parameterVersion = c.parameterVersion ∨ c'.parameterVersion = s.parameterVersion := by
  cases hs with
  | same => exact Or.inl rfl
  | connectReply ht => exact Or.inl (readerFrame_sendConnectReply _ _).2.2.2
  | markConnected ht => exact Or.inl rfl
  | leave ht => exact Or.inl rfl
  | disconnectRequest ht => exact Or.inl (readerFrame_disconnectRequest _).2.2.2
  | clientUpdate ht => exact Or.inl rfl
  | count r => exact Or.inl (readerFrame_readNumDraggers _ _).2.2.2
  | decode r => exact Or.inl (readerFrame_decodeStep _ _).2.2.2
  | ingest cr => exact Or.inl (ingestClient_fields K cr c).2.2.2.2.2.2
  | broadcast => exact sendServerUpdateTo_version s c

theorem step_versionInv [Mul T] [Inv T] {K : Collaborators S T} {s s' : Server S T}
    (h : Step K s s') (hi : VersionInv s) :
    VersionInv s' ∧ s.parameterVersion ≤ s'.parameterVersion := by
  have hv := step_versions h
  have hmono : s.parameterVersion ≤ s'.parameterVersion := by
    rcases hv with ⟨h1, _⟩ | ⟨h1, _⟩
    · omega
    · rw [h1]; exact hi.1
  refine ⟨⟨?_, ?_⟩, hmono⟩
  · rcases hv with ⟨h1, h2 | h2⟩ | ⟨h1, h2⟩
    · rw [h1, h2]; exact hi.1
    · rw [h1, h2]; exact Nat.le_succ_of_le hi.1
    · rw [h1, h2]
  · intro c' hc'
    rcases step_clients h c' hc' with ⟨p, capacity, rfl⟩ | ⟨c, hc, hcs⟩
    · exact Nat.zero_le _
    · rcases clientStep_version hcs with hcv | hcv
      · rw [hcv]; exact le_trans (hi.2 c hc) hmono
      · rw [hcv]; exact hmono

theorem construct_versionInv (cr : Crystal S T) (m a g : S) : VersionInv (construct cr m a g) :=
  ⟨Nat.le_refl 1, fun c hc => by simp [construct] at hc⟩

theorem reaches_versionInv [Mul T] [Inv T] {K : Collaborators S T} {s s' : Server S T}
    (h : Reaches K s s') (hi : VersionInv s) :
    VersionInv s' ∧ s.parameterVersion ≤ s'.parameterVersion := by
  induction h with
  | refl => exact ⟨hi, Nat.le_refl _⟩
  | tail _ hstep ih =>
    have := step_versionInv hstep ih.1
    exact ⟨this.1, le_trans ih.2 this.2⟩

theorem reachable_versionInv [Mul T] [Inv T] {K : Collaborators S T} {s : Server S T}
    (h : Reachable K s) : VersionInv s := by
  obtain ⟨cr, m, a, g, _, hr⟩ := h
  exact (reaches_versionInv hr (construct_versionInv cr m a g)).1

theorem simulate_versions [Mul T] [Inv T] (K : Collaborators S T) (timeStep : ℚ)
    (s : Server S T) :
    (simulate K timeStep s).parameterVersion = s.newParameterVersion ∧
    (simulate K timeStep s).newParameterVersion = s.newParameterVersion :=
  applyParameters_versions s

theorem demoServer_reachable : Reachable demoCollaborators demoServer :=
  ⟨demoCrystal, 0, 0, 0, demoCrystal_fresh, Relation.ReflTransGen.refl⟩

/-- C7: from the constructor's state (both versions 1), versions taken as unbounded
naturals, in every reachable state the applied version is at most the pending version; along
any further steps the applied version does not decrease; and right after Step 1 of a tick,
and after the whole tick, the applied version equals the pending version. -/
theorem parameter_version_invariant [Mul T] [Inv T] (K : Collaborators S T) (s : Server S T)
    (h : Reachable K s) :
    s.parameterVersion ≤ s.newParameterVersion ∧
    (∀ s', Reaches K s s' → s.parameterVersion ≤ s'.parameterVersion) ∧
    (applyParameters s).parameterVersion = (applyParameters s).newParameterVersion ∧
    (applyParameters s).parameterVersion = s.newParameterVersion ∧
    (∀ timeStep, (simulate K timeStep s).parameterVersion =
      (simulate K timeStep s).newParameterVersion) := by
  have hi := reachable_versionInv h
  refine ⟨hi.1, fun s' hr => (reaches_versionInv hr hi).2, ?_, (applyParameters_versions s).1,
    fun timeStep => ?_⟩
  · rw [(applyParameters_versions s).1, (applyParameters_versions s).2]
  · rw [(simulate_versions K timeStep s).1, (simulate_versions K timeStep s).2]

/-! ### Latest parameters are applied -/

theorem paramUpdate_sequence (ps : List (S × S × S)) (hps : ps ≠ []) (s : Server S T) :
    (ps.foldl (fun x p => paramUpdate (some p.1) (some p.2.1) (some p.2.2) x) s).newParameterVersion =
      s.newParameterVersion + ps.length ∧
    (ps.foldl (fun x p => paramUpdate (some p.1) (some p.2.1) (some p.2.2) x) s).parameterVersion =
      s.parameterVersion ∧
    (ps.foldl (fun x p => paramUpdate (some p.1) (some p.2.1) (some p.2.2) x) s).crystal =
      s.crystal ∧
    (ps.foldl (fun x p => paramUpdate (some p.1) (some p.2.1) (some p.2.2) x) s).clientStates =
      s.clientStates ∧
    (ps.foldl (fun x p => paramUpdate (some p.1) (some p.2.1) (some p.2.2) x) s).newAtomMass =
      (ps.getLast hps).1 ∧
    (ps.foldl (fun x p => paramUpdate (some p.1) (some p.2.1) (some p.2.2) x) s).newAttenuation =
      (ps.getLast hps).2.1 ∧
    (ps.foldl (fun x p => paramUpdate (some p.1) (some p.2.1) (some p.2.2) x) s).newGravity =
      (ps.getLast hps).2.2 := by
  induction ps generalizing s with
  | nil => exact absurd rfl hps
  | cons p rest ih =>
    rw [List.foldl_cons]
    cases rest with
    | nil =>
      simp only [List.foldl_nil, List.getLast_singleton, List.length_singleton]
      exact ⟨rfl, rfl, rfl, rfl, rfl, rfl, rfl⟩
    | cons p2 rest2 =>
      obtain ⟨h1, h2, h3, h4, h5, h6, h7⟩ := ih (List.cons_ne_nil p2 rest2)
        (paramUpdate (some p.1) (some p.2.1) (some p.2.2) s)
      rw [List.getLast_cons (List.cons_ne_nil p2 rest2)]
      refine ⟨?_, ?_, ?_, ?_, h5, h6, h7⟩
      · rw [h1, paramUpdate_newParameterVersion]
        simp only [List.length_cons]
        omega
      · rw [h2, paramUpdate_parameterVersion]
      · rw [h3, paramUpdate_crystal]
      · rw [h4, paramUpdate_clientStates]

theorem simulate_parametersKept [Mul T] [Inv T] (K : Collaborators S T) (timeStep : ℚ)
    (s : Server S T) :
    ParametersKept (applyParameters s).crystal (simulate K timeStep s).crystal :=
  parametersKept_trans (parametersKept_ingestClients K _ _) (parametersKept_simulate K _ _)

theorem applyParameters_pending (s : Server S T)
    (h : s.newParameterVersion ≠ s.parameterVersion) :
    (applyParameters s).crystal.atomMass = s.newAtomMass ∧
    (applyParameters s).crystal.attenuation = s.newAttenuation ∧
    (applyParameters s).crystal.gravity = s.newGravity := by
  unfold applyParameters
  simp only [h, ne_eq, not_false_eq_true, if_true]
  exact ⟨rfl, rfl, rfl⟩

theorem simulate_idle_parameters [Mul T] [Inv T] (K : Collaborators S T) (timeStep : ℚ)
    (s : Server S T) (h : s.newParameterVersion = s.parameterVersion) :
    (simulate K timeStep s).crystal.parameterCalls = s.crystal.parameterCalls := by
  have h1 := (simulate_parametersKept K timeStep s).2.2.2.2.2.2
  have h2 : applyParameters s = s := by
    unfold applyParameters
    simp [h]
  rw [h1, h2]

/-- C8: after a non-empty sequence of completely received CLIENT_PARAMUPDATE messages the
pending version has grown by their number, and the tick that follows leaves the crystal
with the atom mass, attenuation and gravity of the last message; a tick that starts with
equal versions, as a tick right after another tick does, makes no parameter-setting call. -/
theorem latest_parameters_applied [Mul T] [Inv T] (K : Collaborators S T) (s : Server S T)
    (h : Reachable K s) (ps : List (S × S × S)) (hps : ps ≠ []) (timeStep : ℚ) :
    (ps.foldl (fun x p => paramUpdate (some p.1) (some p.2.1) (some p.2.2) x) s).newParameterVersion =
      s.newParameterVersion + ps.length ∧
    (simulate K timeStep
      (ps.foldl (fun x p => paramUpdate (some p.1) (some p.2.1) (some p.2.2) x) s)).crystal.atomMass =
      (ps.getLast hps).1 ∧
    (simulate K timeStep
      (ps.foldl (fun x p => paramUpdate (some p.1) (some p.2.1) (some p.2.2) x) s)).crystal.attenuation =
      (ps.getLast hps).2.1 ∧
    (simulate K timeStep
      (ps.foldl (fun x p => paramUpdate (some p.1) (some p.2.1) (some p.2.2) x) s)).crystal.gravity =
      (ps.getLast hps).2.2 ∧
    (∀ (s2 : Server S T) (t : ℚ), s2.newParameterVersion = s2.parameterVersion →
      (simulate K t s2).crystal.parameterCalls = s2.crystal.parameterCalls) ∧
    (∀ (s2 : Server S T) (t1 t2 : ℚ),
      (simulate K t2 (simulate K t1 s2)).crystal.parameterCalls =
        (simulate K t1 s2).crystal.parameterCalls) := by
  obtain ⟨h1, h2, _, _, h5, h6, h7⟩ := paramUpdate_sequence ps hps s
  have hv := (reachable_versionInv h).1
  have hlen : 0 < ps.length := List.length_pos.mpr hps
  have hne : (ps.foldl (fun x p => paramUpdate (some p.1) (some p.2.1) (some p.2.2) x)
      s).newParameterVersion ≠
      (ps.foldl (fun x p => paramUpdate (some p.1) (some p.2.1) (some p.2.2) x)
        s).parameterVersion := by
    rw [h1, h2]; omega
  obtain ⟨a1, a2, a3⟩ := applyParameters_pending _ hne
  obtain ⟨_, _, _, k4, k5, k6, _⟩ := simulate_parametersKept K timeStep
    (ps.foldl (fun x p => paramUpdate (some p.1) (some p.2.1) (some p.2.2) x) s)
  refine ⟨h1, ?_, ?_, ?_, fun s2 t hs2 => simulate_idle_parameters K t s2 hs2, fun s2 t1 t2 => ?_⟩
  · rw [k4, a1, h5]
  · rw [k5, a2, h6]
  · rw [k6, a3, h7]
  · apply simulate_idle_parameters
    rw [(simulate_versions K t1 s2).1, (simulate_versions K t1 s2).2]

/-- Witness for C8: the messages {1, 1, 0} and {2, 1/2, 981/100} sent to the concrete
server. -/
theorem latest_parameters_applied_witness :
    Reachable demoCollaborators demoServer ∧
    ([(1, 1, 0), (2, 1 / 2, 981 / 100)] : List (ℚ × ℚ × ℚ)) ≠ [] ∧
    (simulate demoCollaborators 1
      (([(1, 1, 0), (2, 1 / 2, 981 / 100)] : List (ℚ × ℚ × ℚ)).foldl
        (fun x p => paramUpdate (some p.1) (some p.2.1) (some p.2.2) x)
        demoServer)).crystal.gravity =
      (([(1, 1, 0), (2, 1 / 2, 981 / 100)] : List (ℚ × ℚ × ℚ)).getLast
        (List.cons_ne_nil _ _)).2.2 :=
  ⟨demoServer_reachable, List.cons_ne_nil _ _,
    (latest_parameters_applied demoCollaborators demoServer demoServer_reachable
      [(1, 1, 0), (2, 1 / 2, 981 / 100)] (List.cons_ne_nil _ _) 1).2.2.2.1⟩

/-! ### Broadcast -/

theorem writeMessage_ok (p : SharedJelloPipe S T) (m : ServerMessage S T)
    (h : 1 ≤ p.capacity) :
    p.writeMessage m = some { written := p.written ++ [m], capacity := p.capacity - 1 } := by
  unfold SharedJelloPipe.writeMessage
  have : ¬ p.capacity = 0 := by omega
  simp [this]

theorem sendServerUpdateTo_changed (s : Server S T) (cs : ClientState S T)
    (hc : cs.connected = true) (hv : cs.parameterVersion ≠ s.parameterVersion)
    (hcap : 2 ≤ cs.pipe.capacity) :
    sendServerUpdateTo s cs =
      { cs with
        pipe := { written := cs.pipe.written ++
                    [ServerMessage.SERVER_PARAMUPDATE s.crystal.atomMass s.crystal.attenuation
                      s.crystal.gravity,
                     ServerMessage.SERVER_UPDATE s.crystal.atomStates],
                  capacity := cs.pipe.capacity - 2 },
        parameterVersion := s.parameterVersion } := by
  unfold sendServerUpdateTo
  simp only [hc, if_true, hv, ne_eq, not_false_eq_true]
  rw [writeMessage_ok _ _ (by omega)]
  simp only
  rw [writeMessage_ok _ _ (by simp only; omega)]
  simp only [List.append_assoc, List.singleton_append, ClientState.mk.injEq,
    SharedJelloPipe.mk.injEq, true_and, and_true]
  omega

theorem sendServerUpdateTo_unchanged (s : Server S T) (cs : ClientState S T)
    (hc : cs.connected = true) (hv : cs.parameterVersion = s.parameterVersion)
    (hcap : 1 ≤ cs.pipe.capacity) :
    sendServerUpdateTo s cs =
      { cs with
        pipe := { written := cs.pipe.written ++
                    [ServerMessage.SERVER_UPDATE s.crystal.atomStates],
                  capacity := cs.pipe.capacity - 1 } } := by
  unfold sendServerUpdateTo
  simp only [hc, if_true, hv, ne_eq, not_true_eq_false, if_false]
  rw [writeMessage_ok _ _ hcap]

theorem sendServerUpdateTo_disconnected (s : Server S T) (cs : ClientState S T)
    (hc : cs.connected = false) : sendServerUpdateTo s cs = cs := by
  unfold sendServerUpdateTo
  simp [hc]

/-- C9: the broadcast runs the per-client body over the client list; for a connected
client whose writes succeed it appends SERVER_PARAMUPDATE with the crystal's parameters
and SERVER_UPDATE with the atom states when the client's version differs from the applied
one, and SERVER_UPDATE alone when they are equal, and leaves the client's version equal to
the applied one; the next broadcast then appends SERVER_UPDATE alone; and after a
CLIENT_PARAMUPDATE{a,b,c} and one tick the broadcast appends SERVER_PARAMUPDATE{a,b,c} and
SERVER_UPDATE for every connected client. -/
theorem broadcast_parameter_echo [Mul T] [Inv T] (K : Collaborators S T) (s : Server S T)
    (h : Reachable K s) :
    (sendServerUpdate s).clientStates = s.clientStates.map (sendServerUpdateTo s) ∧
    (∀ cs : ClientState S T, cs.connected = true →
      cs.parameterVersion ≠ s.parameterVersion → 2 ≤ cs.pipe.capacity →
      (sendServerUpdateTo s cs).pipe.written = cs.pipe.written ++
        [ServerMessage.SERVER_PARAMUPDATE s.crystal.atomMass s.crystal.attenuation
          s.crystal.gravity,
         ServerMessage.SERVER_UPDATE s.crystal.atomStates] ∧
      (sendServerUpdateTo s cs).parameterVersion = s.parameterVersion) ∧
    (∀ cs : ClientState S T, cs.connected = true →
      cs.parameterVersion = s.parameterVersion → 1 ≤ cs.pipe.capacity →
      (sendServerUpdateTo s cs).pipe.written = cs.pipe.written ++
        [ServerMessage.SERVER_UPDATE s.crystal.atomStates] ∧
      (sendServerUpdateTo s cs).parameterVersion = s.parameterVersion) ∧
    (∀ cs : ClientState S T, cs.connected = true → 3 ≤ cs.pipe.capacity →
      (sendServerUpdateTo (sendServerUpdate s) (sendServerUpdateTo s cs)).pipe.written =
        (sendServerUpdateTo s cs).pipe.written ++
          [ServerMessage.SERVER_UPDATE s.crystal.atomStates]) ∧
    (∀ (a b c : S) (timeStep : ℚ),
      ∀ cs ∈ (simulate K timeStep (paramUpdate (some a) (some b) (some c) s)).clientStates,
      cs.connected = true → 2 ≤ cs.pipe.capacity →
      (sendServerUpdateTo (simulate K timeStep (paramUpdate (some a) (some b) (some c) s))
        cs).pipe.written = cs.pipe.written ++
        [ServerMessage.SERVER_PARAMUPDATE a b c,
         ServerMessage.SERVER_UPDATE
           (simulate K timeStep (paramUpdate (some a) (some b) (some c) s)).crystal.atomStates]) := by
  refine ⟨rfl, ?_, ?_, ?_, ?_⟩
  · intro cs hc hv hcap
    rw [sendServerUpdateTo_changed s cs hc hv hcap]
    exact ⟨rfl, rfl⟩
  · intro cs hc hv hcap
    rw [sendServerUpdateTo_unchanged s cs hc hv hcap]
    exact ⟨rfl, hv⟩
  · intro cs hc hcap
    have hfacts : (sendServerUpdateTo s cs).parameterVersion = s.parameterVersion ∧
        1 ≤ (sendServerUpdateTo s cs).pipe.capacity := by
      by_cases hv : cs.parameterVersion = s.parameterVersion
      · rw [sendServerUpdateTo_unchanged s cs hc hv (by omega)]
        exact ⟨hv, by simp only; omega⟩
      · rw [sendServerUpdateTo_changed s cs hc hv (by omega)]
        exact ⟨rfl, by simp only; omega⟩
    have hcon : (sendServerUpdateTo s cs).connected = true := by
      rw [(sendServerUpdateTo_fields s cs).2.2.2.2]; exact hc
    have e2 := sendServerUpdateTo_unchanged (sendServerUpdate s) (sendServerUpdateTo s cs)
      hcon hfacts.1 hfacts.2
    rw [e2]
    rfl
  · intro a b c timeStep cs hcs hc hcap
    have hi := reachable_versionInv h
    have hne : (paramUpdate (some a) (some b) (some c) s).newParameterVersion ≠
        (paramUpdate (some a) (some b) (some c) s).parameterVersion := by
      rw [paramUpdate_newParameterVersion, paramUpdate_parameterVersion]
      have := hi.1
      omega
    obtain ⟨a1, a2, a3⟩ := applyParameters_pending _ hne
    obtain ⟨_, _, _, k4, k5, k6, _⟩ := simulate_parametersKept K timeStep
      (paramUpdate (some a) (some b) (some c) s)
    have hver := (simulate_versions K timeStep (paramUpdate (some a) (some b) (some c) s)).1
    rw [paramUpdate_newParameterVersion] at hver
    obtain ⟨x, hx, cr', rfl⟩ := mem_ingestClients K _ _ cs hcs
    rw [applyParameters_clientStates, paramUpdate_clientStates] at hx
    have hxv := (ingestClient_fields K cr' x).2.2.2.2.2.2
    have hv : (ingestClient K cr' x).2.parameterVersion ≠
        (simulate K timeStep (paramUpdate (some a) (some b) (some c) s)).parameterVersion := by
      rw [hxv, hver]
      have h1 := hi.2 x hx
      have h2 := hi.1
      omega
    rw [sendServerUpdateTo_changed _ _ hc hv hcap]
    simp only [k4, k5, k6, a1, a2, a3]
    rfl

/-! ### CONNECT_REPLY comes first -/

theorem applyParameters_connectReply (s : Server S T) :
    connectReply (applyParameters s) = connectReply s := by
  unfold applyParameters
  split <;> rfl

theorem connectReply_of_kept {s s' : Server S T} (h : ParametersKept s.crystal s'.crystal) :
    connectReply s' = connectReply s := by
  unfold connectReply
  rw [h.1, h.2.1, h.2.2.1]

theorem step_connectReply [Mul T] [Inv T] {K : Collaborators S T} {s s' : Server S T}
    (h : Step K s s') : connectReply s' = connectReply s := by
  cases h with
  | accept p capacity hfresh => rfl
  | connectReply c hc ht => rfl
  | markConnected c hc ht => rfl
  | message c msg r1 r2 r3 hc ht =>
    obtain ⟨c', s0, hs0, _, _, heq⟩ := handleMessage_cases K msg r1 r2 r3 c s ht
    rw [heq]
    rcases hs0 with rfl | rfl
    · rfl
    · show connectReply (paramUpdate r1 r2 r3 s) = connectReply s
      unfold connectReply
      rw [paramUpdate_crystal]
  | count c r hc => rfl
  | decode c r hc => rfl
  | cleanup c hc ht => exact connectReply_of_kept (parametersKept_unlockAll _ _)
  | applyParameters => exact applyParameters_connectReply s
  | ingest => exact connectReply_of_kept (parametersKept_ingestClients K _ _)
  | physics dt => exact connectReply_of_kept (parametersKept_simulate K _ _)
  | broadcast => rfl

theorem pipeInv_running {reply : ServerMessage S T} {c : ClientState S T}
    (h : c.PipeInv reply)
    (ht : c.thread ≠ ThreadState.connecting ∧ c.thread ≠ ThreadState.replied ∧
      c.thread ≠ ThreadState.leaving) :
    c.connected = true ∧ ∃ rest, c.pipe.written = reply :: rest := by
  unfold ClientState.PipeInv at h
  cases hth : c.thread with
  | connecting => exact absurd hth ht.1
  | replied => exact absurd hth ht.2.1
  | leaving => exact absurd hth ht.2.2
  | waiting => rw [hth] at h; exact h
  | chose n => rw [hth] at h; exact h
  | decoding n k => rw [hth] at h; exact h

theorem pipeInv_of_running {reply : ServerMessage S T} {c' : ClientState S T}
    (h : c'.connected = true ∧ ∃ rest, c'.pipe.written = reply :: rest)
    (ht : c'.thread ≠ ThreadState.connecting ∧ c'.thread ≠ ThreadState.replied) :
    c'.PipeInv reply := by
  unfold ClientState.PipeInv
  cases hth : c'.thread with
  | connecting => exact absurd hth ht.1
  | replied => exact absurd hth ht.2
  | leaving => exact Or.inr h.2
  | waiting => exact h
  | chose n => exact h
  | decoding n k => exact h

theorem pipeInv_congr {reply : ServerMessage S T} {c c' : ClientState S T}
    (ht : c'.thread = c.thread) (hp : c'.pipe = c.pipe) (hc : c'.connected = c.connected)
    (h : c.PipeInv reply) : c'.PipeInv reply := by
  unfold ClientState.PipeInv at *
  rw [ht, hp, hc]
  exact h

theorem readNumDraggers_pipe (r : Option Int) (c : ClientState S T) :
    (readNumDraggers r c).pipe = c.pipe ∧ (readNumDraggers r c).connected = c.connected ∧
    ((readNumDraggers r c).thread = c.thread ∨
      ((∃ n, c.thread = ThreadState.chose n) ∧
        (readNumDraggers r c).thread ≠ ThreadState.connecting ∧
        (readNumDraggers r c).thread ≠ ThreadState.replied)) := by
  unfold readNumDraggers
  cases hth : c.thread with
  | chose n =>
    simp only
    refine ⟨?_, ?_, Or.inr ⟨⟨n, rfl⟩, ?_⟩⟩
    · repeat' split
      all_goals rfl
    · repeat' split
      all_goals rfl
    · repeat' split
      all_goals exact ⟨by simp [ClientState.leave], by simp [ClientState.leave]⟩
  | connecting => exact ⟨rfl, rfl, Or.inl hth⟩
  | replied => exact ⟨rfl, rfl, Or.inl hth⟩
  | waiting => exact ⟨rfl, rfl, Or.inl hth⟩
  | decoding n k => exact ⟨rfl, rfl, Or.inl hth⟩
  | leaving => exact ⟨rfl, rfl, Or.inl hth⟩

theorem decodeStep_pipe (r : DraggerRead S T) (c : ClientState S T) :
    (decodeStep r c).pipe = c.pipe ∧ (decodeStep r c).connected = c.connected ∧
    ((decodeStep r c).thread = c.thread ∨
      ((∃ n k, c.thread = ThreadState.decoding n k) ∧
        (decodeStep r c).thread ≠ ThreadState.connecting ∧
        (decodeStep r c).thread ≠ ThreadState.replied)) := by
  unfold decodeStep
  cases hth : c.thread with
  | decoding n k =>
    simp only
    split
    · rcases readDragger_cases n k r c with ⟨f, hf⟩ | ⟨d, hd⟩
      · rw [hf]
        exact ⟨rfl, rfl, Or.inr ⟨⟨n, k, rfl⟩, by simp [ClientState.leave],
          by simp [ClientState.leave]⟩⟩
      · rw [hd]
        exact ⟨rfl, rfl, Or.inr ⟨⟨n, k, rfl⟩, by simp, by simp⟩⟩
    · exact ⟨rfl, rfl, Or.inr ⟨⟨n, k, rfl⟩, by simp, by simp⟩⟩
  | connecting => exact ⟨rfl, rfl, Or.inl hth⟩
  | replied => exact ⟨rfl, rfl, Or.inl hth⟩
  | waiting => exact ⟨rfl, rfl, Or.inl hth⟩
  | chose n => exact ⟨rfl, rfl, Or.inl hth⟩
  | leaving => exact ⟨rfl, rfl, Or.inl hth⟩

theorem writeMessage_written {p p' : SharedJelloPipe S T} {m : ServerMessage S T}
    (h : p.writeMessage m = some p') : p'.written = p.written ++ [m] := by
  unfold SharedJelloPipe.writeMessage at h
  split at h
  · cases h
  · cases h
    rfl

theorem sendServerUpdateTo_written (s : Server S T) (c : ClientState S T) :
    ∃ extra, (sendServerUpdateTo s c).pipe.written = c.pipe.written ++ extra := by
  unfold sendServerUpdateTo
  by_cases hc : c.connected = true
  · by_cases hv : c.parameterVersion ≠ s.parameterVersion
    · simp only [hc, if_true, hv, ne_eq, not_false_eq_true]
      cases h1 : c.pipe.writeMessage (ServerMessage.SERVER_PARAMUPDATE s.crystal.atomMass
          s.crystal.attenuation s.crystal.gravity) with
      | none => exact ⟨[], by simp⟩
      | some p1 =>
        simp only
        cases h2 : p1.writeMessage (ServerMessage.SERVER_UPDATE s.crystal.atomStates) with
        | none => exact ⟨_, writeMessage_written h1⟩
        | some p2 =>
          refine ⟨[ServerMessage.SERVER_PARAMUPDATE s.crystal.atomMass s.crystal.attenuation
            s.crystal.gravity, ServerMessage.SERVER_UPDATE s.crystal.atomStates], ?_⟩
          simp only
          rw [writeMessage_written h2, writeMessage_written h1]
          simp
    · simp only [hc, if_true, hv, if_false]
      cases h1 : c.pipe.writeMessage (ServerMessage.SERVER_UPDATE s.crystal.atomStates) with
      | none => exact ⟨[], by simp⟩
      | some p1 => exact ⟨_, writeMessage_written h1⟩
  · simp only [hc, Bool.false_eq_true, if_false]
    exact ⟨[], by simp⟩

/-- Every client step keeps the outgoing stream in line with the thread's position. -/
theorem clientStep_pipeInv [Mul T] [Inv T] {K : Collaborators S T} {s : Server S T}
    {c c' : ClientState S T} (hs : ClientStep K s c c') (h : c.PipeInv (connectReply s)) :
    c'.PipeInv (connectReply s) := by
  cases hs with
  | same => exact h
  | connectReply ht =>
    unfold ClientState.PipeInv at h
    rw [ht] at h
    unfold sendConnectReply SharedJelloPipe.writeMessage
    by_cases hcap : c.pipe.capacity = 0
    · simp only [hcap, if_true]
      exact Or.inl h
    · simp only [hcap, if_false]
      exact ⟨h.1, by simp [h.2, connectReply]⟩
  | markConnected ht =>
    unfold ClientState.PipeInv at h
    rw [ht] at h
    exact ⟨rfl, [], h.2⟩
  | leave ht =>
    have := pipeInv_running h (by rw [ht]; simp)
    exact Or.inr this.2
  | disconnectRequest ht =>
    obtain ⟨_, rest, hr⟩ := pipeInv_running h (by rw [ht]; simp)
    unfold disconnectRequest SharedJelloPipe.writeMessage
    by_cases hcap : c.pipe.capacity = 0
    · simp only [hcap, if_true]
      exact Or.inr ⟨rest, hr⟩
    · simp only [hcap, if_false]
      exact Or.inr ⟨rest ++ [ServerMessage.DISCONNECT_REPLY], by
        simp [SharedJelloPipe.shutdownWrite, hr]⟩
  | clientUpdate ht =>
    have := pipeInv_running h (by rw [ht]; simp)
    exact this
  | count r =>
    obtain ⟨e1, e2, e3⟩ := readNumDraggers_pipe r c
    rcases e3 with e3 | ⟨⟨n, hn⟩, e3⟩
    · exact pipeInv_congr e3 e1 e2 h
    · have := pipeInv_running h (by rw [hn]; simp)
      exact pipeInv_of_running (by rw [e1, e2]; exact this) e3
  | decode r =>
    obtain ⟨e1, e2, e3⟩ := decodeStep_pipe r c
    rcases e3 with e3 | ⟨⟨n, k, hn⟩, e3⟩
    · exact pipeInv_congr e3 e1 e2 h
    · have := pipeInv_running h (by rw [hn]; simp)
      exact pipeInv_of_running (by rw [e1, e2]; exact this) e3
  | ingest cr =>
    obtain ⟨_, _, e3, _, e5, e6, _⟩ := ingestClient_fields K cr c
    exact pipeInv_congr e3 e5 e6 h
  | broadcast =>
    by_cases hc : c.connected = true
    · obtain ⟨e1, _, _, _, e5⟩ := sendServerUpdateTo_fields s c
      obtain ⟨extra, hex⟩ := sendServerUpdateTo_written s c
      have hrest : ∃ rest, c.pipe.written = connectReply s :: rest := by
        unfold ClientState.PipeInv at h
        cases hth : c.thread with
        | connecting => rw [hth] at h; rw [h.1] at hc; cases hc
        | replied => rw [hth] at h; rw [h.1] at hc; cases hc
        | leaving =>
          rw [hth] at h
          rcases h with h | h
          · rw [h.1] at hc; cases hc
          · exact h
        | waiting => rw [hth] at h; exact h.2
        | chose n => rw [hth] at h; exact h.2
        | decoding n k => rw [hth] at h; exact h.2
      obtain ⟨rest, hr⟩ := hrest
      have hw : ∃ rest', (sendServerUpdateTo s c).pipe.written = connectReply s :: rest' :=
        ⟨rest ++ extra, by rw [hex, hr]; rfl⟩
      unfold ClientState.PipeInv
      rw [e1, e5]
      cases hth : c.thread with
      | connecting =>
        unfold ClientState.PipeInv at h
        rw [hth] at h; rw [h.1] at hc; cases hc
      | replied =>
        unfold ClientState.PipeInv at h
        rw [hth] at h; rw [h.1] at hc; cases hc
      | leaving => exact Or.inr hw
      | waiting => exact ⟨hc, hw⟩
      | chose n => exact ⟨hc, hw⟩
      | decoding n k => exact ⟨hc, hw⟩
    · rw [sendServerUpdateTo_disconnected s c (by simpa using hc)]
      exact h

theorem reachable_pipeInv [Mul T] [Inv T] {K : Collaborators S T} {s : Server S T}
    (h : Reachable K s) : ∀ c ∈ s.clientStates, c.PipeInv (connectReply s) := by
  obtain ⟨cr, m, a, g, _, hr⟩ := h
  induction hr with
  | refl => intro c hc; simp [construct] at hc
  | tail _ hstep ih =>
    intro c' hc'
    rw [step_connectReply hstep]
    rcases step_clients hstep c' hc' with ⟨p, capacity, rfl⟩ | ⟨c, hc, hcs⟩
    · exact ⟨rfl, rfl⟩
    · exact clientStep_pipeInv hcs (ih c hc)

/-- C10: in every reachable state the outgoing stream of a client is empty or starts with
CONNECT_REPLY carrying the crystal's domain bounds and atom counts; the broadcast leaves a
client whose connected flag is false as it is; a connected client's stream starts with
CONNECT_REPLY; and before the reply is written the flag is false and the stream empty. -/
theorem connect_reply_first [Mul T] [Inv T] (K : Collaborators S T) (s : Server S T)
    (h : Reachable K s) (c : ClientState S T) (hc : c ∈ s.clientStates) :
    (c.pipe.written = [] ∨ ∃ rest, c.pipe.written =
      ServerMessage.CONNECT_REPLY s.crystal.domainMin s.crystal.domainMax s.crystal.numAtoms ::
        rest) ∧
    (c.connected = false → sendServerUpdateTo s c = c) ∧
    (c.connected = true → ∃ rest, c.pipe.written =
      ServerMessage.CONNECT_REPLY s.crystal.domainMin s.crystal.domainMax s.crystal.numAtoms ::
        rest) ∧
    (c.thread = ThreadState.connecting → c.connected = false ∧ c.pipe.written = []) ∧
    (c.thread = ThreadState.replied → c.connected = false ∧ c.pipe.written =
      [ServerMessage.CONNECT_REPLY s.crystal.domainMin s.crystal.domainMax
        s.crystal.numAtoms]) := by
  have hp := reachable_pipeInv h c hc
  unfold ClientState.PipeInv connectReply at hp
  refine ⟨?_, sendServerUpdateTo_disconnected s c, ?_, ?_, ?_⟩
  · cases hth : c.thread with
    | connecting => rw [hth] at hp; exact Or.inl hp.2
    | replied => rw [hth] at hp; exact Or.inr ⟨[], hp.2⟩
    | leaving =>
      rw [hth] at hp
      rcases hp with hp | hp
      · exact Or.inl hp.2
      · exact Or.inr hp
    | waiting => rw [hth] at hp; exact Or.inr hp.2
    | chose n => rw [hth] at hp; exact Or.inr hp.2
    | decoding n k => rw [hth] at hp; exact Or.inr hp.2
  · intro hcon
    cases hth : c.thread with
    | connecting => rw [hth] at hp; rw [hp.1] at hcon; cases hcon
    | replied => rw [hth] at hp; rw [hp.1] at hcon; cases hcon
    | leaving =>
      rw [hth] at hp
      rcases hp with hp | hp
      · rw [hp.1] at hcon; cases hcon
      · exact hp
    | waiting => rw [hth] at hp; exact hp.2
    | chose n => rw [hth] at hp; exact hp.2
    | decoding n k => rw [hth] at hp; exact hp.2
  · intro hth
    rw [hth] at hp
    exact hp
  · intro hth
    rw [hth] at hp
    exact hp

theorem entry_ofDraggers (ds : List (Dragger S T)) (i : Nat) :
    (StateUpdate.ofDraggers ds).entry i = ds[i]? := by
  unfold StateUpdate.entry StateUpdate.ofDraggers
  simp only [List.getElem?_map]
  cases ds[i]? with
  | none => rfl
  | some d => rfl

theorem foldl_range'_index {α β : Type} (f : α → β → β) (body : β → Nat → β)
    (ds pre : List α) (st : β)
    (h : ∀ acc i, body acc i = Option.elim (pre ++ ds)[i]? acc (fun d => f d acc)) :
    (List.range' pre.length ds.length).foldl body st = ds.foldl (fun acc d => f d acc) st := by
  induction ds generalizing pre st with
  | nil => rfl
  | cons d ds ih =>
    simp only [List.length_cons, List.range'_succ, List.foldl_cons]
    have h0 : (pre ++ d :: ds)[pre.length]? = some d := by
      rw [List.getElem?_append_right (Nat.le_refl _)]
      simp
    rw [h, h0]
    have := ih (pre ++ [d]) (f d st) (by
      intro acc i
      rw [h]
      simp only [List.append_assoc, List.singleton_append])
    simp only [List.length_append, List.length_singleton] at this
    exact this

/-- On a state update that holds a whole message the dragger loop handles exactly the
draggers of the message, in their order. -/
theorem ingestUpdate_ofDraggers [Mul T] [Inv T] (K : Collaborators S T)
    (ds : List (Dragger S T)) (st : Crystal S T × List (AtomLock T)) :
    ingestUpdate K (StateUpdate.ofDraggers ds) st =
      ds.foldl (fun acc d => processDragger K d acc) st := by
  unfold ingestUpdate
  have hn : (StateUpdate.ofDraggers ds : StateUpdate S T).numDraggers.toNat = ds.length := by
    simp [StateUpdate.ofDraggers]
  rw [hn, List.range_eq_range']
  refine foldl_range'_index (fun d acc => processDragger K d acc) _ ds [] st ?_
  intro acc i
  simp only [entry_ofDraggers, List.nil_append]
  cases ds[i]? with
  | none => rfl
  | some d => rfl

/-! ### Grabbing and dragging -/

theorem find?_none_of_ids {ls : List (AtomLock T)} {i : Nat} (h : i ∉ lockIds ls) :
    ls.find? (fun al => al.draggerID == i) = none := by
  rw [List.find?_eq_none]
  intro al hal hid
  exact h (List.mem_map.mpr ⟨al, hal, by simpa using hid⟩)

theorem find?_of_mem_nodup {ls : List (AtomLock T)} {al : AtomLock T}
    (hn : (lockIds ls).Nodup) (hal : al ∈ ls) :
    ls.find? (fun x => x.draggerID == al.draggerID) = some al := by
  induction ls with
  | nil => simp at hal
  | cons y ys ih =>
    have hn' : y.draggerID ∉ lockIds ys ∧ (lockIds ys).Nodup := List.nodup_cons.mp hn
    rcases List.mem_cons.mp hal with h | h
    · subst h
      simp [List.find?]
    · have hne : ¬ y.draggerID = al.draggerID := by
        intro he
        exact hn'.1 (List.mem_map.mpr ⟨al, h, he.symm⟩)
      have : (y.draggerID == al.draggerID) = false := by simpa using hne
      simp only [List.find?, this]
      exact ih hn'.2 h

/-- What the loop body does for an active dragger that has no atom lock yet and picks an
unlocked atom. -/
theorem processDragger_grab [Mul T] [Inv T] (K : Collaborators S T) (d : Dragger S T)
    (cr : Crystal S T) (locks : List (AtomLock T)) (hact : d.active = true)
    (hnone : d.draggerID ∉ lockIds locks) (hfree : cr.locked (pickedAtom K cr d) = false) :
    processDragger K d (cr, locks) =
      ({ cr with
         locked := fun b => if b = pickedAtom K cr d then true else cr.locked b,
         atomState := fun b =>
           if b = pickedAtom K cr d then
             d.transformation * (d.transformation⁻¹ * cr.atomState (pickedAtom K cr d))
           else cr.atomState b,
         calls := cr.calls ++ [pickCall K d, CrystalCall.lockAtom (pickedAtom K cr d),
           CrystalCall.setAtomState (pickedAtom K cr d)
             (d.transformation * (d.transformation⁻¹ * cr.atomState (pickedAtom K cr d)))] },
       locks ++ [{ draggerID := d.draggerID, draggedAtom := pickedAtom K cr d,
                   dragTransformation :=
                     d.transformation⁻¹ * cr.atomState (pickedAtom K cr d) }]) := by
  unfold processDragger
  simp only [hact, if_true, find?_none_of_ids hnone]
  unfold pickedAtom at hfree ⊢
  unfold pickCall
  by_cases hr : d.rayBased = true
  · simp only [hr, if_true] at hfree ⊢
    simp [Crystal.pickAtomRay, Crystal.lockAtom, hfree, Crystal.setAtomState,
      Crystal.getAtomState]
  · simp only [hr, Bool.false_eq_true, if_false] at hfree ⊢
    simp [Crystal.pickAtomPoint, Crystal.lockAtom, hfree, Crystal.setAtomState,
      Crystal.getAtomState]

/-- What the loop body does for an active dragger that has no atom lock yet and picks a
locked atom: the pick and the failed lock attempt, nothing else. -/
theorem processDragger_contended [Mul T] [Inv T] (K : Collaborators S T) (d : Dragger S T)
    (cr : Crystal S T) (locks : List (AtomLock T)) (hact : d.active = true)
    (hnone : d.draggerID ∉ lockIds locks) (hheld : cr.locked (pickedAtom K cr d) = true) :
    processDragger K d (cr, locks) =
      ({ cr with
         calls := cr.calls ++ [pickCall K d, CrystalCall.lockAtom (pickedAtom K cr d)] },
       locks) := by
  unfold processDragger
  simp only [hact, if_true, find?_none_of_ids hnone]
  unfold pickedAtom at hheld ⊢
  unfold pickCall
  by_cases hr : d.rayBased = true
  · simp only [hr, if_true] at hheld ⊢
    simp [Crystal.pickAtomRay, Crystal.lockAtom, hheld]
  · simp only [hr, Bool.false_eq_true, if_false] at hheld ⊢
    simp [Crystal.pickAtomPoint, Crystal.lockAtom, hheld]

/-- What the loop body does for an active dragger that holds an atom lock. -/
theorem processDragger_drag [Mul T] [Inv T] (K : Collaborators S T) (d : Dragger S T)
    (cr : Crystal S T) (locks : List (AtomLock T)) (al : AtomLock T) (hact : d.active = true)
    (hn : (lockIds locks).Nodup) (hal : al ∈ locks) (hid : al.draggerID = d.draggerID) :
    processDragger K d (cr, locks) =
      (cr.setAtomState al.draggedAtom (d.transformation * al.dragTransformation), locks) := by
  unfold processDragger
  have := find?_of_mem_nodup hn hal
  rw [hid] at this
  simp only [hact, if_true, this]

/-- C11: an active dragger with transformation T that has no atom lock yet, picks an atom
with pose P and gets the lock: the stored atom lock has dragTransformation T⁻¹ * P, the
pose written to the atom is T * (T⁻¹ * P), which is P, so the poses of the crystal are as
before; the calls made are the pick, lockAtom and that one setAtomState. -/
theorem grab_keeps_pose [Group T] (K : Collaborators S T) (d : Dragger S T)
    (cr : Crystal S T) (locks : List (AtomLock T)) (a : AtomID) (P : T)
    (hact : d.active = true) (hnone : d.draggerID ∉ lockIds locks)
    (hpick : pickedAtom K cr d = a) (hpose : cr.getAtomState a = P)
    (hfree : cr.locked a = false) :
    (processDragger K d (cr, locks)).2 =
      locks ++ [{ draggerID := d.draggerID, draggedAtom := a,
                  dragTransformation := d.transformation⁻¹ * P }] ∧
    (processDragger K d (cr, locks)).1.calls =
      cr.calls ++ [pickCall K d, CrystalCall.lockAtom a,
        CrystalCall.setAtomState a (d.transformation * (d.transformation⁻¹ * P))] ∧
    d.transformation * (d.transformation⁻¹ * P) = P ∧
    (processDragger K d (cr, locks)).1.atomState = cr.atomState ∧
    (processDragger K d (cr, locks)).1.locked a = true := by
  subst hpick
  have hP : cr.atomState (pickedAtom K cr d) = P := hpose
  rw [processDragger_grab K d cr locks hact hnone hfree, hP]
  refine ⟨rfl, rfl, mul_inv_cancel_left _ _, ?_, by simp⟩
  funext b
  by_cases hb : b = pickedAtom K cr d
  · simp only [hb, if_true, mul_inv_cancel_left, hP]
  · simp only [hb, if_false]

/-- Witness for C11: on the line crystal a ray-based dragger at translation 3 grabs atom 0. -/
theorem grab_keeps_pose_witness :
    (lineDragger 1 true 3 true).active = true ∧
    (processDragger lineCollaborators (lineDragger 1 true 3 true) (lineCrystal, [])).1.atomState =
      lineCrystal.atomState ∧
    (processDragger lineCollaborators (lineDragger 1 true 3 true) (lineCrystal, [])).1.locked 0 =
      true :=
  ⟨rfl,
    (grab_keeps_pose lineCollaborators (lineDragger 1 true 3 true) lineCrystal [] 0 1 rfl
      (by simp [lockIds]) rfl rfl rfl).2.2.2⟩

/-! ### Atoms that a dragger entry does not concern -/

theorem untouched_refl (a : AtomID) (cr : Crystal S T) : Untouched a cr cr :=
  ⟨rfl, rfl, rfl⟩

theorem untouched_trans {a : AtomID} {c1 c2 c3 : Crystal S T} (h1 : Untouched a c1 c2)
    (h2 : Untouched a c2 c3) : Untouched a c1 c3 :=
  ⟨h2.1.trans h1.1, h2.2.1.trans h1.2.1, h2.2.2.trans h1.2.2⟩

theorem untouched_setAtomState {a b : AtomID} (cr : Crystal S T) (t : T) (h : b ≠ a) :
    Untouched a cr (cr.setAtomState b t) := by
  refine ⟨rfl, ?_, ?_⟩
  · simp [Crystal.setAtomState, Ne.symm h]
  · have hb : (b == a) = false := by simpa using h
    simp [Crystal.setAtomState, List.filter_append, List.filter, CrystalCall.setsAtom, hb]

theorem untouched_unlockAtom {a b : AtomID} (cr : Crystal S T) (h : b ≠ a) :
    Untouched a cr (cr.unlockAtom b) := by
  refine ⟨?_, rfl, ?_⟩
  · simp [Crystal.unlockAtom, Ne.symm h]
  · simp [Crystal.unlockAtom, List.filter_append, List.filter, CrystalCall.setsAtom]

theorem untouched_lockAtom {a : AtomID} (cr : Crystal S T) (p : AtomID)
    (h : cr.locked a = true) : Untouched a cr (cr.lockAtom p).1 := by
  refine ⟨?_, ?_, ?_⟩
  · rw [lockAtom_locked, h]
    by_cases hp : a = p <;> simp [hp]
  · unfold Crystal.lockAtom
    split <;> rfl
  · unfold Crystal.lockAtom
    split <;> simp [List.filter_append, List.filter, CrystalCall.setsAtom]

theorem untouched_pickAtomRay (K : Collaborators S T) (a : AtomID) (cr : Crystal S T)
    (r : Ray S) : Untouched a cr (cr.pickAtomRay K r).1 := by
  refine ⟨rfl, rfl, ?_⟩
  simp [Crystal.pickAtomRay, List.filter_append, List.filter, CrystalCall.setsAtom]

theorem untouched_pickAtomPoint (K : Collaborators S T) (a : AtomID) (cr : Crystal S T)
    (p : Point S) : Untouched a cr (cr.pickAtomPoint K p).1 := by
  refine ⟨rfl, rfl, ?_⟩
  simp [Crystal.pickAtomPoint, List.filter_append, List.filter, CrystalCall.setsAtom]

theorem mem_of_find? {α : Type} {p : α → Bool} {l : List α} {x : α}
    (h : l.find? p = some x) : x ∈ l ∧ p x = true := by
  induction l with
  | nil => simp at h
  | cons y ys ih =>
    by_cases hy : p y = true
    · simp [List.find?, hy] at h
      subst h
      exact ⟨List.mem_cons_self _ _, hy⟩
    · simp only [Bool.not_eq_true] at hy
      simp [List.find?, hy] at h
      exact ⟨List.mem_cons_of_mem _ (ih h).1, (ih h).2⟩

/-- An atom held by a lock of another client, or by a lock of this client under another
dragger id, is not concerned by a dragger entry: it stays locked, keeps its pose, gets no
setAtomState call, and the locks under other ids stay in the list. -/
theorem processDragger_frame [Mul T] [Inv T] (K : Collaborators S T) (e : Dragger S T)
    (st : Crystal S T × List (AtomLock T)) (pre post : List AtomID) (a : AtomID)
    (hinv : LockInv st.1.locked (pre ++ lockedAtoms st.2 ++ post))
    (hheld : a ∈ pre ∨ a ∈ post ∨
      ∃ al ∈ st.2, al.draggedAtom = a ∧ al.draggerID ≠ e.draggerID) :
    Untouched a st.1 (processDragger K e st).1 ∧
    (∀ al ∈ st.2, al.draggerID ≠ e.draggerID → al ∈ (processDragger K e st).2) := by
  have hmem : a ∈ pre ++ lockedAtoms st.2 ++ post := by
    rcases hheld with h | h | ⟨al, hal, rfl, _⟩
    · simp [h]
    · simp [h]
    · have : al.draggedAtom ∈ lockedAtoms st.2 := List.mem_map.mpr ⟨al, hal, rfl⟩
      simp [this]
  have hlocked : st.1.locked a = true := (hinv.2 a).mpr hmem
  have hnd := hinv.1
  rw [List.append_assoc, List.nodup_append] at hnd
  obtain ⟨_, hnd2, hdis1⟩ := hnd
  rw [List.nodup_append] at hnd2
  obtain ⟨hndl, _, hdis2⟩ := hnd2
  have key : ∀ l ∈ st.2, l.draggerID = e.draggerID → l.draggedAtom ≠ a := by
    intro l hl hid heq
    have hla : l.draggedAtom ∈ lockedAtoms st.2 := List.mem_map.mpr ⟨l, hl, rfl⟩
    rcases hheld with h | h | ⟨al, hal, hala, halid⟩
    · exact hdis1 h (by rw [← heq]; exact List.mem_append_left _ hla)
    · exact hdis2 hla (by rw [heq]; exact h)
    · have : al = l := List.inj_on_of_nodup_map hndl hal hl (by rw [hala, heq])
      rw [this] at halid
      exact halid hid
  unfold processDragger
  by_cases hact : e.active = true
  · simp only [hact, if_true]
    cases hf : st.2.find? (fun al => al.draggerID == e.draggerID) with
    | some l =>
      have hl := mem_of_find? hf
      exact ⟨untouched_setAtomState _ _ (key l hl.1 (by simpa using hl.2)), fun al hal _ => hal⟩
    | none =>
      simp only
      generalize hpk : (if e.rayBased = true then st.1.pickAtomRay K e.ray
        else st.1.pickAtomPoint K (K.getOrigin e.transformation)) = pk
      have h1 : Untouched a st.1 pk.1 := by
        rw [← hpk]
        split
        · exact untouched_pickAtomRay K a _ _
        · exact untouched_pickAtomPoint K a _ _
      have hl1 : pk.1.locked a = true := by rw [h1.1]; exact hlocked
      have h2 := untouched_trans h1 (untouched_lockAtom pk.1 pk.2 hl1)
      by_cases hl : (pk.1.lockAtom pk.2).2 = true
      · rw [if_pos hl]
        have hpa : pk.2 ≠ a := by
          intro heq
          rw [lockAtom_snd, heq, hl1] at hl
          simp at hl
        exact ⟨untouched_trans h2 (untouched_setAtomState _ _ hpa),
          fun al hal _ => List.mem_append_left _ hal⟩
      · rw [if_neg hl]
        exact ⟨h2, fun al hal _ => hal⟩
  · simp only [hact, Bool.false_eq_true, if_false]
    cases hf : st.2.find? (fun al => al.draggerID == e.draggerID) with
    | none => exact ⟨untouched_refl a _, fun al hal _ => hal⟩
    | some l =>
      have hl := mem_of_find? hf
      refine ⟨untouched_unlockAtom _ (key l hl.1 (by simpa using hl.2)), fun al hal hid => ?_⟩
      exact (List.mem_eraseP_of_neg (by simpa using hid)).mpr hal

theorem processDragger_ids [Mul T] [Inv T] (K : Collaborators S T) (e : Dragger S T)
    (st : Crystal S T × List (AtomLock T)) (h : (lockIds st.2).Nodup) :
    (lockIds (processDragger K e st).2).Nodup := by
  unfold processDragger
  by_cases hact : e.active = true
  · simp only [hact, if_true]
    cases hf : st.2.find? (fun al => al.draggerID == e.draggerID) with
    | some l => exact h
    | none =>
      simp only
      generalize hpk : (if e.rayBased = true then st.1.pickAtomRay K e.ray
        else st.1.pickAtomPoint K (K.getOrigin e.transformation)) = pk
      by_cases hl : (pk.1.lockAtom pk.2).2 = true
      · rw [if_pos hl]
        simp only [lockIds, List.map_append, List.map_cons, List.map_nil]
        rw [List.nodup_append]
        refine ⟨h, List.nodup_singleton _, ?_⟩
        intro i hi hi2
        simp only [List.mem_singleton] at hi2
        obtain ⟨al, hal, hali⟩ := List.mem_map.mp hi
        have := List.find?_eq_none.mp hf al hal
        simp [hali, hi2] at this
      · rw [if_neg hl]
        exact h
  · simp only [hact, Bool.false_eq_true, if_false]
    cases hf : st.2.find? (fun al => al.draggerID == e.draggerID) with
    | none => exact h
    | some l => exact List.Nodup.sublist ((List.eraseP_sublist _).map _) h

theorem ingestUpdate_ids [Mul T] [Inv T] (K : Collaborators S T) (su : StateUpdate S T)
    (st : Crystal S T × List (AtomLock T)) (h : (lockIds st.2).Nodup) :
    (lockIds (ingestUpdate K su st).2).Nodup := by
  unfold ingestUpdate
  generalize List.range su.numDraggers.toNat = idx
  induction idx generalizing st with
  | nil => exact h
  | cons i is ih =>
    simp only [List.foldl_cons]
    apply ih
    cases su.entry i with
    | none => exact h
    | some d => exact processDragger_ids K d st h

theorem clientStep_ids [Mul T] [Inv T] {K : Collaborators S T} {s : Server S T}
    {c c' : ClientState S T} (hs : ClientStep K s c c') (h : (lockIds c.atomLocks).Nodup) :
    (lockIds c'.atomLocks).Nodup := by
  cases hs with
  | same => exact h
  | connectReply ht => rw [(readerFrame_sendConnectReply _ _).2.1]; exact h
  | markConnected ht => exact h
  | leave ht => exact h
  | disconnectRequest ht => rw [(readerFrame_disconnectRequest _).2.1]; exact h
  | clientUpdate ht => exact h
  | count r => rw [(readerFrame_readNumDraggers _ _).2.1]; exact h
  | decode r => rw [(readerFrame_decodeStep _ _).2.1]; exact h
  | ingest cr =>
    unfold ingestClient
    split
    · exact ingestUpdate_ids K _ (cr, c.atomLocks) h
    · exact h
  | broadcast => rw [sendServerUpdateTo_atomLocks]; exact h

/-- In every reachable state the atom locks of a client have distinct dragger ids. -/
theorem reachable_ids [Mul T] [Inv T] {K : Collaborators S T} {s : Server S T}
    (h : Reachable K s) : ∀ c ∈ s.clientStates, (lockIds c.atomLocks).Nodup := by
  obtain ⟨cr, m, a, g, _, hr⟩ := h
  induction hr with
  | refl => intro c hc; simp [construct] at hc
  | tail _ hstep ih =>
    intro c' hc'
    rcases step_clients hstep c' hc' with ⟨p, capacity, rfl⟩ | ⟨c, hc, hcs⟩
    · exact List.nodup_nil
    · exact clientStep_ids hcs (ih c hc)

theorem reachable_ownership [Mul T] [Inv T] {K : Collaborators S T} {s : Server S T}
    (h : Reachable K s) : OwnershipInv s := by
  obtain ⟨cr, m, a, g, hf, hr⟩ := h
  exact reaches_ownership hr (quiescent_ownership (construct_quiescent cr m a g hf))

/-- The frame property of the dragger loop over a whole state update, for an atom held by
another client or by a lock of this client whose dragger id no entry of the update has. -/
theorem ingestUpdate_frame [Mul T] [Inv T] (K : Collaborators S T) (su : StateUpdate S T)
    (st : Crystal S T × List (AtomLock T)) (pre post : List AtomID) (a : AtomID)
    (hinv : LockInv st.1.locked (pre ++ lockedAtoms st.2 ++ post))
    (hheld : a ∈ pre ∨ a ∈ post ∨ ∃ al ∈ st.2, al.draggedAtom = a ∧
      ∀ i e, su.entry i = some e → al.draggerID ≠ e.draggerID) :
    Untouched a st.1 (ingestUpdate K su st).1 ∧
    (∀ al ∈ st.2, (∀ i e, su.entry i = some e → al.draggerID ≠ e.draggerID) →
      al ∈ (ingestUpdate K su st).2) := by
  unfold ingestUpdate
  generalize List.range su.numDraggers.toNat = idx
  induction idx generalizing st with
  | nil => exact ⟨untouched_refl a _, fun al hal _ => hal⟩
  | cons i is ih =>
    simp only [List.foldl_cons]
    cases hentry : su.entry i with
    | none =>
      simp only
      exact ih st hinv hheld
    | some e =>
      simp only
      have hheld' : a ∈ pre ∨ a ∈ post ∨
          ∃ al ∈ st.2, al.draggedAtom = a ∧ al.draggerID ≠ e.draggerID := by
        rcases hheld with h | h | ⟨al, hal, hala, hall⟩
        · exact Or.inl h
        · exact Or.inr (Or.inl h)
        · exact Or.inr (Or.inr ⟨al, hal, hala, hall i e hentry⟩)
      obtain ⟨hu, hkeep⟩ := processDragger_frame K e st pre post a hinv hheld'
      have hinv1 := processDragger_lockInv K e st pre post hinv
      have hheld1 : a ∈ pre ∨ a ∈ post ∨ ∃ al ∈ (processDragger K e st).2,
          al.draggedAtom = a ∧ ∀ i e, su.entry i = some e → al.draggerID ≠ e.draggerID := by
        rcases hheld with h | h | ⟨al, hal, hala, hall⟩
        · exact Or.inl h
        · exact Or.inr (Or.inl h)
        · exact Or.inr (Or.inr ⟨al, hkeep al hal (hall i e hentry), hala, hall⟩)
      obtain ⟨hu2, hkeep2⟩ := ih (processDragger K e st) hinv1 hheld1
      exact ⟨untouched_trans hu hu2,
        fun al hal hall => hkeep2 al (hkeep al hal (hall i e hentry)) hall⟩

theorem ingestClients_lockInv_ctx [Mul T] [Inv T] (K : Collaborators S T)
    (cs : List (ClientState S T)) (cr : Crystal S T) (pre post : List AtomID)
    (h : LockInv cr.locked (pre ++ heldAtoms cs ++ post)) :
    LockInv (ingestClients K cr cs).1.locked
      (pre ++ heldAtoms (ingestClients K cr cs).2 ++ post) := by
  induction cs generalizing cr pre with
  | nil => simpa [ingestClients] using h
  | cons c cs ih =>
    simp only [ingestClients]
    have h1 : LockInv cr.locked (pre ++ lockedAtoms c.atomLocks ++ (heldAtoms cs ++ post)) := by
      simpa [heldAtoms, List.append_assoc] using h
    have h2 := ingestClient_lockInv K cr c pre (heldAtoms cs ++ post) h1
    have h3 := ih (ingestClient K cr c).1 (pre ++ lockedAtoms (ingestClient K cr c).2.atomLocks)
      (by simpa [List.append_assoc] using h2)
    simpa [heldAtoms, List.append_assoc] using h3

theorem ingestClients_append [Mul T] [Inv T] (K : Collaborators S T)
    (l1 l2 : List (ClientState S T)) (cr : Crystal S T) :
    ingestClients K cr (l1 ++ l2) =
      ((ingestClients K (ingestClients K cr l1).1 l2).1,
        (ingestClients K cr l1).2 ++ (ingestClients K (ingestClients K cr l1).1 l2).2) := by
  induction l1 generalizing cr with
  | nil => simp [ingestClients]
  | cons c cs ih => simp [ingestClients, ih]

/-- The frame property of the turns of other clients in Step 2, for an atom no client of
the list holds. -/
theorem ingestClients_frame [Mul T] [Inv T] (K : Collaborators S T)
    (cs : List (ClientState S T)) (cr : Crystal S T) (pre post : List AtomID) (a : AtomID)
    (hinv : LockInv cr.locked (pre ++ heldAtoms cs ++ post)) (hheld : a ∈ pre ∨ a ∈ post) :
    Untouched a cr (ingestClients K cr cs).1 := by
  induction cs generalizing cr pre with
  | nil => exact untouched_refl a _
  | cons c cs ih =>
    simp only [ingestClients]
    have h1 : LockInv cr.locked (pre ++ lockedAtoms c.atomLocks ++ (heldAtoms cs ++ post)) := by
      simpa [heldAtoms, List.append_assoc] using hinv
    have hturn : Untouched a cr (ingestClient K cr c).1 := by
      unfold ingestClient
      split
      · refine (ingestUpdate_frame K _ (cr, c.atomLocks) pre (heldAtoms cs ++ post) a h1 ?_).1
        rcases hheld with h | h
        · exact Or.inl h
        · exact Or.inr (Or.inl (List.mem_append_right _ h))
      · exact untouched_refl a _
    have h2 := ingestClient_lockInv K cr c pre (heldAtoms cs ++ post) h1
    have h3 := ih (ingestClient K cr c).1 (pre ++ lockedAtoms (ingestClient K cr c).2.atomLocks)
      (by simpa [List.append_assoc] using h2)
      (by
        rcases hheld with h | h
        · exact Or.inl (List.mem_append_left _ h)
        · exact Or.inr h)
    exact untouched_trans hturn h3

/-- When a client's turn comes in Step 2, the lock bitmap agrees with the atom locks of the
clients already handled, of the client itself and of the clients still to come. -/
theorem turn_lockInv [Mul T] [Inv T] (K : Collaborators S T) (s : Server S T)
    (h : OwnershipInv s) (pre post : List (ClientState S T)) (c : ClientState S T)
    (hsplit : s.clientStates = pre ++ c :: post) :
    LockInv (ingestClients K s.crystal pre).1.locked
      (heldAtoms (ingestClients K s.crystal pre).2 ++ lockedAtoms c.atomLocks ++
        heldAtoms post) := by
  have h0 : LockInv s.crystal.locked
      ([] ++ heldAtoms pre ++ (lockedAtoms c.atomLocks ++ heldAtoms post)) := by
    have := h.2
    rw [hsplit, heldAtoms_append] at this
    simpa [heldAtoms] using this
  have := ingestClients_lockInv_ctx K pre s.crystal [] _ h0
  simpa [List.append_assoc] using this

theorem entries_ofDraggers {ds : List (Dragger S T)} {i : Nat} {e : Dragger S T}
    (h : (StateUpdate.ofDraggers ds).entry i = some e) : e ∈ ds := by
  rw [entry_ofDraggers] at h
  exact List.getElem?_mem h

theorem ingestUpdate_ofDraggers_append [Mul T] [Inv T] (K : Collaborators S T)
    (xs ys : List (Dragger S T)) (d : Dragger S T) (st : Crystal S T × List (AtomLock T)) :
    ingestUpdate K (StateUpdate.ofDraggers (xs ++ d :: ys)) st =
      ingestUpdate K (StateUpdate.ofDraggers ys)
        (processDragger K d (ingestUpdate K (StateUpdate.ofDraggers xs) st)) := by
  simp only [ingestUpdate_ofDraggers, List.foldl_append, List.foldl_cons]

/-! ### Reaching states by whole protocol exchanges -/

theorem updateClient_updateClient (s : Server S T) (c1 c2 : ClientState S T)
    (h : c2.ptr = c1.ptr) : (s.updateClient c1).updateClient c2 = s.updateClient c2 := by
  unfold Server.updateClient
  simp only [List.map_map]
  congr 1
  apply List.map_congr_left
  intro x _
  simp only [Function.comp]
  by_cases hx : x.ptr = c1.ptr
  · simp [hx, h]
  · simp [hx, h]

theorem mem_updateClient_self {s : Server S T} {c : ClientState S T}
    (h : ∃ x ∈ s.clientStates, x.ptr = c.ptr) : c ∈ (s.updateClient c).clientStates := by
  obtain ⟨x, hx, hp⟩ := h
  unfold Server.updateClient
  exact List.mem_map.mpr ⟨x, hx, by simp [hp]⟩

theorem decodeLoop_ptr (ws : List (WireDragger S T)) (c : ClientState S T) :
    (ws.foldl (fun x w => decodeStep w.reads x) c).ptr = c.ptr := by
  induction ws generalizing c with
  | nil => rfl
  | cons w ws ih =>
    rw [List.foldl_cons, ih]
    exact (readerFrame_decodeStep _ _).1

theorem reaches_decodeLoop [Mul T] [Inv T] (K : Collaborators S T)
    (ws : List (WireDragger S T)) (s : Server S T) (c : ClientState S T)
    (h : ∃ x ∈ s.clientStates, x.ptr = c.ptr) :
    Reaches K (s.updateClient c)
      (s.updateClient (ws.foldl (fun x w => decodeStep w.reads x) c)) := by
  induction ws generalizing c with
  | nil => exact Relation.ReflTransGen.refl
  | cons w ws ih =>
    rw [List.foldl_cons]
    have hstep := Step.decode (K := K) (s.updateClient c) c w.reads (mem_updateClient_self h)
    rw [updateClient_updateClient _ _ _ (readerFrame_decodeStep _ _).1] at hstep
    obtain ⟨x, hx, hp⟩ := h
    exact Relation.ReflTransGen.head hstep
      (ih (decodeStep w.reads c) ⟨x, hx, hp.trans (readerFrame_decodeStep _ _).1.symm⟩)

/-- Receiving a whole CLIENT_UPDATE is a sequence of steps of the communication thread. -/
theorem reaches_receiveClientUpdate [Mul T] [Inv T] (K : Collaborators S T)
    (u : List (WireDragger S T)) (s : Server S T) (c : ClientState S T)
    (hc : c ∈ s.clientStates) (ht : c.thread = ThreadState.waiting) :
    Reaches K s (s.updateClient (receiveClientUpdate u c)) := by
  have h1 : Step K s (s.updateClient
      { c with thread := ThreadState.chose (nextIndex c.lockedIndex c.mostRecentIndex) }) :=
    Step.message s c (some MessageId.CLIENT_UPDATE) none none none hc ht
  have hx : ∀ c' : ClientState S T, c'.ptr = c.ptr → ∃ x ∈ s.clientStates, x.ptr = c'.ptr :=
    fun c' h => ⟨c, hc, h.symm⟩
  have h2 := Step.count (K := K) (s.updateClient
      { c with thread := ThreadState.chose (nextIndex c.lockedIndex c.mostRecentIndex) })
    { c with thread := ThreadState.chose (nextIndex c.lockedIndex c.mostRecentIndex) }
    (some (u.length : Int)) (mem_updateClient_self (hx _ rfl))
  rw [updateClient_updateClient _ _ _ (readerFrame_readNumDraggers _ _).1] at h2
  have h3 := reaches_decodeLoop K u s
    (readNumDraggers (some (u.length : Int))
      { c with thread := ThreadState.chose (nextIndex c.lockedIndex c.mostRecentIndex) })
    (hx _ (readerFrame_readNumDraggers _ _).1)
  have hp3 : (u.foldl (fun x w => decodeStep w.reads x)
      (readNumDraggers (some (u.length : Int))
        { c with thread := ThreadState.chose (nextIndex c.lockedIndex c.mostRecentIndex) })).ptr =
      c.ptr := by
    rw [decodeLoop_ptr]
    exact (readerFrame_readNumDraggers _ _).1
  have h4 := Step.decode (K := K) (s.updateClient (u.foldl (fun x w => decodeStep w.reads x)
      (readNumDraggers (some (u.length : Int))
        { c with thread := ThreadState.chose (nextIndex c.lockedIndex c.mostRecentIndex) })))
    _ DraggerRead.nothing (mem_updateClient_self (hx _ hp3))
  rw [updateClient_updateClient _ _ _ (readerFrame_decodeStep _ _).1] at h4
  exact (((Relation.ReflTransGen.single h1).tail h2).trans h3).tail h4

/-- Sending CONNECT_REPLY and marking the client connected are two steps of its thread. -/
theorem reaches_connect [Mul T] [Inv T] (K : Collaborators S T) (s : Server S T)
    (c : ClientState S T) (hc : c ∈ s.clientStates) (ht : c.thread = ThreadState.connecting)
    (hcap : 1 ≤ c.pipe.capacity) :
    Reaches K s (s.updateClient (markConnected (sendConnectReply s.crystal c))) := by
  have h1 := Step.connectReply (K := K) s c hc ht
  have hth : (sendConnectReply s.crystal c).thread = ThreadState.replied := by
    unfold sendConnectReply
    rw [writeMessage_ok _ _ hcap]
  have h2 := Step.markConnected (K := K) (s.updateClient (sendConnectReply s.crystal c))
    (sendConnectReply s.crystal c)
    (mem_updateClient_self ⟨c, hc, (readerFrame_sendConnectReply _ _).1.symm⟩) hth
  rw [updateClient_updateClient s (sendConnectReply s.crystal c)
    (markConnected (sendConnectReply s.crystal c)) rfl] at h2
  exact (Relation.ReflTransGen.single h1).tail h2

theorem reachable_trans [Mul T] [Inv T] {K : Collaborators S T} {s s' : Server S T}
    (h : Reachable K s) (hr : Reaches K s s') : Reachable K s' := by
  obtain ⟨cr, m, a, g, hf, h0⟩ := h
  exact ⟨cr, m, a, g, hf, h0.trans hr⟩

/-! ### The line scenario -/

theorem lineCrystal_fresh : lineCrystal.Fresh :=
  ⟨fun _ => rfl, rfl⟩

theorem lineAccepted_reachable : Reachable lineCollaborators lineAccepted :=
  ⟨lineCrystal, 0, 0, 0, lineCrystal_fresh,
    Relation.ReflTransGen.single
      (Step.accept (construct lineCrystal 0 0 0) 7 5 (by simp [construct]))⟩

theorem linePublished_reachable : Reachable lineCollaborators linePublished := by
  have h1 : Reaches lineCollaborators lineAccepted (lineAccepted.updateClient lineClient1) :=
    reaches_connect lineCollaborators lineAccepted (ClientState.new 7 5)
      (List.mem_singleton.mpr rfl) rfl (Nat.succ_le_succ (Nat.zero_le 4))
  have h2 : Reaches lineCollaborators (lineAccepted.updateClient lineClient1) linePublished :=
    reaches_receiveClientUpdate lineCollaborators (lineMessage 3 1)
      (lineAccepted.updateClient lineClient1) lineClient1 (List.mem_singleton.mpr rfl) rfl
  exact reachable_trans lineAccepted_reachable (h1.trans h2)

theorem lineGrabbed_reachable : Reachable lineCollaborators lineGrabbed :=
  reachable_trans linePublished_reachable (reaches_simulate _ _ _)

theorem lineGrabbed_clientStates : lineGrabbed.clientStates = [lineClient3] := by
  rfl

theorem lineDragging_reachable : Reachable lineCollaborators lineDragging :=
  reachable_trans lineGrabbed_reachable
    (reaches_receiveClientUpdate lineCollaborators (lineMessage 5 1) lineGrabbed lineClient3
      (List.mem_singleton.mpr rfl) rfl)

theorem filter_setsAtom_append_set (a : AtomID) (t : T) (l : List (CrystalCall S T)) :
    (l ++ [CrystalCall.setAtomState a t]).filter (CrystalCall.setsAtom a) =
      l.filter (CrystalCall.setsAtom a) ++ [CrystalCall.setAtomState a t] := by
  simp [List.filter_append, List.filter, CrystalCall.setsAtom]

/-- C12: a client holds an atom lock for dragger id d whose dragTransformation is T⁻¹ * P,
and its turn in Step 2 ingests an update in which the one entry with id d is active with
transformation T'. Whenever that entry is handled with the lock in the list, the only call
is setAtomState of the atom to T' * T⁻¹ * P and the atom locks stay as they are; after the
client's turn the lock is still held, the atom's pose is T' * T⁻¹ * P, and that is the only
setAtomState call made for the atom in the turn. For translations T' * T⁻¹ * P is P moved
by T' - T. -/
theorem drag_held_atom [Group T] (K : Collaborators S T) (s : Server S T)
    (h : Reachable K s) (pre post : List (ClientState S T)) (c : ClientState S T)
    (hsplit : s.clientStates = pre ++ c :: post)
    (al : AtomLock T) (hal : al ∈ c.atomLocks) (T0 P : T)
    (hdrag : al.dragTransformation = T0⁻¹ * P)
    (hne : c.lockedIndex ≠ c.mostRecentIndex) (xs ys : List (Dragger S T)) (d : Dragger S T)
    (hslot : c.stateUpdates c.mostRecentIndex = StateUpdate.ofDraggers (xs ++ d :: ys))
    (hid : d.draggerID = al.draggerID) (hact : d.active = true)
    (hxs : ∀ e ∈ xs, e.draggerID ≠ al.draggerID)
    (hys : ∀ e ∈ ys, e.draggerID ≠ al.draggerID) :
    (∀ (cr' : Crystal S T) (locks' : List (AtomLock T)), (lockIds locks').Nodup →
      al ∈ locks' →
      processDragger K d (cr', locks') =
        (cr'.setAtomState al.draggedAtom (d.transformation * T0⁻¹ * P), locks')) ∧
    al ∈ (ingestClient K (ingestClients K s.crystal pre).1 c).2.atomLocks ∧
    (ingestClient K (ingestClients K s.crystal pre).1 c).1.atomState al.draggedAtom =
      d.transformation * T0⁻¹ * P ∧
    (ingestClient K (ingestClients K s.crystal pre).1 c).1.locked al.draggedAtom = true ∧
    (ingestClient K (ingestClients K s.crystal pre).1 c).1.calls.filter
        (CrystalCall.setsAtom al.draggedAtom) =
      (ingestClients K s.crystal pre).1.calls.filter (CrystalCall.setsAtom al.draggedAtom) ++
        [CrystalCall.setAtomState al.draggedAtom (d.transformation * T0⁻¹ * P)] ∧
    (∀ t t' p : ℤ, Multiplicative.ofAdd t' * (Multiplicative.ofAdd t)⁻¹ * Multiplicative.ofAdd p =
      Multiplicative.ofAdd (p + (t' - t))) := by
  have hentry : ∀ (cr' : Crystal S T) (locks' : List (AtomLock T)), (lockIds locks').Nodup →
      al ∈ locks' →
      processDragger K d (cr', locks') =
        (cr'.setAtomState al.draggedAtom (d.transformation * T0⁻¹ * P), locks') := by
    intro cr' locks' hn hm
    rw [processDragger_drag K d cr' locks' al hact hn hm hid.symm, hdrag, mul_assoc]
  have hown := reachable_ownership h
  have hids : (lockIds c.atomLocks).Nodup :=
    reachable_ids h c (by rw [hsplit]; simp)
  have hinv0 := turn_lockInv K s hown pre post c hsplit
  generalize (ingestClients K s.crystal pre).1 = cr at hinv0 ⊢
  generalize heldAtoms (ingestClients K s.crystal pre).2 = preA at hinv0
  have hturn : ingestClient K cr c =
      ((ingestUpdate K (StateUpdate.ofDraggers (xs ++ d :: ys)) (cr, c.atomLocks)).1,
        { c with lockedIndex := c.mostRecentIndex,
                 atomLocks := (ingestUpdate K (StateUpdate.ofDraggers (xs ++ d :: ys))
                   (cr, c.atomLocks)).2 }) := by
    unfold ingestClient
    simp only [hne, ne_eq, not_false_eq_true, if_true, hslot]
  rw [hturn, ingestUpdate_ofDraggers_append]
  -- the entries before
  have hx := ingestUpdate_frame K (StateUpdate.ofDraggers xs) (cr, c.atomLocks) preA
    (heldAtoms post) al.draggedAtom hinv0
    (Or.inr (Or.inr ⟨al, hal, rfl, fun i e he => (hxs e (entries_ofDraggers he)).symm⟩))
  have hinv1 := ingestUpdate_lockInv K (StateUpdate.ofDraggers xs) (cr, c.atomLocks) preA
    (heldAtoms post) hinv0
  have hids1 := ingestUpdate_ids K (StateUpdate.ofDraggers xs) (cr, c.atomLocks) hids
  have hal1 := hx.2 al hal (fun i e he => (hxs e (entries_ofDraggers he)).symm)
  generalize ingestUpdate K (StateUpdate.ofDraggers xs) (cr, c.atomLocks) = st1
    at hx hinv1 hids1 hal1 ⊢
  -- the entry itself
  have hd : processDragger K d st1 =
      (st1.1.setAtomState al.draggedAtom (d.transformation * T0⁻¹ * P), st1.2) :=
    hentry st1.1 st1.2 hids1 hal1
  have hinv2 := processDragger_lockInv K d st1 preA (heldAtoms post) hinv1
  rw [hd] at hinv2 ⊢
  -- the entries after
  have hy := ingestUpdate_frame K (StateUpdate.ofDraggers ys)
    (st1.1.setAtomState al.draggedAtom (d.transformation * T0⁻¹ * P), st1.2) preA
    (heldAtoms post) al.draggedAtom hinv2
    (Or.inr (Or.inr ⟨al, hal1, rfl, fun i e he => (hys e (entries_ofDraggers he)).symm⟩))
  have hlocked0 : cr.locked al.draggedAtom = true := by
    apply (hinv0.2 _).mpr
    have : al.draggedAtom ∈ lockedAtoms c.atomLocks := List.mem_map.mpr ⟨al, hal, rfl⟩
    simp [this]
  refine ⟨hentry, ?_, ?_, ?_, ?_, ?_⟩
  · exact hy.2 al hal1 (fun i e he => (hys e (entries_ofDraggers he)).symm)
  · rw [hy.1.2.1]
    simp [Crystal.setAtomState]
  · rw [hy.1.1]
    show st1.1.locked al.draggedAtom = true
    rw [hx.1.1]
    exact hlocked0
  · rw [hy.1.2.2]
    show (st1.1.calls ++ [CrystalCall.setAtomState al.draggedAtom
      (d.transformation * T0⁻¹ * P)]).filter (CrystalCall.setsAtom al.draggedAtom) = _
    rw [filter_setsAtom_append_set, hx.1.2.2]
  · intro t t' p
    show Multiplicative.ofAdd (t' + -t + p) = Multiplicative.ofAdd (p + (t' - t))
    congr 1
    omega

/-- Witness for C12: in the line scenario the client holds atom 0 (grabbed at translation 3,
pose 0) and its second update has dragger 1 active at translation 5. -/
theorem drag_held_atom_witness :
    Reachable lineCollaborators lineDragging ∧
    lineLock ∈ lineClient4.atomLocks ∧
    (ingestClient lineCollaborators (ingestClients lineCollaborators lineDragging.crystal []).1
      lineClient4).1.atomState lineLock.draggedAtom =
      (lineDragger 1 true 5 true).transformation * (Multiplicative.ofAdd 3)⁻¹ *
        Multiplicative.ofAdd 0 :=
  ⟨lineDragging_reachable, List.mem_singleton.mpr rfl,
    (drag_held_atom lineCollaborators lineDragging lineDragging_reachable [] [] lineClient4 rfl
      lineLock (List.mem_singleton.mpr rfl) (Multiplicative.ofAdd 3) (Multiplicative.ofAdd 0) rfl
      (by decide) [] [] (lineDragger 1 true 5 true) rfl rfl rfl
      (fun e he => by simp at he) (fun e he => by simp at he)).2.2.1⟩

theorem untouched_applyParameters (a : AtomID) (s : Server S T) :
    Untouched a s.crystal (applyParameters s).crystal := by
  unfold applyParameters
  split
  · simp [Untouched, Crystal.setAtomMass, Crystal.setAttenuation, Crystal.setGravity,
      List.filter_append, List.filter, CrystalCall.setsAtom]
  · exact untouched_refl a _

theorem heldAtoms_cons (c : ClientState S T) (l : List (ClientState S T)) :
    heldAtoms (c :: l) = lockedAtoms c.atomLocks ++ heldAtoms l := by
  simp [heldAtoms]

theorem ingestUpdates_split [Mul T] [Inv T] (K : Collaborators S T) (s : Server S T)
    (pre post : List (ClientState S T)) (c : ClientState S T)
    (hsplit : s.clientStates = pre ++ c :: post) :
    (ingestUpdates K s).crystal =
      (ingestClients K (ingestClient K (ingestClients K s.crystal pre).1 c).1 post).1 ∧
    (ingestUpdates K s).clientStates =
      (ingestClients K s.crystal pre).2 ++
        (ingestClient K (ingestClients K s.crystal pre).1 c).2 ::
          (ingestClients K (ingestClient K (ingestClients K s.crystal pre).1 c).1 post).2 := by
  unfold ingestUpdates
  rw [hsplit, ingestClients_append]
  exact ⟨rfl, rfl⟩

theorem untouched_before_turn [Mul T] [Inv T] (K : Collaborators S T) (s : Server S T)
    (h : OwnershipInv s) (pre post : List (ClientState S T)) (c : ClientState S T)
    (hsplit : s.clientStates = pre ++ c :: post) (a : AtomID)
    (ha : a ∈ lockedAtoms c.atomLocks ∨ a ∈ heldAtoms post) :
    Untouched a s.crystal (ingestClients K s.crystal pre).1 := by
  have hinv : LockInv s.crystal.locked
      ([] ++ heldAtoms pre ++ (lockedAtoms c.atomLocks ++ heldAtoms post)) := by
    have := h.2
    rw [hsplit, heldAtoms_append, heldAtoms_cons] at this
    simpa using this
  exact ingestClients_frame K pre s.crystal [] _ a hinv
    (Or.inr (List.mem_append.mpr ha))

theorem untouched_after_turn [Mul T] [Inv T] (K : Collaborators S T) (cr : Crystal S T)
    (post : List (ClientState S T)) (held : List AtomID)
    (hinv : LockInv cr.locked (held ++ heldAtoms post)) (a : AtomID) (ha : a ∈ held) :
    Untouched a cr (ingestClients K cr post).1 := by
  have hinv2 : LockInv cr.locked (held ++ heldAtoms post ++ []) := by simpa using hinv
  exact ingestClients_frame K post cr held [] a hinv2 (Or.inl ha)

theorem ingestClient_frame [Mul T] [Inv T] (K : Collaborators S T) (cr : Crystal S T)
    (c : ClientState S T) (pre post : List AtomID)
    (hinv : LockInv cr.locked (pre ++ lockedAtoms c.atomLocks ++ post))
    (al : AtomLock T) (hal : al ∈ c.atomLocks)
    (hgone : ∀ i e, (c.stateUpdates c.mostRecentIndex).entry i = some e →
      al.draggerID ≠ e.draggerID) :
    Untouched al.draggedAtom cr (ingestClient K cr c).1 ∧
    al ∈ (ingestClient K cr c).2.atomLocks := by
  unfold ingestClient
  split
  · have hx := ingestUpdate_frame K (c.stateUpdates c.mostRecentIndex) (cr, c.atomLocks)
      pre post al.draggedAtom hinv (Or.inr (Or.inr ⟨al, hal, rfl, hgone⟩))
    exact ⟨hx.1, hx.2 al hal hgone⟩
  · exact ⟨untouched_refl _ _, hal⟩

theorem lineVanished_reachable : Reachable lineCollaborators lineVanished :=
  reachable_trans lineGrabbed_reachable
    (reaches_receiveClientUpdate lineCollaborators lineOtherMessage lineGrabbed lineClient3
      (List.mem_singleton.mpr rfl) rfl)

/-- C15: a client of a reachable server holds an atom lock for dragger id d, and in the
update that the tick ingests for that client (its most recent slot) no entry has id d. After
the tick (the whole of simulate) the client, now locked onto that update, still holds the
same atom lock, the atom is still locked in the crystal, and the tick made no setAtomState
call for that atom. -/
theorem vanished_dragger_keeps_lock [Mul T] [Inv T] (K : Collaborators S T) (dt : ℚ)
    (s : Server S T) (h : Reachable K s) (pre post : List (ClientState S T))
    (c : ClientState S T) (hsplit : s.clientStates = pre ++ c :: post)
    (al : AtomLock T) (hal : al ∈ c.atomLocks)
    (hgone : ∀ i e, (c.stateUpdates c.mostRecentIndex).entry i = some e →
      e.draggerID ≠ al.draggerID) :
    (∃ c' ∈ (simulate K dt s).clientStates, c'.ptr = c.ptr ∧
      c'.lockedIndex = c.mostRecentIndex ∧ al ∈ c'.atomLocks) ∧
    (simulate K dt s).crystal.locked al.draggedAtom = true ∧
    (simulate K dt s).crystal.calls.filter (CrystalCall.setsAtom al.draggedAtom) =
      s.crystal.calls.filter (CrystalCall.setsAtom al.draggedAtom) := by
  have h1 : Reachable K (applyParameters s) :=
    reachable_trans h (Relation.ReflTransGen.single (Step.applyParameters s))
  have hown := reachable_ownership h1
  have hsplit1 : (applyParameters s).clientStates = pre ++ c :: post := by
    rw [applyParameters_clientStates, hsplit]
  have hu0 := untouched_applyParameters al.draggedAtom s
  have hmem : al.draggedAtom ∈ lockedAtoms c.atomLocks := List.mem_map.mpr ⟨al, hal, rfl⟩
  have hlocked0 : s.crystal.locked al.draggedAtom = true := by
    apply ((reachable_ownership h).2.2 _).mpr
    rw [hsplit, heldAtoms_append, heldAtoms_cons]
    simp [hmem]
  have hu1 := untouched_before_turn K (applyParameters s) hown pre post c hsplit1
    al.draggedAtom (Or.inl hmem)
  have hinv1 := turn_lockInv K (applyParameters s) hown pre post c hsplit1
  have hgone2 : ∀ i e, (c.stateUpdates c.mostRecentIndex).entry i = some e →
      al.draggerID ≠ e.draggerID := fun i e he => (hgone i e he).symm
  have hu2 := ingestClient_frame K _ c _ _ hinv1 al hal hgone2
  have hinv2 := ingestClient_lockInv K _ c _ _ hinv1
  have hu3 := untouched_after_turn K _ post _ hinv2 al.draggedAtom
    (List.mem_append.mpr (Or.inr (List.mem_map.mpr ⟨al, hu2.2, rfl⟩)))
  have hsp := ingestUpdates_split K (applyParameters s) pre post c hsplit1
  have hall : Untouched al.draggedAtom s.crystal (ingestUpdates K (applyParameters s)).crystal := by
    rw [hsp.1]
    exact untouched_trans hu0 (untouched_trans hu1 (untouched_trans hu2.1 hu3))
  refine ⟨⟨(ingestClient K (ingestClients K (applyParameters s).crystal pre).1 c).2, ?_,
    ingestClient_ptr K _ c, (ingestClient_fields K _ c).1, hu2.2⟩, ?_, ?_⟩
  · show _ ∈ (ingestUpdates K (applyParameters s)).clientStates
    rw [hsp.2]
    simp
  · show (ingestUpdates K (applyParameters s)).crystal.locked al.draggedAtom = true
    rw [hall.1]
    exact hlocked0
  · show ((ingestUpdates K (applyParameters s)).crystal.calls ++ [CrystalCall.simulate dt]).filter
      (CrystalCall.setsAtom al.draggedAtom) = _
    rw [List.filter_append, hall.2.2]
    simp [List.filter, CrystalCall.setsAtom]

/-- Witness for C15: in the line scenario the client holds atom 0 for dragger 1 and its new
update lists only dragger 2. -/
theorem vanished_dragger_keeps_lock_witness :
    Reachable lineCollaborators lineVanished ∧ lineLock ∈ lineClient5.atomLocks ∧
    lineClient5.lockedIndex ≠ lineClient5.mostRecentIndex ∧
    (simulate lineCollaborators 1 lineVanished).crystal.locked lineLock.draggedAtom = true :=
  ⟨lineVanished_reachable, List.mem_singleton.mpr rfl, by decide,
    (vanished_dragger_keeps_lock lineCollaborators 1 lineVanished lineVanished_reachable [] []
      lineClient5 rfl lineLock (List.mem_singleton.mpr rfl)
      (fun i e he => by
        have hm : e ∈ [lineDragger 2 false 4 true] :=
          @entries_ofDraggers ℚ (Multiplicative ℤ) [lineDragger 2 false 4 true] i e he
        rw [List.mem_singleton.mp hm]
        decide)).2.1⟩

theorem processDragger_noid [Mul T] [Inv T] (K : Collaborators S T) (e : Dragger S T)
    (st : Crystal S T × List (AtomLock T)) (n : Nat) (hne : e.draggerID ≠ n)
    (h : n ∉ lockIds st.2) : n ∉ lockIds (processDragger K e st).2 := by
  unfold processDragger
  by_cases hact : e.active = true
  · simp only [hact, if_true]
    cases hf : st.2.find? (fun al => al.draggerID == e.draggerID) with
    | some l => exact h
    | none =>
      simp only
      generalize hpk : (if e.rayBased = true then st.1.pickAtomRay K e.ray
        else st.1.pickAtomPoint K (K.getOrigin e.transformation)) = pk
      by_cases hl : (pk.1.lockAtom pk.2).2 = true
      · rw [if_pos hl]
        simp only [lockIds, List.map_append, List.map_cons, List.map_nil, List.mem_append,
          List.mem_singleton, not_or]
        exact ⟨h, fun hn => hne hn.symm⟩
      · rw [if_neg hl]
        exact h
  · simp only [hact, Bool.false_eq_true, if_false]
    cases hf : st.2.find? (fun al => al.draggerID == e.draggerID) with
    | none => exact h
    | some l =>
      intro hn
      exact h (((List.eraseP_sublist _).map _).subset hn)

theorem ingestUpdate_noid [Mul T] [Inv T] (K : Collaborators S T) (su : StateUpdate S T)
    (st : Crystal S T × List (AtomLock T)) (n : Nat)
    (hne : ∀ i e, su.entry i = some e → e.draggerID ≠ n)
    (h : n ∉ lockIds st.2) : n ∉ lockIds (ingestUpdate K su st).2 := by
  unfold ingestUpdate
  generalize List.range su.numDraggers.toNat = idx
  induction idx generalizing st with
  | nil => exact h
  | cons i is ih =>
    simp only [List.foldl_cons]
    apply ih
    cases hentry : su.entry i with
    | none => exact h
    | some d => exact processDragger_noid K d st n (hne i d hentry) h

theorem ingestClients_split [Mul T] [Inv T] (K : Collaborators S T) (cr : Crystal S T)
    (pre post : List (ClientState S T)) (c : ClientState S T) :
    ingestClients K cr (pre ++ c :: post) =
      ((ingestClients K (ingestClient K (ingestClients K cr pre).1 c).1 post).1,
        (ingestClients K cr pre).2 ++
          (ingestClient K (ingestClients K cr pre).1 c).2 ::
            (ingestClients K (ingestClient K (ingestClients K cr pre).1 c).1 post).2) := by
  rw [ingestClients_append]
  rfl

theorem filter_setsAtom_pick (K : Collaborators S T) (d : Dragger S T) (a b : AtomID)
    (l : List (CrystalCall S T)) :
    (l ++ [pickCall K d, CrystalCall.lockAtom b]).filter (CrystalCall.setsAtom a) =
      l.filter (CrystalCall.setsAtom a) := by
  unfold pickCall
  by_cases hr : d.rayBased = true
  · simp [hr, List.filter_append, List.filter, CrystalCall.setsAtom]
  · simp [hr, List.filter_append, List.filter, CrystalCall.setsAtom]

theorem filter_setsAtom_grab (K : Collaborators S T) (d : Dragger S T) (a b : AtomID) (t : T)
    (l : List (CrystalCall S T)) :
    (l ++ [pickCall K d, CrystalCall.lockAtom b, CrystalCall.setAtomState a t]).filter
        (CrystalCall.setsAtom a) =
      l.filter (CrystalCall.setsAtom a) ++ [CrystalCall.setAtomState a t] := by
  unfold pickCall
  by_cases hr : d.rayBased = true
  · simp [hr, List.filter_append, List.filter, CrystalCall.setsAtom]
  · simp [hr, List.filter_append, List.filter, CrystalCall.setsAtom]

theorem ingestClient_turn [Mul T] [Inv T] (K : Collaborators S T) (cr : Crystal S T)
    (c : ClientState S T) (hne : c.lockedIndex ≠ c.mostRecentIndex)
    (xs ys : List (Dragger S T)) (d : Dragger S T)
    (hslot : c.stateUpdates c.mostRecentIndex = StateUpdate.ofDraggers (xs ++ d :: ys)) :
    ingestClient K cr c =
      ((ingestUpdate K (StateUpdate.ofDraggers ys)
          (processDragger K d (ingestUpdate K (StateUpdate.ofDraggers xs) (cr, c.atomLocks)))).1,
        { c with lockedIndex := c.mostRecentIndex,
                 atomLocks := (ingestUpdate K (StateUpdate.ofDraggers ys)
                   (processDragger K d
                     (ingestUpdate K (StateUpdate.ofDraggers xs) (cr, c.atomLocks)))).2 }) := by
  unfold ingestClient
  simp only [hne, ne_eq, not_false_eq_true, if_true, hslot, ingestUpdate_ofDraggers_append]

/-- The turn of a client whose update holds an active dragger without an atom lock that
picks a free atom: the client gets the lock and the only setAtomState call for the atom is
the one for that lock. -/
theorem turn_grab [Mul T] [Inv T] (K : Collaborators S T) (cr : Crystal S T)
    (c : ClientState S T) (pre post : List AtomID)
    (hinv : LockInv cr.locked (pre ++ lockedAtoms c.atomLocks ++ post))
    (hne : c.lockedIndex ≠ c.mostRecentIndex) (xs ys : List (Dragger S T)) (d : Dragger S T)
    (hslot : c.stateUpdates c.mostRecentIndex = StateUpdate.ofDraggers (xs ++ d :: ys))
    (hact : d.active = true) (hno : d.draggerID ∉ lockIds c.atomLocks)
    (hxs : ∀ e ∈ xs, e.draggerID ≠ d.draggerID) (hys : ∀ e ∈ ys, e.draggerID ≠ d.draggerID)
    (a : AtomID)
    (hpick : pickedAtom K (ingestUpdate K (StateUpdate.ofDraggers xs) (cr, c.atomLocks)).1 d = a)
    (hfree : (ingestUpdate K (StateUpdate.ofDraggers xs) (cr, c.atomLocks)).1.locked a = false) :
    ({ draggerID := d.draggerID, draggedAtom := a,
       dragTransformation := d.transformation⁻¹ *
         (ingestUpdate K (StateUpdate.ofDraggers xs) (cr, c.atomLocks)).1.getAtomState a } :
        AtomLock T) ∈ (ingestClient K cr c).2.atomLocks ∧
    (ingestClient K cr c).1.locked a = true ∧
    (ingestClient K cr c).1.calls.filter (CrystalCall.setsAtom a) =
      (ingestUpdate K (StateUpdate.ofDraggers xs) (cr, c.atomLocks)).1.calls.filter
        (CrystalCall.setsAtom a) ++
      [CrystalCall.setAtomState a (d.transformation * (d.transformation⁻¹ *
        (ingestUpdate K (StateUpdate.ofDraggers xs) (cr, c.atomLocks)).1.getAtomState a))] := by
  rw [ingestClient_turn K cr c hne xs ys d hslot]
  have hinv1 := ingestUpdate_lockInv K (StateUpdate.ofDraggers xs) (cr, c.atomLocks) pre post hinv
  have hno1 : d.draggerID ∉ lockIds
      (ingestUpdate K (StateUpdate.ofDraggers xs) (cr, c.atomLocks)).2 :=
    ingestUpdate_noid K _ _ _ (fun i e he => hxs e (entries_ofDraggers he)) hno
  generalize ingestUpdate K (StateUpdate.ofDraggers xs) (cr, c.atomLocks) = st
    at hpick hfree hinv1 hno1 ⊢
  have hinv2 := processDragger_lockInv K d st pre post hinv1
  have hgrab := processDragger_grab K d st.1 st.2 hact hno1 (by rw [hpick]; exact hfree)
  rw [hpick] at hgrab
  have hst : (st.1, st.2) = st := rfl
  rw [hst] at hgrab
  rw [hgrab] at hinv2 ⊢
  have hy := ingestUpdate_frame K (StateUpdate.ofDraggers ys) _ pre post a hinv2
    (Or.inr (Or.inr ⟨_, List.mem_append_right _ (List.mem_singleton.mpr rfl), rfl,
      fun i e he => (hys e (entries_ofDraggers he)).symm⟩))
  refine ⟨?_, ?_, ?_⟩
  · exact hy.2 _ (List.mem_append_right _ (List.mem_singleton.mpr rfl))
      (fun i e he => (hys e (entries_ofDraggers he)).symm)
  · show (ingestUpdate K (StateUpdate.ofDraggers ys) _).1.locked a = true
    rw [hy.1.1]
    simp
  · show (ingestUpdate K (StateUpdate.ofDraggers ys) _).1.calls.filter _ = _
    rw [hy.1.2.2]
    exact filter_setsAtom_grab K d a a _ st.1.calls

/-- The turn of a client whose update holds an active dragger without an atom lock that
picks an atom another client holds: the pick and the failed lockAtom are the only calls for
that dragger, the atom is left alone and the dragger gets no atom lock. -/
theorem turn_contended [Mul T] [Inv T] (K : Collaborators S T) (cr : Crystal S T)
    (c : ClientState S T) (pre post : List AtomID)
    (hinv : LockInv cr.locked (pre ++ lockedAtoms c.atomLocks ++ post))
    (hne : c.lockedIndex ≠ c.mostRecentIndex) (xs ys : List (Dragger S T)) (d : Dragger S T)
    (hslot : c.stateUpdates c.mostRecentIndex = StateUpdate.ofDraggers (xs ++ d :: ys))
    (hact : d.active = true) (hno : d.draggerID ∉ lockIds c.atomLocks)
    (hxs : ∀ e ∈ xs, e.draggerID ≠ d.draggerID) (hys : ∀ e ∈ ys, e.draggerID ≠ d.draggerID)
    (a : AtomID) (ha : a ∈ pre ∨ a ∈ post)
    (hpick : pickedAtom K (ingestUpdate K (StateUpdate.ofDraggers xs) (cr, c.atomLocks)).1 d = a) :
    Untouched a cr (ingestClient K cr c).1 ∧
    d.draggerID ∉ lockIds (ingestClient K cr c).2.atomLocks ∧
    processDragger K d (ingestUpdate K (StateUpdate.ofDraggers xs) (cr, c.atomLocks)) =
      ({ (ingestUpdate K (StateUpdate.ofDraggers xs) (cr, c.atomLocks)).1 with
          calls := (ingestUpdate K (StateUpdate.ofDraggers xs) (cr, c.atomLocks)).1.calls ++
            [pickCall K d, CrystalCall.lockAtom a] },
        (ingestUpdate K (StateUpdate.ofDraggers xs) (cr, c.atomLocks)).2) := by
  rw [ingestClient_turn K cr c hne xs ys d hslot]
  have ha3 : a ∈ pre ∨ a ∈ post ∨ ∃ al ∈ c.atomLocks, al.draggedAtom = a ∧
      ∀ i e, (StateUpdate.ofDraggers xs).entry i = some e → al.draggerID ≠ e.draggerID := by
    rcases ha with h | h
    · exact Or.inl h
    · exact Or.inr (Or.inl h)
  have hx := ingestUpdate_frame K (StateUpdate.ofDraggers xs) (cr, c.atomLocks) pre post a hinv ha3
  have hinv1 := ingestUpdate_lockInv K (StateUpdate.ofDraggers xs) (cr, c.atomLocks) pre post hinv
  have hno1 : d.draggerID ∉ lockIds
      (ingestUpdate K (StateUpdate.ofDraggers xs) (cr, c.atomLocks)).2 :=
    ingestUpdate_noid K _ _ _ (fun i e he => hxs e (entries_ofDraggers he)) hno
  have hx1 := hx.1
  generalize ingestUpdate K (StateUpdate.ofDraggers xs) (cr, c.atomLocks) = st
    at hpick hinv1 hno1 hx1 ⊢
  have hlocked : st.1.locked a = true := by
    apply (hinv1.2 a).mpr
    rcases ha with h | h
    · exact List.mem_append_left _ (List.mem_append_left _ h)
    · exact List.mem_append_right _ h
  have hinv2 := processDragger_lockInv K d st pre post hinv1
  have hcont := processDragger_contended K d st.1 st.2 hact hno1 (by rw [hpick]; exact hlocked)
  rw [hpick] at hcont
  have hst : (st.1, st.2) = st := rfl
  rw [hst] at hcont
  rw [hcont] at hinv2 ⊢
  have ha4 : a ∈ pre ∨ a ∈ post ∨ ∃ al ∈ st.2, al.draggedAtom = a ∧
      ∀ i e, (StateUpdate.ofDraggers ys).entry i = some e → al.draggerID ≠ e.draggerID := by
    rcases ha with h | h
    · exact Or.inl h
    · exact Or.inr (Or.inl h)
  have hy := ingestUpdate_frame K (StateUpdate.ofDraggers ys) _ pre post a hinv2 ha4
  have hmid : Untouched a st.1
      { st.1 with calls := st.1.calls ++ [pickCall K d, CrystalCall.lockAtom a] } :=
    ⟨rfl, rfl, filter_setsAtom_pick K d a a st.1.calls⟩
  refine ⟨untouched_trans hx1 (untouched_trans hmid hy.1), ?_, rfl⟩
  exact ingestUpdate_noid K _ _ _ (fun i e he => hys e (entries_ofDraggers he)) hno1

theorem pairPublished_reachable : Reachable lineCollaborators pairPublished := by
  have h0 : Reaches lineCollaborators lineAccepted pairAccepted :=
    Relation.ReflTransGen.single
      (Step.accept lineAccepted 8 5 (by
        intro c hc
        rw [List.mem_singleton.mp hc]
        decide))
  have h1 : Reaches lineCollaborators pairAccepted (pairAccepted.updateClient lineClient1) :=
    reaches_connect lineCollaborators pairAccepted (ClientState.new 7 5)
      (List.mem_cons_self _ _) rfl (Nat.succ_le_succ (Nat.zero_le 4))
  have h2 : Reaches lineCollaborators (pairAccepted.updateClient lineClient1)
      ((pairAccepted.updateClient lineClient1).updateClient pairClient1) :=
    reaches_connect lineCollaborators (pairAccepted.updateClient lineClient1)
      (ClientState.new 8 5) (List.mem_cons_of_mem _ (List.mem_singleton.mpr rfl)) rfl
      (Nat.succ_le_succ (Nat.zero_le 4))
  have h3 : Reaches lineCollaborators
      ((pairAccepted.updateClient lineClient1).updateClient pairClient1)
      (((pairAccepted.updateClient lineClient1).updateClient pairClient1).updateClient
        lineClient2) :=
    reaches_receiveClientUpdate lineCollaborators (lineMessage 3 1)
      ((pairAccepted.updateClient lineClient1).updateClient pairClient1) lineClient1
      (List.mem_cons_self _ _) rfl
  have h4 : Reaches lineCollaborators
      (((pairAccepted.updateClient lineClient1).updateClient pairClient1).updateClient
        lineClient2) pairPublished :=
    reaches_receiveClientUpdate lineCollaborators pairMessage
      (((pairAccepted.updateClient lineClient1).updateClient pairClient1).updateClient
        lineClient2) pairClient1
      (List.mem_cons_of_mem _ (List.mem_singleton.mpr rfl)) rfl
  exact reachable_trans lineAccepted_reachable (((h0.trans h1).trans h2).trans (h3.trans h4))

/-- C13: in a reachable server clients A and B (A before B in the client list) each have a
new update with an active dragger, listed once, for which the client holds no atom lock.
When Step 2 handles them both draggers pick the atom a, which is unlocked when A's dragger
is handled. After the tick A holds the atom lock for a (with dragTransformation T⁻¹ * P), B
has no atom lock for its dragger nor for a, the atom is locked, the only setAtomState call
made for a from then on is the one for A's lock, and for B's dragger the only calls were
the pick and the failed lockAtom. -/
theorem grab_contention [Mul T] [Inv T] (K : Collaborators S T) (dt : ℚ) (s : Server S T)
    (h : Reachable K s) (l1 l2 l3 : List (ClientState S T)) (A B : ClientState S T)
    (hsplit : s.clientStates = l1 ++ A :: (l2 ++ B :: l3))
    (hneA : A.lockedIndex ≠ A.mostRecentIndex) (hneB : B.lockedIndex ≠ B.mostRecentIndex)
    (xsA ysA xsB ysB : List (Dragger S T)) (dA dB : Dragger S T)
    (hslotA : A.stateUpdates A.mostRecentIndex = StateUpdate.ofDraggers (xsA ++ dA :: ysA))
    (hslotB : B.stateUpdates B.mostRecentIndex = StateUpdate.ofDraggers (xsB ++ dB :: ysB))
    (hactA : dA.active = true) (hactB : dB.active = true)
    (hnoA : dA.draggerID ∉ lockIds A.atomLocks) (hnoB : dB.draggerID ∉ lockIds B.atomLocks)
    (hxsA : ∀ e ∈ xsA, e.draggerID ≠ dA.draggerID)
    (hysA : ∀ e ∈ ysA, e.draggerID ≠ dA.draggerID)
    (hxsB : ∀ e ∈ xsB, e.draggerID ≠ dB.draggerID)
    (hysB : ∀ e ∈ ysB, e.draggerID ≠ dB.draggerID)
    (a : AtomID)
    (hpickA : pickedAtom K (entryState K s l1 A xsA).1 dA = a)
    (hfree : (entryState K s l1 A xsA).1.locked a = false)
    (hpickB : pickedAtom K (entryState K s (l1 ++ A :: l2) B xsB).1 dB = a) :
    (∃ A' ∈ (simulate K dt s).clientStates, A'.ptr = A.ptr ∧
      ({ draggerID := dA.draggerID, draggedAtom := a,
         dragTransformation :=
           dA.transformation⁻¹ * (entryState K s l1 A xsA).1.getAtomState a } : AtomLock T) ∈
        A'.atomLocks) ∧
    (∃ B' ∈ (simulate K dt s).clientStates, B'.ptr = B.ptr ∧
      dB.draggerID ∉ lockIds B'.atomLocks ∧ a ∉ lockedAtoms B'.atomLocks) ∧
    A.ptr ≠ B.ptr ∧
    (simulate K dt s).crystal.locked a = true ∧
    (simulate K dt s).crystal.calls.filter (CrystalCall.setsAtom a) =
      (entryState K s l1 A xsA).1.calls.filter (CrystalCall.setsAtom a) ++
        [CrystalCall.setAtomState a (dA.transformation *
          (dA.transformation⁻¹ * (entryState K s l1 A xsA).1.getAtomState a))] ∧
    processDragger K dB (entryState K s (l1 ++ A :: l2) B xsB) =
      ({ (entryState K s (l1 ++ A :: l2) B xsB).1 with
          calls := (entryState K s (l1 ++ A :: l2) B xsB).1.calls ++
            [pickCall K dB, CrystalCall.lockAtom a] },
        (entryState K s (l1 ++ A :: l2) B xsB).2) := by
  have h1 : Reachable K (applyParameters s) :=
    reachable_trans h (Relation.ReflTransGen.single (Step.applyParameters s))
  have hown := reachable_ownership h1
  have hsplit1 : (applyParameters s).clientStates = l1 ++ A :: (l2 ++ B :: l3) := by
    rw [applyParameters_clientStates, hsplit]
  have hsplitB : (applyParameters s).clientStates = (l1 ++ A :: l2) ++ B :: l3 := by
    rw [hsplit1]
    simp
  have hptr : A.ptr ≠ B.ptr := by
    have hn := (reachable_ownership h).1
    rw [hsplit] at hn
    simp only [List.map_append, List.map_cons] at hn
    have hn2 := (List.nodup_append.mp hn).2.1
    have hn3 := (List.nodup_cons.mp hn2).1
    intro heq
    apply hn3
    rw [heq]
    simp
  unfold entryState at hpickA hfree hpickB ⊢
  -- the turn of A
  have hinvA := turn_lockInv K (applyParameters s) hown l1 (l2 ++ B :: l3) A hsplit1
  have gA := turn_grab K _ A _ _ hinvA hneA xsA ysA dA hslotA hactA hnoA hxsA hysA a hpickA hfree
  have hinvA2 := ingestClient_lockInv K _ A _ _ hinvA
  have hcrB := congrArg Prod.fst (ingestClients_split K (applyParameters s).crystal l1 l2 A)
  have hlsB := congrArg Prod.snd (ingestClients_split K (applyParameters s).crystal l1 l2 A)
  simp only at hcrB hlsB
  rw [hcrB] at hpickB ⊢
  have hsp := ingestUpdates_split K (applyParameters s) (l1 ++ A :: l2) l3 B hsplitB
  rw [hcrB, hlsB] at hsp
  generalize (ingestClients K (applyParameters s).crystal l1).1 = crA at *
  generalize (ingestClients K (applyParameters s).crystal l1).2 = l1' at *
  have haA : a ∈ lockedAtoms (ingestClient K crA A).2.atomLocks :=
    List.mem_map.mpr ⟨_, gA.1, rfl⟩
  -- the clients between A and B
  have hinvA3 : LockInv (ingestClient K crA A).1.locked
      ((heldAtoms l1' ++ lockedAtoms (ingestClient K crA A).2.atomLocks) ++ heldAtoms l2 ++
        (lockedAtoms B.atomLocks ++ heldAtoms l3)) := by
    simpa [heldAtoms_append, heldAtoms_cons, List.append_assoc] using hinvA2
  have uL2 := ingestClients_frame K l2 _ _ _ a hinvA3
    (Or.inl (List.mem_append_right _ haA))
  have hinvB0 := ingestClients_lockInv_ctx K l2 _ _ _ hinvA3
  have hinvB : LockInv (ingestClients K (ingestClient K crA A).1 l2).1.locked
      (((heldAtoms l1' ++ lockedAtoms (ingestClient K crA A).2.atomLocks) ++
          heldAtoms (ingestClients K (ingestClient K crA A).1 l2).2) ++
        lockedAtoms B.atomLocks ++ heldAtoms l3) := by
    simpa [List.append_assoc] using hinvB0
  have hactx : a ∈ (heldAtoms l1' ++ lockedAtoms (ingestClient K crA A).2.atomLocks) ++
      heldAtoms (ingestClients K (ingestClient K crA A).1 l2).2 :=
    List.mem_append_left _ (List.mem_append_right _ haA)
  -- the turn of B
  have gB := turn_contended K _ B _ _ hinvB hneB xsB ysB dB hslotB hactB hnoB hxsB hysB a
    (Or.inl hactx) hpickB
  have hinvB2 := ingestClient_lockInv K _ B _ _ hinvB
  have hnotB : a ∉ lockedAtoms
      (ingestClient K (ingestClients K (ingestClient K crA A).1 l2).1 B).2.atomLocks := by
    intro hin
    have hd := (List.nodup_append.mp (List.nodup_append.mp hinvB2.1).1).2.2
    exact hd hactx hin
  -- the clients after B
  have uL3 := ingestClients_frame K l3 _ _ [] a (by simpa using hinvB2)
    (Or.inl (List.mem_append_left _ hactx))
  have hall := untouched_trans uL2 (untouched_trans gB.1 uL3)
  refine ⟨⟨(ingestClient K crA A).2, ?_, ingestClient_ptr K _ A, gA.1⟩,
    ⟨(ingestClient K (ingestClients K (ingestClient K crA A).1 l2).1 B).2, ?_,
      ingestClient_ptr K _ B, gB.2.1, hnotB⟩, hptr, ?_, ?_, gB.2.2⟩
  · show _ ∈ (ingestUpdates K (applyParameters s)).clientStates
    rw [hsp.2]
    simp
  · show _ ∈ (ingestUpdates K (applyParameters s)).clientStates
    rw [hsp.2]
    simp
  · show (ingestUpdates K (applyParameters s)).crystal.locked a = true
    rw [hsp.1, hall.1]
    exact gA.2.1
  · show ((ingestUpdates K (applyParameters s)).crystal.calls ++ [CrystalCall.simulate dt]).filter
      (CrystalCall.setsAtom a) = _
    rw [List.filter_append, hsp.1, hall.2.2, gA.2.2]
    simp [List.filter, CrystalCall.setsAtom]

/-- Witness for C13: on the line crystal two connected clients each publish one active ray
dragger; both rays pick atom 0, which is unlocked. -/
theorem grab_contention_witness :
    Reachable lineCollaborators pairPublished ∧
    pairPublished.clientStates = [] ++ lineClient2 :: ([] ++ pairClient2 :: []) ∧
    (simulate lineCollaborators 1 pairPublished).crystal.locked 0 = true ∧
    lineClient2.ptr ≠ pairClient2.ptr :=
  ⟨pairPublished_reachable, rfl,
    (grab_contention lineCollaborators 1 pairPublished pairPublished_reachable [] [] []
      lineClient2 pairClient2 rfl (by decide) (by decide) [] [] [] []
      (lineDragger 1 true 3 true) (lineDragger 2 true 4 true) rfl rfl rfl rfl
      (List.not_mem_nil _) (List.not_mem_nil _)
      (fun e he => by simp at he) (fun e he => by simp at he)
      (fun e he => by simp at he) (fun e he => by simp at he) 0 rfl rfl rfl).2.2.2.1,
    (grab_contention lineCollaborators 1 pairPublished pairPublished_reachable [] [] []
      lineClient2 pairClient2 rfl (by decide) (by decide) [] [] [] []
      (lineDragger 1 true 3 true) (lineDragger 2 true 4 true) rfl rfl rfl rfl
      (List.not_mem_nil _) (List.not_mem_nil _)
      (fun e he => by simp at he) (fun e he => by simp at he)
      (fun e he => by simp at he) (fun e he => by simp at he) 0 rfl rfl rfl).2.2.1⟩

theorem readerStep_step [Mul T] [Inv T] (K : Collaborators S T) {s s' : Server S T}
    (h : ReaderStep s s') : Step K s s' := by
  cases h with
  | connectReply c hc ht => exact Step.connectReply s c hc ht
  | markConnected c hc ht => exact Step.markConnected s c hc ht
  | message c msg r1 r2 r3 hc ht => exact Step.message s c msg r1 r2 r3 hc ht
  | count c r hc => exact Step.count s c r hc
  | decode c r hc => exact Step.decode s c r hc
  | cleanup c hc ht => exact Step.cleanup s c hc ht

theorem handleMessage_crystal (msg : Option MessageId) (r1 r2 r3 : Option S)
    (c : ClientState S T) (s : Server S T) :
    (handleMessage msg r1 r2 r3 c s).crystal = s.crystal := by
  unfold handleMessage
  cases msg with
  | none => rfl
  | some m =>
    cases m with
    | CLIENT_PARAMUPDATE => exact paramUpdate_crystal r1 r2 r3 s
    | _ => rfl

theorem lineLeaving_reachable : Reachable lineCollaborators lineLeaving :=
  reachable_trans lineGrabbed_reachable
    (Relation.ReflTransGen.single
      (Step.message lineGrabbed lineClient3 (some MessageId.DISCONNECT_REQUEST) none none none
        (List.mem_singleton.mpr rfl) rfl))

/-- C16, as the code has it: no step of a client communication thread changes an atom pose
or a simulation parameter of the crystal, and every step other than the cleanup block
leaves the crystal exactly as it is. The cleanup block calls unlockAtom for every atom lock
of its client: it clears the lock flags of those atoms and of no other atom. -/
theorem reader_steps_crystal (s s' : Server S T) (h : ReaderStep s s') :
    s'.crystal.atomState = s.crystal.atomState ∧ ParametersKept s.crystal s'.crystal ∧
    (s'.crystal = s.crystal ∨
      ∃ c ∈ s.clientStates, c.thread = ThreadState.leaving ∧ s' = disconnectClient c s ∧
        (∀ b, s'.crystal.locked b =
          if b ∈ lockedAtoms c.atomLocks then false else s.crystal.locked b) ∧
        s'.crystal.calls =
          s.crystal.calls ++ c.atomLocks.map (fun al => CrystalCall.unlockAtom al.draggedAtom)) := by
  cases h with
  | connectReply c hc ht => exact ⟨rfl, parametersKept_refl _, Or.inl rfl⟩
  | markConnected c hc ht => exact ⟨rfl, parametersKept_refl _, Or.inl rfl⟩
  | message c msg r1 r2 r3 hc ht =>
    rw [handleMessage_crystal]
    exact ⟨rfl, parametersKept_refl _, Or.inl rfl⟩
  | count c r hc => exact ⟨rfl, parametersKept_refl _, Or.inl rfl⟩
  | decode c r hc => exact ⟨rfl, parametersKept_refl _, Or.inl rfl⟩
  | cleanup c hc ht =>
    exact ⟨unlockAll_atomState c.atomLocks s.crystal, parametersKept_unlockAll c.atomLocks s.crystal,
      Or.inr ⟨c, hc, ht, rfl, fun b => unlockAll_locked c.atomLocks s.crystal b,
        unlockAll_calls c.atomLocks s.crystal⟩⟩

/-- Witness for C16: the cleanup step of the line scenario keeps the atom poses. -/
theorem reader_steps_crystal_witness :
    ReaderStep lineLeaving (disconnectClient lineClient7 lineLeaving) ∧
    (disconnectClient lineClient7 lineLeaving).crystal.atomState =
      lineLeaving.crystal.atomState :=
  ⟨ReaderStep.cleanup lineLeaving lineClient7 (List.mem_singleton.mpr rfl) rfl,
    (reader_steps_crystal lineLeaving (disconnectClient lineClient7 lineLeaving)
      (ReaderStep.cleanup lineLeaving lineClient7 (List.mem_singleton.mpr rfl) rfl)).1⟩

/-- Counterexample to C16: in a reachable state of the line scenario the client holds
atom 0 and its communication thread has left the message loop after a DISCONNECT_REQUEST;
the cleanup block, a step of that thread, changes the crystal's lock flag of atom 0 from
locked to unlocked. -/
theorem reader_cleanup_unlocks :
    Reachable lineCollaborators lineLeaving ∧
    ReaderStep lineLeaving (disconnectClient lineClient7 lineLeaving) ∧
    lineLeaving.crystal.locked 0 = true ∧
    (disconnectClient lineClient7 lineLeaving).crystal.locked 0 = false ∧
    (disconnectClient lineClient7 lineLeaving).crystal ≠ lineLeaving.crystal :=
  ⟨lineLeaving_reachable,
    ReaderStep.cleanup lineLeaving lineClient7 (List.mem_singleton.mpr rfl) rfl, rfl, rfl,
    fun h => Bool.noConfusion
      ((congrArg (fun cr => cr.locked 0) h :
        (disconnectClient lineClient7 lineLeaving).crystal.locked 0 =
          lineLeaving.crystal.locked 0))⟩

theorem numAtomsLoop_ge (argv : List CString) (n j i : Nat) (v : Index) :
    i ≤ (numAtomsLoop argv n j i v).2 := by
  induction n generalizing j i v with
  | zero => exact Nat.le_refl _
  | succ n ih =>
    unfold numAtomsLoop
    split
    · exact Nat.le_trans (Nat.le_succ i) (ih _ _ _)
    · exact Nat.le_refl _

theorem parseLoop_isSome (atof : CString → ℚ) (argv : List CString) (fuel i : Nat)
    (cfg : MainConfig) (h : argv.length ≤ fuel + i) :
    (parseLoop atof argv fuel i cfg).isSome = true := by
  induction fuel generalizing i cfg with
  | zero =>
    unfold parseLoop
    have : ¬ i < argv.length := by omega
    simp [this]
  | succ fuel ih =>
    unfold parseLoop
    by_cases hi : i < argv.length
    · have hn := numAtomsLoop_ge argv 3 0 (i + 1) cfg.numAtoms
      simp only [hi, if_true]
      split
      · split
        · exact ih _ _ (by omega)
        · split
          · split
            · exact ih _ _ (by omega)
            · exact ih _ _ (by omega)
          · split
            · split
              · exact ih _ _ (by omega)
              · exact ih _ _ (by omega)
            · exact ih _ _ (by omega)
      · exact ih _ _ (by omega)
    · simp [hi]

theorem mainConfig_isSome (atof : CString → ℚ) (argv : List CString) :
    (mainConfig atof argv).isSome = true :=
  parseLoop_isSome atof argv argv.length 1 _ (Nat.le_succ _)

/-- C17, what the code does: for the command line `-numAtoms 2 2 2 -port 5000` the loop of
`main` sets the grid to (2,2,2) but passes over `-port`, so the listen port stays -1; with
the flags in the other order, `-port 5000 -numAtoms 2 2 2`, both are taken. -/
theorem numAtoms_skips_next_argument (atof : CString → ℚ) :
    mainConfig atof portAfterNumAtoms =
      some { numAtoms := (2, 2, 2), listenPortID := -1, updateTime := 2 / 100 } ∧
    mainConfig atof portBeforeNumAtoms =
      some { numAtoms := (2, 2, 2), listenPortID := 5000, updateTime := 2 / 100 } :=
  ⟨rfl, rfl⟩

theorem readDragger_fails (n k : Nat) (r : DraggerRead S T) (c : ClientState S T)
    (hr : r.Fails) : ∃ f, readDragger n k r c = (c.writeSlot n f).leave := by
  rcases readDragger_cases n k r c with h | ⟨d, hd⟩
  · exact h
  · exfalso
    have hth : (readDragger n k r c).thread = ThreadState.decoding n (k + 1) := by rw [hd]
    unfold readDragger at hth
    unfold DraggerRead.Fails at hr
    cases h1 : r.draggerID with
    | none => simp [h1, ClientState.leave] at hth
    | some id =>
      cases h2 : r.rayBased with
      | none => simp [h1, h2, ClientState.leave] at hth
      | some rb =>
        cases h3 : r.rayStart with
        | none => simp [h1, h2, h3, ClientState.leave] at hth
        | some st =>
          cases h4 : r.rayDirection with
          | none => simp [h1, h2, h3, h4, ClientState.leave] at hth
          | some dir =>
            cases h5 : r.transformation with
            | none => simp [h1, h2, h3, h4, h5, ClientState.leave] at hth
            | some tr =>
              cases h6 : r.active with
              | none => simp [h1, h2, h3, h4, h5, h6, ClientState.leave] at hth
              | some ch => simp [h1, h2, h3, h4, h5, h6] at hr

theorem ingestClient_congr [Mul T] [Inv T] (K : Collaborators S T) (cr : Crystal S T)
    (c c' : ClientState S T) (hL : c'.lockedIndex = c.lockedIndex)
    (hM : c'.mostRecentIndex = c.mostRecentIndex)
    (hS : c'.stateUpdates c.mostRecentIndex = c.stateUpdates c.mostRecentIndex)
    (hA : c'.atomLocks = c.atomLocks) :
    (ingestClient K cr c').1 = (ingestClient K cr c).1 ∧
    (ingestClient K cr c').2.atomLocks = (ingestClient K cr c).2.atomLocks := by
  unfold ingestClient
  rw [hL, hM, hS, hA]
  by_cases hne : c.lockedIndex = c.mostRecentIndex
  · simp [hne, hA]
  · simp [hne]

theorem clientStep_leaving [Mul T] [Inv T] {K : Collaborators S T} {s : Server S T}
    {c c' : ClientState S T} (hs : ClientStep K s c c') (ht : c.thread = ThreadState.leaving) :
    c'.thread = ThreadState.leaving ∧ c'.mostRecentIndex = c.mostRecentIndex ∧
    c'.stateUpdates = c.stateUpdates := by
  cases hs with
  | same => exact ⟨ht, rfl, rfl⟩
  | connectReply h => rw [ht] at h; cases h
  | markConnected h => rw [ht] at h; cases h
  | leave h => rw [ht] at h; cases h
  | disconnectRequest h => rw [ht] at h; cases h
  | clientUpdate h => rw [ht] at h; cases h
  | count r =>
    have : readNumDraggers r c = c := by
      unfold readNumDraggers
      rw [ht]
    rw [this]
    exact ⟨ht, rfl, rfl⟩
  | decode r =>
    have : decodeStep r c = c := by
      unfold decodeStep
      rw [ht]
    rw [this]
    exact ⟨ht, rfl, rfl⟩
  | ingest cr =>
    obtain ⟨_, e2, e3, e4, _⟩ := ingestClient_fields K cr c
    exact ⟨by rw [e3, ht], e2, e4⟩
  | broadcast =>
    obtain ⟨e1, e2, _, e4, _⟩ := sendServerUpdateTo_fields s c
    exact ⟨by rw [e1, ht], e4, e2⟩

theorem clientEvolves_leaving [Mul T] [Inv T] {K : Collaborators S T}
    {c c' : ClientState S T} (he : ClientEvolves K c c') (ht : c.thread = ThreadState.leaving) :
    c'.thread = ThreadState.leaving ∧ c'.mostRecentIndex = c.mostRecentIndex ∧
    c'.stateUpdates = c.stateUpdates := by
  induction he with
  | refl => exact ⟨ht, rfl, rfl⟩
  | tail _ hstep ih =>
    obtain ⟨s, hs⟩ := hstep
    obtain ⟨i1, i2, i3⟩ := ih
    obtain ⟨j1, j2, j3⟩ := clientStep_leaving hs i1
    exact ⟨j1, by rw [j2, i2], by rw [j3, i3]⟩

theorem lineWaiting_reachable : Reachable lineCollaborators lineWaiting :=
  reachable_trans lineAccepted_reachable
    (reaches_connect lineCollaborators lineAccepted (ClientState.new 7 5)
      (List.mem_singleton.mpr rfl) rfl (Nat.succ_le_succ (Nat.zero_le 4)))

theorem lineChoosing_reachable : Reachable lineCollaborators lineChoosing :=
  reachable_trans lineWaiting_reachable
    (Relation.ReflTransGen.single
      (Step.message lineWaiting lineClient1 (some MessageId.CLIENT_UPDATE) none none none
        (List.mem_singleton.mpr rfl) rfl))

/-- C24, in the step relation in which Step 2 of a tick is one step between the steps of
the communication threads: in a reachable server, when the read of the dragger count of a
CLIENT_UPDATE fails, or one of the six reads of a dragger fails, the thread leaves its loop with
mostRecentIndex and lockedIndex as they were; only the slot being decoded, which is neither
of the two, can have been written. What Step 2 makes of the crystal on that client's turn is
the same as before the failure, and whatever happens to the client afterwards, its thread
stays out of the loop and the slot a tick reads is the one published before the message. -/
theorem failed_update_discarded [Mul T] [Inv T] (K : Collaborators S T) (s : Server S T)
    (h : Reachable K s) (c : ClientState S T) (hc : c ∈ s.clientStates) :
    (∀ n, c.thread = ThreadState.chose n →
      (readNumDraggers none c).thread = ThreadState.leaving ∧
      (readNumDraggers none c).mostRecentIndex = c.mostRecentIndex ∧
      (readNumDraggers none c).lockedIndex = c.lockedIndex ∧
      (readNumDraggers none c).stateUpdates = c.stateUpdates ∧
      (∀ cr, (ingestClient K cr (readNumDraggers none c)).1 = (ingestClient K cr c).1) ∧
      (∀ c'', ClientEvolves K (readNumDraggers none c) c'' →
        c''.thread = ThreadState.leaving ∧
        c''.stateUpdates c''.mostRecentIndex = c.stateUpdates c.mostRecentIndex)) ∧
    (∀ n k (r : DraggerRead S T), c.thread = ThreadState.decoding n k →
      (k : Int) < (c.stateUpdates n).numDraggers → r.Fails →
      (decodeStep r c).thread = ThreadState.leaving ∧
      (decodeStep r c).mostRecentIndex = c.mostRecentIndex ∧
      (decodeStep r c).lockedIndex = c.lockedIndex ∧
      n ≠ c.lockedIndex ∧ n ≠ c.mostRecentIndex ∧
      (∀ i, i ≠ n → (decodeStep r c).stateUpdates i = c.stateUpdates i) ∧
      (∀ cr, (ingestClient K cr (decodeStep r c)).1 = (ingestClient K cr c).1) ∧
      (∀ c'', ClientEvolves K (decodeStep r c) c'' →
        c''.thread = ThreadState.leaving ∧
        c''.stateUpdates c''.mostRecentIndex = c.stateUpdates c.mostRecentIndex)) := by
  have hinv := reachable_bufferInv h c hc
  constructor
  · intro n hn
    have he : readNumDraggers none c = c.leave := by
      unfold readNumDraggers
      rw [hn]
    rw [he]
    refine ⟨rfl, rfl, rfl, rfl, fun cr => (ingestClient_congr K cr c c.leave rfl rfl rfl rfl).1, ?_⟩
    intro c'' hev
    obtain ⟨e1, e2, e3⟩ := clientEvolves_leaving hev rfl
    refine ⟨e1, ?_⟩
    rw [e3, e2]
    rfl
  · intro n k r hn hk hr
    have hde : decodeStep r c = readDragger n k r c := by
      unfold decodeStep
      rw [hn]
      simp only [hk, if_true]
    obtain ⟨f, hf⟩ := readDragger_fails n k r c hr
    rw [hde, hf]
    obtain ⟨_, _, _, _, hthr⟩ := hinv
    rw [hn] at hthr
    obtain ⟨_, hL, hM, _, _⟩ := hthr
    have hslot : ∀ i, i ≠ n → ((c.writeSlot n f).leave).stateUpdates i = c.stateUpdates i := by
      intro i hi
      simp [ClientState.leave, ClientState.writeSlot, hi]
    refine ⟨rfl, rfl, rfl, hL, hM, hslot, ?_, ?_⟩
    · intro cr
      exact (ingestClient_congr K cr c ((c.writeSlot n f).leave) rfl rfl
        (hslot _ (Ne.symm hM)) rfl).1
    · intro c'' hev
      obtain ⟨e1, e2, e3⟩ := clientEvolves_leaving hev rfl
      refine ⟨e1, ?_⟩
      rw [e3, e2]
      exact hslot _ (Ne.symm hM)

theorem handleMessage_paramUpdate (r1 r2 r3 : Option S) (c : ClientState S T) (s : Server S T) :
    handleMessage (some MessageId.CLIENT_PARAMUPDATE) r1 r2 r3 c s =
      (paramUpdate r1 r2 r3 s).updateClient
        (if r1.isSome && r2.isSome && r3.isSome then c else c.leave) :=
  rfl

theorem paramUpdate_failed (r1 r2 r3 : Option S) (s : Server S T)
    (hf : r1 = none ∨ r2 = none ∨ r3 = none) :
    (paramUpdate r1 r2 r3 s).newAtomMass = r1.getD s.newAtomMass ∧
    (paramUpdate r1 r2 r3 s).newAttenuation =
      (if r1.isSome then r2.getD s.newAttenuation else s.newAttenuation) ∧
    (paramUpdate r1 r2 r3 s).newGravity = s.newGravity := by
  unfold paramUpdate
  cases r1 <;> cases r2 <;> cases r3 <;> simp at hf ⊢

/-- What a failed CLIENT_PARAMUPDATE leaves behind: the handler increments the pending
version before it reads the payload and stores each scalar as it arrives. When a read fails
the pending version is one higher than before, the scalars read before the failure have
replaced their pending values and the others are as before, the crystal is untouched and
only the sender's thread leaves its loop. In a reachable server the next tick then pushes
that pending triple into the crystal. -/
theorem failed_paramupdate_pending [Mul T] [Inv T] (K : Collaborators S T) (s : Server S T)
    (h : Reachable K s) (c : ClientState S T)
    (r1 r2 r3 : Option S) (hf : r1 = none ∨ r2 = none ∨ r3 = none) (dt : ℚ) :
    (handleMessage (some MessageId.CLIENT_PARAMUPDATE) r1 r2 r3 c s).newParameterVersion =
      s.newParameterVersion + 1 ∧
    (handleMessage (some MessageId.CLIENT_PARAMUPDATE) r1 r2 r3 c s).newAtomMass =
      r1.getD s.newAtomMass ∧
    (handleMessage (some MessageId.CLIENT_PARAMUPDATE) r1 r2 r3 c s).newAttenuation =
      (if r1.isSome then r2.getD s.newAttenuation else s.newAttenuation) ∧
    (handleMessage (some MessageId.CLIENT_PARAMUPDATE) r1 r2 r3 c s).newGravity =
      s.newGravity ∧
    (handleMessage (some MessageId.CLIENT_PARAMUPDATE) r1 r2 r3 c s).crystal = s.crystal ∧
    (∀ x ∈ (handleMessage (some MessageId.CLIENT_PARAMUPDATE) r1 r2 r3 c s).clientStates,
      x = c.leave ∨ x ∈ s.clientStates) ∧
    (simulate K dt
      (handleMessage (some MessageId.CLIENT_PARAMUPDATE) r1 r2 r3 c s)).crystal.atomMass =
      r1.getD s.newAtomMass ∧
    (simulate K dt
      (handleMessage (some MessageId.CLIENT_PARAMUPDATE) r1 r2 r3 c s)).crystal.attenuation =
      (if r1.isSome then r2.getD s.newAttenuation else s.newAttenuation) ∧
    (simulate K dt
      (handleMessage (some MessageId.CLIENT_PARAMUPDATE) r1 r2 r3 c s)).crystal.gravity =
      s.newGravity ∧
    (simulate K dt
      (handleMessage (some MessageId.CLIENT_PARAMUPDATE) r1 r2 r3 c s)).crystal.parameterCalls =
      s.crystal.parameterCalls ++
        [CrystalCall.setAtomMass (r1.getD s.newAtomMass),
         CrystalCall.setAttenuation
           (if r1.isSome then r2.getD s.newAttenuation else s.newAttenuation),
         CrystalCall.setGravity s.newGravity] := by
  have hleave : (if r1.isSome && r2.isSome && r3.isSome then c else c.leave) = c.leave := by
    rcases hf with rfl | rfl | rfl <;> simp
  rw [handleMessage_paramUpdate, hleave]
  obtain ⟨p1, p2, p3⟩ := paramUpdate_failed r1 r2 r3 s hf
  have hv : (paramUpdate r1 r2 r3 s).newParameterVersion = s.newParameterVersion + 1 :=
    paramUpdate_newParameterVersion r1 r2 r3 s
  have hpv : (paramUpdate r1 r2 r3 s).parameterVersion = s.parameterVersion :=
    paramUpdate_parameterVersion r1 r2 r3 s
  have hcr : (paramUpdate r1 r2 r3 s).crystal = s.crystal := paramUpdate_crystal r1 r2 r3 s
  have hle := (reachable_versionInv h).1
  have hne : ((paramUpdate r1 r2 r3 s).updateClient c.leave).newParameterVersion ≠
      ((paramUpdate r1 r2 r3 s).updateClient c.leave).parameterVersion := by
    show (paramUpdate r1 r2 r3 s).newParameterVersion ≠ (paramUpdate r1 r2 r3 s).parameterVersion
    rw [hv, hpv]
    omega
  have hap := applyParameters_pending _ hne
  have hkept := simulate_parametersKept K dt ((paramUpdate r1 r2 r3 s).updateClient c.leave)
  obtain ⟨_, _, _, k4, k5, k6, k7⟩ := hkept
  refine ⟨hv, p1, p2, p3, hcr, ?_, ?_, ?_, ?_, ?_⟩
  · intro x hx
    rcases mem_updateClient hx with hx | hx
    · exact Or.inl hx
    · rw [paramUpdate_clientStates] at hx
      exact Or.inr hx
  · rw [k4, hap.1]
    exact p1
  · rw [k5, hap.2.1]
    exact p2
  · rw [k6, hap.2.2]
    exact p3
  · rw [k7]
    unfold applyParameters
    rw [if_pos hne]
    show (((((paramUpdate r1 r2 r3 s).crystal.setAtomMass _).setAttenuation _).setGravity
      _).calls).filter CrystalCall.isParameterCall = _
    rw [hcr]
    show ((s.crystal.calls ++ _ ++ _ ++ _).filter CrystalCall.isParameterCall) = _
    rw [show ((paramUpdate r1 r2 r3 s).updateClient c.leave).newAtomMass =
        r1.getD s.newAtomMass from p1,
      show ((paramUpdate r1 r2 r3 s).updateClient c.leave).newAttenuation =
        (if r1.isSome then r2.getD s.newAttenuation else s.newAttenuation) from p2,
      show ((paramUpdate r1 r2 r3 s).updateClient c.leave).newGravity = s.newGravity from p3]
    simp [List.filter_append, List.filter, CrystalCall.isParameterCall, Crystal.parameterCalls]

/-- The waiting client of the line scenario sends a CLIENT_PARAMUPDATE whose first scalar,
5, arrives and whose second read fails: the pending version is one higher than before. -/
theorem failed_paramupdate_pending_witness :
    Reachable lineCollaborators lineWaiting ∧
    (handleMessage (some MessageId.CLIENT_PARAMUPDATE) (some 5) none none lineClient1
      lineWaiting).newParameterVersion = lineWaiting.newParameterVersion + 1 :=
  ⟨lineWaiting_reachable,
    (failed_paramupdate_pending lineCollaborators lineWaiting lineWaiting_reachable lineClient1
      (some 5) none none (Or.inr (Or.inl rfl)) 1).1⟩

/-- C25: the code does not leave the pending parameters as they were when reading the
payload of a CLIENT_PARAMUPDATE fails. In the line scenario the pending atom mass is 0, the
pending version 1 and the crystal's atom mass 1. A CLIENT_PARAMUPDATE whose first scalar is
5 and whose second read fails leaves the pending version at 2 and the pending atom mass at
5, and the next tick pushes the atom mass 5 into the crystal, where a tick without the
message leaves the atom mass at 1. -/
theorem failed_paramupdate_applies :
    Reachable lineCollaborators lineWaiting ∧
    lineClient1 ∈ lineWaiting.clientStates ∧
    lineClient1.thread = ThreadState.waiting ∧
    lineWaiting.newParameterVersion = 1 ∧ lineWaiting.newAtomMass = 0 ∧
    lineWaiting.crystal.atomMass = 1 ∧
    (handleMessage (some MessageId.CLIENT_PARAMUPDATE) (some 5) none none lineClient1
      lineWaiting).newParameterVersion = 2 ∧
    (handleMessage (some MessageId.CLIENT_PARAMUPDATE) (some 5) none none lineClient1
      lineWaiting).newAtomMass = 5 ∧
    (simulate lineCollaborators 1
      (handleMessage (some MessageId.CLIENT_PARAMUPDATE) (some 5) none none lineClient1
        lineWaiting)).crystal.atomMass = 5 ∧
    (simulate lineCollaborators 1 lineWaiting).crystal.atomMass = 1 :=
  ⟨lineWaiting_reachable, List.mem_singleton.mpr rfl, rfl, rfl, rfl, rfl, rfl, rfl, rfl, rfl⟩

theorem timeSteps_append (l1 l2 : List MainCall) :
    timeSteps (l1 ++ l2) = timeSteps l1 ++ timeSteps l2 := by
  induction l1 with
  | nil => rfl
  | cons c cs ih => cases c <;> simp [timeSteps, ih]

theorem numBroadcasts_append (l1 l2 : List MainCall) :
    numBroadcasts (l1 ++ l2) = numBroadcasts l1 + numBroadcasts l2 := by
  induction l1 with
  | nil => simp [numBroadcasts]
  | cons c cs ih =>
    cases c
    · rw [List.cons_append]
      simp only [numBroadcasts]
      exact ih
    · rw [List.cons_append]
      simp only [numBroadcasts]
      rw [ih]
      omega

theorem mainLoopIteration_cases [Mul T] [Inv T] (K : Collaborators S T) (updateTime : ℚ)
    (m : MainLoop S T) (t : ℚ) :
    (mainLoopIteration K updateTime m t).lastFrameTime = t ∧
    ((t < m.nextUpdateTime ∧
        (mainLoopIteration K updateTime m t).calls =
          m.calls ++ [MainCall.simulate (t - m.lastFrameTime)] ∧
        (mainLoopIteration K updateTime m t).sjs = simulate K (t - m.lastFrameTime) m.sjs ∧
        (mainLoopIteration K updateTime m t).nextUpdateTime = m.nextUpdateTime) ∨
      (m.nextUpdateTime ≤ t ∧
        (mainLoopIteration K updateTime m t).calls =
          m.calls ++ [MainCall.simulate (t - m.lastFrameTime), MainCall.sendServerUpdate] ∧
        (mainLoopIteration K updateTime m t).sjs =
          sendServerUpdate (simulate K (t - m.lastFrameTime) m.sjs) ∧
        (mainLoopIteration K updateTime m t).nextUpdateTime =
          m.nextUpdateTime + updateTime)) := by
  unfold mainLoopIteration
  by_cases hb : m.nextUpdateTime ≤ t
  · simp [hb]
  · have hlt : t < m.nextUpdateTime := lt_of_not_le hb
    simp [hb, hlt]

theorem mainLoop_snoc [Mul T] [Inv T] (K : Collaborators S T) (updateTime : ℚ)
    (m : MainLoop S T) (pre : List ℚ) (t : ℚ) :
    mainLoop K updateTime m (pre ++ [t]) =
      mainLoopIteration K updateTime (mainLoop K updateTime m pre) t := by
  simp [mainLoop, List.foldl_append]

theorem differences_sum (prev : ℚ) (ts : List ℚ) :
    (differences prev ts).sum = (prev :: ts).getLast (List.cons_ne_nil _ _) - prev := by
  induction ts generalizing prev with
  | nil => simp [differences]
  | cons t ts ih =>
    rw [differences, List.sum_cons, ih, List.getLast_cons (List.cons_ne_nil _ _)]
    ring

theorem differences_length (prev : ℚ) (ts : List ℚ) :
    (differences prev ts).length = ts.length := by
  induction ts generalizing prev with
  | nil => rfl
  | cons t ts ih => simp [differences, ih]

theorem mainLoop_run [Mul T] [Inv T] (K : Collaborators S T) (updateTime : ℚ)
    (m : MainLoop S T) (peeks : List ℚ) :
    timeSteps (mainLoop K updateTime m peeks).calls =
      timeSteps m.calls ++ differences m.lastFrameTime peeks ∧
    (mainLoop K updateTime m peeks).nextUpdateTime + numBroadcasts m.calls * updateTime =
      m.nextUpdateTime + numBroadcasts (mainLoop K updateTime m peeks).calls * updateTime ∧
    (mainLoop K updateTime m peeks).lastFrameTime =
      (m.lastFrameTime :: peeks).getLast (List.cons_ne_nil _ _) := by
  induction peeks generalizing m with
  | nil => simp [mainLoop, differences]
  | cons t ts ih =>
    have hstep : mainLoop K updateTime m (t :: ts) =
        mainLoop K updateTime (mainLoopIteration K updateTime m t) ts := rfl
    obtain ⟨i1, i2, i3⟩ := ih (mainLoopIteration K updateTime m t)
    obtain ⟨hl, hc⟩ := mainLoopIteration_cases K updateTime m t
    rw [hstep, i1, i3, hl, List.getLast_cons (List.cons_ne_nil _ _)]
    refine ⟨?_, ?_, rfl⟩
    · rcases hc with ⟨_, hcalls, _, _⟩ | ⟨_, hcalls, _, _⟩ <;>
        rw [hcalls, timeSteps_append] <;> simp [timeSteps, differences]
    · rcases hc with ⟨_, hcalls, _, hnext⟩ | ⟨_, hcalls, _, hnext⟩
      · rw [hcalls, hnext, numBroadcasts_append] at i2
        simp only [numBroadcasts, Nat.add_zero] at i2
        exact i2
      · rw [hcalls, hnext, numBroadcasts_append] at i2
        simp only [numBroadcasts, Nat.zero_add, Nat.cast_add, Nat.cast_one] at i2
        linarith

/-! ### The properties at work in the scenarios -/

theorem lineAccepted_reaches :
    Reaches lineCollaborators (construct lineCrystal 0 0 0) lineAccepted :=
  Relation.ReflTransGen.single
    (Step.accept (construct lineCrystal 0 0 0) 7 5 (by simp [construct]))

theorem lineWaiting_reaches :
    Reaches lineCollaborators (construct lineCrystal 0 0 0) lineWaiting :=
  lineAccepted_reaches.trans
    (reaches_connect lineCollaborators lineAccepted (ClientState.new 7 5)
      (List.mem_singleton.mpr rfl) rfl (Nat.succ_le_succ (Nat.zero_le 4)))

theorem linePublished_reaches :
    Reaches lineCollaborators (construct lineCrystal 0 0 0) linePublished :=
  lineWaiting_reaches.trans
    (reaches_receiveClientUpdate lineCollaborators (lineMessage 3 1)
      (lineAccepted.updateClient lineClient1) lineClient1 (List.mem_singleton.mpr rfl) rfl)

theorem lineGrabbed_reaches :
    Reaches lineCollaborators (construct lineCrystal 0 0 0) lineGrabbed :=
  linePublished_reaches.trans (reaches_simulate _ _ _)

theorem lineLeaving_reaches :
    Reaches lineCollaborators (construct lineCrystal 0 0 0) lineLeaving :=
  lineGrabbed_reaches.trans
    (Relation.ReflTransGen.single
      (Step.message lineGrabbed lineClient3 (some MessageId.DISCONNECT_REQUEST) none none none
        (List.mem_singleton.mpr rfl) rfl))

theorem pairGrabbed_reaches :
    Reaches lineCollaborators (construct lineCrystal 0 0 0) pairGrabbed := by
  have h0 : Reaches lineCollaborators lineAccepted pairAccepted :=
    Relation.ReflTransGen.single
      (Step.accept lineAccepted 8 5 (by
        intro c hc
        rw [List.mem_singleton.mp hc]
        decide))
  have h1 : Reaches lineCollaborators pairAccepted (pairAccepted.updateClient lineClient1) :=
    reaches_connect lineCollaborators pairAccepted (ClientState.new 7 5)
      (List.mem_cons_self _ _) rfl (Nat.succ_le_succ (Nat.zero_le 4))
  have h2 : Reaches lineCollaborators (pairAccepted.updateClient lineClient1)
      ((pairAccepted.updateClient lineClient1).updateClient pairClient1) :=
    reaches_connect lineCollaborators (pairAccepted.updateClient lineClient1)
      (ClientState.new 8 5) (List.mem_cons_of_mem _ (List.mem_singleton.mpr rfl)) rfl
      (Nat.succ_le_succ (Nat.zero_le 4))
  have h3 : Reaches lineCollaborators
      ((pairAccepted.updateClient lineClient1).updateClient pairClient1)
      (((pairAccepted.updateClient lineClient1).updateClient pairClient1).updateClient
        lineClient2) :=
    reaches_receiveClientUpdate lineCollaborators (lineMessage 3 1)
      ((pairAccepted.updateClient lineClient1).updateClient pairClient1) lineClient1
      (List.mem_cons_self _ _) rfl
  have h4 : Reaches lineCollaborators
      (((pairAccepted.updateClient lineClient1).updateClient pairClient1).updateClient
        lineClient2) pairPublished :=
    reaches_receiveClientUpdate lineCollaborators pairMessage
      (((pairAccepted.updateClient lineClient1).updateClient pairClient1).updateClient
        lineClient2) pairClient1 (List.mem_cons_of_mem _ (List.mem_singleton.mpr rfl)) rfl
  exact ((((lineAccepted_reaches.trans h0).trans h1).trans h2).trans h3).trans
    (h4.trans (reaches_simulate _ _ _))

/-- Witness for C1: the pair scenario after the tick in which both clients ask for atom 0.
The first client holds atom 0, the second holds nothing, and the crystal has atom 0 locked
and atom 1 not. -/
theorem atom_ownership_exclusive_witness :
    Quiescent (construct lineCrystal (0 : ℚ) 0 0) ∧
    Reaches lineCollaborators (construct lineCrystal 0 0 0) pairGrabbed ∧
    pairGrabbed.clientStates.map (fun c => (c.ptr, lockedAtoms c.atomLocks)) =
      [(7, [0]), (8, [])] ∧
    pairGrabbed.crystal.locked 0 = true ∧ pairGrabbed.crystal.locked 1 = false ∧
    ((heldAtoms pairGrabbed.clientStates).count 0 ≤ 1 ∧
      (pairGrabbed.crystal.locked 0 = true ↔
        ∃ c ∈ pairGrabbed.clientStates, ∃ al ∈ c.atomLocks, al.draggedAtom = 0)) ∧
    ((heldAtoms pairGrabbed.clientStates).count 1 ≤ 1 ∧
      (pairGrabbed.crystal.locked 1 = true ↔
        ∃ c ∈ pairGrabbed.clientStates, ∃ al ∈ c.atomLocks, al.draggedAtom = 1)) :=
  ⟨construct_quiescent _ _ _ _ lineCrystal_fresh, pairGrabbed_reaches, rfl, rfl, rfl,
    atom_ownership_exclusive lineCollaborators (construct lineCrystal 0 0 0) pairGrabbed
      (construct_quiescent _ _ _ _ lineCrystal_fresh) pairGrabbed_reaches 0,
    atom_ownership_exclusive lineCollaborators (construct lineCrystal 0 0 0) pairGrabbed
      (construct_quiescent _ _ _ _ lineCrystal_fresh) pairGrabbed_reaches 1⟩

/-- Witness for C2: in the line scenario the client holds atom 0; its DISCONNECT_REQUEST
puts the thread before the cleanup with the atom lock kept, and the cleanup calls
unlockAtom for atom 0, leaves it unlocked and erases the client. -/
theorem disconnect_releases_locks_witness :
    Quiescent (construct lineCrystal (0 : ℚ) 0 0) ∧
    Reaches lineCollaborators (construct lineCrystal 0 0 0) lineLeaving ∧
    lineClient7 ∈ lineLeaving.clientStates ∧
    lineClient3.atomLocks = [lineLock] ∧ lineLeaving.crystal.locked 0 = true ∧
    (lineClient7.thread = ThreadState.leaving ∧ lineClient7.atomLocks = lineClient3.atomLocks) ∧
    Step lineCollaborators lineLeaving (disconnectClient lineClient7 lineLeaving) ∧
    (disconnectClient lineClient7 lineLeaving).crystal.calls =
      lineLeaving.crystal.calls ++ [CrystalCall.unlockAtom 0] ∧
    (disconnectClient lineClient7 lineLeaving).crystal.locked 0 = false ∧
    (disconnectClient lineClient7 lineLeaving).clientStates = [] :=
  ⟨construct_quiescent _ _ _ _ lineCrystal_fresh, lineLeaving_reaches,
    List.mem_singleton.mpr rfl, rfl, rfl,
    (disconnect_releases_locks lineCollaborators (construct lineCrystal 0 0 0) lineGrabbed
      (construct_quiescent _ _ _ _ lineCrystal_fresh) lineGrabbed_reaches lineClient3
      (List.mem_singleton.mpr rfl)).1 (some MessageId.DISCONNECT_REQUEST) none none none rfl
      (by decide) (fun h => by cases h) lineClient7 (List.mem_singleton.mpr rfl) rfl,
    (disconnect_releases_locks lineCollaborators (construct lineCrystal 0 0 0) lineLeaving
      (construct_quiescent _ _ _ _ lineCrystal_fresh) lineLeaving_reaches lineClient7
      (List.mem_singleton.mpr rfl)).2.2.2.2.1 rfl,
    (disconnect_releases_locks lineCollaborators (construct lineCrystal 0 0 0) lineLeaving
      (construct_quiescent _ _ _ _ lineCrystal_fresh) lineLeaving_reaches lineClient7
      (List.mem_singleton.mpr rfl)).2.2.2.2.2.1,
    (disconnect_releases_locks lineCollaborators (construct lineCrystal 0 0 0) lineLeaving
      (construct_quiescent _ _ _ _ lineCrystal_fresh) lineLeaving_reaches lineClient7
      (List.mem_singleton.mpr rfl)).2.2.2.2.2.2.1 lineLock (List.mem_singleton.mpr rfl),
    rfl⟩

theorem lineFilling_reachable : Reachable lineCollaborators lineFilling :=
  reachable_trans linePublished_reachable
    ((Relation.ReflTransGen.single
      (Step.message linePublished lineClient2 (some MessageId.CLIENT_UPDATE) none none none
        (List.mem_singleton.mpr rfl) rfl)).tail
      (Step.count _
        { lineClient2 with
          thread := ThreadState.chose
            (nextIndex lineClient2.lockedIndex lineClient2.mostRecentIndex) }
        (some 1) (List.mem_singleton.mpr rfl)))

/-- Witness for C4: in the line scenario the first update is published in slot 1 and not
yet ingested (lockedIndex 0) while the thread fills slot 2 for the next message. The slot
being filled is neither index, the published slot holds the whole first message, and an
ingest step at this moment locks slot 1 and reads that message, while slot 2, whose one
entry is not yet assigned, stays the slot being filled. -/
theorem no_torn_frames_witness :
    Reachable lineCollaborators lineFilling ∧ lineClient8 ∈ lineFilling.clientStates ∧
    lineClient8.thread = ThreadState.decoding 2 0 ∧
    lineClient8.lockedIndex = 0 ∧ lineClient8.mostRecentIndex = 1 ∧
    (lineClient8.stateUpdates 2).entry 0 = none ∧
    lineClient8.stateUpdates 1 = StateUpdate.ofDraggers [lineDragger 1 true 3 true] ∧
    (2 ≠ lineClient8.lockedIndex ∧ 2 ≠ lineClient8.mostRecentIndex) ∧
    (lineClient8.stateUpdates lineClient8.mostRecentIndex).Complete ∧
    (ingestClient lineCollaborators lineCrystal lineClient8).2.lockedIndex = 1 ∧
    (((ingestClient lineCollaborators lineCrystal lineClient8).2.stateUpdates
        (ingestClient lineCollaborators lineCrystal lineClient8).2.lockedIndex).Complete ∧
      (∀ n k, (ingestClient lineCollaborators lineCrystal lineClient8).2.thread =
          ThreadState.decoding n k →
        n ≠ (ingestClient lineCollaborators lineCrystal lineClient8).2.lockedIndex)) :=
  ⟨lineFilling_reachable, List.mem_singleton.mpr rfl, rfl, rfl, rfl, rfl, rfl,
    (no_torn_frames lineCollaborators lineFilling lineFilling_reachable lineClient8
      (List.mem_singleton.mpr rfl)).2.1 2 0 rfl,
    (no_torn_frames lineCollaborators lineFilling lineFilling_reachable lineClient8
      (List.mem_singleton.mpr rfl)).2.2.2.1,
    rfl,
    (no_torn_frames lineCollaborators lineFilling lineFilling_reachable lineClient8
      (List.mem_singleton.mpr rfl)).2.2.2.2 lineCrystal⟩

theorem lineParameters_reachable : Reachable lineCollaborators lineParameters :=
  reachable_trans lineWaiting_reachable
    (Relation.ReflTransGen.single
      (Step.message lineWaiting lineClient1 (some MessageId.CLIENT_PARAMUPDATE) (some 2)
        (some 3) (some 4) (List.mem_singleton.mpr rfl) rfl))

/-- Witness for C7: the line server after a CLIENT_PARAMUPDATE: the pending version is 2
and the applied version still 1; the tick leaves both at 2. -/
theorem parameter_version_invariant_witness :
    Reachable lineCollaborators lineParameters ∧
    lineParameters.parameterVersion = 1 ∧ lineParameters.newParameterVersion = 2 ∧
    lineParameters.parameterVersion ≤ lineParameters.newParameterVersion ∧
    lineParameters.parameterVersion ≤
      (simulate lineCollaborators 1 lineParameters).parameterVersion ∧
    (applyParameters lineParameters).parameterVersion = lineParameters.newParameterVersion ∧
    (simulate lineCollaborators 1 lineParameters).parameterVersion =
      (simulate lineCollaborators 1 lineParameters).newParameterVersion ∧
    (simulate lineCollaborators 1 lineParameters).parameterVersion = 2 :=
  ⟨lineParameters_reachable, rfl, rfl,
    (parameter_version_invariant lineCollaborators lineParameters lineParameters_reachable).1,
    (parameter_version_invariant lineCollaborators lineParameters
      lineParameters_reachable).2.1 _ (reaches_simulate _ _ _),
    (parameter_version_invariant lineCollaborators lineParameters
      lineParameters_reachable).2.2.2.1,
    (parameter_version_invariant lineCollaborators lineParameters
      lineParameters_reachable).2.2.2.2 1,
    rfl⟩

theorem lineBroadcast_reachable : Reachable lineCollaborators (sendServerUpdate lineWaiting) :=
  reachable_trans lineWaiting_reachable
    (Relation.ReflTransGen.single (Step.broadcast lineWaiting))

/-- Witness for C9: the connected client of the line scenario has seen no parameter
version. The first broadcast appends SERVER_PARAMUPDATE with the crystal's parameters 1, 1,
0 and SERVER_UPDATE; a second broadcast appends SERVER_UPDATE alone; and after
CLIENT_PARAMUPDATE with 2, 3, 4 and a tick the broadcast appends SERVER_PARAMUPDATE with 2,
3, 4 and SERVER_UPDATE. -/
theorem broadcast_parameter_echo_witness :
    Reachable lineCollaborators lineWaiting ∧ lineClient1 ∈ lineWaiting.clientStates ∧
    lineClient1.connected = true ∧ lineClient1.parameterVersion = 0 ∧
    lineWaiting.parameterVersion = 1 ∧ lineClient1.pipe.capacity = 4 ∧
    ((sendServerUpdateTo lineWaiting lineClient1).pipe.written = lineClient1.pipe.written ++
        [ServerMessage.SERVER_PARAMUPDATE lineWaiting.crystal.atomMass
          lineWaiting.crystal.attenuation lineWaiting.crystal.gravity,
         ServerMessage.SERVER_UPDATE lineWaiting.crystal.atomStates] ∧
      (sendServerUpdateTo lineWaiting lineClient1).parameterVersion =
        lineWaiting.parameterVersion) ∧
    (sendServerUpdateTo lineWaiting lineClient1).pipe.written =
      [ServerMessage.CONNECT_REPLY (-1, -1, -1) (1, 1, 1) (2, 2, 2),
       ServerMessage.SERVER_PARAMUPDATE 1 1 0,
       ServerMessage.SERVER_UPDATE lineCrystal.atomStates] ∧
    (sendServerUpdateTo (sendServerUpdate lineWaiting)
        (sendServerUpdateTo lineWaiting lineClient1)).pipe.written =
      (sendServerUpdateTo lineWaiting lineClient1).pipe.written ++
        [ServerMessage.SERVER_UPDATE lineWaiting.crystal.atomStates] ∧
    ((sendServerUpdateTo (sendServerUpdate lineWaiting)
        (sendServerUpdateTo lineWaiting lineClient1)).pipe.written =
      (sendServerUpdateTo lineWaiting lineClient1).pipe.written ++
        [ServerMessage.SERVER_UPDATE (sendServerUpdate lineWaiting).crystal.atomStates] ∧
      (sendServerUpdateTo (sendServerUpdate lineWaiting)
        (sendServerUpdateTo lineWaiting lineClient1)).parameterVersion =
        (sendServerUpdate lineWaiting).parameterVersion) ∧
    (sendServerUpdateTo
        (simulate lineCollaborators 1 (paramUpdate (some 2) (some 3) (some 4) lineWaiting))
        lineClient1).pipe.written = lineClient1.pipe.written ++
      [ServerMessage.SERVER_PARAMUPDATE 2 3 4,
       ServerMessage.SERVER_UPDATE
         (simulate lineCollaborators 1
           (paramUpdate (some 2) (some 3) (some 4) lineWaiting)).crystal.atomStates] :=
  ⟨lineWaiting_reachable, List.mem_singleton.mpr rfl, rfl, rfl, rfl, rfl,
    (broadcast_parameter_echo lineCollaborators lineWaiting lineWaiting_reachable).2.1
      lineClient1 rfl (by decide) (by decide),
    rfl,
    (broadcast_parameter_echo lineCollaborators lineWaiting lineWaiting_reachable).2.2.2.1
      lineClient1 rfl (by decide),
    (broadcast_parameter_echo lineCollaborators (sendServerUpdate lineWaiting)
      lineBroadcast_reachable).2.2.1 (sendServerUpdateTo lineWaiting lineClient1) rfl rfl
      (by decide),
    (broadcast_parameter_echo lineCollaborators lineWaiting lineWaiting_reachable).2.2.2.2
      2 3 4 1 lineClient1 (List.mem_singleton.mpr rfl) rfl (by decide)⟩

theorem lineReplied_reachable : Reachable lineCollaborators lineReplied :=
  reachable_trans lineAccepted_reachable
    (Relation.ReflTransGen.single
      (Step.connectReply lineAccepted (ClientState.new 7 5) (List.mem_singleton.mpr rfl) rfl))

/-- Witness for C10: in the line scenario, once CONNECT_REPLY is written the thread is at
`replied`, the flag is still false, the stream is the reply alone and a broadcast leaves the
client as it is; the connected client's stream starts with the reply, also after a
broadcast appended its two messages. -/
theorem connect_reply_first_witness :
    Reachable lineCollaborators lineReplied ∧
    sendConnectReply lineCrystal (ClientState.new 7 5) ∈ lineReplied.clientStates ∧
    (sendConnectReply lineCrystal (ClientState.new 7 5)).thread = ThreadState.replied ∧
    ((sendConnectReply lineCrystal (ClientState.new 7 5)).connected = false ∧
      (sendConnectReply lineCrystal (ClientState.new 7 5)).pipe.written =
        [ServerMessage.CONNECT_REPLY lineReplied.crystal.domainMin
          lineReplied.crystal.domainMax lineReplied.crystal.numAtoms]) ∧
    sendServerUpdateTo lineReplied (sendConnectReply lineCrystal (ClientState.new 7 5)) =
      sendConnectReply lineCrystal (ClientState.new 7 5) ∧
    Reachable lineCollaborators (sendServerUpdate lineWaiting) ∧
    sendServerUpdateTo lineWaiting lineClient1 ∈ (sendServerUpdate lineWaiting).clientStates ∧
    (sendServerUpdateTo lineWaiting lineClient1).connected = true ∧
    (sendServerUpdateTo lineWaiting lineClient1).pipe.written =
      [ServerMessage.CONNECT_REPLY (-1, -1, -1) (1, 1, 1) (2, 2, 2),
       ServerMessage.SERVER_PARAMUPDATE 1 1 0,
       ServerMessage.SERVER_UPDATE lineCrystal.atomStates] ∧
    (∃ rest, (sendServerUpdateTo lineWaiting lineClient1).pipe.written =
      ServerMessage.CONNECT_REPLY (sendServerUpdate lineWaiting).crystal.domainMin
        (sendServerUpdate lineWaiting).crystal.domainMax
        (sendServerUpdate lineWaiting).crystal.numAtoms :: rest) :=
  ⟨lineReplied_reachable, List.mem_singleton.mpr rfl, rfl,
    (connect_reply_first lineCollaborators lineReplied lineReplied_reachable
      (sendConnectReply lineCrystal (ClientState.new 7 5))
      (List.mem_singleton.mpr rfl)).2.2.2.2 rfl,
    (connect_reply_first lineCollaborators lineReplied lineReplied_reachable
      (sendConnectReply lineCrystal (ClientState.new 7 5))
      (List.mem_singleton.mpr rfl)).2.1 rfl,
    lineBroadcast_reachable, List.mem_singleton.mpr rfl, rfl, rfl,
    (connect_reply_first lineCollaborators (sendServerUpdate lineWaiting)
      lineBroadcast_reachable (sendServerUpdateTo lineWaiting lineClient1)
      (List.mem_singleton.mpr rfl)).2.2.1 rfl⟩

/-- Step 2 for one client is the store of the index read at the same moment. -/
theorem ingestClient_loaded [Mul T] [Inv T] (K : Collaborators S T) (cr : Crystal S T)
    (c : ClientState S T) (h : c.lockedIndex ≠ c.mostRecentIndex) :
    ingestClient K cr c = ingestLoaded K cr c c.mostRecentIndex := by
  unfold ingestClient ingestLoaded
  rw [if_pos h]

theorem raceServer3_reaches : Reaches lineCollaborators raceServer1 raceServer3 :=
  (((reaches_receiveClientUpdate lineCollaborators (lineMessage 5 1) linePublished lineClient2
      (List.mem_singleton.mpr rfl) rfl).tail
    (Step.message (linePublished.updateClient raceClient1) raceClient1
      (some MessageId.CLIENT_UPDATE) none none none (List.mem_singleton.mpr rfl) rfl)).tail
    (Step.count _ raceClient2 (some 1) (List.mem_singleton.mpr rfl))).tail
    (Step.decode _ (readNumDraggers (some 1) raceClient2) raceRead (List.mem_singleton.mpr rfl))

/-- Counterexample to C24: the race scenario. The first update (dragger 1, ray based) is
published in slot 1 and lockedIndex is 0, so the test of Step 2 passes and the main thread
reads 1 from mostRecentIndex. Before it stores lockedIndex, the communication thread
publishes a second update in slot 2 and starts on a third, for which it chooses slot 1;
after the id 2 and the ray flag 0 of its dragger the read of the ray start fails. That
leaves mostRecentIndex and lockedIndex as they were. The main thread now stores 1 to
lockedIndex and processes slot 1, the partially written slot: it picks by point for
dragger 2 and locks atom 1, where the slot as published would have made it lock atom 0 for
dragger 1. -/
theorem racing_ingest_reads_failed_update :
    Reachable lineCollaborators raceServer1 ∧ raceServer1.clientStates = [lineClient2] ∧
    lineClient2.lockedIndex ≠ lineClient2.mostRecentIndex ∧ lineClient2.mostRecentIndex = 1 ∧
    Reaches lineCollaborators raceServer1 raceServer3 ∧
    raceServer3.clientStates = [raceClient3] ∧ raceServer3.crystal = raceServer1.crystal ∧
    raceClient1.mostRecentIndex = 2 ∧ raceClient1.lockedIndex = 0 ∧
    raceClient2.thread = ThreadState.chose 1 ∧ raceRead.Fails ∧
    raceClient3.thread = ThreadState.leaving ∧
    raceClient3.mostRecentIndex = raceClient1.mostRecentIndex ∧
    raceClient3.lockedIndex = raceClient1.lockedIndex ∧
    (lineClient2.stateUpdates 1).entry 0 = some (lineDragger 1 true 3 true) ∧
    (raceClient3.stateUpdates 1).entry 0 = some (lineDragger 2 false 3 true) ∧
    (ingestLoaded lineCollaborators raceServer3.crystal raceClient3 1).2.lockedIndex = 1 ∧
    (ingestLoaded lineCollaborators raceServer3.crystal raceClient3 1).2.atomLocks.map
      (fun al => (al.draggerID, al.draggedAtom)) = [(2, 1)] ∧
    (ingestLoaded lineCollaborators raceServer3.crystal raceClient3 1).1.locked 1 = true ∧
    (ingestLoaded lineCollaborators raceServer3.crystal raceClient3 1).1.locked 0 = false ∧
    (ingestClient lineCollaborators raceServer1.crystal lineClient2).2.atomLocks.map
      (fun al => (al.draggerID, al.draggedAtom)) = [(1, 0)] ∧
    (ingestClient lineCollaborators raceServer1.crystal lineClient2).1.locked 1 = false :=
  ⟨linePublished_reachable, rfl, by decide, rfl, raceServer3_reaches, rfl, rfl, rfl, rfl, rfl,
    Or.inr (Or.inr (Or.inl rfl)), rfl, rfl, rfl, rfl, rfl, rfl, rfl, rfl, rfl, rfl, rfl⟩

/-- Witness for C24: in the line scenario the thread decodes a second update into slot 2
while the first is published in slot 1 and not yet ingested. The reads of the dragger fail
after its id: the thread leaves its loop, mostRecentIndex stays 1 and lockedIndex 0, slot 2
is neither of them, and what Step 2 makes of the crystal is as before the failure. -/
theorem failed_update_discarded_witness :
    Reachable lineCollaborators lineFilling ∧ lineClient8 ∈ lineFilling.clientStates ∧
    lineClient8.thread = ThreadState.decoding 2 0 ∧
    ((0 : Nat) : Int) < (lineClient8.stateUpdates 2).numDraggers ∧ raceRead.Fails ∧
    lineClient8.mostRecentIndex = 1 ∧ lineClient8.lockedIndex = 0 ∧
    (lineClient8.stateUpdates 2).draggerIDs = [none] ∧
    ((decodeStep raceRead lineClient8).stateUpdates 2).draggerIDs = [some 2] ∧
    ((decodeStep raceRead lineClient8).thread = ThreadState.leaving ∧
      (decodeStep raceRead lineClient8).mostRecentIndex = lineClient8.mostRecentIndex ∧
      (decodeStep raceRead lineClient8).lockedIndex = lineClient8.lockedIndex ∧
      2 ≠ lineClient8.lockedIndex ∧ 2 ≠ lineClient8.mostRecentIndex ∧
      (∀ i, i ≠ 2 → (decodeStep raceRead lineClient8).stateUpdates i =
        lineClient8.stateUpdates i) ∧
      (∀ cr, (ingestClient lineCollaborators cr (decodeStep raceRead lineClient8)).1 =
        (ingestClient lineCollaborators cr lineClient8).1) ∧
      (∀ c'', ClientEvolves lineCollaborators (decodeStep raceRead lineClient8) c'' →
        c''.thread = ThreadState.leaving ∧
        c''.stateUpdates c''.mostRecentIndex =
          lineClient8.stateUpdates lineClient8.mostRecentIndex)) :=
  ⟨lineFilling_reachable, List.mem_singleton.mpr rfl, rfl, by decide,
    Or.inr (Or.inr (Or.inl rfl)), rfl, rfl, rfl, rfl,
    (failed_update_discarded lineCollaborators lineFilling lineFilling_reachable lineClient8
      (List.mem_singleton.mpr rfl)).2 2 0 raceRead rfl (by decide)
      (Or.inr (Or.inr (Or.inl rfl)))⟩

theorem replay_append [Mul T] [Inv T] (K : Collaborators S T) (l1 l2 : List MainCall)
    (s : Server S T) : replay K (l1 ++ l2) s = replay K l2 (replay K l1 s) := by
  simp [replay, List.foldl_append]

theorem mainLoop_replay [Mul T] [Inv T] (K : Collaborators S T) (updateTime : ℚ)
    (s0 : Server S T) (peeks : List ℚ) (m : MainLoop S T) (hm : m.sjs = replay K m.calls s0) :
    (mainLoop K updateTime m peeks).sjs = replay K (mainLoop K updateTime m peeks).calls s0 := by
  induction peeks generalizing m with
  | nil => exact hm
  | cons t ts ih =>
    have hstep : mainLoop K updateTime m (t :: ts) =
        mainLoop K updateTime (mainLoopIteration K updateTime m t) ts := rfl
    rw [hstep]
    apply ih
    rcases (mainLoopIteration_cases K updateTime m t).2 with ⟨_, hc, hs, _⟩ | ⟨_, hc, hs, _⟩
    · rw [hc, hs, replay_append, ← hm]
      rfl
    · rw [hc, hs, replay_append, ← hm]
      rfl

/-- C26: the main loop started with the clock readings `peek0` and `peek1` (`peek0` being
the start time) and run over the readings `peeks`. Every pass calls simulate on the server
exactly once, with the difference between its reading and the previous one, and then
sendServerUpdate at most once; the server after the run is the result of the calls of the
trace, made in order; the time steps of the run sum to the last reading minus the start
time; and a pass that makes the k-th call of sendServerUpdate has a reading of at least the
start time plus k times the update interval. -/
theorem main_loop_cadence [Mul T] [Inv T] (K : Collaborators S T) (updateTime : ℚ)
    (sjs : Server S T) (peek0 peek1 : ℚ) (hclock : peek0 ≤ peek1) (peeks : List ℚ) :
    (∀ (m : MainLoop S T) (t : ℚ),
      ((mainLoopIteration K updateTime m t).calls =
          m.calls ++ [MainCall.simulate (t - m.lastFrameTime)] ∧
        (mainLoopIteration K updateTime m t).sjs = simulate K (t - m.lastFrameTime) m.sjs) ∨
      ((mainLoopIteration K updateTime m t).calls =
          m.calls ++ [MainCall.simulate (t - m.lastFrameTime), MainCall.sendServerUpdate] ∧
        (mainLoopIteration K updateTime m t).sjs =
          sendServerUpdate (simulate K (t - m.lastFrameTime) m.sjs))) ∧
    (mainLoop K updateTime (mainLoopStart sjs updateTime peek0 peek1) peeks).sjs =
      replay K (mainLoop K updateTime (mainLoopStart sjs updateTime peek0 peek1) peeks).calls
        sjs ∧
    timeSteps (mainLoop K updateTime (mainLoopStart sjs updateTime peek0 peek1) peeks).calls =
      differences peek0 peeks ∧
    (timeSteps (mainLoop K updateTime (mainLoopStart sjs updateTime peek0 peek1) peeks).calls).length =
      peeks.length ∧
    (timeSteps (mainLoop K updateTime (mainLoopStart sjs updateTime peek0 peek1) peeks).calls).sum =
      (peek0 :: peeks).getLast (List.cons_ne_nil _ _) - peek0 ∧
    (∀ (pre : List ℚ) (t : ℚ) (k : Nat),
      numBroadcasts
        (mainLoop K updateTime (mainLoopStart sjs updateTime peek0 peek1) pre).calls + 1 = k →
      numBroadcasts
        (mainLoop K updateTime (mainLoopStart sjs updateTime peek0 peek1) (pre ++ [t])).calls = k →
      peek0 + k * updateTime ≤ t) := by
  have hrun := mainLoop_run K updateTime (mainLoopStart sjs updateTime peek0 peek1) peeks
  have hts : timeSteps
      (mainLoop K updateTime (mainLoopStart sjs updateTime peek0 peek1) peeks).calls =
      differences peek0 peeks := by
    rw [hrun.1]
    rfl
  refine ⟨?_, ?_, hts, ?_, ?_, ?_⟩
  · intro m t
    rcases (mainLoopIteration_cases K updateTime m t).2 with ⟨_, h, hs, _⟩ | ⟨_, h, hs, _⟩
    · exact Or.inl ⟨h, hs⟩
    · exact Or.inr ⟨h, hs⟩
  · exact mainLoop_replay K updateTime sjs peeks _ rfl
  · rw [hts]
    exact differences_length peek0 peeks
  · rw [hts]
    exact differences_sum peek0 peeks
  · intro pre t k hk hk2
    have hpre := mainLoop_run K updateTime (mainLoopStart sjs updateTime peek0 peek1) pre
    rw [mainLoop_snoc] at hk2
    generalize mainLoop K updateTime (mainLoopStart sjs updateTime peek0 peek1) pre = m
      at hk hk2 hpre
    have hnext : m.nextUpdateTime = peek1 + updateTime + numBroadcasts m.calls * updateTime := by
      have := hpre.2.1
      simp only [mainLoopStart, numBroadcasts, Nat.cast_zero, zero_mul, add_zero] at this
      exact this
    rcases (mainLoopIteration_cases K updateTime m t).2 with ⟨_, h, _⟩ | ⟨hle, h, _⟩
    · rw [h, numBroadcasts_append] at hk2
      simp only [numBroadcasts] at hk2
      omega
    · rw [hnext] at hle
      have hkq : (k : ℚ) = numBroadcasts m.calls + 1 := by
        rw [← hk]
        push_cast
        ring
      rw [hkq]
      linarith

theorem lineLoop_calls :
    (mainLoop lineCollaborators 2 (mainLoopStart lineWaiting 2 0 0) [1, 2, 3]).calls =
      [MainCall.simulate 1, MainCall.simulate 1, MainCall.sendServerUpdate,
        MainCall.simulate 1] := by
  simp [mainLoop, mainLoopIteration, mainLoopStart]
  norm_num

/-- Witness for C26: the loop on the line server with update interval 2, both initial
readings 0 and the readings 1, 2, 3: three simulate calls with time step 1 and one
sendServerUpdate, in the second pass, whose reading 2 is the start time plus the interval;
the server after the run is the result of those four calls. -/
theorem main_loop_cadence_witness :
    (0 : ℚ) ≤ 0 ∧
    (mainLoop lineCollaborators 2 (mainLoopStart lineWaiting 2 0 0) [1, 2, 3]).calls =
      [MainCall.simulate 1, MainCall.simulate 1, MainCall.sendServerUpdate,
        MainCall.simulate 1] ∧
    (mainLoop lineCollaborators 2 (mainLoopStart lineWaiting 2 0 0) [1, 2, 3]).sjs =
      replay lineCollaborators
        (mainLoop lineCollaborators 2 (mainLoopStart lineWaiting 2 0 0) [1, 2, 3]).calls
        lineWaiting ∧
    timeSteps (mainLoop lineCollaborators 2 (mainLoopStart lineWaiting 2 0 0) [1, 2, 3]).calls =
      differences 0 [1, 2, 3] ∧
    (timeSteps
      (mainLoop lineCollaborators 2 (mainLoopStart lineWaiting 2 0 0) [1, 2, 3]).calls).sum =
      ((0 : ℚ) :: [1, 2, 3]).getLast (List.cons_ne_nil _ _) - 0 :=
  ⟨le_refl 0, lineLoop_calls,
    (main_loop_cadence lineCollaborators 2 lineWaiting 0 0 (le_refl 0) [1, 2, 3]).2.1,
    (main_loop_cadence lineCollaborators 2 lineWaiting 0 0 (le_refl 0) [1, 2, 3]).2.2.1,
    (main_loop_cadence lineCollaborators 2 lineWaiting 0 0 (le_refl 0) [1, 2, 3]).2.2.2.2.1⟩

end Proofs

end SharedJelloServer

namespace Misc

section LargeFileProofs

theorem toLE_length (size v : Nat) : (toLE size v).length = size := by
  induction size generalizing v with
  | zero => rfl
  | succ n ih => simp [toLE, ih]

theorem fromLE_toLE (size v : Nat) (hv : v < 256 ^ size) : fromLE (toLE size v) = v := by
  induction size generalizing v with
  | zero =>
    simp only [pow_zero, Nat.lt_one_iff] at hv
    simp [toLE, fromLE, hv]
  | succ n ih =>
    have hdiv : v / 256 < 256 ^ n := by
      rw [Nat.div_lt_iff_lt_mul (by norm_num)]
      calc v < 256 ^ (n + 1) := hv
        _ = 256 ^ n * 256 := by rw [pow_succ]
    simp only [toLE, fromLE, ih (v / 256) hdiv]
    omega

theorem toMemory_length (host : ByteOrder) (size v : Nat) :
    (toMemory host size v).length = size := by
  cases host <;> simp [toMemory, toLE_length]

theorem fromMemory_toMemory (host : ByteOrder) (size v : Nat) (hv : v < 256 ^ size) :
    fromMemory host (toMemory host size v) = v := by
  cases host <;> simp [fromMemory, toMemory, fromLE_toLE size v hv]

/-- The bytes an item takes in the file under a given swap flag. -/
theorem decode_fileBytes (host : ByteOrder) (swap : Bool) (size v : Nat) (hv : v < 256 ^ size) :
    fromMemory host
      (if swap = true then
        swapEndianness (if swap = true then swapEndianness (toMemory host size v)
          else toMemory host size v)
       else (if swap = true then swapEndianness (toMemory host size v)
          else toMemory host size v)) = v := by
  cases swap
  · simpa using fromMemory_toMemory host size v hv
  · simpa [swapEndianness] using fromMemory_toMemory host size v hv

theorem fileBytes_length (host : ByteOrder) (swap : Bool) (size v : Nat) :
    (if swap = true then swapEndianness (toMemory host size v)
      else toMemory host size v).length = size := by
  cases swap <;> simp [swapEndianness, toMemory_length]

theorem fwrite_all (f : LargeFile) (mem : List Nat) (size nitems : Nat)
    (hlen : mem.length = size * nitems) (hroom : size * nitems ≤ f.room) :
    fwrite f mem size nitems =
      (size * nitems / size, { f with output := f.output ++ mem, room := f.room - size * nitems }) := by
  unfold fwrite
  have hm : min (size * nitems) f.room = size * nitems := Nat.min_eq_left hroom
  have ht : mem.take (size * nitems) = mem := by
    rw [← hlen]
    exact List.take_length mem
  rw [hm, ht, hlen]

theorem writeSwappedLoop_all (host : ByteOrder) (size : Nat) (data : List Nat) (k : Nat)
    (f : LargeFile) (hroom : size * data.length ≤ f.room) :
    writeSwappedLoop host size data (k, f) =
      (k + size * data.length,
        { f with
          output := f.output ++ data.flatMap (fun x => swapEndianness (toMemory host size x)),
          room := f.room - size * data.length }) := by
  induction data generalizing k f with
  | nil => simp [writeSwappedLoop]
  | cons x xs ih =>
    have h1 : size ≤ f.room := by
      simp only [List.length_cons, Nat.mul_succ] at hroom
      omega
    have hw := fwrite_all f (swapEndianness (toMemory host size x)) 1 size
      (by simp [swapEndianness, toMemory_length]) (by simpa using h1)
    simp only [Nat.one_mul, Nat.div_one] at hw
    unfold writeSwappedLoop at ih ⊢
    rw [List.foldl_cons]
    simp only [hw]
    have h2 : size * xs.length ≤ ({ f with
        output := f.output ++ swapEndianness (toMemory host size x),
        room := f.room - size } : LargeFile).room := by
      simp only [List.length_cons, Nat.mul_succ] at hroom
      show size * xs.length ≤ f.room - size
      omega
    rw [ih (k + size) _ h2]
    simp only [List.length_cons, Nat.mul_succ, List.flatMap_cons, List.append_assoc,
      Prod.mk.injEq, LargeFile.mk.injEq, true_and, and_true]
    omega

theorem memoryItems_flatten (size : Nat) (items : List (List Nat)) (rest : List Nat)
    (h : ∀ x ∈ items, x.length = size) :
    memoryItems size items.length (items.flatten ++ rest) = items := by
  induction items with
  | nil => rfl
  | cons x xs ih =>
    have hx : x.length = size := h x (List.mem_cons_self _ _)
    simp only [List.length_cons, memoryItems, List.flatten_cons, List.append_assoc]
    rw [← hx, List.take_left, List.drop_left, hx, ih (fun y hy => h y (List.mem_cons_of_mem _ hy))]

theorem flatten_length_const (size : Nat) (items : List (List Nat))
    (h : ∀ x ∈ items, x.length = size) : items.flatten.length = size * items.length := by
  induction items with
  | nil => simp
  | cons x xs ih =>
    simp only [List.flatten_cons, List.length_append, List.length_cons, Nat.mul_succ,
      h x (List.mem_cons_self _ _), ih (fun y hy => h y (List.mem_cons_of_mem _ hy))]
    omega

theorem writeSwappedLoop_bound (host : ByteOrder) (size : Nat) (data : List Nat)
    (st : Nat × LargeFile) :
    (writeSwappedLoop host size data st).1 + (writeSwappedLoop host size data st).2.room =
      st.1 + st.2.room := by
  induction data generalizing st with
  | nil => rfl
  | cons x xs ih =>
    unfold writeSwappedLoop at ih ⊢
    rw [List.foldl_cons, ih]
    simp only [fwrite, Nat.one_mul, Nat.div_one, List.length_take, swapEndianness,
      List.length_reverse, toMemory_length]
    omega

theorem min_mul_div (s k L : Nat) (hs : 0 < s) : min (s * k) L / s = min k (L / s) := by
  by_cases h : s * k ≤ L
  · have hk : k ≤ L / s := (Nat.le_div_iff_mul_le hs).mpr (by rw [Nat.mul_comm]; exact h)
    rw [Nat.min_eq_left h, Nat.min_eq_left hk, Nat.mul_div_cancel_left k hs]
  · have hL : L ≤ s * k := Nat.le_of_lt (Nat.lt_of_not_le h)
    have hk : L / s ≤ k := by
      apply Nat.le_of_lt_succ
      rw [Nat.div_lt_iff_lt_mul hs]
      have : L < s * k := Nat.lt_of_not_le h
      calc L < s * k := this
        _ ≤ (k + 1) * s := by rw [Nat.mul_comm]; exact Nat.mul_le_mul_right s (Nat.le_succ k)
    rw [Nat.min_eq_right hL, Nat.min_eq_right hk]

theorem setEndianness_fields (host : ByteOrder) (f : LargeFile) (e : LargeFile.Endianness) :
    (LargeFile.setEndianness host f e).input = f.input ∧
    (LargeFile.setEndianness host f e).output = f.output ∧
    (LargeFile.setEndianness host f e).room = f.room :=
  ⟨rfl, rfl, rfl⟩

theorem write_ok (host : ByteOrder) (size v : Nat) (f : LargeFile) (hroom : size ≤ f.room) :
    LargeFile.write host size v f =
      Except.ok { f with
        output := f.output ++
          (if f.mustSwapEndianness = true then swapEndianness (toMemory host size v)
            else toMemory host size v),
        room := f.room - size } := by
  unfold LargeFile.write
  cases hs : f.mustSwapEndianness
  · have hw := fwrite_all f (toMemory host size v) 1 size (by simp [toMemory_length])
      (by simpa using hroom)
    simp only [Nat.one_mul, Nat.div_one] at hw
    simp [hw, hs]
  · have hw := fwrite_all f (swapEndianness (toMemory host size v)) 1 size
      (by simp [swapEndianness, toMemory_length]) (by simpa using hroom)
    simp only [Nat.one_mul, Nat.div_one] at hw
    simp [hw, hs]

theorem read_ok (host : ByteOrder) (size : Nat) (f : LargeFile) (mem rest : List Nat)
    (hlen : mem.length = size) (hin : f.input = mem ++ rest) :
    LargeFile.read host size f =
      Except.ok (fromMemory host (if f.mustSwapEndianness = true then swapEndianness mem else mem),
        { f with input := rest }) := by
  unfold LargeFile.read fread
  simp only [Nat.one_mul, Nat.div_one, hin]
  rw [← hlen, List.take_left, List.drop_left]
  simp

theorem readRef_eq_read (host : ByteOrder) (size : Nat) (f : LargeFile) :
    LargeFile.readRef host size f = LargeFile.read host size f :=
  rfl

theorem writeArray_ok (host : ByteOrder) (size : Nat) (hsize : 0 < size) (data : List Nat)
    (f : LargeFile) (hroom : size * data.length ≤ f.room) :
    LargeFile.writeArray host size data f =
      Except.ok { f with
        output := f.output ++ data.flatMap (fun x =>
          if f.mustSwapEndianness = true then swapEndianness (toMemory host size x)
          else toMemory host size x),
        room := f.room - size * data.length } := by
  unfold LargeFile.writeArray
  cases hs : f.mustSwapEndianness
  · have hlen : (data.flatMap (toMemory host size)).length = size * data.length := by
      rw [List.flatMap, flatten_length_const size _ (by
        intro x hx
        obtain ⟨y, _, rfl⟩ := List.mem_map.mp hx
        exact toMemory_length host size y)]
      simp
    have hw := fwrite_all f (data.flatMap (toMemory host size)) size data.length hlen hroom
    rw [Nat.mul_div_cancel_left _ hsize] at hw
    simp [hw, hs, Nat.mul_comm]
  · rw [if_pos rfl, writeSwappedLoop_all host size data 0 f hroom]
    simp [hs]

theorem readArray_ok (host : ByteOrder) (size : Nat) (hsize : 0 < size) (data : List Nat)
    (hdata : ∀ x ∈ data, x < 256 ^ size) (swap : Bool) (g : LargeFile) (rest : List Nat)
    (hs : g.mustSwapEndianness = swap)
    (hin : g.input = data.flatMap (fun x =>
        if swap = true then swapEndianness (toMemory host size x)
        else toMemory host size x) ++ rest) :
    LargeFile.readArray host size data.length g =
      Except.ok (data.length, data, { g with input := rest }) := by
  have hitems : ∀ x ∈ data.map (fun x =>
      if swap = true then swapEndianness (toMemory host size x) else toMemory host size x),
      x.length = size := by
    intro x hx
    obtain ⟨y, _, rfl⟩ := List.mem_map.mp hx
    exact fileBytes_length host swap size y
  have hlen := flatten_length_const size _ hitems
  rw [List.length_map] at hlen
  unfold LargeFile.readArray fread
  rw [hin, List.flatMap]
  simp only []
  rw [← hlen, List.take_left, List.drop_left, hlen, Nat.mul_div_cancel_left _ hsize]
  have hm := memoryItems_flatten size _ [] hitems
  rw [List.length_map, List.append_nil] at hm
  rw [hm, hs, List.map_map]
  have hid : data.map ((fun mem => fromMemory host
      (if swap = true then swapEndianness mem else mem)) ∘
      (fun x => if swap = true then swapEndianness (toMemory host size x)
        else toMemory host size x)) = data := by
    conv_rhs => rw [← List.map_id data]
    apply List.map_congr_left
    intro x hx
    exact decode_fileBytes host swap size x (hdata x hx)
  rw [hid]

/-- C18: on either host byte order and under each endianness setting, writing a value of
a `size`-byte integer type and reading the bytes written under the same setting, with
read<T>() or read(T&), returns the value; and writing an array and reading as many items
from the bytes written returns the item count and the array. The writes need the stream to
accept the bytes. -/
theorem typed_io_roundtrip (host : ByteOrder) (e : LargeFile.Endianness) (size : Nat)
    (hsize : 0 < size) (w0 g0 : LargeFile) (rest : List Nat) :
    (∀ v, v < 256 ^ size → size ≤ w0.room →
      ∃ bytes, LargeFile.write host size v (LargeFile.setEndianness host w0 e) =
          Except.ok { LargeFile.setEndianness host w0 e with
            output := w0.output ++ bytes, room := w0.room - size } ∧
        (g0.input = bytes ++ rest →
          LargeFile.read host size (LargeFile.setEndianness host g0 e) =
            Except.ok (v, { LargeFile.setEndianness host g0 e with input := rest }) ∧
          LargeFile.readRef host size (LargeFile.setEndianness host g0 e) =
            Except.ok (v, { LargeFile.setEndianness host g0 e with input := rest }))) ∧
    (∀ data : List Nat, (∀ x ∈ data, x < 256 ^ size) → size * data.length ≤ w0.room →
      ∃ bytes, LargeFile.writeArray host size data (LargeFile.setEndianness host w0 e) =
          Except.ok { LargeFile.setEndianness host w0 e with
            output := w0.output ++ bytes, room := w0.room - size * data.length } ∧
        (g0.input = bytes ++ rest →
          LargeFile.readArray host size data.length (LargeFile.setEndianness host g0 e) =
            Except.ok (data.length, data,
              { LargeFile.setEndianness host g0 e with input := rest }))) := by
  constructor
  · intro v hv hroom
    refine ⟨_, write_ok host size v (LargeFile.setEndianness host w0 e) hroom, ?_⟩
    intro hin
    have hr := read_ok host size (LargeFile.setEndianness host g0 e) _ rest
      (fileBytes_length host (LargeFile.setEndianness host w0 e).mustSwapEndianness size v) hin
    have hd := decode_fileBytes host (LargeFile.setEndianness host w0 e).mustSwapEndianness
      size v hv
    have hsame : (LargeFile.setEndianness host g0 e).mustSwapEndianness =
        (LargeFile.setEndianness host w0 e).mustSwapEndianness := rfl
    rw [hsame, hd] at hr
    exact ⟨hr, hr⟩
  · intro data hdata hroom
    refine ⟨_, writeArray_ok host size hsize data (LargeFile.setEndianness host w0 e) hroom, ?_⟩
    intro hin
    exact readArray_ok host size hsize data hdata
      (LargeFile.setEndianness host w0 e).mustSwapEndianness
      (LargeFile.setEndianness host g0 e) rest rfl hin

/-- Witness for C18: the 32-bit value 0x01020304 written under BigEndian on a little-endian
host and read back. -/
theorem typed_io_roundtrip_witness :
    ∃ bytes, LargeFile.write ByteOrder.littleEndian 4 16909060
        (LargeFile.setEndianness ByteOrder.littleEndian
          (LargeFile.opened ByteOrder.littleEndian LargeFile.Endianness.DontCare [] 8)
          LargeFile.Endianness.BigEndian) =
        Except.ok { LargeFile.setEndianness ByteOrder.littleEndian
            (LargeFile.opened ByteOrder.littleEndian LargeFile.Endianness.DontCare [] 8)
            LargeFile.Endianness.BigEndian with
          output := [] ++ bytes, room := 8 - 4 } ∧
      ((LargeFile.opened ByteOrder.littleEndian LargeFile.Endianness.DontCare [1, 2, 3, 4] 0).input =
          bytes ++ [] →
        LargeFile.read ByteOrder.littleEndian 4
            (LargeFile.setEndianness ByteOrder.littleEndian
              (LargeFile.opened ByteOrder.littleEndian LargeFile.Endianness.DontCare [1, 2, 3, 4] 0)
              LargeFile.Endianness.BigEndian) =
          Except.ok (16909060, { LargeFile.setEndianness ByteOrder.littleEndian
            (LargeFile.opened ByteOrder.littleEndian LargeFile.Endianness.DontCare [1, 2, 3, 4] 0)
            LargeFile.Endianness.BigEndian with input := [] }) ∧
        LargeFile.readRef ByteOrder.littleEndian 4
            (LargeFile.setEndianness ByteOrder.littleEndian
              (LargeFile.opened ByteOrder.littleEndian LargeFile.Endianness.DontCare [1, 2, 3, 4] 0)
              LargeFile.Endianness.BigEndian) =
          Except.ok (16909060, { LargeFile.setEndianness ByteOrder.littleEndian
            (LargeFile.opened ByteOrder.littleEndian LargeFile.Endianness.DontCare [1, 2, 3, 4] 0)
            LargeFile.Endianness.BigEndian with input := [] })) :=
  (typed_io_roundtrip ByteOrder.littleEndian LargeFile.Endianness.BigEndian 4 (by decide)
    (LargeFile.opened ByteOrder.littleEndian LargeFile.Endianness.DontCare [] 8)
    (LargeFile.opened ByteOrder.littleEndian LargeFile.Endianness.DontCare [1, 2, 3, 4] 0)
    []).1 16909060 (by norm_num) (by decide)

/-- C19: after setEndianness(e) getEndianness returns e, and the swap flag is set exactly
when e names the byte order opposite to the host's, so never for DontCare. A 32-bit value
written under BigEndian goes out most significant byte first and under LittleEndian least
significant byte first, on a little-endian and on a big-endian host alike. -/
theorem swap_on_mismatch (host : ByteOrder) (f : LargeFile) (e : LargeFile.Endianness) :
    (LargeFile.setEndianness host f e).getEndianness = e ∧
    ((LargeFile.setEndianness host f e).mustSwapEndianness = true ↔
      (host = ByteOrder.littleEndian ∧ e = LargeFile.Endianness.BigEndian) ∨
      (host = ByteOrder.bigEndian ∧ e = LargeFile.Endianness.LittleEndian)) ∧
    (LargeFile.setEndianness host f LargeFile.Endianness.DontCare).mustSwapEndianness = false ∧
    (∀ v, 4 ≤ f.room →
      LargeFile.write host 4 v (LargeFile.setEndianness host f LargeFile.Endianness.BigEndian) =
        Except.ok { LargeFile.setEndianness host f LargeFile.Endianness.BigEndian with
          output := f.output ++
            [v / 2 ^ 24 % 256, v / 2 ^ 16 % 256, v / 2 ^ 8 % 256, v % 256],
          room := f.room - 4 }) ∧
    (∀ v, 4 ≤ f.room →
      LargeFile.write host 4 v (LargeFile.setEndianness host f LargeFile.Endianness.LittleEndian) =
        Except.ok { LargeFile.setEndianness host f LargeFile.Endianness.LittleEndian with
          output := f.output ++
            [v % 256, v / 2 ^ 8 % 256, v / 2 ^ 16 % 256, v / 2 ^ 24 % 256],
          room := f.room - 4 }) := by
  refine ⟨rfl, ?_, ?_, ?_, ?_⟩
  · cases host <;> cases e <;> simp [LargeFile.setEndianness]
  · cases host <;> rfl
  · intro v hroom
    rw [write_ok host 4 v (LargeFile.setEndianness host f LargeFile.Endianness.BigEndian) hroom]
    cases host <;>
      simp [LargeFile.setEndianness, toMemory, toLE, swapEndianness] <;> omega
  · intro v hroom
    rw [write_ok host 4 v (LargeFile.setEndianness host f LargeFile.Endianness.LittleEndian)
      hroom]
    cases host <;>
      simp [LargeFile.setEndianness, toMemory, toLE, swapEndianness] <;> omega

/-- Witness for C19: 0x01020304 written under BigEndian on a little-endian host. -/
theorem swap_on_mismatch_witness :
    LargeFile.write ByteOrder.littleEndian 4 16909060
        (LargeFile.setEndianness ByteOrder.littleEndian
          (LargeFile.opened ByteOrder.littleEndian LargeFile.Endianness.DontCare [] 8)
          LargeFile.Endianness.BigEndian) =
      Except.ok { LargeFile.setEndianness ByteOrder.littleEndian
          (LargeFile.opened ByteOrder.littleEndian LargeFile.Endianness.DontCare [] 8)
          LargeFile.Endianness.BigEndian with
        output := (LargeFile.opened ByteOrder.littleEndian LargeFile.Endianness.DontCare [] 8).output ++
          [16909060 / 2 ^ 24 % 256, 16909060 / 2 ^ 16 % 256, 16909060 / 2 ^ 8 % 256,
            16909060 % 256],
        room := (LargeFile.opened ByteOrder.littleEndian LargeFile.Endianness.DontCare [] 8).room - 4 } :=
  (swap_on_mismatch ByteOrder.littleEndian
    (LargeFile.opened ByteOrder.littleEndian LargeFile.Endianness.DontCare [] 8)
    LargeFile.Endianness.BigEndian).2.2.2.1 16909060 (by decide)

/-- C20, as the code has it: read<T>() and read(T&) fail with ReadError(size, bytes read)
when fewer than `size` bytes are left; write of a value fails with WriteError when the
stream takes fewer than `size` bytes, and write of an array fails with WriteError when it
takes fewer than all the bytes. The array read never fails: it returns the number of
complete items it obtained, which is smaller than `numItems` when bytes are missing. -/
theorem short_transfers (host : ByteOrder) (size : Nat) (hsize : 0 < size) (f : LargeFile) :
    (f.input.length < size →
      LargeFile.read host size f =
        Except.error (LargeFile.Error.ReadError size f.input.length) ∧
      LargeFile.readRef host size f =
        Except.error (LargeFile.Error.ReadError size f.input.length)) ∧
    (∀ v, f.room < size →
      LargeFile.write host size v f =
        Except.error (LargeFile.Error.WriteError size f.room)) ∧
    (∀ data : List Nat, f.room < size * data.length →
      ∃ w, w < size * data.length ∧
        LargeFile.writeArray host size data f =
          Except.error (LargeFile.Error.WriteError (size * data.length) w)) ∧
    (∀ numItems, ∃ items f',
      LargeFile.readArray host size numItems f =
        Except.ok (min numItems (f.input.length / size), items, f') ∧
      items.length = min numItems (f.input.length / size)) := by
  refine ⟨?_, ?_, ?_, ?_⟩
  · intro hshort
    have hr : LargeFile.read host size f =
        Except.error (LargeFile.Error.ReadError size f.input.length) := by
      unfold LargeFile.read fread
      simp only [Nat.one_mul, Nat.div_one, List.length_take]
      rw [Nat.min_eq_right (Nat.le_of_lt hshort), if_pos (Nat.ne_of_lt hshort)]
    exact ⟨hr, hr⟩
  · intro v hshort
    unfold LargeFile.write
    have hlen : ∀ mem : List Nat, mem.length = size →
        (fwrite f mem 1 size).1 = f.room := by
      intro mem hm
      simp only [fwrite, Nat.one_mul, Nat.div_one, List.length_take, hm]
      omega
    have h1 := hlen (toMemory host size v) (toMemory_length host size v)
    have h2 := hlen (swapEndianness (toMemory host size v))
      (by simp [swapEndianness, toMemory_length])
    cases hs : f.mustSwapEndianness
    · simp only [Bool.false_eq_true, if_false, h1]
      rw [if_pos (Nat.ne_of_lt hshort)]
    · simp only [if_true, h2]
      rw [if_pos (Nat.ne_of_lt hshort)]
  · intro data hshort
    unfold LargeFile.writeArray
    cases hs : f.mustSwapEndianness
    · simp only [Bool.false_eq_true, if_false]
      have hw : (fwrite f (data.flatMap (toMemory host size)) size data.length).1 * size <
          size * data.length := by
        simp only [fwrite, List.length_take]
        calc min (min (size * data.length) f.room) (data.flatMap (toMemory host size)).length /
              size * size
            ≤ min (min (size * data.length) f.room) (data.flatMap (toMemory host size)).length :=
              Nat.div_mul_le_self _ _
          _ ≤ f.room := by omega
          _ < size * data.length := hshort
      exact ⟨_, hw, by rw [if_pos (Nat.ne_of_lt hw)]⟩
    · simp only [if_true]
      have hb := writeSwappedLoop_bound host size data (0, f)
      have hw : (writeSwappedLoop host size data (0, f)).1 < size * data.length := by
        simp only [Nat.zero_add] at hb
        omega
      exact ⟨_, hw, by rw [if_pos (Nat.ne_of_lt hw)]⟩
  · intro numItems
    refine ⟨(memoryItems size (min numItems (f.input.length / size))
        (f.input.take (size * numItems))).map
        (fun mem => fromMemory host (if f.mustSwapEndianness then swapEndianness mem else mem)),
      { f with input := f.input.drop (size * numItems) }, ?_, ?_⟩
    · unfold LargeFile.readArray fread
      simp only [List.length_take]
      rw [min_mul_div size numItems f.input.length hsize]
    · simp only [List.length_map]
      generalize min numItems (f.input.length / size) = k
      generalize List.take (size * numItems) f.input = mem
      induction k generalizing mem with
      | zero => rfl
      | succ n ih => simp [memoryItems, ih]

/-- Witness for C20: a 4-byte read on a stream with 3 bytes left fails with ReadError. -/
theorem short_transfers_witness :
    LargeFile.read ByteOrder.littleEndian 4
        (LargeFile.opened ByteOrder.littleEndian LargeFile.Endianness.DontCare [1, 2, 3] 0) =
      Except.error (LargeFile.Error.ReadError 4 3) ∧
    LargeFile.readRef ByteOrder.littleEndian 4
        (LargeFile.opened ByteOrder.littleEndian LargeFile.Endianness.DontCare [1, 2, 3] 0) =
      Except.error (LargeFile.Error.ReadError 4 3) :=
  (short_transfers ByteOrder.littleEndian 4 (by decide)
    (LargeFile.opened ByteOrder.littleEndian LargeFile.Endianness.DontCare [1, 2, 3] 0)).1
    (by decide)

/-- Counterexample to C20: read(T*, numItems) asked for two 4-byte items on a stream with
5 bytes left obtains fewer bytes than requested, yet returns normally with the count 1 and
one item; it does not fail with a ReadError. -/
theorem short_array_read_returns :
    (LargeFile.opened ByteOrder.littleEndian LargeFile.Endianness.DontCare [1, 2, 3, 4, 5] 0).input.length
      < 4 * 2 ∧
    LargeFile.readArray ByteOrder.littleEndian 4 2
        (LargeFile.opened ByteOrder.littleEndian LargeFile.Endianness.DontCare [1, 2, 3, 4, 5] 0) =
      Except.ok (1, [67305985],
        LargeFile.opened ByteOrder.littleEndian LargeFile.Endianness.DontCare [] 0) ∧
    ∀ a b, LargeFile.readArray ByteOrder.littleEndian 4 2
        (LargeFile.opened ByteOrder.littleEndian LargeFile.Endianness.DontCare [1, 2, 3, 4, 5] 0) ≠
      Except.error (LargeFile.Error.ReadError a b) :=
  ⟨by decide, rfl, fun a b h => Except.noConfusion h⟩

end LargeFileProofs

section PrintfTemplateProofs

theorem run_nil (tc : TemplateChecker) : tc.run [] = tc :=
  rfl

theorem run_cons (tc : TemplateChecker) (c : Char) (l : List Char) :
    tc.run (c :: l) = (tc.step c).run l :=
  rfl

theorem run_append (tc : TemplateChecker) (l1 l2 : List Char) :
    tc.run (l1 ++ l2) = (tc.run l1).run l2 := by
  simp [TemplateChecker.run, List.foldl_append]

theorem digitValue_le (c : Char) (h : c.isDigit = true) : digitValue c ≤ 9 := by
  unfold digitValue
  simp only [Char.isDigit, Bool.and_eq_true, decide_eq_true_eq] at h
  have h2 : c.val.toNat ≤ 57 := h.2
  have : c.toNat = c.val.toNat := rfl
  omega

theorem decimalValue_nil : decimalValue [] = 0 :=
  rfl

theorem decimalValue_snoc (W : List Char) (c : Char) :
    decimalValue (W ++ [c]) = decimalValue W * 10 + digitValue c := by
  simp [decimalValue, List.foldl_append]

theorem decimalValue_single (c : Char) : decimalValue [c] = digitValue c := by
  simp [decimalValue]

theorem verbatim_le_length {L : List Char} {n : Nat} (h : Verbatim L n) : n ≤ L.length := by
  induction h with
  | nil => exact Nat.le_refl _
  | char c rest n _ _ ih => simp only [List.length_cons]; omega
  | percent rest n _ ih => simp only [List.length_cons]; omega

theorem verbatim_append {L1 L2 : List Char} {n1 n2 : Nat} (h1 : Verbatim L1 n1)
    (h2 : Verbatim L2 n2) : Verbatim (L1 ++ L2) (n1 + n2) := by
  induction h1 with
  | nil => simpa using h2
  | char c rest n hc _ ih =>
    have : n + 1 + n2 = (n + n2) + 1 := by omega
    rw [this]
    exact Verbatim.char c _ _ hc ih
  | percent rest n _ ih =>
    have : n + 1 + n2 = (n + n2) + 1 := by omega
    rw [this]
    exact Verbatim.percent _ _ ih

theorem verbatim_snoc_char {L : List Char} {n : Nat} (h : Verbatim L n) (c : Char)
    (hc : c ≠ '%') : Verbatim (L ++ [c]) (n + 1) :=
  verbatim_append h (Verbatim.char c [] 0 hc Verbatim.nil)

theorem verbatim_snoc_percent {L : List Char} {n : Nat} (h : Verbatim L n) :
    Verbatim (L ++ ['%', '%']) (n + 1) :=
  verbatim_append h (Verbatim.percent [] 0 Verbatim.nil)

/-- The checker on verbatim text. -/
theorem run_verbatim {L : List Char} {n : Nat} (h : Verbatim L n) (tc : TemplateChecker)
    (hs : tc.state = CheckerState.Start) (hn : tc.length + n < 4294967296) :
    tc.run L = { tc with length := tc.length + n } := by
  induction h generalizing tc with
  | nil => rfl
  | char c rest n hc _ ih =>
    rw [run_cons]
    have hstep : tc.step c = { tc with length := tc.length + 1 } := by
      unfold TemplateChecker.step
      rw [hs]
      simp only [hc, if_false]
      rw [Nat.mod_eq_of_lt (by omega)]
    rw [hstep, ih { tc with length := tc.length + 1 } hs (by simp only; omega)]
    simp only [Nat.add_assoc, Nat.add_comm 1 n]
  | percent rest n _ ih =>
    rw [run_cons, run_cons]
    have hstep : (tc.step '%').step '%' = { tc with length := tc.length + 1 } := by
      unfold TemplateChecker.step
      rw [hs]
      simp only [if_true]
      rw [Nat.mod_eq_of_lt (by omega)]
    rw [hstep, ih { tc with length := tc.length + 1 } hs (by simp only; omega)]
    simp only [Nat.add_assoc, Nat.add_comm 1 n]

/-- The checker on the digits of a field width. -/
theorem run_width (W : List Char) (hW : ∀ c ∈ W, c.isDigit = true) (hne : W ≠ [])
    (tc : TemplateChecker) (hs : tc.state = CheckerState.Percent)
    (hM : tc.maxLength ≤ 268435456) (hv : decimalValue W < tc.maxLength) :
    tc.run W = { tc with conversionWidth := decimalValue W, state := CheckerState.Width } := by
  induction W using List.reverseRecOn with
  | nil => exact absurd rfl hne
  | append_singleton Wp c ih =>
    have hc : c.isDigit = true := hW c (by simp)
    have hnp : c ≠ '%' := by
      intro h
      rw [h] at hc
      exact absurd hc (by decide)
    rw [run_append, run_cons, run_nil]
    by_cases hWp : Wp = []
    · subst hWp
      rw [run_nil]
      unfold TemplateChecker.step
      rw [hs]
      simp [hnp, hc, decimalValue_single]
    · have hle : decimalValue Wp < tc.maxLength := by
        rw [decimalValue_snoc] at hv
        omega
      rw [ih (fun x hx => hW x (by simp [hx])) hWp hle]
      rw [decimalValue_snoc] at hv
      have hd := digitValue_le c hc
      have hmod : (decimalValue Wp * 10 + digitValue c) % 4294967296 =
          decimalValue Wp * 10 + digitValue c := Nat.mod_eq_of_lt (by omega)
      unfold TemplateChecker.step
      simp only [hc, if_true, hmod]
      rw [if_neg (by omega), decimalValue_snoc]

/-- The checker on the digits of a precision. -/
theorem run_precision (D : List Char) (hD : ∀ c ∈ D, c.isDigit = true)
    (tc : TemplateChecker) (hs : tc.state = CheckerState.Precision)
    (hp : tc.conversionPrecision = 0)
    (hM : tc.maxLength ≤ 268435456) (hv : decimalValue D < tc.maxLength) :
    tc.run D = { tc with conversionPrecision := decimalValue D } := by
  induction D using List.reverseRecOn with
  | nil =>
    rw [run_nil, decimalValue_nil, ← hp]
  | append_singleton Dp c ih =>
    have hc : c.isDigit = true := hD c (by simp)
    rw [run_append, run_cons, run_nil]
    have hle : decimalValue Dp < tc.maxLength := by
      rw [decimalValue_snoc] at hv
      omega
    rw [ih (fun x hx => hD x (by simp [hx])) hle]
    rw [decimalValue_snoc] at hv
    have hd := digitValue_le c hc
    have hmod : (decimalValue Dp * 10 + digitValue c) % 4294967296 =
        decimalValue Dp * 10 + digitValue c := Nat.mod_eq_of_lt (by omega)
    unfold TemplateChecker.step
    simp only [hs, hc, if_true, hmod]
    rw [if_neg (by omega), decimalValue_snoc]

theorem run_width_part (W : List Char) (hW : ∀ c ∈ W, c.isDigit = true)
    (tc : TemplateChecker) (hs : tc.state = CheckerState.Percent) (hw : tc.conversionWidth = 0)
    (hM : tc.maxLength ≤ 268435456) (hv : decimalValue W < tc.maxLength) :
    tc.run W = { tc with conversionWidth := decimalValue W,
                         state := if W = [] then CheckerState.Percent else CheckerState.Width } := by
  by_cases hne : W = []
  · subst hne
    rw [run_nil, decimalValue_nil, ← hw, if_pos rfl, ← hs]
  · rw [run_width W hW hne tc hs hM hv, if_neg hne]

theorem step_point (tc : TemplateChecker)
    (hs : tc.state = CheckerState.Percent ∨ tc.state = CheckerState.Width) :
    tc.step '.' = { tc with state := CheckerState.Precision } := by
  unfold TemplateChecker.step
  rcases hs with hs | hs <;> rw [hs] <;> simp

theorem step_conversion (tc : TemplateChecker) (ct : Char) (hct : tc.conversionType = ct)
    (h1 : ct ≠ '%') (h2 : ct.isDigit = false) (h3 : ct ≠ '.')
    (hs : tc.state = CheckerState.Percent ∨ tc.state = CheckerState.Width ∨
      tc.state = CheckerState.Precision) :
    tc.step ct = tc.conversionFound := by
  unfold TemplateChecker.step
  rcases hs with hs | hs | hs <;> rw [hs] <;> simp [h1, h2, h3, hct]

theorem run_precision_part (P D : List Char) (hD : ∀ c ∈ D, c.isDigit = true)
    (hP : (P = [] ∧ D = []) ∨ P = '.' :: D) (tc : TemplateChecker)
    (hs : tc.state = CheckerState.Percent ∨ tc.state = CheckerState.Width)
    (hp : tc.conversionPrecision = 0)
    (hM : tc.maxLength ≤ 268435456) (hv : decimalValue D < tc.maxLength) :
    tc.run P = { tc with conversionPrecision := decimalValue D,
                         state := if P = [] then tc.state else CheckerState.Precision } := by
  rcases hP with ⟨rfl, rfl⟩ | rfl
  · rw [run_nil, decimalValue_nil, ← hp, if_pos rfl]
  · rw [run_cons, step_point tc hs,
      run_precision D hD { tc with state := CheckerState.Precision } rfl hp hM hv]
    simp

/-- A template of the form the claim describes is accepted. -/
theorem matches_isValid (ct : Char) (h1 : ct ≠ '%') (h2 : ct.isDigit = false) (h3 : ct ≠ '.')
    (maxLength : Nat) (hM : maxLength ≤ 268435456) (t : List Char)
    (hm : MatchesTemplate ct (conversionLength ct) maxLength t) :
    ((TemplateChecker.create ct maxLength).run t).isValid = true := by
  obtain ⟨L0, L1, W, P, D, n0, n1, rfl, hL0, hL1, hW, hD, hP, hlt⟩ := hm
  have hvW : decimalValue W < maxLength := by omega
  have hvD : decimalValue D < maxLength := by omega
  rw [run_append, run_cons, run_append, run_append, run_cons]
  rw [run_verbatim hL0 (TemplateChecker.create ct maxLength) rfl
    (by simp only [TemplateChecker.create]; omega)]
  have hstep1 : TemplateChecker.step
      { TemplateChecker.create ct maxLength with
        length := (TemplateChecker.create ct maxLength).length + n0 } '%' =
      { TemplateChecker.create ct maxLength with length := n0, state := CheckerState.Percent } := by
    simp [TemplateChecker.step, TemplateChecker.create]
  rw [hstep1, run_width_part W hW _ rfl rfl hM hvW]
  rw [run_precision_part P D hD hP _ (by by_cases hw : W = [] <;> simp [hw]) rfl hM hvD]
  rw [step_conversion _ ct rfl h1 h2 h3
    (by by_cases hw : W = [] <;> by_cases hp : P = [] <;> simp [hw, hp])]
  have hfound : TemplateChecker.conversionFound
      { conversionType := ct, maxLength := maxLength, haveConversion := false,
        conversionWidth := decimalValue W, conversionPrecision := decimalValue D, length := n0,
        state := if P = [] then (if W = [] then CheckerState.Percent else CheckerState.Width)
          else CheckerState.Precision } =
      { conversionType := ct, maxLength := maxLength, haveConversion := true,
        conversionWidth := decimalValue W, conversionPrecision := decimalValue D, length := n0,
        state := CheckerState.Start } := by
    simp [TemplateChecker.conversionFound]
  simp only [TemplateChecker.create] at hfound ⊢
  rw [hfound, run_verbatim hL1 _ rfl (by simp only; omega)]
  unfold TemplateChecker.isValid
  simp only [ne_eq, not_true_eq_false, Bool.true_eq_false, or_self, if_false,
    decide_eq_true_eq]
  rw [Nat.mod_eq_of_lt (by split <;> split <;> omega)]
  split <;> split <;> omega

theorem digit_ne_percent (c : Char) (hc : c.isDigit = true) : c ≠ '%' := by
  intro h
  rw [h] at hc
  exact absurd hc (by decide)

theorem digit_ne_point (c : Char) (hc : c.isDigit = true) : c ≠ '.' := by
  intro h
  rw [h] at hc
  exact absurd hc (by decide)

theorem digits_snoc (W : List Char) (c : Char) (hW : ∀ x ∈ W, x.isDigit = true)
    (hc : c.isDigit = true) : ∀ x ∈ W ++ [c], x.isDigit = true := by
  intro x hx
  rcases List.mem_append.1 hx with h | h
  · exact hW x h
  · rw [List.mem_singleton.1 h]
    exact hc

/-- One character more keeps the account of what was read. -/
theorem parsed_step (ct : Char) (h1 : ct ≠ '%') (h2 : ct.isDigit = false) (h3 : ct ≠ '.')
    (M : Nat) (hM : M ≤ 268435456) (p : List Char) (tc : TemplateChecker)
    (h : Parsed ct M p tc) (hp : p.length < 2147483648) (c : Char) :
    Parsed ct M (p ++ [c]) (tc.step c) := by
  cases h with
  | error hs =>
    refine Parsed.error _ _ ?_
    unfold TemplateChecker.step
    rw [hs]
    exact hs
  | doomed hh hs =>
    have hcf : tc.conversionFound.state = CheckerState.Error := by
      simp [TemplateChecker.conversionFound, hh]
    rcases hs with hs | hs
    · by_cases hd : c.isDigit = true
      · by_cases hb : (tc.conversionWidth * 10 + digitValue c) % 4294967296 ≥ tc.maxLength
        · refine Parsed.error _ _ ?_
          unfold TemplateChecker.step
          rw [hs]
          simp [hd, hb]
        · refine Parsed.doomed _ _ ?_ (Or.inl ?_) <;>
          · unfold TemplateChecker.step
            rw [hs]
            simp [hd, hb, hh, hs]
      · by_cases hpt : c = '.'
        · refine Parsed.doomed _ _ ?_ (Or.inr ?_) <;>
          · unfold TemplateChecker.step
            rw [hs]
            simp [hd, hpt, hh]
        · refine Parsed.error _ _ ?_
          unfold TemplateChecker.step
          rw [hs]
          simp only [hd, hpt, if_false, Bool.false_eq_true]
          by_cases hc : c = tc.conversionType
          · rw [if_pos hc]
            exact hcf
          · rw [if_neg hc]
    · by_cases hd : c.isDigit = true
      · by_cases hb : (tc.conversionPrecision * 10 + digitValue c) % 4294967296 ≥ tc.maxLength
        · refine Parsed.error _ _ ?_
          unfold TemplateChecker.step
          rw [hs]
          simp [hd, hb]
        · refine Parsed.doomed _ _ ?_ (Or.inr ?_) <;>
          · unfold TemplateChecker.step
            rw [hs]
            simp [hd, hb, hh, hs]
      · refine Parsed.error _ _ ?_
        unfold TemplateChecker.step
        rw [hs]
        simp only [hd, if_false, Bool.false_eq_true]
        by_cases hc : c = tc.conversionType
        · rw [if_pos hc]
          exact hcf
        · rw [if_neg hc]
  | text n hv ht =>
    subst ht
    have hn := verbatim_le_length hv
    by_cases hc : c = '%'
    · subst hc
      exact Parsed.percent _ _ p n rfl hv (by simp [TemplateChecker.step])
    · refine Parsed.text _ _ (n + 1) (verbatim_snoc_char hv c hc) ?_
      have hmod : (n + 1) % 4294967296 = n + 1 := Nat.mod_eq_of_lt (by omega)
      simp [TemplateChecker.step, hc, hmod]
  | percent L n hpL hv ht =>
    subst ht
    subst hpL
    have hn := verbatim_le_length hv
    simp only [List.length_append, List.length_singleton] at hp
    by_cases hc : c = '%'
    · subst hc
      refine Parsed.text _ _ (n + 1) ?_ ?_
      · rw [List.append_assoc]
        exact verbatim_snoc_percent hv
      · have hmod : (n + 1) % 4294967296 = n + 1 := Nat.mod_eq_of_lt (by omega)
        simp [TemplateChecker.step, hmod]
    · by_cases hd : c.isDigit = true
      · refine Parsed.width _ _ L [c] n (by simp) hv (by simpa using hd) ?_ ?_
        · rw [decimalValue_single]
          have := digitValue_le c hd
          omega
        · simp [TemplateChecker.step, hc, hd, decimalValue_single]
      · by_cases hpt : c = '.'
        · subst hpt
          refine Parsed.precision _ _ L [] [] n (by simp) hv (by simp) (by simp)
            (by simp [decimalValue_nil]) (by simp [decimalValue_nil]) ?_
          simp [TemplateChecker.step, decimalValue_nil]
        · by_cases hct : c = ct
          · subst hct
            refine Parsed.done _ _ L [] [] [] [] n 0 (by simp) hv Verbatim.nil (by simp)
              (by simp) (Or.inl ⟨rfl, rfl⟩) (by simp [decimalValue_nil])
              (by simp [decimalValue_nil]) ?_
            simp [TemplateChecker.step, hc, hd, hpt, TemplateChecker.conversionFound,
              decimalValue_nil]
          · refine Parsed.error _ _ ?_
            simp [TemplateChecker.step, hc, hd, hpt, hct]
  | width L W n hpL hv hW hb ht =>
    subst ht
    subst hpL
    by_cases hd : c.isDigit = true
    · have hdv := digitValue_le c hd
      have hmod : (decimalValue W * 10 + digitValue c) % 4294967296 =
          decimalValue W * 10 + digitValue c := Nat.mod_eq_of_lt (by omega)
      by_cases hge : decimalValue W * 10 + digitValue c ≥ M
      · refine Parsed.error _ _ ?_
        simp [TemplateChecker.step, hd, hmod, hge]
      · refine Parsed.width _ _ L (W ++ [c]) n (by simp) hv (digits_snoc W c hW hd) ?_ ?_
        · rw [decimalValue_snoc]
          omega
        · simp [TemplateChecker.step, hd, hmod, hge, decimalValue_snoc]
    · by_cases hpt : c = '.'
      · subst hpt
        refine Parsed.precision _ _ L W [] n (by simp) hv hW (by simp) hb
          (by simp [decimalValue_nil]) ?_
        simp [TemplateChecker.step, decimalValue_nil]
      · by_cases hct : c = ct
        · subst hct
          refine Parsed.done _ _ L [] W [] [] n 0 (by simp) hv Verbatim.nil hW
            (by simp) (Or.inl ⟨rfl, rfl⟩) hb (by simp [decimalValue_nil]) ?_
          simp [TemplateChecker.step, hd, hpt, TemplateChecker.conversionFound,
            decimalValue_nil]
        · refine Parsed.error _ _ ?_
          simp [TemplateChecker.step, hd, hpt, hct]
  | precision L W D n hpL hv hW hD hbW hbD ht =>
    subst ht
    subst hpL
    by_cases hd : c.isDigit = true
    · have hdv := digitValue_le c hd
      have hmod : (decimalValue D * 10 + digitValue c) % 4294967296 =
          decimalValue D * 10 + digitValue c := Nat.mod_eq_of_lt (by omega)
      by_cases hge : decimalValue D * 10 + digitValue c ≥ M
      · refine Parsed.error _ _ ?_
        simp [TemplateChecker.step, hd, hmod, hge]
      · refine Parsed.precision _ _ L W (D ++ [c]) n (by simp) hv hW
          (digits_snoc D c hD hd) hbW ?_ ?_
        · rw [decimalValue_snoc]
          omega
        · simp [TemplateChecker.step, hd, hmod, hge, decimalValue_snoc]
    · by_cases hct : c = ct
      · subst hct
        refine Parsed.done _ _ L [] W ('.' :: D) D n 0 (by simp) hv Verbatim.nil hW
          hD (Or.inr rfl) hbW hbD ?_
        simp [TemplateChecker.step, hd, TemplateChecker.conversionFound]
      · refine Parsed.error _ _ ?_
        simp [TemplateChecker.step, hd, hct]
  | done L0 L1 W P D n0 n1 hpL hv0 hv1 hW hD hP hbW hbD ht =>
    subst ht
    subst hpL
    have hn0 := verbatim_le_length hv0
    have hn1 := verbatim_le_length hv1
    simp only [List.length_append, List.length_cons] at hp
    by_cases hc : c = '%'
    · subst hc
      refine Parsed.again _ _ L0 L1 W P D n0 n1 (by simp) hv0 hv1 hW hD hP hbW hbD ?_
      simp [TemplateChecker.step]
    · refine Parsed.done _ _ L0 (L1 ++ [c]) W P D n0 (n1 + 1) (by simp) hv0
        (verbatim_snoc_char hv1 c hc) hW hD hP hbW hbD ?_
      have hmod : (n0 + n1 + 1) % 4294967296 = n0 + (n1 + 1) := by
        rw [Nat.mod_eq_of_lt (by omega), Nat.add_assoc]
      simp [TemplateChecker.step, hc, hmod]
  | again L0 L1 W P D n0 n1 hpL hv0 hv1 hW hD hP hbW hbD ht =>
    subst ht
    subst hpL
    have hn0 := verbatim_le_length hv0
    have hn1 := verbatim_le_length hv1
    simp only [List.length_append, List.length_cons, List.length_singleton] at hp
    by_cases hc : c = '%'
    · subst hc
      refine Parsed.done _ _ L0 (L1 ++ ['%', '%']) W P D n0 (n1 + 1) (by simp) hv0
        (verbatim_snoc_percent hv1) hW hD hP hbW hbD ?_
      have hmod : (n0 + n1 + 1) % 4294967296 = n0 + (n1 + 1) := by
        rw [Nat.mod_eq_of_lt (by omega), Nat.add_assoc]
      simp [TemplateChecker.step, hmod]
    · by_cases hd : c.isDigit = true
      · refine Parsed.doomed _ _ ?_ (Or.inl ?_) <;> simp [TemplateChecker.step, hc, hd]
      · by_cases hpt : c = '.'
        · subst hpt
          refine Parsed.doomed _ _ ?_ (Or.inr ?_) <;> simp [TemplateChecker.step]
        · refine Parsed.error _ _ ?_
          by_cases hct : c = ct
          · subst hct
            simp [TemplateChecker.step, h1, h2, h3, TemplateChecker.conversionFound]
          · simp [TemplateChecker.step, hc, hd, hpt, hct]

/-- The account of what was read holds after any template shorter than 2^31 characters. -/
theorem parsed_run (ct : Char) (h1 : ct ≠ '%') (h2 : ct.isDigit = false) (h3 : ct ≠ '.')
    (M : Nat) (hM : M ≤ 268435456) (t : List Char) (ht : t.length < 2147483648) :
    Parsed ct M t ((TemplateChecker.create ct M).run t) := by
  induction t using List.reverseRecOn with
  | nil => exact Parsed.text _ _ 0 Verbatim.nil rfl
  | append_singleton p c ih =>
    simp only [List.length_append, List.length_singleton] at ht
    rw [run_append, run_cons, run_nil]
    exact parsed_step ct h1 h2 h3 M hM p _ (ih (by omega)) (by omega) c

theorem conversionLength_le (ct : Char) : conversionLength ct ≤ 11 := by
  unfold conversionLength
  split
  · omega
  · split <;> omega

/-- An accepted template has the form the claim describes. -/
theorem isValid_matches (ct : Char) (h1 : ct ≠ '%') (h2 : ct.isDigit = false) (h3 : ct ≠ '.')
    (M : Nat) (hM : M ≤ 268435456) (t : List Char) (ht : t.length < 2147483648)
    (hv : ((TemplateChecker.create ct M).run t).isValid = true) :
    MatchesTemplate ct (conversionLength ct) M t := by
  have hp := parsed_run ct h1 h2 h3 M hM t ht
  generalize (TemplateChecker.create ct M).run t = tc at hp hv
  cases hp with
  | error hs => simp [TemplateChecker.isValid, hs] at hv
  | doomed hh hs => rcases hs with hs | hs <;> simp [TemplateChecker.isValid, hs] at hv
  | text n hvb htc => subst htc; simp [TemplateChecker.isValid] at hv
  | percent L n hpL hvb htc => subst htc; simp [TemplateChecker.isValid] at hv
  | width L W n hpL hvb hW hb htc => subst htc; simp [TemplateChecker.isValid] at hv
  | precision L W D n hpL hvb hW hD hbW hbD htc =>
    subst htc; simp [TemplateChecker.isValid] at hv
  | done L0 L1 W P D n0 n1 hpL hv0 hv1 hW hD hP hbW hbD htc =>
    subst htc
    refine ⟨L0, L1, W, P, D, n0, n1, hpL, hv0, hv1, hW, hD, hP, ?_⟩
    have hn0 := verbatim_le_length hv0
    have hn1 := verbatim_le_length hv1
    have hlen : L0.length + L1.length ≤ t.length := by
      rw [hpL]
      simp only [List.length_append, List.length_cons]
      omega
    have hcl := conversionLength_le ct
    unfold TemplateChecker.isValid at hv
    simp only [ne_eq, not_true_eq_false, Bool.true_eq_false, or_self, if_false,
      decide_eq_true_eq] at hv
    rw [Nat.mod_eq_of_lt (by split <;> split <;> omega)] at hv
    revert hv
    split <;> split <;> omega
  | again L0 L1 W P D n0 n1 hpL hv0 hv1 hW hD hP hbW hbD htc =>
    subst htc; simp [TemplateChecker.isValid] at hv

theorem conversionLength_u : conversionLength 'u' = 10 := by
  decide

theorem conversionLength_d : conversionLength 'd' = 11 := by
  decide

theorem doomed_step (tc : TemplateChecker) (c : Char) (h : tc.Doomed) : (tc.step c).Doomed := by
  unfold TemplateChecker.Doomed at h ⊢
  rcases h with h | ⟨hh, h | h⟩
  · left
    unfold TemplateChecker.step
    rw [h]
    exact h
  · unfold TemplateChecker.step
    rw [h]
    by_cases hd : c.isDigit = true
    · by_cases hb : (tc.conversionWidth * 10 + digitValue c) % 4294967296 ≥ tc.maxLength
      · left
        simp [hd, hb]
      · right
        simp [hd, hb, hh, h]
    · by_cases hpt : c = '.'
      · right
        simp [hd, hpt, hh]
      · left
        simp only [hd, hpt, if_false, Bool.false_eq_true]
        by_cases hc : c = tc.conversionType
        · rw [if_pos hc]
          simp [TemplateChecker.conversionFound, hh]
        · rw [if_neg hc]
  · unfold TemplateChecker.step
    rw [h]
    by_cases hd : c.isDigit = true
    · by_cases hb : (tc.conversionPrecision * 10 + digitValue c) % 4294967296 ≥ tc.maxLength
      · left
        simp [hd, hb]
      · right
        simp [hd, hb, hh, h]
    · left
      simp only [hd, if_false, Bool.false_eq_true]
      by_cases hc : c = tc.conversionType
      · rw [if_pos hc]
        simp [TemplateChecker.conversionFound, hh]
      · rw [if_neg hc]

theorem doomed_run (l : List Char) (tc : TemplateChecker) (h : tc.Doomed) :
    (tc.run l).Doomed := by
  induction l generalizing tc with
  | nil => exact h
  | cons c l ih =>
    rw [run_cons]
    exact ih _ (doomed_step tc c h)

theorem doomed_isValid (tc : TemplateChecker) (h : tc.Doomed) : tc.isValid = false := by
  unfold TemplateChecker.isValid
  rcases h with h | ⟨_, h | h⟩ <;> simp [h]

theorem inDirective_isValid (tc : TemplateChecker) (h : tc.InDirective) :
    tc.isValid = false := by
  unfold TemplateChecker.isValid
  rcases h with h | h | h | h <;> simp [h]

/-- Verbatim text keeps the checker in the start state, whatever the counts do. -/
theorem verbatim_phase {L : List Char} {n : Nat} (h : Verbatim L n) (tc : TemplateChecker)
    (hs : tc.state = CheckerState.Start) :
    (tc.run L).state = CheckerState.Start ∧
    (tc.run L).haveConversion = tc.haveConversion ∧
    (tc.run L).conversionType = tc.conversionType := by
  induction h generalizing tc with
  | nil => exact ⟨hs, rfl, rfl⟩
  | char c rest n hc _ ih =>
    rw [run_cons]
    have hstep : tc.step c = { tc with length := (tc.length + 1) % 4294967296 } := by
      unfold TemplateChecker.step
      rw [hs]
      simp [hc]
    rw [hstep]
    exact ih _ hs
  | percent rest n _ ih =>
    rw [run_cons, run_cons]
    have hstep : (tc.step '%').step '%' =
        { tc with length := (tc.length + 1) % 4294967296 } := by
      unfold TemplateChecker.step
      rw [hs]
      simp [hs]
    rw [hstep]
    exact ih _ hs

/-- Digits after a `%` keep the checker in the directive. -/
theorem width_phase (W : List Char) (hW : ∀ c ∈ W, c.isDigit = true) (tc : TemplateChecker)
    (hs : tc.state = CheckerState.Percent ∨ tc.state = CheckerState.Width ∨
      tc.state = CheckerState.Error) :
    ((tc.run W).state = CheckerState.Percent ∨ (tc.run W).state = CheckerState.Width ∨
      (tc.run W).state = CheckerState.Error) ∧
    (tc.run W).haveConversion = tc.haveConversion ∧
    (tc.run W).conversionType = tc.conversionType := by
  induction W generalizing tc with
  | nil => exact ⟨hs, rfl, rfl⟩
  | cons c W ih =>
    have hc : c.isDigit = true := hW c (List.mem_cons_self _ _)
    have hnp := digit_ne_percent c hc
    rw [run_cons]
    have hstep : (tc.step c).state = CheckerState.Width ∨
        (tc.step c).state = CheckerState.Error := by
      unfold TemplateChecker.step
      rcases hs with hs | hs | hs
      · rw [hs]
        simp [hnp, hc]
      · rw [hs]
        by_cases hb : (tc.conversionWidth * 10 + digitValue c) % 4294967296 ≥ tc.maxLength
        · simp [hc, hb]
        · simp [hc, hb, hs]
      · rw [hs]
        exact Or.inr hs
    have hkeep : (tc.step c).haveConversion = tc.haveConversion ∧
        (tc.step c).conversionType = tc.conversionType := by
      unfold TemplateChecker.step
      rcases hs with hs | hs | hs
      · rw [hs]
        simp [hnp, hc]
      · rw [hs]
        by_cases hb : (tc.conversionWidth * 10 + digitValue c) % 4294967296 ≥ tc.maxLength
        · simp [hc, hb]
        · simp [hc, hb]
      · rw [hs]
        exact ⟨rfl, rfl⟩
    obtain ⟨i1, i2, i3⟩ := ih (fun x hx => hW x (List.mem_cons_of_mem _ hx)) (tc.step c)
      (by rcases hstep with h | h
          · exact Or.inr (Or.inl h)
          · exact Or.inr (Or.inr h))
    exact ⟨i1, i2.trans hkeep.1, i3.trans hkeep.2⟩

/-- Digits of a precision keep the checker in the precision or the error state. -/
theorem digits_phase (D : List Char) (hD : ∀ c ∈ D, c.isDigit = true) (tc : TemplateChecker)
    (hs : tc.state = CheckerState.Precision ∨ tc.state = CheckerState.Error) :
    ((tc.run D).state = CheckerState.Precision ∨ (tc.run D).state = CheckerState.Error) ∧
    (tc.run D).haveConversion = tc.haveConversion ∧
    (tc.run D).conversionType = tc.conversionType := by
  induction D generalizing tc with
  | nil => exact ⟨hs, rfl, rfl⟩
  | cons c D ih =>
    have hc : c.isDigit = true := hD c (List.mem_cons_self _ _)
    rw [run_cons]
    have hstep : ((tc.step c).state = CheckerState.Precision ∨
        (tc.step c).state = CheckerState.Error) ∧
        (tc.step c).haveConversion = tc.haveConversion ∧
        (tc.step c).conversionType = tc.conversionType := by
      unfold TemplateChecker.step
      rcases hs with hs | hs
      · rw [hs]
        by_cases hb : (tc.conversionPrecision * 10 + digitValue c) % 4294967296 ≥ tc.maxLength
        · simp [hc, hb]
        · simp [hc, hb, hs]
      · rw [hs]
        exact ⟨Or.inr hs, rfl, rfl⟩
    obtain ⟨i1, i2, i3⟩ := ih (fun x hx => hD x (List.mem_cons_of_mem _ hx)) (tc.step c)
      hstep.1
    exact ⟨i1, i2.trans hstep.2.1, i3.trans hstep.2.2⟩

/-- After `%`, a width and a precision the checker is inside the directive. -/
theorem directive_phase (W P D : List Char) (hW : ∀ c ∈ W, c.isDigit = true)
    (hD : ∀ c ∈ D, c.isDigit = true) (hP : (P = [] ∧ D = []) ∨ P = '.' :: D)
    (tc : TemplateChecker)
    (hs : tc.state = CheckerState.Percent ∨ tc.state = CheckerState.Error) :
    ((tc.run W).run P).InDirective ∧
    ((tc.run W).run P).haveConversion = tc.haveConversion ∧
    ((tc.run W).run P).conversionType = tc.conversionType := by
  obtain ⟨w1, w2, w3⟩ := width_phase W hW tc
    (by rcases hs with h | h
        · exact Or.inl h
        · exact Or.inr (Or.inr h))
  generalize tc.run W = tw at w1 w2 w3
  rcases hP with ⟨rfl, rfl⟩ | rfl
  · rw [run_nil]
    refine ⟨?_, w2, w3⟩
    rcases w1 with h | h | h
    · exact Or.inl h
    · exact Or.inr (Or.inl h)
    · exact Or.inr (Or.inr (Or.inr h))
  · rw [run_cons]
    have hstep : ((tw.step '.').state = CheckerState.Precision ∨
        (tw.step '.').state = CheckerState.Error) ∧
        (tw.step '.').haveConversion = tw.haveConversion ∧
        (tw.step '.').conversionType = tw.conversionType := by
      unfold TemplateChecker.step
      rcases w1 with h | h | h <;> rw [h] <;> simp [h]
    obtain ⟨d1, d2, d3⟩ := digits_phase D hD (tw.step '.') hstep.1
    refine ⟨?_, (d2.trans hstep.2.1).trans w2, (d3.trans hstep.2.2).trans w3⟩
    rcases d1 with h | h
    · exact Or.inr (Or.inr (Or.inl h))
    · exact Or.inr (Or.inr (Or.inr h))

/-- A `%` in the start state opens a directive. -/
theorem percent_phase (tc : TemplateChecker) (hs : tc.state = CheckerState.Start) :
    (tc.step '%').state = CheckerState.Percent ∧
    (tc.step '%').haveConversion = tc.haveConversion ∧
    (tc.step '%').conversionType = tc.conversionType := by
  unfold TemplateChecker.step
  rw [hs]
  simp

/-- The checker after verbatim text, `%`, a width and a precision, from the start. -/
theorem prefix_phase (ct : Char) (M : Nat) (L0 W P D : List Char) (n0 : Nat)
    (hL0 : Verbatim L0 n0) (hW : ∀ c ∈ W, c.isDigit = true)
    (hD : ∀ c ∈ D, c.isDigit = true) (hP : (P = [] ∧ D = []) ∨ P = '.' :: D) :
    ((TemplateChecker.create ct M).run (L0 ++ '%' :: (W ++ P))).InDirective ∧
    ((TemplateChecker.create ct M).run (L0 ++ '%' :: (W ++ P))).haveConversion = false ∧
    ((TemplateChecker.create ct M).run (L0 ++ '%' :: (W ++ P))).conversionType = ct := by
  rw [run_append, run_cons, run_append]
  obtain ⟨a1, a2, a3⟩ := verbatim_phase hL0 (TemplateChecker.create ct M) rfl
  generalize (TemplateChecker.create ct M).run L0 = t0 at a1 a2 a3
  obtain ⟨b1, b2, b3⟩ := percent_phase t0 a1
  obtain ⟨c1, c2, c3⟩ := directive_phase W P D hW hD hP (t0.step '%') (Or.inl b1)
  exact ⟨c1, (c2.trans b2).trans a2, (c3.trans b3).trans a3⟩

/-- A character that continues no directive puts the checker in the error state. -/
theorem stray_phase (tc : TemplateChecker) (c : Char) (hs : tc.InDirective)
    (h1 : c ≠ '%') (h2 : c.isDigit = false) (h3 : c ≠ '.') (h4 : c ≠ tc.conversionType) :
    (tc.step c).state = CheckerState.Error := by
  unfold TemplateChecker.step
  rcases hs with hs | hs | hs | hs <;> rw [hs] <;> simp [h1, h2, h3, h4, hs]

/-- Templates without a conversion are rejected. -/
theorem reject_verbatim (ct : Char) (M : Nat) (t : List Char) (n : Nat) (h : Verbatim t n) :
    ((TemplateChecker.create ct M).run t).isValid = false := by
  obtain ⟨_, a2, _⟩ := verbatim_phase h (TemplateChecker.create ct M) rfl
  unfold TemplateChecker.isValid
  rw [a2]
  simp [TemplateChecker.create]

/-- Templates that end inside a directive are rejected. -/
theorem reject_unfinished (ct : Char) (M : Nat) (L0 W P D : List Char) (n0 : Nat)
    (hL0 : Verbatim L0 n0) (hW : ∀ c ∈ W, c.isDigit = true)
    (hD : ∀ c ∈ D, c.isDigit = true) (hP : (P = [] ∧ D = []) ∨ P = '.' :: D) :
    ((TemplateChecker.create ct M).run (L0 ++ '%' :: (W ++ P))).isValid = false :=
  inDirective_isValid _ (prefix_phase ct M L0 W P D n0 hL0 hW hD hP).1

/-- Templates whose first directive goes on with a character that is neither a digit, a
`.`, a `%` nor the conversion character are rejected. -/
theorem reject_stray (ct : Char) (M : Nat) (L0 W P D : List Char) (n0 : Nat)
    (hL0 : Verbatim L0 n0) (hW : ∀ c ∈ W, c.isDigit = true)
    (hD : ∀ c ∈ D, c.isDigit = true) (hP : (P = [] ∧ D = []) ∨ P = '.' :: D)
    (c : Char) (rest : List Char)
    (h1 : c ≠ '%') (h2 : c.isDigit = false) (h3 : c ≠ '.') (h4 : c ≠ ct) :
    ((TemplateChecker.create ct M).run (L0 ++ '%' :: (W ++ (P ++ c :: rest)))).isValid =
      false := by
  have he : L0 ++ '%' :: (W ++ (P ++ c :: rest)) = (L0 ++ '%' :: (W ++ P)) ++ c :: rest := by
    simp
  rw [he, run_append, run_cons]
  obtain ⟨a1, _, a3⟩ := prefix_phase ct M L0 W P D n0 hL0 hW hD hP
  generalize (TemplateChecker.create ct M).run (L0 ++ '%' :: (W ++ P)) = tp at a1 a3
  have hs := stray_phase tp c a1 h1 h2 h3 (by rw [a3]; exact h4)
  exact doomed_isValid _ (doomed_run rest _ (Or.inl hs))

/-- Templates that open a further directive after their conversion are rejected. -/
theorem reject_second (ct : Char) (h1 : ct ≠ '%') (h2 : ct.isDigit = false) (h3 : ct ≠ '.')
    (M : Nat) (L0 W P D L1 : List Char) (n0 n1 : Nat)
    (hL0 : Verbatim L0 n0) (hW : ∀ c ∈ W, c.isDigit = true)
    (hD : ∀ c ∈ D, c.isDigit = true) (hP : (P = [] ∧ D = []) ∨ P = '.' :: D)
    (hL1 : Verbatim L1 n1) (rest : List Char) (hrest : ∀ r, rest ≠ '%' :: r) :
    ((TemplateChecker.create ct M).run
      (L0 ++ '%' :: (W ++ (P ++ ct :: (L1 ++ '%' :: rest))))).isValid = false := by
  have he : L0 ++ '%' :: (W ++ (P ++ ct :: (L1 ++ '%' :: rest))) =
      (L0 ++ '%' :: (W ++ P)) ++ ct :: (L1 ++ '%' :: rest) := by
    simp
  rw [he, run_append, run_cons, run_append, run_cons]
  obtain ⟨a1, a2, a3⟩ := prefix_phase ct M L0 W P D n0 hL0 hW hD hP
  generalize (TemplateChecker.create ct M).run (L0 ++ '%' :: (W ++ P)) = tp at a1 a2 a3
  by_cases herr : tp.state = CheckerState.Error
  · exact doomed_isValid _ (doomed_run _ _ (doomed_step _ _ (doomed_run _ _
      (doomed_step _ _ (Or.inl herr)))))
  · have hconv : tp.step ct = tp.conversionFound :=
      step_conversion tp ct a3 h1 h2 h3 (by
        rcases a1 with h | h | h | h
        · exact Or.inl h
        · exact Or.inr (Or.inl h)
        · exact Or.inr (Or.inr h)
        · exact absurd h herr)
    have hfound : tp.conversionFound.state = CheckerState.Start ∧
        tp.conversionFound.haveConversion = true ∧
        tp.conversionFound.conversionType = ct := by
      unfold TemplateChecker.conversionFound
      simp [a2, a3]
    rw [hconv]
    obtain ⟨b1, b2, b3⟩ := verbatim_phase hL1 tp.conversionFound hfound.1
    generalize tp.conversionFound.run L1 = t1 at b1 b2 b3
    obtain ⟨c1, c2, c3⟩ := percent_phase t1 b1
    have hhave : (t1.step '%').haveConversion = true := by
      rw [c2, b2]
      exact hfound.2.1
    generalize t1.step '%' = t2 at c1 c2 c3 hhave
    cases rest with
    | nil =>
      rw [run_nil]
      exact inDirective_isValid _ (Or.inl c1)
    | cons c r =>
      rw [run_cons]
      have hc : c ≠ '%' := by
        intro h
        exact hrest r (by rw [h])
      have hd : (t2.step c).Doomed := by
        unfold TemplateChecker.step
        rw [c1]
        by_cases hdig : c.isDigit = true
        · right
          simp [hc, hdig, hhave]
        · by_cases hpt : c = '.'
          · right
            simp [hc, hdig, hpt, hhave]
          · left
            simp only [hc, hdig, hpt, if_false, Bool.false_eq_true]
            by_cases hct : c = t2.conversionType
            · rw [if_pos hct]
              simp [TemplateChecker.conversionFound, hhave]
            · rw [if_neg hct]
      exact doomed_isValid _ (doomed_run r _ hd)

/-- Claim C23, with the flag 0 read as a digit of the width: for maxLength ≤ 2^28 and a
template t shorter than 2^31 characters, `isValidUintTemplate(t, maxLength)` returns true if
and only if t is `L0 ++ "%" ++ W ++ P ++ "u" ++ L1` with L0 and L1 made of non-`%`
characters and `%%` pairs, W decimal digits, P empty or a `.` followed by decimal digits,
and max(10, value(W), value(P)) plus the number of non-`%` characters and `%%` pairs of L0
and L1 below maxLength; the same holds for `isValidIntTemplate` with `d` and 11. And for
every maxLength both functions reject a template without a conversion, a template that ends
inside a conversion, a template whose first directive goes on with a character that is
neither a digit, a `.`, a `%` nor the requested conversion character (a conversion of
another type, a flag other than 0, a length modifier), and a template that opens a further
directive after its conversion. -/
theorem exactly_one_conversion (t : List Char) (maxLength : Nat)
    (hM : maxLength ≤ 268435456) (ht : t.length < 2147483648) :
    (isValidUintTemplate t maxLength = true ↔ MatchesTemplate 'u' 10 maxLength t) ∧
    (isValidIntTemplate t maxLength = true ↔ MatchesTemplate 'd' 11 maxLength t) ∧
    (∀ (M : Nat) (s : List Char) (n : Nat), Verbatim s n →
      isValidUintTemplate s M = false ∧ isValidIntTemplate s M = false) ∧
    (∀ (M : Nat) (L0 W P D : List Char) (n0 : Nat), Verbatim L0 n0 →
      (∀ c ∈ W, c.isDigit = true) → (∀ c ∈ D, c.isDigit = true) →
      ((P = [] ∧ D = []) ∨ P = '.' :: D) →
      isValidUintTemplate (L0 ++ '%' :: (W ++ P)) M = false ∧
      isValidIntTemplate (L0 ++ '%' :: (W ++ P)) M = false) ∧
    (∀ (M : Nat) (L0 W P D : List Char) (n0 : Nat) (c : Char) (rest : List Char),
      Verbatim L0 n0 → (∀ c ∈ W, c.isDigit = true) → (∀ c ∈ D, c.isDigit = true) →
      ((P = [] ∧ D = []) ∨ P = '.' :: D) → c ≠ '%' → c.isDigit = false → c ≠ '.' →
      (c ≠ 'u' → isValidUintTemplate (L0 ++ '%' :: (W ++ (P ++ c :: rest))) M = false) ∧
      (c ≠ 'd' → isValidIntTemplate (L0 ++ '%' :: (W ++ (P ++ c :: rest))) M = false)) ∧
    (∀ (M : Nat) (L0 W P D L1 : List Char) (n0 n1 : Nat) (rest : List Char),
      Verbatim L0 n0 → (∀ c ∈ W, c.isDigit = true) → (∀ c ∈ D, c.isDigit = true) →
      ((P = [] ∧ D = []) ∨ P = '.' :: D) → Verbatim L1 n1 → (∀ r, rest ≠ '%' :: r) →
      isValidUintTemplate (L0 ++ '%' :: (W ++ (P ++ 'u' :: (L1 ++ '%' :: rest)))) M = false ∧
      isValidIntTemplate (L0 ++ '%' :: (W ++ (P ++ 'd' :: (L1 ++ '%' :: rest)))) M = false) := by
  refine ⟨⟨?_, ?_⟩, ⟨?_, ?_⟩, ?_, ?_, ?_, ?_⟩
  · intro hv
    have h := isValid_matches 'u' (by decide) (by decide) (by decide) maxLength hM t ht hv
    rwa [conversionLength_u] at h
  · intro hm
    rw [← conversionLength_u] at hm
    exact matches_isValid 'u' (by decide) (by decide) (by decide) maxLength hM t hm
  · intro hv
    have h := isValid_matches 'd' (by decide) (by decide) (by decide) maxLength hM t ht hv
    rwa [conversionLength_d] at h
  · intro hm
    rw [← conversionLength_d] at hm
    exact matches_isValid 'd' (by decide) (by decide) (by decide) maxLength hM t hm
  · intro M s n hs
    exact ⟨reject_verbatim 'u' M s n hs, reject_verbatim 'd' M s n hs⟩
  · intro M L0 W P D n0 hL0 hW hD hP
    exact ⟨reject_unfinished 'u' M L0 W P D n0 hL0 hW hD hP,
      reject_unfinished 'd' M L0 W P D n0 hL0 hW hD hP⟩
  · intro M L0 W P D n0 c rest hL0 hW hD hP h1 h2 h3
    exact ⟨fun h4 => reject_stray 'u' M L0 W P D n0 hL0 hW hD hP c rest h1 h2 h3 h4,
      fun h4 => reject_stray 'd' M L0 W P D n0 hL0 hW hD hP c rest h1 h2 h3 h4⟩
  · intro M L0 W P D L1 n0 n1 rest hL0 hW hD hP hL1 hrest
    exact ⟨reject_second 'u' (by decide) (by decide) (by decide) M L0 W P D L1 n0 n1 hL0 hW hD
        hP hL1 rest hrest,
      reject_second 'd' (by decide) (by decide) (by decide) M L0 W P D L1 n0 n1 hL0 hW hD
        hP hL1 rest hrest⟩

/-- Witness for C23: the template `a%%b%05uc` with maxLength 15 is accepted and has the
form; and of the templates `%-5u` (a flag), `%5lu` (a length modifier), `%u%u` (two
conversions) and `ab%5.` (ending inside a conversion), all rejected for maxLength 100. -/
theorem exactly_one_conversion_witness :
    (15 : Nat) ≤ 268435456 ∧ "a%%b%05uc".toList.length < 2147483648 ∧
    isValidUintTemplate "a%%b%05uc".toList 15 = true ∧
    MatchesTemplate 'u' 10 15 "a%%b%05uc".toList ∧
    (isValidIntTemplate "a%%b%05uc".toList 15 = true ↔
      MatchesTemplate 'd' 11 15 "a%%b%05uc".toList) ∧
    isValidUintTemplate "%-5u".toList 100 = false ∧
    isValidUintTemplate "%5lu".toList 100 = false ∧
    isValidUintTemplate "%u%u".toList 100 = false ∧
    isValidUintTemplate "ab%5.".toList 100 = false :=
  ⟨by decide, by decide, by decide,
    (exactly_one_conversion "a%%b%05uc".toList 15 (by decide) (by decide)).1.1 (by decide),
    (exactly_one_conversion "a%%b%05uc".toList 15 (by decide) (by decide)).2.1,
    ((exactly_one_conversion "a%%b%05uc".toList 15 (by decide) (by decide)).2.2.2.2.1
      100 [] [] [] [] 0 '-' "5u".toList Verbatim.nil (by simp) (by simp) (Or.inl ⟨rfl, rfl⟩)
      (by decide) (by decide) (by decide)).1 (by decide),
    ((exactly_one_conversion "a%%b%05uc".toList 15 (by decide) (by decide)).2.2.2.2.1
      100 [] "5".toList [] [] 0 'l' "u".toList Verbatim.nil (by decide) (by simp)
      (Or.inl ⟨rfl, rfl⟩) (by decide) (by decide) (by decide)).1 (by decide),
    ((exactly_one_conversion "a%%b%05uc".toList 15 (by decide) (by decide)).2.2.2.2.2
      100 [] [] [] [] [] 0 0 "u".toList Verbatim.nil (by simp) (by simp) (Or.inl ⟨rfl, rfl⟩)
      Verbatim.nil (fun r h => by simp at h)).1,
    ((exactly_one_conversion "a%%b%05uc".toList 15 (by decide) (by decide)).2.2.2.1
      100 "ab".toList "5".toList ".".toList [] 2
      (Verbatim.char 'a' _ 1 (by decide) (Verbatim.char 'b' _ 0 (by decide) Verbatim.nil))
      (by decide) (by simp) (Or.inr rfl)).1⟩

theorem decimalDigits_length (fuel : Nat) :
    ∀ (n k : Nat), 1 ≤ k → n < 10 ^ k → (decimalDigits fuel n).length ≤ k := by
  induction fuel with
  | zero =>
    intro n k _ _
    simp [decimalDigits]
  | succ fuel ih =>
    intro n k hk hn
    unfold decimalDigits
    by_cases h10 : n < 10
    · rw [if_pos h10]
      simpa using hk
    · rw [if_neg h10]
      have hk2 : 2 ≤ k := by
        by_contra hlt
        have : k = 1 := by omega
        subst this
        omega
      have hpow : 10 ^ k = 10 ^ (k - 1) * 10 := by
        rw [← pow_succ]
        congr 1
        omega
      have hdiv : n / 10 < 10 ^ (k - 1) := by
        rw [Nat.div_lt_iff_lt_mul (by decide)]
        omega
      have := ih (n / 10) (k - 1) (by omega) hdiv
      simp only [List.length_append, List.length_singleton]
      omega

theorem decimal_length (n : Nat) (hn : n < 10000000000) : (decimal n).length ≤ 10 :=
  decimalDigits_length (n + 1) n 10 (by decide) (by simpa using hn)

/-- The number of characters printf writes for one number: no more than the field width,
or the sign and the larger of the precision and the number of digits. -/
theorem formatInteger_length (negative : Bool) (magnitude : Nat) (zeroFlag : Bool)
    (width : Nat) (precision : Option Nat) :
    (formatInteger negative magnitude zeroFlag width precision).length ≤
      max width ((if negative then 1 else 0) +
        max (precision.getD 1) (decimal magnitude).length) := by
  unfold formatInteger
  have hdig : (if magnitude = 0 ∧ precision = some 0 then ([] : List Char)
      else decimal magnitude).length ≤ (decimal magnitude).length := by
    split
    · simp
    · exact Nat.le_refl _
  generalize (if magnitude = 0 ∧ precision = some 0 then ([] : List Char)
      else decimal magnitude) = digits at hdig
  generalize (decimal magnitude).length = dl at hdig
  generalize precision.getD 1 = pr
  cases negative <;> simp only [Bool.false_eq_true, if_false, if_true] <;> split <;>
    simp only [List.length_append, List.length_replicate, List.length_cons, List.length_nil,
      List.nil_append] <;> omega

theorem printf_verbatim (conv : Char) (negative : Bool) (magnitude : Nat) {L : List Char}
    {n : Nat} (h : Verbatim L n) (ps : PrintfState) (hm : ps.mode = PrintfMode.text) :
    (L.foldl (PrintfState.step conv negative magnitude) ps).mode = PrintfMode.text ∧
    (L.foldl (PrintfState.step conv negative magnitude) ps).used = ps.used ∧
    (L.foldl (PrintfState.step conv negative magnitude) ps).out.length = ps.out.length + n := by
  induction h generalizing ps with
  | nil => exact ⟨hm, rfl, rfl⟩
  | char c rest n hc _ ih =>
    rw [List.foldl_cons]
    have hstep : PrintfState.step conv negative magnitude ps c =
        { ps with out := ps.out ++ [c] } := by
      unfold PrintfState.step
      rw [hm]
      simp [hc]
    rw [hstep]
    obtain ⟨i1, i2, i3⟩ := ih { ps with out := ps.out ++ [c] } hm
    refine ⟨i1, i2, ?_⟩
    rw [i3]
    simp only [List.length_append, List.length_singleton]
    omega
  | percent rest n _ ih =>
    rw [List.foldl_cons, List.foldl_cons]
    have hstep : PrintfState.step conv negative magnitude
        (PrintfState.step conv negative magnitude ps '%') '%' =
        { ps with out := ps.out ++ ['%'], fresh := true, zeroFlag := false, width := 0,
                  precision := none } := by
      unfold PrintfState.step
      rw [hm]
      simp [hm]
    rw [hstep]
    obtain ⟨i1, i2, i3⟩ :=
      ih (PrintfState.mk (ps.out ++ ['%']) ps.mode true false 0 none ps.used) hm
    refine ⟨i1, i2, ?_⟩
    rw [i3]
    simp only [List.length_append, List.length_singleton]
    omega

theorem digitValue_zero : digitValue '0' = 0 := by
  decide

theorem printf_width (conv : Char) (negative : Bool) (magnitude : Nat) (W : List Char)
    (hW : ∀ c ∈ W, c.isDigit = true) (ps : PrintfState) (hm : ps.mode = PrintfMode.flags)
    (hw : ps.width = 0) (hp : ps.precision = none) :
    (((W.foldl (PrintfState.step conv negative magnitude) ps).mode = PrintfMode.flags ∧
        decimalValue W = 0) ∨
      (W.foldl (PrintfState.step conv negative magnitude) ps).mode = PrintfMode.width) ∧
    (W.foldl (PrintfState.step conv negative magnitude) ps).width = decimalValue W ∧
    (W.foldl (PrintfState.step conv negative magnitude) ps).precision = none ∧
    (W.foldl (PrintfState.step conv negative magnitude) ps).used = ps.used ∧
    (W.foldl (PrintfState.step conv negative magnitude) ps).out = ps.out := by
  induction W using List.reverseRecOn with
  | nil => exact ⟨Or.inl ⟨hm, decimalValue_nil⟩, by rw [decimalValue_nil]; exact hw, hp, rfl, rfl⟩
  | append_singleton Wp c ih =>
    have hc : c.isDigit = true := hW c (by simp)
    have hnp := digit_ne_percent c hc
    obtain ⟨i1, i2, i3, i4, i5⟩ := ih (fun x hx => hW x (by simp [hx]))
    rw [List.foldl_append, List.foldl_cons, List.foldl_nil, decimalValue_snoc]
    generalize Wp.foldl (PrintfState.step conv negative magnitude) ps = q at i1 i2 i3 i4 i5
    rcases i1 with ⟨i1, hz⟩ | i1
    · by_cases h0 : c = '0'
      · subst h0
        unfold PrintfState.step
        rw [i1]
        simp [i2, i3, i4, i5, hz, digitValue_zero]
      · unfold PrintfState.step
        rw [i1]
        simp [hnp, h0, hc, i3, i4, i5, hz]
    · unfold PrintfState.step
      rw [i1]
      simp [hc, i1, i2, i3, i4, i5]

theorem printf_digits (conv : Char) (negative : Bool) (magnitude : Nat) (D : List Char)
    (hD : ∀ c ∈ D, c.isDigit = true) (ps : PrintfState)
    (hm : ps.mode = PrintfMode.precision) (hp : ps.precision = some 0) :
    (D.foldl (PrintfState.step conv negative magnitude) ps).mode = PrintfMode.precision ∧
    (D.foldl (PrintfState.step conv negative magnitude) ps).width = ps.width ∧
    (D.foldl (PrintfState.step conv negative magnitude) ps).precision =
      some (decimalValue D) ∧
    (D.foldl (PrintfState.step conv negative magnitude) ps).used = ps.used ∧
    (D.foldl (PrintfState.step conv negative magnitude) ps).out = ps.out := by
  induction D using List.reverseRecOn with
  | nil => exact ⟨hm, rfl, by rw [decimalValue_nil]; exact hp, rfl, rfl⟩
  | append_singleton Dp c ih =>
    have hc : c.isDigit = true := hD c (by simp)
    obtain ⟨i1, i2, i3, i4, i5⟩ := ih (fun x hx => hD x (by simp [hx]))
    rw [List.foldl_append, List.foldl_cons, List.foldl_nil, decimalValue_snoc]
    generalize Dp.foldl (PrintfState.step conv negative magnitude) ps = q at i1 i2 i3 i4 i5
    unfold PrintfState.step
    rw [i1]
    simp [hc, i1, i2, i3, i4, i5]

theorem printf_precision (conv : Char) (negative : Bool) (magnitude : Nat)
    (P D : List Char) (hD : ∀ c ∈ D, c.isDigit = true)
    (hP : (P = [] ∧ D = []) ∨ P = '.' :: D) (ps : PrintfState)
    (hm : ps.mode = PrintfMode.flags ∨ ps.mode = PrintfMode.width)
    (hp : ps.precision = none) :
    ((P.foldl (PrintfState.step conv negative magnitude) ps).mode = PrintfMode.flags ∨
      (P.foldl (PrintfState.step conv negative magnitude) ps).mode = PrintfMode.width ∨
      (P.foldl (PrintfState.step conv negative magnitude) ps).mode = PrintfMode.precision) ∧
    (P.foldl (PrintfState.step conv negative magnitude) ps).width = ps.width ∧
    (P.foldl (PrintfState.step conv negative magnitude) ps).precision.getD 1 ≤
      max 1 (decimalValue D) ∧
    (P.foldl (PrintfState.step conv negative magnitude) ps).used = ps.used ∧
    (P.foldl (PrintfState.step conv negative magnitude) ps).out = ps.out := by
  rcases hP with ⟨rfl, rfl⟩ | rfl
  · refine ⟨?_, rfl, ?_, rfl, rfl⟩
    · rcases hm with hm | hm
      · exact Or.inl hm
      · exact Or.inr (Or.inl hm)
    · simp [hp]
  · rw [List.foldl_cons]
    have hstep : PrintfState.step conv negative magnitude ps '.' =
        { ps with precision := some 0, mode := PrintfMode.precision } := by
      unfold PrintfState.step
      rcases hm with hm | hm <;> rw [hm] <;> simp
    rw [hstep]
    obtain ⟨i1, i2, i3, i4, i5⟩ := printf_digits conv negative magnitude D hD
      (PrintfState.mk ps.out PrintfMode.precision ps.fresh ps.zeroFlag ps.width (some 0) ps.used)
      rfl rfl
    refine ⟨Or.inr (Or.inr i1), i2, ?_, i4, i5⟩
    rw [i3]
    simp

theorem printf_conversion (conv : Char) (h1 : conv ≠ '%') (h2 : conv.isDigit = false)
    (h3 : conv ≠ '.') (negative : Bool) (magnitude : Nat) (ps : PrintfState)
    (hm : ps.mode = PrintfMode.flags ∨ ps.mode = PrintfMode.width ∨
      ps.mode = PrintfMode.precision) (hu : ps.used = false) :
    PrintfState.step conv negative magnitude ps conv =
      { ps with
        out := ps.out ++ formatInteger negative magnitude ps.zeroFlag ps.width ps.precision,
        mode := PrintfMode.text, used := true } := by
  have h0 : conv ≠ '0' := by
    intro h
    rw [h] at h2
    exact absurd h2 (by decide)
  unfold PrintfState.step
  rcases hm with hm | hm | hm <;> rw [hm] <;>
    simp [h1, h2, h3, h0, PrintfState.convert, hu]

/-- The string printf produces from a template of the accepted form: it exists, and it is
no longer than the verbatim characters plus the larger of the field width and the sign
with the larger of the precision and the digits of the number. -/
theorem printf_template (conv : Char) (h1 : conv ≠ '%') (h2 : conv.isDigit = false)
    (h3 : conv ≠ '.') (negative : Bool) (magnitude : Nat)
    (L0 L1 W P D : List Char) (n0 n1 : Nat) (hL0 : Verbatim L0 n0) (hL1 : Verbatim L1 n1)
    (hW : ∀ c ∈ W, c.isDigit = true) (hD : ∀ c ∈ D, c.isDigit = true)
    (hP : (P = [] ∧ D = []) ∨ P = '.' :: D) :
    ∃ out, printfOutput conv negative magnitude (L0 ++ '%' :: (W ++ (P ++ conv :: L1))) =
        some out ∧
      out.length ≤ n0 + n1 + max (decimalValue W) ((if negative then 1 else 0) +
        max (max 1 (decimalValue D)) (decimal magnitude).length) := by
  unfold printfOutput
  simp only [List.foldl_append, List.foldl_cons]
  obtain ⟨a1, a2, a3⟩ := printf_verbatim conv negative magnitude hL0 PrintfState.start rfl
  generalize L0.foldl (PrintfState.step conv negative magnitude) PrintfState.start = p1
    at a1 a2 a3
  have hstep : PrintfState.step conv negative magnitude p1 '%' =
      { p1 with mode := PrintfMode.flags, fresh := true, zeroFlag := false, width := 0,
                precision := none } := by
    unfold PrintfState.step
    rw [a1]
    simp
  rw [hstep]
  obtain ⟨b1, b2, b3, b4, b5⟩ := printf_width conv negative magnitude W hW
    (PrintfState.mk p1.out PrintfMode.flags true false 0 none p1.used) rfl rfl rfl
  generalize W.foldl (PrintfState.step conv negative magnitude)
    (PrintfState.mk p1.out PrintfMode.flags true false 0 none p1.used) = p2 at b1 b2 b3 b4 b5
  have b1m : p2.mode = PrintfMode.flags ∨ p2.mode = PrintfMode.width := by
    rcases b1 with ⟨b1, _⟩ | b1
    · exact Or.inl b1
    · exact Or.inr b1
  obtain ⟨c1, c2, c3, c4, c5⟩ := printf_precision conv negative magnitude P D hD hP p2 b1m b3
  generalize P.foldl (PrintfState.step conv negative magnitude) p2 = p3 at c1 c2 c3 c4 c5
  have hu : p3.used = false := by
    rw [c4, b4]
    exact a2
  rw [printf_conversion conv h1 h2 h3 negative magnitude p3 c1 hu]
  obtain ⟨d1, d2, d3⟩ := printf_verbatim conv negative magnitude hL1
    (PrintfState.mk
      (p3.out ++ formatInteger negative magnitude p3.zeroFlag p3.width p3.precision)
      PrintfMode.text p3.fresh p3.zeroFlag p3.width p3.precision true) rfl
  refine ⟨_, by rw [if_pos d1], ?_⟩
  rw [d3]
  simp only [List.length_append]
  have hf := formatInteger_length negative magnitude p3.zeroFlag p3.width p3.precision
  rw [c5, b5, a3, c2, b2]
  rw [c2, b2] at hf
  have hlen : PrintfState.start.out.length = 0 := rfl
  rw [hlen]
  generalize (formatInteger negative magnitude p3.zeroFlag (decimalValue W)
    p3.precision).length = fl at hf
  generalize (decimal magnitude).length = dl at hf
  revert hf
  cases negative <;> simp only [Bool.false_eq_true, if_false, if_true] <;> omega

/-- A template accepted for `%d` produces, for every 32-bit signed value, a string of at
most maxLength characters: at most one more than the `maxLength - 1` characters that fit
before the terminating NUL. -/
theorem int_template_bound (t : List Char) (maxLength : Nat)
    (hM : maxLength ≤ 268435456) (ht : t.length < 2147483648)
    (hv : isValidIntTemplate t maxLength = true) (v : Int)
    (hlo : -2147483648 ≤ v) (hhi : v ≤ 2147483647) :
    ∃ out, printfInt t v = some out ∧ out.length ≤ maxLength := by
  have hm := isValid_matches 'd' (by decide) (by decide) (by decide) maxLength hM t ht hv
  rw [conversionLength_d] at hm
  obtain ⟨L0, L1, W, P, D, n0, n1, rfl, hL0, hL1, hW, hD, hP, hlt⟩ := hm
  obtain ⟨out, ho, hl⟩ := printf_template 'd' (by decide) (by decide) (by decide)
    (decide (v < 0)) v.natAbs L0 L1 W P D n0 n1 hL0 hL1 hW hD hP
  refine ⟨out, ho, ?_⟩
  have hd := decimal_length v.natAbs (by omega)
  generalize (decimal v.natAbs).length = dl at hd hl
  revert hl
  split <;> omega

/-- Claim C21: the template `%.11d` is accepted by `isValidIntTemplate` for maxLength 12,
and printf produces from it and the value -1 the string `-00000000001` of 12 characters,
which with the terminating NUL needs 13 bytes: the string has not fewer than maxLength
characters. -/
theorem int_template_overflow :
    isValidIntTemplate "%.11d".toList 12 = true ∧
    printfInt "%.11d".toList (-1) = some "-00000000001".toList ∧
    ¬ ("-00000000001".toList.length < 12) := by
  decide

/-- Claim C22: for every template t shorter than 2^31 characters and every
maxLength ≤ 2^28, if `isValidUintTemplate(t, maxLength)` returns true then for every
32-bit unsigned value v printf produces a string from t and v, and that string has fewer
than maxLength characters. -/
theorem uint_template_fits (t : List Char) (maxLength : Nat)
    (hM : maxLength ≤ 268435456) (ht : t.length < 2147483648)
    (hv : isValidUintTemplate t maxLength = true) (v : Nat) (hv32 : v < 4294967296) :
    ∃ out, printfUint t v = some out ∧ out.length < maxLength := by
  have hm := isValid_matches 'u' (by decide) (by decide) (by decide) maxLength hM t ht hv
  rw [conversionLength_u] at hm
  obtain ⟨L0, L1, W, P, D, n0, n1, rfl, hL0, hL1, hW, hD, hP, hlt⟩ := hm
  obtain ⟨out, ho, hl⟩ := printf_template 'u' (by decide) (by decide) (by decide)
    false v L0 L1 W P D n0 n1 hL0 hL1 hW hD hP
  refine ⟨out, ho, ?_⟩
  have hd := decimal_length v (by omega)
  generalize (decimal v).length = dl at hd hl
  simp only [Bool.false_eq_true, if_false] at hl
  omega

theorem uint_template_fits_witness :
    (15 : Nat) ≤ 268435456 ∧ "a%%b%05uc".toList.length < 2147483648 ∧
    isValidUintTemplate "a%%b%05uc".toList 15 = true ∧ (4294967295 : Nat) < 4294967296 ∧
    printfUint "a%%b%05uc".toList 4294967295 = some "a%b4294967295c".toList ∧
    ∃ out, printfUint "a%%b%05uc".toList 4294967295 = some out ∧ out.length < 15 :=
  ⟨by decide, by decide, by decide, by decide, by decide,
    uint_template_fits "a%%b%05uc".toList 15 (by decide) (by decide) (by decide)
      4294967295 (by decide)⟩

/-- Templates that are rejected whatever maxLength is: no conversion, two conversions, a
conversion of another type, a flag, a length modifier, and a template that ends inside a
conversion. -/
theorem rejected_templates (maxLength : Nat) :
    isValidUintTemplate "abc".toList maxLength = false ∧
    isValidUintTemplate "%u%u".toList maxLength = false ∧
    isValidUintTemplate "%d".toList maxLength = false ∧
    isValidIntTemplate "%u".toList maxLength = false ∧
    isValidUintTemplate "%x".toList maxLength = false ∧
    isValidUintTemplate "%-5u".toList maxLength = false ∧
    isValidUintTemplate "%+u".toList maxLength = false ∧
    isValidUintTemplate "% u".toList maxLength = false ∧
    isValidUintTemplate "%#u".toList maxLength = false ∧
    isValidUintTemplate "%lu".toList maxLength = false ∧
    isValidIntTemplate "%ld".toList maxLength = false ∧
    isValidUintTemplate "%5".toList maxLength = false ∧
    isValidUintTemplate "%".toList maxLength = false ∧
    isValidUintTemplate "%5.".toList maxLength = false :=
  ⟨rfl, rfl, rfl, rfl, rfl, rfl, rfl, rfl, rfl, rfl, rfl, rfl, rfl, rfl⟩

/-- Counterexample to C23: the template `%05u` has the flag 0, and `isValidUintTemplate`
accepts it for maxLength 11: the 0 is read as a digit of the field width. It is rejected for
maxLength 10, and printf writes 42 as `00042` with it. -/
theorem zero_flag_accepted :
    isValidUintTemplate "%05u".toList 11 = true ∧
    isValidUintTemplate "%05u".toList 10 = false ∧
    printfUint "%05u".toList 42 = some "00042".toList := by
  decide

end PrintfTemplateProofs

end Misc

namespace DeviceTest

section HistogramProofs

theorem lastBin_eq (h : LatencyHistogram) (b m : Nat) (hn : h.numBins = m / b + 2)
    (hfit : m / b + 2 < 4294967296) : h.lastBin = m / b + 1 := by
  unfold LatencyHistogram.lastBin
  rw [hn]
  generalize m / b = q at hfit ⊢
  omega

theorem binIndex_lt (h : LatencyHistogram) (b m : Nat) (hn : h.numBins = m / b + 2)
    (hfit : m / b + 2 < 4294967296) (latency : Nat) : h.binIndex latency < h.numBins := by
  unfold LatencyHistogram.binIndex
  rw [lastBin_eq h b m hn hfit, hn]
  split <;> omega

theorem binIndex_lt_numBins (h : LatencyHistogram) (hpos : 0 < h.numBins)
    (hlt : h.numBins < 4294967296) (latency : Nat) : h.binIndex latency < h.numBins := by
  unfold LatencyHistogram.binIndex LatencyHistogram.lastBin
  have he : (h.numBins + 4294967295) % 4294967296 = h.numBins - 1 := by omega
  rw [he]
  split <;> omega

theorem wrap_pos (b m : Nat) (hfit : m / b + 2 < 4294967296) :
    (m / b + 2) % 4294967296 ≠ 0 := by
  rw [Nat.mod_eq_of_lt hfit]
  exact Nat.succ_ne_zero _

theorem sum_set_succ (l : List Nat) (i c : Nat) (hi : l[i]? = some c) :
    (l.set i (c + 1)).sum = l.sum + 1 := by
  induction l generalizing i with
  | nil => simp at hi
  | cons x xs ih =>
    cases i with
    | zero =>
      simp only [List.getElem?_cons_zero, Option.some.injEq] at hi
      subst hi
      simp only [List.set_cons_zero, List.sum_cons]
      omega
    | succ j =>
      simp only [List.getElem?_cons_succ] at hi
      simp only [List.set_cons_succ, List.sum_cons, ih j hi]
      omega

theorem le_sum_of_getElem? (l : List Nat) (i c : Nat) (hi : l[i]? = some c) : c ≤ l.sum := by
  have hm : c ∈ l := List.getElem?_mem hi
  exact List.single_le_sum (fun _ _ => Nat.zero_le _) c hm

theorem construct_reset (b m : Nat) :
    (LatencyHistogram.construct b m).reset = LatencyHistogram.construct b m :=
  rfl

theorem construct_inv (b m : Nat) (hpos : (m / b + 2) % 4294967296 ≠ 0) :
    HistogramInv b m (LatencyHistogram.construct b m) [] where
  binSize_eq := rfl
  maxBinLatency_eq := rfl
  numBins_eq := rfl
  numBins_pos := Nat.pos_of_ne_zero hpos
  length_eq := by simp [LatencyHistogram.construct, LatencyHistogram.reset]
  empty := fun _ => ⟨rfl, rfl, rfl, fun c hc => by
    simp only [LatencyHistogram.construct, LatencyHistogram.reset] at hc
    exact (List.mem_replicate.mp hc).2⟩
  range := fun l hl => by simp at hl
  attained := fun hne => absurd rfl hne
  counted := by
    intro i c hi hc
    simp only [LatencyHistogram.construct, LatencyHistogram.reset] at hi
    have := (List.mem_replicate.mp (List.getElem?_mem hi)).2
    omega
  bounded := by
    intro c hc
    simp only [LatencyHistogram.construct, LatencyHistogram.reset] at hc
    have := (List.mem_replicate.mp hc).2
    simp [LatencyHistogram.construct, LatencyHistogram.reset, this]
  small := by
    intro c hc
    simp only [LatencyHistogram.construct, LatencyHistogram.reset] at hc
    have := (List.mem_replicate.mp hc).2
    omega
  exact := by
    intro _
    refine ⟨?_, rfl, ?_⟩
    · simp [LatencyHistogram.construct, LatencyHistogram.reset]
    · simp only [LatencyHistogram.construct, LatencyHistogram.reset]
      exact List.mem_replicate.mpr ⟨hpos, rfl⟩

theorem reset_inv (b m : Nat) (h : LatencyHistogram)
    (ls : List Nat) (hinv : HistogramInv b m h ls) :
    h.reset = LatencyHistogram.construct b m := by
  unfold LatencyHistogram.reset LatencyHistogram.construct LatencyHistogram.reset
  simp only [hinv.binSize_eq, hinv.maxBinLatency_eq, hinv.numBins_eq]

theorem addSample_inv (b m : Nat)
    (h : LatencyHistogram) (ls : List Nat) (hinv : HistogramInv b m h ls) (latency : Nat)
    (hl : latency < 4294967296) :
    ∃ h', h.addSample latency = some h' ∧ HistogramInv b m h' (ls ++ [latency]) ∧
      ∃ count, h.bins[h.binIndex latency]? = some count ∧
        h'.bins = h.bins.set (h.binIndex latency) ((count + 1) % 4294967296) := by
  have hidx := binIndex_lt_numBins h hinv.numBins_pos
    (by rw [hinv.numBins_eq]; exact Nat.mod_lt _ (by decide)) latency
  have hlen := hinv.length_eq
  have hget : ∃ count, h.bins[h.binIndex latency]? = some count := by
    have hlt : h.binIndex latency < h.bins.length := by omega
    exact ⟨h.bins[h.binIndex latency], List.getElem?_eq_getElem hlt⟩
  obtain ⟨count, hcount⟩ := hget
  have hmem : count ∈ h.bins := List.getElem?_mem hcount
  have hsmall := hinv.small count hmem
  have hbound := hinv.bounded count hmem
  refine ⟨_, by unfold LatencyHistogram.addSample; rw [hcount], ?_, count, hcount, rfl⟩
  have hbin : ∀ l, LatencyHistogram.binIndex
      { h with
        bins := h.bins.set (h.binIndex latency) ((count + 1) % 4294967296),
        maxBinSize :=
          if h.maxBinSize < (count + 1) % 4294967296 then (count + 1) % 4294967296
          else h.maxBinSize,
        numSamples := (h.numSamples + 1) % 4294967296,
        latencySum := h.latencySum + latency,
        minLatency := if h.minLatency > latency then latency else h.minLatency,
        maxLatency := if h.maxLatency < latency then latency else h.maxLatency } l =
      h.binIndex l := fun l => rfl
  have hmemset : ∀ c, c ∈ h.bins.set (h.binIndex latency) ((count + 1) % 4294967296) →
      c = (count + 1) % 4294967296 ∨ c ∈ h.bins := by
    intro c hc
    rcases List.mem_or_eq_of_mem_set hc with h1 | h1
    · exact Or.inr h1
    · exact Or.inl h1
  constructor
  · exact hinv.binSize_eq
  · exact hinv.maxBinLatency_eq
  · exact hinv.numBins_eq
  · exact hinv.numBins_pos
  · simp only [List.length_set]
    exact hlen
  · intro hnil
    simp at hnil
  · intro l hl2
    show (if h.minLatency > latency then latency else h.minLatency) ≤ l ∧
      l ≤ (if h.maxLatency < latency then latency else h.maxLatency)
    rcases List.mem_append.mp hl2 with h1 | h1
    · have := hinv.range l h1
      split <;> split <;> omega
    · rw [List.mem_singleton.mp h1]
      by_cases hnil : ls = []
      · obtain ⟨e1, e2, _⟩ := hinv.empty hnil
        rw [e1, e2]
        split <;> split <;> omega
      · split <;> split <;> omega
  · intro _
    show (if h.minLatency > latency then latency else h.minLatency) ∈ ls ++ [latency] ∧
      (if h.maxLatency < latency then latency else h.maxLatency) ∈ ls ++ [latency] ∧
      1 ≤ (if h.maxBinSize < (count + 1) % 4294967296 then (count + 1) % 4294967296
          else h.maxBinSize)
    by_cases hnil : ls = []
    · obtain ⟨e1, e2, e3, e4⟩ := hinv.empty hnil
      have hc0 := e4 count hmem
      subst hnil
      rw [e1, e2, e3, hc0]
      refine ⟨?_, ?_, ?_⟩
      · by_cases hx : 4294967295 > latency
        · simp [hx]
        · have : latency = 4294967295 := by omega
          simp [this]
      · by_cases hx : 0 < latency
        · simp [hx]
        · have : latency = 0 := by omega
          simp [this]
      · decide
    · obtain ⟨a1, a2, a3⟩ := hinv.attained hnil
      refine ⟨?_, ?_, ?_⟩
      · split
        · simp
        · exact List.mem_append_left _ a1
      · split
        · simp
        · exact List.mem_append_left _ a2
      · split <;> omega
  · intro i c hi hc
    show ∃ l ∈ ls ++ [latency], h.binIndex l = i
    simp only at hi
    by_cases hii : i = h.binIndex latency
    · exact ⟨latency, by simp, hii.symm⟩
    · rw [List.getElem?_set_ne (Ne.symm hii)] at hi
      obtain ⟨l, hl1, hl2⟩ := hinv.counted i c hi hc
      exact ⟨l, List.mem_append_left _ hl1, hl2⟩
  · intro c hc
    show c ≤ (if h.maxBinSize < (count + 1) % 4294967296 then (count + 1) % 4294967296
          else h.maxBinSize)
    rcases hmemset c hc with h1 | h1
    · rw [h1]
      split <;> omega
    · have := hinv.bounded c h1
      split <;> omega
  · intro c hc
    rcases hmemset c hc with h1 | h1
    · rw [h1]
      exact Nat.mod_lt _ (by decide)
    · exact hinv.small c h1
  · intro hlen2
    have hlen3 : ls.length + 1 < 4294967296 := by simpa using hlen2
    obtain ⟨x1, x2, x3⟩ := hinv.exact (by omega)
    have hcs : count ≤ ls.length := by
      rw [← x1]
      exact le_sum_of_getElem? _ _ _ hcount
    have hnowrap : (count + 1) % 4294967296 = count + 1 := Nat.mod_eq_of_lt (by omega)
    show (h.bins.set (h.binIndex latency) ((count + 1) % 4294967296)).sum =
        (ls ++ [latency]).length ∧
      (h.numSamples + 1) % 4294967296 = (ls ++ [latency]).length ∧
      (if h.maxBinSize < (count + 1) % 4294967296 then (count + 1) % 4294967296
          else h.maxBinSize) ∈ h.bins.set (h.binIndex latency) ((count + 1) % 4294967296)
    rw [hnowrap, sum_set_succ _ _ _ hcount, x1, x2, Nat.mod_eq_of_lt hlen3]
    refine ⟨by simp, by simp, ?_⟩
    have hself : count + 1 ∈ h.bins.set (h.binIndex latency) (count + 1) := by
      apply List.mem_iff_getElem?.mpr
      refine ⟨h.binIndex latency, ?_⟩
      rw [List.getElem?_set]
      simp
      omega
    by_cases hlt : h.maxBinSize < count + 1
    · rw [if_pos hlt]
      exact hself
    · rw [if_neg hlt]
      by_cases heq : h.maxBinSize = count + 1
      · rw [heq]
        exact hself
      · obtain ⟨j, hj⟩ := List.mem_iff_getElem?.mp x3
        by_cases hjj : j = h.binIndex latency
        · rw [hjj, hcount] at hj
          simp only [Option.some.injEq] at hj
          omega
        · apply List.mem_iff_getElem?.mpr
          exact ⟨j, by rw [List.getElem?_set_ne (Ne.symm hjj)]; exact hj⟩

theorem run_inv (b m : Nat) (hpos : (m / b + 2) % 4294967296 ≠ 0)
    (calls : List HistogramCall)
    (hcalls : ∀ l ∈ latenciesOf calls, l < 4294967296) (h : LatencyHistogram) (ls : List Nat)
    (hinv : HistogramInv b m h ls) :
    ∃ h', LatencyHistogram.run calls h = some h' ∧
      HistogramInv b m h' (calls.foldl trackCall ls) := by
  induction calls generalizing h ls with
  | nil => exact ⟨h, rfl, hinv⟩
  | cons c cs ih =>
    cases c with
    | reset =>
      have hr : h.call HistogramCall.reset = some (LatencyHistogram.construct b m) := by
        show some h.reset = _
        rw [reset_inv b m h ls hinv]
      obtain ⟨h', e1, e2⟩ := ih (fun l hl => hcalls l hl) (LatencyHistogram.construct b m) []
        (construct_inv b m hpos)
      exact ⟨h', by simp only [LatencyHistogram.run, hr]; exact e1, e2⟩
    | addSample latency =>
      have hl : latency < 4294967296 := hcalls latency (by simp [latenciesOf])
      obtain ⟨h1, a1, a2, _⟩ := addSample_inv b m h ls hinv latency hl
      obtain ⟨h', e1, e2⟩ := ih (fun l hl => hcalls l (by simp [latenciesOf, hl])) h1
        (ls ++ [latency]) a2
      have hr : h.call (HistogramCall.addSample latency) = some h1 := a1
      exact ⟨h', by simp only [LatencyHistogram.run, hr]; exact e1, e2⟩

theorem reached_inv (b m : Nat) (hpos : (m / b + 2) % 4294967296 ≠ 0)
    (calls : List HistogramCall)
    (hcalls : ∀ l ∈ latenciesOf calls, l < 4294967296) (h : LatencyHistogram)
    (hrun : LatencyHistogram.run calls (LatencyHistogram.construct b m) = some h) :
    HistogramInv b m h (samplesSinceReset calls) := by
  obtain ⟨h', e1, e2⟩ := run_inv b m hpos calls hcalls _ [] (construct_inv b m hpos)
  rw [hrun] at e1
  cases e1
  exact e2

theorem latenciesOf_map (ls : List Nat) :
    latenciesOf (ls.map HistogramCall.addSample) = ls := by
  induction ls with
  | nil => rfl
  | cons l ls ih => simp [latenciesOf, ih]

theorem foldl_trackCall_map (ls acc : List Nat) :
    (ls.map HistogramCall.addSample).foldl trackCall acc = acc ++ ls := by
  induction ls generalizing acc with
  | nil => simp
  | cons l ls ih => simp [trackCall, ih]

theorem rows_isSome (h : LatencyHistogram) (is : List Nat)
    (hw : ∀ i ∈ is, (h.barWidth i).isSome = true) : (h.rows is).isSome = true := by
  induction is with
  | nil => rfl
  | cons i is ih =>
    have h1 := hw i (List.mem_cons_self _ _)
    have h2 := ih (fun j hj => hw j (List.mem_cons_of_mem _ hj))
    obtain ⟨w, hw1⟩ := Option.isSome_iff_exists.mp h1
    obtain ⟨r, hr1⟩ := Option.isSome_iff_exists.mp h2
    simp [LatencyHistogram.rows, hw1, hr1]

theorem ceil_bar (c M : Nat) (hM : 1 ≤ M) :
    ⌈((71 * c : Nat) : ℚ) / (M : ℚ)⌉₊ = (c * 71 + M - 1) / M := by
  have hMq : (0 : ℚ) < M := by exact_mod_cast hM
  apply le_antisymm
  · rw [Nat.ceil_le, div_le_iff₀ hMq]
    have h1 : c * 71 + M - 1 < ((c * 71 + M - 1) / M + 1) * M := by
      have := Nat.lt_div_mul_add hM (a := c * 71 + M - 1)
      rw [Nat.add_mul, Nat.one_mul]
      exact this
    have h2 : 71 * c ≤ (c * 71 + M - 1) / M * M := by
      rw [Nat.add_mul, Nat.one_mul] at h1
      omega
    exact_mod_cast h2
  · by_cases hw : (c * 71 + M - 1) / M = 0
    · rw [hw]
      exact Nat.zero_le _
    · have hpos : 1 ≤ (c * 71 + M - 1) / M := Nat.one_le_iff_ne_zero.mpr hw
      have h1 : (c * 71 + M - 1) / M * M ≤ c * 71 + M - 1 := Nat.div_mul_le_self _ _
      have h2 : ((c * 71 + M - 1) / M - 1) * M < 71 * c := by
        have h3 : ((c * 71 + M - 1) / M - 1) * M + M = (c * 71 + M - 1) / M * M := by
          rw [← Nat.succ_mul]
          congr 1
          omega
        omega
      have h4 : (((c * 71 + M - 1) / M - 1 : Nat) : ℚ) * (M : ℚ) < ((71 * c : Nat) : ℚ) := by
        exact_mod_cast h2
      have h6 : (c * 71 + M - 1) / M - 1 < ⌈((71 * c : Nat) : ℚ) / (M : ℚ)⌉₊ := by
        rw [Nat.lt_ceil, lt_div_iff₀ hMq]
        exact h4
      omega

/-- C27, for a histogram with at least one bin: a histogram is built with binSize > 0 and
maxBinLatency such that the constructor's numBins, maxBinLatency / binSize + 2 computed in
`unsigned int`, is not 0. After reset, in any state the histogram has reached, and fewer
than 2^32 addSample calls, the bin counts sum to numSamples, numSamples is the number of
calls, maxBinSize is the largest bin count, and when a sample was added minLatency and
maxLatency are the smallest and the largest latency added. -/
theorem histogram_summary (b m : Nat) (_hb : 0 < b) (hfit : (m / b + 2) % 4294967296 ≠ 0)
    (calls : List HistogramCall) (hcalls : ∀ l ∈ latenciesOf calls, l < 4294967296)
    (h0 : LatencyHistogram)
    (hrun : LatencyHistogram.run calls (LatencyHistogram.construct b m) = some h0)
    (ls : List Nat) (hls : ∀ l ∈ ls, l < 4294967296) (hcount : ls.length < 4294967296) :
    ∃ h', LatencyHistogram.addSamples ls h0.reset = some h' ∧
      h'.bins.sum = h'.numSamples ∧ h'.numSamples = ls.length ∧
      h'.maxBinSize ∈ h'.bins ∧ (∀ c ∈ h'.bins, c ≤ h'.maxBinSize) ∧
      (ls ≠ [] → h'.minLatency ∈ ls ∧ (∀ l ∈ ls, h'.minLatency ≤ l) ∧
        h'.maxLatency ∈ ls ∧ ∀ l ∈ ls, l ≤ h'.maxLatency) := by
  have hinv0 := reached_inv b m hfit calls hcalls h0 hrun
  rw [reset_inv b m h0 _ hinv0]
  obtain ⟨h', e1, e2⟩ := run_inv b m hfit (ls.map HistogramCall.addSample)
    (by rw [latenciesOf_map]; exact hls) _ [] (construct_inv b m hfit)
  rw [foldl_trackCall_map, List.nil_append] at e2
  obtain ⟨x1, x2, x3⟩ := e2.exact hcount
  refine ⟨h', e1, by rw [x1, x2], x2, x3, e2.bounded, ?_⟩
  intro hne
  obtain ⟨a1, a2, _⟩ := e2.attained hne
  exact ⟨a1, fun l hl => (e2.range l hl).1, a2, fun l hl => (e2.range l hl).2⟩

/-- Witness for C27: bins of 10 up to 30 with the samples 5, 17 and 500; and binSize 1 with
maxBinLatency 2^32 - 1, where numBins wraps to 1, with the samples 5, 17 and 3. -/
theorem histogram_summary_witness :
    (∃ h', LatencyHistogram.addSamples [5, 17, 500] (LatencyHistogram.construct 10 30).reset =
        some h' ∧
      h'.bins.sum = h'.numSamples ∧ h'.numSamples = [5, 17, 500].length ∧
      h'.maxBinSize ∈ h'.bins ∧ (∀ c ∈ h'.bins, c ≤ h'.maxBinSize) ∧
      (([5, 17, 500] : List Nat) ≠ [] → h'.minLatency ∈ [5, 17, 500] ∧
        (∀ l ∈ [5, 17, 500], h'.minLatency ≤ l) ∧
        h'.maxLatency ∈ [5, 17, 500] ∧ ∀ l ∈ [5, 17, 500], l ≤ h'.maxLatency)) ∧
    (LatencyHistogram.construct 1 4294967295).numBins = 1 ∧
    (LatencyHistogram.addSamples [5, 17, 3] (LatencyHistogram.construct 1 4294967295).reset).map
      (fun h => (h.bins, h.numSamples, h.maxBinSize, h.minLatency, h.maxLatency)) =
      some ([3], 3, 3, 3, 17) ∧
    (∃ h', LatencyHistogram.addSamples [5, 17, 3]
        (LatencyHistogram.construct 1 4294967295).reset = some h' ∧
      h'.bins.sum = h'.numSamples ∧ h'.numSamples = [5, 17, 3].length ∧
      h'.maxBinSize ∈ h'.bins ∧ (∀ c ∈ h'.bins, c ≤ h'.maxBinSize) ∧
      (([5, 17, 3] : List Nat) ≠ [] → h'.minLatency ∈ [5, 17, 3] ∧
        (∀ l ∈ [5, 17, 3], h'.minLatency ≤ l) ∧
        h'.maxLatency ∈ [5, 17, 3] ∧ ∀ l ∈ [5, 17, 3], l ≤ h'.maxLatency)) :=
  ⟨histogram_summary 10 30 (by decide) (by decide) [] (fun l hl => by simp [latenciesOf] at hl)
      (LatencyHistogram.construct 10 30) rfl [5, 17, 500]
      (fun l hl => by
        simp only [List.mem_cons, List.mem_singleton, List.not_mem_nil, or_false] at hl
        rcases hl with rfl | rfl | rfl <;> decide)
      (by decide),
    rfl, by decide,
    histogram_summary 1 4294967295 (by decide) (by decide) []
      (fun l hl => by simp [latenciesOf] at hl)
      (LatencyHistogram.construct 1 4294967295) rfl [5, 17, 3]
      (fun l hl => by
        simp only [List.mem_cons, List.mem_singleton, List.not_mem_nil, or_false] at hl
        rcases hl with rfl | rfl | rfl <;> decide)
      (by decide)⟩

/-- Counterexample to C27: for binSize 1 and maxBinLatency 2^32 - 2 the constructor's
`maxBinLatency/binSize+2` wraps to 0, the array has no elements, and the first addSample
after reset writes `bins[0]` outside the array: no state with the claimed sums is reached. -/
theorem empty_histogram_sample :
    0 < 1 ∧ (LatencyHistogram.construct 1 4294967294).numBins = 0 ∧
    (LatencyHistogram.construct 1 4294967294).reset.bins = [] ∧
    (LatencyHistogram.construct 1 4294967294).reset.binIndex 0 = 0 ∧
    LatencyHistogram.addSamples [0] (LatencyHistogram.construct 1 4294967294).reset = none :=
  ⟨by decide, rfl, rfl, rfl, rfl⟩

/-- C28, with the constructor's bound: a histogram is built with binSize > 0 and
maxBinLatency such that maxBinLatency / binSize + 2 fits an `unsigned int`. Then numBins is
that number, and in any state the histogram has reached addSample(latency) increments, in
`unsigned int`, the bin floor(latency/binSize) when that index is below numBins - 1 and the
last bin otherwise, and leaves the other bins as they are; the index is below numBins, and
a latency of at most maxBinLatency is not counted in the last bin. -/
theorem histogram_binning (b m : Nat) (_hb : 0 < b) (hfit : m / b + 2 < 4294967296)
    (calls : List HistogramCall) (hcalls : ∀ l ∈ latenciesOf calls, l < 4294967296)
    (h : LatencyHistogram)
    (hrun : LatencyHistogram.run calls (LatencyHistogram.construct b m) = some h)
    (latency : Nat) (hl : latency < 4294967296) :
    h.numBins = m / b + 2 ∧ h.bins.length = h.numBins ∧
    h.binIndex latency < h.numBins ∧
    h.binIndex latency =
      (if latency / b < h.numBins - 1 then latency / b else h.numBins - 1) ∧
    (∃ h' count, h.addSample latency = some h' ∧
      h.bins[h.binIndex latency]? = some count ∧
      h'.bins[h.binIndex latency]? = some ((count + 1) % 4294967296) ∧
      h'.bins.length = h.bins.length ∧
      ∀ i, i ≠ h.binIndex latency → h'.bins[i]? = h.bins[i]?) ∧
    (latency ≤ m → h.binIndex latency = latency / b ∧ h.binIndex latency < h.numBins - 1) := by
  have hinv := reached_inv b m (wrap_pos b m hfit) calls hcalls h hrun
  have hnb : h.numBins = m / b + 2 := by
    rw [hinv.numBins_eq, Nat.mod_eq_of_lt hfit]
  have hlast := lastBin_eq h b m hnb hfit
  have hidx := binIndex_lt h b m hnb hfit latency
  have hbin : h.binIndex latency =
      (if latency / b < h.numBins - 1 then latency / b else h.numBins - 1) := by
    unfold LatencyHistogram.binIndex
    rw [hlast, hnb, hinv.binSize_eq]
    generalize m / b = q
    generalize latency / b = r
    split <;> split <;> omega
  refine ⟨hnb, hinv.length_eq, hidx, hbin, ?_, ?_⟩
  · obtain ⟨h', a1, _, count, a3, a4⟩ := addSample_inv b m h _ hinv latency hl
    refine ⟨h', count, a1, a3, ?_, ?_, ?_⟩
    · rw [a4, List.getElem?_set]
      have := hinv.length_eq
      simp
      omega
    · rw [a4, List.length_set]
    · intro i hi
      rw [a4, List.getElem?_set_ne (Ne.symm hi)]
  · intro hle
    have hdiv : latency / b ≤ m / b := Nat.div_le_div_right hle
    rw [hbin, hnb]
    generalize m / b = q at hdiv ⊢
    generalize latency / b = r at hdiv ⊢
    have hlt : r < q + 2 - 1 := by omega
    rw [if_pos hlt]
    exact ⟨rfl, hlt⟩

/-- Witness for C28: bins of 10 up to 30, a sample of 17 on the fresh histogram. -/
theorem histogram_binning_witness :
    (LatencyHistogram.construct 10 30).binIndex 17 = 17 / 10 ∧
    (LatencyHistogram.construct 10 30).binIndex 17 < (LatencyHistogram.construct 10 30).numBins - 1 :=
  (histogram_binning 10 30 (by decide) (by decide) [] (fun l hl => by simp [latenciesOf] at hl)
    (LatencyHistogram.construct 10 30) rfl 17 (by decide)).2.2.2.2.2 (by decide)

/-- Counterexample to C28: for binSize 1 and maxBinLatency 2^32 - 1 the constructor's
`maxBinLatency/binSize+2` wraps to 1, which is not maxBinLatency / binSize + 2, and the
latency 0, which is not above maxBinLatency, is counted in the last bin, the bin of the
outliers. -/
theorem wrapped_numBins_outlier :
    0 < 1 ∧ (LatencyHistogram.construct 1 4294967295).numBins = 1 ∧
    (LatencyHistogram.construct 1 4294967295).numBins ≠ 4294967295 / 1 + 2 ∧
    0 ≤ (LatencyHistogram.construct 1 4294967295).maxBinLatency ∧
    (LatencyHistogram.construct 1 4294967295).binIndex 0 =
      (LatencyHistogram.construct 1 4294967295).numBins - 1 ∧
    ((LatencyHistogram.construct 1 4294967295).addSample 0).map (fun h => h.bins) = some [1] :=
  ⟨by decide, rfl, by decide, by decide, rfl, rfl⟩

/-- C29, with the constructor's bound: a histogram is built with binSize > 0 and
maxBinLatency such that maxBinLatency / binSize + 2 fits an `unsigned int`. In any state
reached by reset and addSample calls, printHistogram produces its bars; for every index i
the bar loop visits maxBinSize is at least 1 and i is below numBins; with no samples since
the last reset firstBinIndex is above lastBinIndex and no bar is printed; every bin with a
count of at least 1 has its index between firstBinIndex and lastBinIndex; and while
bins[i]*71 + maxBinSize - 1 is below 2^32 the bar width is the ceiling of
71*bins[i]/maxBinSize, at most 71, exactly 71 for a bin whose count is maxBinSize, and at
least 1 for a bin that is not empty. -/
theorem histogram_bars (b m : Nat) (hb : 0 < b) (hb32 : b < 4294967296)
    (hfit : m / b + 2 < 4294967296)
    (calls : List HistogramCall) (hcalls : ∀ l ∈ latenciesOf calls, l < 4294967296)
    (h : LatencyHistogram)
    (hrun : LatencyHistogram.run calls (LatencyHistogram.construct b m) = some h) :
    (∀ i, h.firstBinIndex ≤ i → i ≤ h.lastBinIndex →
      1 ≤ h.maxBinSize ∧ i < h.numBins ∧ (h.barWidth i).isSome = true) ∧
    h.printHistogram.isSome = true ∧
    (samplesSinceReset calls = [] →
      h.firstBinIndex > h.lastBinIndex ∧ h.printHistogram = some []) ∧
    (∀ i c, h.bins[i]? = some c → 1 ≤ c → h.firstBinIndex ≤ i ∧ i ≤ h.lastBinIndex) ∧
    (∀ i c, h.bins[i]? = some c → 1 ≤ h.maxBinSize →
      c * 71 + h.maxBinSize - 1 < 4294967296 →
      h.barWidth i = some ((c * 71 + h.maxBinSize - 1) / h.maxBinSize) ∧
      (c * 71 + h.maxBinSize - 1) / h.maxBinSize =
        ⌈((71 * c : Nat) : ℚ) / (h.maxBinSize : ℚ)⌉₊ ∧
      (c * 71 + h.maxBinSize - 1) / h.maxBinSize ≤ 71 ∧
      (c = h.maxBinSize → (c * 71 + h.maxBinSize - 1) / h.maxBinSize = 71) ∧
      (1 ≤ c → 1 ≤ (c * 71 + h.maxBinSize - 1) / h.maxBinSize)) := by
  have hinv := reached_inv b m (wrap_pos b m hfit) calls hcalls h hrun
  have hnb : h.numBins = m / b + 2 := by
    rw [hinv.numBins_eq, Nat.mod_eq_of_lt hfit]
  have hlast := lastBin_eq h b m hnb hfit
  have hfirst_le : ∀ l, h.minLatency ≤ l → h.firstBinIndex ≤ h.binIndex l := by
    intro l hl
    unfold LatencyHistogram.firstBinIndex LatencyHistogram.binIndex
    have := Nat.div_le_div_right (c := h.binSize) hl
    split <;> split <;> omega
  have hlast_ge : ∀ l, l ≤ h.maxLatency → h.binIndex l ≤ h.lastBinIndex := by
    intro l hl
    unfold LatencyHistogram.lastBinIndex LatencyHistogram.binIndex
    have := Nat.div_le_div_right (c := h.binSize) hl
    split <;> split <;> omega
  have hlastidx : h.lastBinIndex ≤ m / b + 1 := by
    unfold LatencyHistogram.lastBinIndex
    rw [hlast]
    split <;> omega
  have hempty : samplesSinceReset calls = [] → h.firstBinIndex > h.lastBinIndex := by
    intro hnil
    obtain ⟨e1, e2, _, _⟩ := hinv.empty hnil
    unfold LatencyHistogram.firstBinIndex LatencyHistogram.lastBinIndex
    rw [e1, e2, hlast, hinv.binSize_eq, Nat.zero_div]
    have hq : 1 ≤ 4294967295 / b := (Nat.one_le_div_iff hb).mpr (by omega)
    generalize 4294967295 / b = q at hq
    generalize m / b = r
    simp only [gt_iff_lt, Nat.not_lt_zero, if_false]
    split <;> omega
  have hloop : ∀ i, h.firstBinIndex ≤ i → i ≤ h.lastBinIndex →
      1 ≤ h.maxBinSize ∧ i < h.numBins ∧ (h.barWidth i).isSome = true := by
    intro i h1 h2
    have hne : samplesSinceReset calls ≠ [] := by
      intro hnil
      have := hempty hnil
      omega
    have hmax := (hinv.attained hne).2.2
    have hi : i < h.numBins := by
      rw [hnb]
      omega
    refine ⟨hmax, hi, ?_⟩
    have hilt : i < h.bins.length := by
      rw [hinv.length_eq]
      exact hi
    have hget : h.bins[i]? = some h.bins[i] := List.getElem?_eq_getElem hilt
    unfold LatencyHistogram.barWidth
    rw [hget]
    have : h.maxBinSize ≠ 0 := by omega
    simp [this]
  refine ⟨hloop, ?_, ?_, ?_, ?_⟩
  · unfold LatencyHistogram.printHistogram
    have hne : h.lastBinIndex ≠ 4294967295 := by omega
    rw [if_neg hne]
    apply rows_isSome
    intro i hi
    rw [List.mem_range'_1] at hi
    exact (hloop i hi.1 (by omega)).2.2
  · intro hnil
    have hgt := hempty hnil
    refine ⟨hgt, ?_⟩
    unfold LatencyHistogram.printHistogram
    have hne : h.lastBinIndex ≠ 4294967295 := by omega
    rw [if_neg hne]
    have hz : h.lastBinIndex + 1 - h.firstBinIndex = 0 := by omega
    rw [hz]
    rfl
  · intro i c hi hc
    obtain ⟨l, hl, hli⟩ := hinv.counted i c hi hc
    obtain ⟨r1, r2⟩ := hinv.range l hl
    rw [← hli]
    exact ⟨hfirst_le l r1, hlast_ge l r2⟩
  · intro i c hi hM hsmall
    have hcb : c ≤ h.maxBinSize := hinv.bounded c (List.getElem?_mem hi)
    have hw : h.barWidth i = some ((c * 71 + h.maxBinSize - 1) / h.maxBinSize) := by
      unfold LatencyHistogram.barWidth
      rw [hi]
      have hne : h.maxBinSize ≠ 0 := by omega
      have heq : (c * 71 + h.maxBinSize + 4294967295) % 4294967296 =
          c * 71 + h.maxBinSize - 1 := by omega
      simp [hne, heq]
    refine ⟨hw, (ceil_bar c h.maxBinSize hM).symm, ?_, ?_, ?_⟩
    · apply Nat.le_of_lt_succ
      rw [Nat.div_lt_iff_lt_mul (by omega)]
      have : c * 71 ≤ h.maxBinSize * 71 := Nat.mul_le_mul_right 71 hcb
      omega
    · intro hceq
      rw [hceq]
      apply Nat.le_antisymm
      · apply Nat.le_of_lt_succ
        rw [Nat.div_lt_iff_lt_mul (by omega)]
        omega
      · rw [Nat.le_div_iff_mul_le (by omega)]
        omega
    · intro hc1
      rw [Nat.le_div_iff_mul_le (by omega)]
      omega

/-- Witness for C29: bins of 10 up to 30, after the samples 5, 17 and 500. -/
theorem histogram_bars_witness :
    ∃ h, LatencyHistogram.addSamples [5, 17, 500] (LatencyHistogram.construct 10 30) = some h ∧
      h.printHistogram.isSome = true ∧
      h.printHistogram =
        some [{ label := some 0, width := 71 }, { label := some 10, width := 71 },
          { label := some 20, width := 0 }, { label := some 30, width := 0 },
          { label := none, width := 71 }] :=
  ⟨_, rfl,
    (histogram_bars 10 30 (by decide) (by decide) (by decide)
      [HistogramCall.addSample 5, HistogramCall.addSample 17, HistogramCall.addSample 500]
      (fun l hl => by
        simp only [latenciesOf, List.mem_cons, List.mem_singleton, List.not_mem_nil,
          or_false] at hl
        rcases hl with rfl | rfl | rfl <;> decide)
      _ rfl).2.1,
    by decide⟩

/-- Counterexample to C29: for binSize 1 and maxBinLatency 2^32 - 1 the constructor's
`maxBinLatency/binSize+2` wraps to 1. With no samples since reset firstBinIndex and
lastBinIndex are both 0, so the bar loop runs its body for i = 0 with maxBinSize 0, and the
bar width divides by zero. -/
theorem wrapped_numBins_bar :
    0 < 1 ∧ (LatencyHistogram.construct 1 4294967295).numBins = 1 ∧
    (LatencyHistogram.construct 1 4294967295).numSamples = 0 ∧
    (LatencyHistogram.construct 1 4294967295).firstBinIndex = 0 ∧
    (LatencyHistogram.construct 1 4294967295).lastBinIndex = 0 ∧
    (LatencyHistogram.construct 1 4294967295).maxBinSize = 0 ∧
    (LatencyHistogram.construct 1 4294967295).barWidth 0 = none ∧
    (LatencyHistogram.construct 1 4294967295).printHistogram = none :=
  ⟨by decide, rfl, rfl, rfl, rfl, rfl, rfl, rfl⟩

end HistogramProofs

end DeviceTest
